import Mathlib

/-!
# Pintos threads: scheduler, semaphores, locks and priority donation

A shallow embedding of `threads/thread.c` and `threads/synch.c`.

* A pointer to a `struct thread` is the natural number naming its page; `NULL`
  is `none`.  Kernel memory is the record `Kernel`: the thread table, the
  semaphores and locks by address, and the static variables of `thread.c`.
* An intrusive `struct list` of threads is the list of the thread pointers
  whose `elem` is linked into it, front first.
* A kernel function that can fail an `ASSERT` returns `Except Fault Kernel`.
* The only way the processor passes from one thread to another is `schedule`.
  A function that is switched out in the middle (`sema_down`, `lock_acquire`,
  `lock_release`, `thread_create`) is cut at its switch points into
  instructions; what a thread has still to execute when it is switched back in
  is the list `Kernel.pending` of that thread.
-/

namespace Pintos

/-! ## Constants of `thread.h` and `thread.c` -/

/-- Lowest priority. -/
def PRI_MIN : Int := 0

/-- Default priority. -/
def PRI_DEFAULT : Int := 31

/-- Highest priority. -/
def PRI_MAX : Int := 63

/-- Value of `struct thread`'s `magic` member of an initialised thread. -/
def THREAD_MAGIC : Nat := 0xcd6abf4b

/-- The value `thread_init` and `thread_wakeup` store in `global_tick` for an
empty sleep list. -/
def INT64_MAX : Int := 0x7FFFFFFFFFFFFFFF

/-- Number of values of the C type `unsigned` (the type of `semaphore.value`). -/
def UINT_MOD : Nat := 2 ^ 32

/-- The bound of the loop of `donate_priority` (`depth < 8`). -/
def DONATION_DEPTH : Nat := 8

/-- Number of timer ticks a thread may run before it is made to yield. -/
def TIME_SLICE : Nat := 4

/-- Error value of `tid_t`, returned by `thread_create` without a page. -/
def TID_ERROR : Int := -1

/-! ## Data model -/

/-- States in a thread's life cycle (`enum thread_status`). -/
inductive thread_status where
  | THREAD_RUNNING
  | THREAD_READY
  | THREAD_BLOCKED
  | THREAD_DYING
  deriving DecidableEq, Repr

/-- Address of a `struct lock`: the static `tid_lock` of `thread.c`, or a lock
of the caller. -/
inductive lock_id where
  | tid_lock
  | addr (a : Nat)
  deriving DecidableEq, Repr

/-- The members of `struct thread` the scheduler reads or writes.  `donations`
lists the threads whose `d_elem` is linked into the list.  The default value is
a zeroed page. -/
structure thread where
  tid : Int := 0
  status : thread_status := thread_status.THREAD_RUNNING
  priority : Int := 0
  wakeup_ticks : Int := 0
  original_priority : Int := 0
  waiting_lock : Option lock_id := none
  donations : List Nat := []
  magic : Nat := 0
  deriving DecidableEq, Repr

/-- A counting semaphore (`struct semaphore`): `value` is a C `unsigned`. -/
structure semaphore where
  value : Nat := 0
  waiters : List Nat := []
  deriving DecidableEq, Repr

/-- A lock (`struct lock`): the holder and the binary semaphore inside it. -/
structure lock where
  holder : Option Nat := none
  semaphore : semaphore := {}
  deriving DecidableEq, Repr

/-- One semaphore in a list (`struct semaphore_elem`), as `cond_wait` keeps it
on its stack: the address of the private semaphore and the priority the waiter
had when it began to wait. -/
structure semaphore_elem where
  semaphore : Nat
  priority : Int
  deriving DecidableEq, Repr

/-- Address of a `struct semaphore`: one standing alone, or the member
`semaphore` of a lock. -/
inductive sema_ref where
  | standalone (a : Nat)
  | of_lock (l : lock_id)
  deriving DecidableEq, Repr

/-- The assertions of the source that can fail, and `rejected` for an event the
environment cannot produce in the state at hand. -/
inductive Fault where
  | assert_is_thread
  | assert_status_running
  | assert_status_blocked
  | assert_not_running
  | assert_not_intr_context
  | assert_priority_range
  | assert_lock_not_held
  | assert_lock_held
  /-- The statement `NOT_REACHED ()` of `thread_exit`. -/
  | not_reached
  /-- The loop of `timer_interrupt` never ends: the sleep list is empty and
  `global_tick <= ticks` stays true. -/
  | timer_loop_forever
  | rejected
  deriving DecidableEq, Repr

/-- One uninterrupted stretch of a kernel function, executed by the running
thread.  A function that has no switch point before its last statement is one
instruction. -/
inductive Instr where
  /-- The `init_thread (t, name, priority)` of `thread_create` on a fresh page. -/
  | init_thread (t : Nat) (priority : Int)
  /-- The statement `tid = next_tid++` of `allocate_tid`, stored in `t->tid`. -/
  | assign_tid (t : Nat)
  | thread_unblock (t : Nat)
  | test_max_priority
  | thread_yield
  | thread_block
  | thread_set_priority (new_priority : Int)
  | thread_sleep (ticks : Int)
  | thread_wakeup
  | sema_init (s : sema_ref) (value : Nat)
  /-- Entry of `sema_down`: the assertion `!intr_context ()`. -/
  | sema_down_enter
  /-- The `while` loop of `sema_down` and the decrement after it. -/
  | sema_down_loop (s : sema_ref)
  | sema_try_down (s : sema_ref)
  | sema_up (s : sema_ref)
  | lock_init (l : lock_id)
  /-- Entry of `lock_acquire`, up to the call of `sema_down`. -/
  | lock_acquire_enter (l : lock_id)
  /-- End of `lock_acquire`, after `sema_down` has returned. -/
  | lock_acquire_leave (l : lock_id)
  | lock_try_acquire (l : lock_id)
  /-- Entry of `lock_release`, up to the first `lock->holder = NULL`; `temp` is
  the value of the local of `donate_priority` that the source never assigns. -/
  | lock_release_enter (l : lock_id) (temp : Nat)
  /-- The second `lock->holder = NULL` of `lock_release`. -/
  | lock_clear_holder (l : lock_id)
  /-- First statement of the function `idle`: `idle_thread = thread_current ()`. -/
  | idle_enter
  /-- The `for (;;)` loop of `idle`: block, then wait for the next interrupt. -/
  | idle_loop
  | thread_exit
  | cond_init (c : Nat)
  /-- Entry of `cond_wait`, up to the call of `lock_release`: the assertions,
  the waiter `a` set up with the caller's priority and a semaphore at 0, and
  its insertion into the wait queue of the condition. -/
  | cond_wait_enter (c : Nat) (l : lock_id) (a : Nat)
  | cond_signal (c : Nat) (l : lock_id)
  /-- The `while` loop of `cond_broadcast`. -/
  | cond_broadcast (c : Nat) (l : lock_id)
  deriving DecidableEq, Repr

/-- Kernel memory: the thread pages, the semaphores and locks, the static
variables of `thread.c`, the pages the allocator has handed out, and for each
thread the instructions it has still to execute. -/
structure Kernel where
  threads : Nat → thread
  semas : Nat → semaphore
  locks : lock_id → lock
  ready_list : List Nat
  sleep_list : List Nat
  idle_thread : Option Nat
  initial_thread : Nat
  /-- The thread whose page holds the stack pointer (`running_thread ()`). -/
  current : Nat
  global_tick : Int
  next_tid : Int
  /-- Timer ticks since the last `schedule` (an `unsigned`). -/
  thread_ticks : Nat
  /-- The counter `ticks` of `timer.c`: timer ticks since boot. -/
  ticks : Int
  idle_ticks : Int
  kernel_ticks : Int
  user_ticks : Int
  /-- The interrupt handler has asked for a yield when it returns
  (`intr_yield_on_return`). -/
  yield_on_return : Bool
  /-- Wait queue of each condition variable (`struct condition`), front first. -/
  conds : Nat → List semaphore_elem
  thread_mlfqs : Bool
  /-- Value of `intr_context ()`: an external interrupt handler is running. -/
  intr_context : Bool
  /-- Threads found dying at a switch, waiting for their page to be freed. -/
  destruction_req : List Nat
  /-- Pages in use, as the page allocator sees them. -/
  allocated : List Nat
  /-- What `cmp_sema_priority` reads as `priority` when it is handed the `elem`
  of a thread, as `sema_down` does: a word of the thread page fixed by the
  layout of `struct thread` and `struct semaphore_elem`. -/
  elem_as_sema_priority : Nat → Int
  pending : Nat → List Instr

/-! ## The list substrate (`lib/kernel/list.c`) -/

/-- Modelled from the spec: `list_insert_ordered` of `lib/kernel/list.c`, which
is not among the sources (only `list.h` is).  The spec calls it the
insert-by-comparator operation of the queue substrate: the element goes in front
of the first element `e` with `less elem e`, at the back when there is none. -/
def list_insert_ordered {α : Type} (less : α → α → Bool) : List α → α → List α
  | [], elem => [elem]
  | e :: rest, elem =>
    if less elem e then elem :: e :: rest else e :: list_insert_ordered less rest elem

/-- Step of `list_sort`: insert `x` in front of the first element that is not
strictly less than it, so that `x` stays ahead of the equal elements that came
after it. -/
def list_sort_insert {α : Type} (less : α → α → Bool) (x : α) : List α → List α
  | [] => [x]
  | e :: rest => if less e x then e :: list_sort_insert less x rest else x :: e :: rest

/-- Modelled from the spec: `list_sort` of `lib/kernel/list.c`, which is not
among the sources.  It re-ranks a queue by the comparator and keeps the order of
arrival among equal elements (a stable sort). -/
def list_sort {α : Type} (less : α → α → Bool) (l : List α) : List α :=
  l.foldr (list_sort_insert less) []

/-! ## Memory access -/

/-- Store `th` in the page `t`. -/
def set_thread (k : Kernel) (t : Nat) (th : thread) : Kernel :=
  { k with threads := Function.update k.threads t th }

/-- Store `lk` at the lock address `l`. -/
def set_lock (k : Kernel) (l : lock_id) (lk : lock) : Kernel :=
  { k with locks := Function.update k.locks l lk }

/-- The semaphore at `s` in the memory made of the standalone semaphores
`semas` and the locks `locks`. -/
def sema_at (semas : Nat → semaphore) (locks : lock_id → lock) : sema_ref → semaphore
  | sema_ref.standalone a => semas a
  | sema_ref.of_lock l => (locks l).semaphore

/-- The standalone semaphores after `v` is stored at `s`. -/
def put_semas (semas : Nat → semaphore) (s : sema_ref) (v : semaphore) : Nat → semaphore :=
  match s with
  | sema_ref.standalone a => Function.update semas a v
  | sema_ref.of_lock _ => semas

/-- The locks after `v` is stored at `s`. -/
def put_locks (locks : lock_id → lock) (s : sema_ref) (v : semaphore) : lock_id → lock :=
  match s with
  | sema_ref.standalone _ => locks
  | sema_ref.of_lock l => Function.update locks l { locks l with semaphore := v }

/-- Read the semaphore at `s`. -/
def get_sema (k : Kernel) (s : sema_ref) : semaphore :=
  sema_at k.semas k.locks s

/-- Store `v` in the semaphore at `s`. -/
def set_sema (k : Kernel) (s : sema_ref) (v : semaphore) : Kernel :=
  { k with semas := put_semas k.semas s v, locks := put_locks k.locks s v }

/-- Replace what thread `t` has still to execute. -/
def set_pending (k : Kernel) (t : Nat) (is : List Instr) : Kernel :=
  { k with pending := Function.update k.pending t is }

/-- The macro `is_thread (t)`: the page carries the magic number.  (`t != NULL`
holds of every pointer that names a page.) -/
def is_thread (k : Kernel) (t : Nat) : Bool :=
  (k.threads t).magic == THREAD_MAGIC

/-- Comparator of the ready list and of `sema_up`: `a` goes first when its
priority is strictly higher. -/
def cmp_priority (k : Kernel) (a b : Nat) : Bool :=
  decide ((k.threads a).priority > (k.threads b).priority)

/-- Comparator `cmp_sema_priority` as `sema_down` uses it, on the `elem` of two
threads. -/
def cmp_sema_priority (k : Kernel) (a b : Nat) : Bool :=
  decide (k.elem_as_sema_priority a > k.elem_as_sema_priority b)

/-- Comparator of the sleep list: the earlier wake-up tick goes first. -/
def wakeup_tick_less_function (k : Kernel) (a b : Nat) : Bool :=
  decide ((k.threads a).wakeup_ticks < (k.threads b).wakeup_ticks)

/-! ## `thread.c` -/

/-- The function `thread_current`: the running thread, after the two sanity
checks. -/
def thread_current (k : Kernel) : Except Fault Nat :=
  if is_thread k k.current = false then Except.error Fault.assert_is_thread
  else if (k.threads k.current).status ≠ thread_status.THREAD_RUNNING then
    Except.error Fault.assert_status_running
  else Except.ok k.current

/-- The function `init_thread`: clear the page, then set status, priority,
magic, base priority and the empty donation list. -/
def init_thread (k : Kernel) (t : Nat) (priority : Int) : Except Fault Kernel :=
  if priority < PRI_MIN ∨ PRI_MAX < priority then Except.error Fault.assert_priority_range
  else Except.ok (set_thread k t
    { status := thread_status.THREAD_BLOCKED, priority := priority, magic := THREAD_MAGIC,
      original_priority := priority, donations := [] })

/-- The function `next_thread_to_run`: the head of the ready list, popped, or
the idle thread when the list is empty. -/
def next_thread_to_run (k : Kernel) : Option Nat × Kernel :=
  match k.ready_list with
  | [] => (k.idle_thread, k)
  | t :: rest => (some t, { k with ready_list := rest })

/-- The function `schedule`: pick the next thread, mark it running, start a new
time slice, and switch to it; a dying thread that is switched away from is
queued for destruction. -/
def schedule (k : Kernel) : Except Fault Kernel :=
  let curr := k.current
  let r := next_thread_to_run k
  let k1 := r.2
  if (k1.threads curr).status = thread_status.THREAD_RUNNING then
    Except.error Fault.assert_not_running
  else
    match r.1 with
    | none => Except.error Fault.assert_is_thread
    | some next =>
      if is_thread k1 next = false then Except.error Fault.assert_is_thread
      else
        let k2 := set_thread k1 next
          { k1.threads next with status := thread_status.THREAD_RUNNING }
        let k3 := { k2 with thread_ticks := 0 }
        if curr ≠ next then
          let k4 :=
            if (k3.threads curr).status = thread_status.THREAD_DYING ∧ curr ≠ k3.initial_thread
            then { k3 with destruction_req := k3.destruction_req ++ [curr] }
            else k3
          Except.ok { k4 with current := next }
        else Except.ok k3

/-- The function `thread_block`: the running thread becomes blocked and another
thread is scheduled. -/
def thread_block (k : Kernel) : Except Fault Kernel :=
  if k.intr_context then Except.error Fault.assert_not_intr_context
  else do
    let curr ← thread_current k
    schedule (set_thread k curr { k.threads curr with status := thread_status.THREAD_BLOCKED })

/-- The function `thread_unblock`: a blocked thread goes into the ready list at
its priority position and becomes ready.  The caller keeps running. -/
def thread_unblock (k : Kernel) (t : Nat) : Except Fault Kernel :=
  if is_thread k t = false then Except.error Fault.assert_is_thread
  else if (k.threads t).status ≠ thread_status.THREAD_BLOCKED then
    Except.error Fault.assert_status_blocked
  else
    let k1 := { k with ready_list := list_insert_ordered (cmp_priority k) k.ready_list t }
    Except.ok (set_thread k1 t { k1.threads t with status := thread_status.THREAD_READY })

/-- The function `thread_yield`: the running thread goes back into the ready
list at its priority position (the idle thread does not) and a thread is
scheduled. -/
def thread_yield (k : Kernel) : Except Fault Kernel := do
  let curr ← thread_current k
  if k.intr_context then Except.error Fault.assert_not_intr_context
  else
    let k1 :=
      if some curr ≠ k.idle_thread then
        { k with ready_list := list_insert_ordered (cmp_priority k) k.ready_list curr }
      else k
    schedule (set_thread k1 curr { k1.threads curr with status := thread_status.THREAD_READY })

/-- The function `test_max_priority`: yield when the head of the ready list has
a strictly higher priority than the running thread. -/
def test_max_priority (k : Kernel) : Except Fault Kernel :=
  match k.ready_list with
  | [] => Except.ok k
  | front :: _ => do
    let curr ← thread_current k
    if (k.threads front).priority > (k.threads curr).priority then thread_yield k
    else Except.ok k

/-- The function `thread_set_priority`: store the new priority in the member
`priority` of the running thread, then run the preemption check. -/
def thread_set_priority (k : Kernel) (new_priority : Int) : Except Fault Kernel := do
  let curr ← thread_current k
  test_max_priority (set_thread k curr { k.threads curr with priority := new_priority })

/-- The function `thread_get_priority`. -/
def thread_get_priority (k : Kernel) : Except Fault Int := do
  let curr ← thread_current k
  Except.ok (k.threads curr).priority

/-- The function `thread_sleep`: the running thread (unless it is the idle
thread) records its wake-up tick, lowers `global_tick` to it when it is
earlier, enters the sleep list in tick order and blocks. -/
def thread_sleep (k : Kernel) (ticks : Int) : Except Fault Kernel := do
  let curr ← thread_current k
  if k.intr_context then Except.error Fault.assert_not_intr_context
  else if some curr ≠ k.idle_thread then
    let k1 := if ticks < k.global_tick then { k with global_tick := ticks } else k
    let k2 := set_thread k1 curr { k1.threads curr with wakeup_ticks := ticks }
    let k3 := { k2 with
      sleep_list := list_insert_ordered (wakeup_tick_less_function k2) k2.sleep_list curr }
    thread_block k3
  else Except.ok k

/-- The function `thread_wakeup`: pop the head of the sleep list, set
`global_tick` to the tick of the new head (or the largest value), and put the
thread into the ready list as ready. -/
def thread_wakeup (k : Kernel) : Kernel :=
  match k.sleep_list with
  | [] => k
  | sleep_thread :: rest =>
    let k1 := { k with sleep_list := rest }
    let k2 :=
      match rest with
      | next :: _ => { k1 with global_tick := (k1.threads next).wakeup_ticks }
      | [] => { k1 with global_tick := INT64_MAX }
    let k3 := { k2 with
      ready_list := list_insert_ordered (cmp_priority k2) k2.ready_list sleep_thread }
    set_thread k3 sleep_thread
      { k3.threads sleep_thread with status := thread_status.THREAD_READY }

/-- The function `thread_tick`, called by the timer interrupt handler: count
the tick for the idle thread or for the kernel (the user counter belongs to the
`USERPROG` build, which these sources are not), and ask for a yield on return
once the running thread has had `TIME_SLICE` ticks. -/
def thread_tick (k : Kernel) : Except Fault Kernel := do
  let t ← thread_current k
  let k1 :=
    if some t = k.idle_thread then { k with idle_ticks := k.idle_ticks + 1 }
    else { k with kernel_ticks := k.kernel_ticks + 1 }
  let k2 := { k1 with thread_ticks := (k1.thread_ticks + 1) % UINT_MOD }
  Except.ok (if k2.thread_ticks ≥ TIME_SLICE then { k2 with yield_on_return := true } else k2)

/-- The loop `while (global_tick <= ticks) thread_wakeup ();` of
`timer_interrupt`, with `budget` iterations allowed.  `thread_wakeup` does
nothing on an empty sleep list, so a loop that is still running after more
iterations than the sleep list had threads runs for ever. -/
def wakeup_loop : Nat → Kernel → Except Fault Kernel
  | 0, k => if k.global_tick ≤ k.ticks then Except.error Fault.timer_loop_forever else Except.ok k
  | budget + 1, k =>
    if k.global_tick ≤ k.ticks then wakeup_loop budget (thread_wakeup k) else Except.ok k

/-- The function `timer_interrupt` of `timer.c`: count the tick, call
`thread_tick`, and wake the threads whose time has come. -/
def timer_interrupt (k : Kernel) : Except Fault Kernel := do
  let k1 ← thread_tick { k with ticks := k.ticks + 1 }
  wakeup_loop (k1.sleep_list.length + 1) k1

/-- Modelled from the spec: the interrupt entry of `threads/interrupt.c`, which
is not among the sources, around `timer_interrupt`.  The handler runs in
interrupt context; a yield it has asked for happens once it has returned (the
spec's tick handling: the running thread is forced to yield when its time
slice is used up). -/
def timer_interrupt_event (k : Kernel) : Except Fault Kernel := do
  let k1 ← timer_interrupt { k with intr_context := true, yield_on_return := false }
  let k2 := { k1 with intr_context := false }
  if k1.yield_on_return then thread_yield k2 else Except.ok k2

/-- The function `do_schedule`: free the pages of the threads queued for
destruction, give the running thread the status `status`, and schedule. -/
def do_schedule (k : Kernel) (status : thread_status) : Except Fault Kernel := do
  let curr ← thread_current k
  let k1 := { k with
    allocated := List.filter (fun t => decide (t ∉ k.destruction_req)) k.allocated,
    destruction_req := [] }
  schedule (set_thread k1 curr { k1.threads curr with status := status })

/-- The function `thread_exit`: the running thread becomes dying and another
thread is scheduled.  If `schedule` comes back to the caller, the caller
reaches `NOT_REACHED ()`. -/
def thread_exit (k : Kernel) : Except Fault Kernel :=
  if k.intr_context then Except.error Fault.assert_not_intr_context
  else do
    let k1 ← do_schedule k thread_status.THREAD_DYING
    if k1.current = k.current then Except.error Fault.not_reached else Except.ok k1

/-- The loop of `donate_priority` from the thread `temp`, with `budget`
iterations left before `depth` reaches 8.  Returns the memory and the number of
iterations performed (the final value of `depth`, counted from this call). -/
def donate_priority_loop : Nat → Kernel → Nat → Kernel × Nat
  | 0, k, _ => (k, 0)
  | budget + 1, k, temp =>
    match (k.threads temp).waiting_lock with
    | none => (k, 0)
    | some l =>
      match (k.locks l).holder with
      | none => (k, 1)
      | some holder =>
        if (k.threads holder).priority ≥ (k.threads temp).priority then (k, 1)
        else
          let k1 := set_thread k holder
            { k.threads holder with priority := (k.threads temp).priority }
          let r := donate_priority_loop budget k1 holder
          (r.1, r.2 + 1)

/-- The function `donate_priority`.  The source reads its local `temp` without
assigning it; the value it happens to hold is the argument `temp`. -/
def donate_priority (k : Kernel) (temp : Nat) : Kernel :=
  (donate_priority_loop DONATION_DEPTH k temp).1

/-- Maximum of the base priority and the priorities of the donors in `ds`. -/
def max_donated_priority (k : Kernel) (base : Int) (ds : List Nat) : Int :=
  ds.foldl (fun m d => max m (k.threads d).priority) base

/-- Modelled from the spec: `remove_lock`, which `lock_release` calls and no
source file defines.  The spec's release steps 1 and 2: remove this lock's
donation records from the holder's donation set, then recompute the holder's
effective priority as the maximum of its own base priority and the remaining
donation records' priorities. -/
def remove_lock (k : Kernel) (l : lock_id) : Kernel :=
  match (k.locks l).holder with
  | none => k
  | some h =>
    let remaining := (k.threads h).donations.filter
      (fun d => decide ((k.threads d).waiting_lock ≠ some l))
    set_thread k h { k.threads h with
      donations := remaining
      priority := max_donated_priority k (k.threads h).original_priority remaining }

/-! ## `synch.c` -/

/-- The function `sema_init`. -/
def sema_init (k : Kernel) (s : sema_ref) (value : Nat) : Kernel :=
  set_sema k s { value := value % UINT_MOD, waiters := [] }

/-- The loop of `sema_down` and the decrement after it, executed by the running
thread with `rest` still to execute afterwards.  While the value is 0 the
thread enters the wait list and blocks, and when it is switched back in it
tests the value again; otherwise the unsigned value is decremented. -/
def sema_down_loop (k : Kernel) (s : sema_ref) (rest : List Instr) : Except Fault Kernel :=
  if (get_sema k s).value = 0 then do
    let curr ← thread_current k
    let k1 := set_sema k s { get_sema k s with
      waiters := list_insert_ordered (cmp_sema_priority k) (get_sema k s).waiters curr }
    thread_block (set_pending k1 curr (Instr.sema_down_loop s :: rest))
  else
    Except.ok
      (set_sema k s { get_sema k s with value := ((get_sema k s).value + UINT_MOD - 1) % UINT_MOD })

/-- The function `sema_try_down`: the memory afterwards and the value returned. -/
def sema_try_down (k : Kernel) (s : sema_ref) : Kernel × Bool :=
  if (get_sema k s).value > 0 then
    (set_sema k s { get_sema k s with value := ((get_sema k s).value + UINT_MOD - 1) % UINT_MOD },
      true)
  else (k, false)

/-- First part of `sema_up`: re-rank the waiters by their present priority, pop
and unblock the first when there is one, and increment the value. -/
def sema_up_wake (k : Kernel) (s : sema_ref) : Except Fault Kernel :=
  let sorted := list_sort (cmp_priority k) (get_sema k s).waiters
  match sorted with
  | [] =>
    let k1 := set_sema k s { get_sema k s with waiters := [] }
    Except.ok (set_sema k1 s { get_sema k1 s with value := ((get_sema k1 s).value + 1) % UINT_MOD })
  | t :: rest => do
    let k2 ← thread_unblock (set_sema k s { get_sema k s with waiters := rest }) t
    Except.ok (set_sema k2 s { get_sema k2 s with value := ((get_sema k2 s).value + 1) % UINT_MOD })

/-- The function `sema_up`: `sema_up_wake`, then the preemption check
`test_max_priority`. -/
def sema_up (k : Kernel) (s : sema_ref) : Except Fault Kernel := do
  let k1 ← sema_up_wake k s
  test_max_priority k1

/-- The function `lock_init`. -/
def lock_init (k : Kernel) (l : lock_id) : Kernel :=
  sema_init (set_lock k l { k.locks l with holder := none }) (sema_ref.of_lock l) 1

/-- The function `lock_held_by_current_thread`. -/
def lock_held_by_current_thread (k : Kernel) (l : lock_id) : Except Fault Bool := do
  let curr ← thread_current k
  Except.ok (decide ((k.locks l).holder = some curr))

/-- Entry of `lock_acquire`: read the caller's priority and check the
assertions.  The donation to the holder is commented out in the source. -/
def lock_acquire_enter (k : Kernel) (l : lock_id) : Except Fault Kernel := do
  let _ ← thread_get_priority k
  if k.intr_context then Except.error Fault.assert_not_intr_context
  else do
    let held ← lock_held_by_current_thread k l
    if held then Except.error Fault.assert_lock_not_held else Except.ok k

/-- End of `lock_acquire`: record the caller as holder and clear its
`waiting_lock`. -/
def lock_acquire_leave (k : Kernel) (l : lock_id) : Except Fault Kernel := do
  let curr ← thread_current k
  let k1 := set_lock k l { k.locks l with holder := some curr }
  Except.ok (set_thread k1 curr { k1.threads curr with waiting_lock := none })

/-- The function `lock_try_acquire`: the memory afterwards and the value
returned. -/
def lock_try_acquire (k : Kernel) (l : lock_id) : Except Fault (Kernel × Bool) := do
  let held ← lock_held_by_current_thread k l
  if held then Except.error Fault.assert_lock_not_held
  else
    let r := sema_try_down k (sema_ref.of_lock l)
    if r.2 then do
      let curr ← thread_current r.1
      Except.ok (set_lock r.1 l { r.1.locks l with holder := some curr }, true)
    else Except.ok (r.1, false)

/-- Entry of `lock_release`: the assertion, then (outside the feedback-queue
mode) `remove_lock` and `donate_priority`, then the first
`lock->holder = NULL`. -/
def lock_release_enter (k : Kernel) (l : lock_id) (temp : Nat) : Except Fault Kernel := do
  let held ← lock_held_by_current_thread k l
  if held = false then Except.error Fault.assert_lock_held
  else
    let k1 := if k.thread_mlfqs = false then donate_priority (remove_lock k l) temp else k
    Except.ok (set_lock k1 l { k1.locks l with holder := none })

/-- The statement `lock->holder = NULL`. -/
def lock_clear_holder (k : Kernel) (l : lock_id) : Kernel :=
  set_lock k l { k.locks l with holder := none }

/-- Comparator `cmp_sema_priority` on two waiters of a condition: the one with
the strictly higher recorded priority goes first. -/
def cmp_sema_elem_priority (a b : semaphore_elem) : Bool :=
  decide (a.priority > b.priority)

/-- The function `cond_init`. -/
def cond_init (k : Kernel) (c : Nat) : Kernel :=
  { k with conds := Function.update k.conds c [] }

/-- Entry of `cond_wait`: the assertions, then the waiter at `a` gets the
caller's priority and a semaphore initialised to 0 and enters the wait queue of
the condition at its priority position. -/
def cond_wait_enter (k : Kernel) (c : Nat) (l : lock_id) (a : Nat) : Except Fault Kernel :=
  if k.intr_context then Except.error Fault.assert_not_intr_context
  else do
    let held ← lock_held_by_current_thread k l
    if held = false then Except.error Fault.assert_lock_held
    else do
      let priority ← thread_get_priority k
      let k1 := sema_init k (sema_ref.standalone a) 0
      let queue := list_insert_ordered cmp_sema_elem_priority (k1.conds c)
        { semaphore := a, priority := priority }
      Except.ok { k1 with conds := Function.update k1.conds c queue }

/-- The function `cond_signal`: after the assertions, pop the first waiter of
the condition, if there is one, and `sema_up` its semaphore. -/
def cond_signal (k : Kernel) (c : Nat) (l : lock_id) : Except Fault Kernel :=
  if k.intr_context then Except.error Fault.assert_not_intr_context
  else do
    let held ← lock_held_by_current_thread k l
    if held = false then Except.error Fault.assert_lock_held
    else
      match k.conds c with
      | [] => Except.ok k
      | w :: rest =>
        sema_up { k with conds := Function.update k.conds c rest }
          (sema_ref.standalone w.semaphore)

/-- One turn of the loop of `cond_broadcast`, executed by the running thread
with `rest` still to execute afterwards: nothing when the wait queue is empty,
otherwise `cond_signal` with the loop still to be executed after it. -/
def cond_broadcast (k : Kernel) (c : Nat) (l : lock_id) (rest : List Instr) :
    Except Fault Kernel :=
  match k.conds c with
  | [] => Except.ok k
  | _ :: _ => cond_signal (set_pending k k.current (Instr.cond_broadcast c l :: rest)) c l

/-! ## Programs and events -/

/-- The calls the running thread (or an interrupt handler on its stack) can
make.  `page` is what `palloc_get_page` returns to `thread_create`; `temp` is
the unassigned local of the `donate_priority` that the call reaches. -/
inductive Call where
  | thread_create (page : Option Nat) (priority : Int) (temp : Nat)
  | thread_block
  | thread_unblock (t : Nat)
  | thread_yield
  | thread_set_priority (new_priority : Int)
  | thread_sleep (ticks : Int)
  | thread_wakeup
  | sema_init (s : sema_ref) (value : Nat)
  | sema_down (s : sema_ref)
  | sema_try_down (s : sema_ref)
  | sema_up (s : sema_ref)
  | lock_init (a : Nat)
  | lock_acquire (a : Nat)
  | lock_try_acquire (a : Nat)
  | lock_release (a : Nat) (temp : Nat)
  | idle (idle_started : sema_ref)
  | thread_exit
  | cond_init (c : Nat)
  | cond_wait (c : Nat) (a : Nat) (waiter : Nat) (temp : Nat)
  | cond_signal (c : Nat) (a : Nat)
  | cond_broadcast (c : Nat) (a : Nat)
  deriving DecidableEq, Repr

/-- Instructions of `sema_down`. -/
def sema_down_program (s : sema_ref) : List Instr :=
  [Instr.sema_down_enter, Instr.sema_down_loop s]

/-- Instructions of `lock_acquire`: entry, `sema_down` on the lock's semaphore,
end. -/
def lock_acquire_program (l : lock_id) : List Instr :=
  Instr.lock_acquire_enter l :: sema_down_program (sema_ref.of_lock l)
    ++ [Instr.lock_acquire_leave l]

/-- Instructions of `lock_release`.  The source clears the holder and calls
`sema_up` twice: once before and once after the commented-out block. -/
def lock_release_program (l : lock_id) (temp : Nat) : List Instr :=
  [Instr.lock_release_enter l temp, Instr.sema_up (sema_ref.of_lock l),
   Instr.lock_clear_holder l, Instr.sema_up (sema_ref.of_lock l)]

/-- Instructions of `allocate_tid` storing the result in `t->tid`: take
`tid_lock`, draw the number, release `tid_lock`. -/
def allocate_tid_program (t : Nat) (temp : Nat) : List Instr :=
  lock_acquire_program lock_id.tid_lock ++ [Instr.assign_tid t]
    ++ lock_release_program lock_id.tid_lock temp

/-- Instructions of `cond_wait` on the condition `c` with the lock `l` and the
waiter at `waiter`: entry, `lock_release`, `sema_down` on the waiter's
semaphore, `lock_acquire`. -/
def cond_wait_program (c : Nat) (l : lock_id) (waiter : Nat) (temp : Nat) : List Instr :=
  Instr.cond_wait_enter c l waiter :: lock_release_program l temp
    ++ sema_down_program (sema_ref.standalone waiter) ++ lock_acquire_program l

/-- The instructions of a call.  `thread_create` returns `TID_ERROR` at once
when the allocator has no page. -/
def program : Call → List Instr
  | Call.thread_create none _ _ => []
  | Call.thread_create (some t) priority temp =>
    Instr.init_thread t priority :: allocate_tid_program t temp
      ++ [Instr.thread_unblock t, Instr.test_max_priority]
  | Call.thread_block => [Instr.thread_block]
  | Call.thread_unblock t => [Instr.thread_unblock t]
  | Call.thread_yield => [Instr.thread_yield]
  | Call.thread_set_priority p => [Instr.thread_set_priority p]
  | Call.thread_sleep ticks => [Instr.thread_sleep ticks]
  | Call.thread_wakeup => [Instr.thread_wakeup]
  | Call.sema_init s v => [Instr.sema_init s v]
  | Call.sema_down s => sema_down_program s
  | Call.sema_try_down s => [Instr.sema_try_down s]
  | Call.sema_up s => [Instr.sema_up s]
  | Call.lock_init a => [Instr.lock_init (lock_id.addr a)]
  | Call.lock_acquire a => lock_acquire_program (lock_id.addr a)
  | Call.lock_try_acquire a => [Instr.lock_try_acquire (lock_id.addr a)]
  | Call.lock_release a temp => lock_release_program (lock_id.addr a) temp
  | Call.idle idle_started => [Instr.idle_enter, Instr.sema_up idle_started, Instr.idle_loop]
  | Call.thread_exit => [Instr.thread_exit]
  | Call.cond_init c => [Instr.cond_init c]
  | Call.cond_wait c a waiter temp => cond_wait_program c (lock_id.addr a) waiter temp
  | Call.cond_signal c a => [Instr.cond_signal c (lock_id.addr a)]
  | Call.cond_broadcast c a => [Instr.cond_broadcast c (lock_id.addr a)]

/-- Execute instruction `i` of the running thread, whose remaining instructions
`rest` are already stored as pending. -/
def step_instr (k : Kernel) (i : Instr) (rest : List Instr) : Except Fault Kernel :=
  match i with
  | Instr.init_thread t priority =>
    if t ∈ k.allocated then Except.error Fault.rejected
    else init_thread (set_pending { k with allocated := t :: k.allocated } t []) t priority
  | Instr.assign_tid t =>
    Except.ok { set_thread k t { k.threads t with tid := k.next_tid } with
      next_tid := k.next_tid + 1 }
  | Instr.thread_unblock t => thread_unblock k t
  | Instr.test_max_priority => test_max_priority k
  | Instr.thread_yield => thread_yield k
  | Instr.thread_block => thread_block k
  | Instr.thread_set_priority p => thread_set_priority k p
  | Instr.thread_sleep ticks => thread_sleep k ticks
  | Instr.thread_wakeup => Except.ok (thread_wakeup k)
  | Instr.sema_init s v => Except.ok (sema_init k s v)
  | Instr.sema_down_enter =>
    if k.intr_context then Except.error Fault.assert_not_intr_context else Except.ok k
  | Instr.sema_down_loop s => sema_down_loop k s rest
  | Instr.sema_try_down s => Except.ok (sema_try_down k s).1
  | Instr.sema_up s => sema_up k s
  | Instr.lock_init l => Except.ok (lock_init k l)
  | Instr.lock_acquire_enter l => lock_acquire_enter k l
  | Instr.lock_acquire_leave l => lock_acquire_leave k l
  | Instr.lock_try_acquire l => (lock_try_acquire k l).map Prod.fst
  | Instr.lock_release_enter l temp => lock_release_enter k l temp
  | Instr.lock_clear_holder l => Except.ok (lock_clear_holder k l)
  | Instr.idle_enter => do
    let curr ← thread_current k
    Except.ok { k with idle_thread := some curr }
  | Instr.idle_loop => do
    let curr ← thread_current k
    thread_block (set_pending k curr (Instr.idle_loop :: rest))
  | Instr.thread_exit => thread_exit k
  | Instr.cond_init c => Except.ok (cond_init k c)
  | Instr.cond_wait_enter c l a => cond_wait_enter k c l a
  | Instr.cond_signal c l => cond_signal k c l
  | Instr.cond_broadcast c l => cond_broadcast k c l rest

/-- What can happen next: the running thread, having nothing left to execute,
makes a call and executes its first instruction; the running thread executes
its next instruction; an external
interrupt handler starts on the running thread's stack, or returns; the timer
interrupt arrives between two calls of the running thread, or while the idle
thread waits for the next interrupt. -/
inductive Event where
  | call (c : Call)
  | step
  | intr_enter
  | intr_leave
  | timer
  deriving DecidableEq, Repr

/-- Effect of one event. -/
def exec_event (k : Kernel) : Event → Except Fault Kernel
  | Event.call c =>
    match k.pending k.current with
    | [] =>
      match program c with
      | [] => Except.ok k
      | i :: rest => step_instr (set_pending k k.current rest) i rest
    | _ :: _ => Except.error Fault.rejected
  | Event.step =>
    match k.pending k.current with
    | [] => Except.error Fault.rejected
    | i :: rest => step_instr (set_pending k k.current rest) i rest
  | Event.intr_enter =>
    match k.pending k.current with
    | [] => if k.intr_context then Except.error Fault.rejected
            else Except.ok { k with intr_context := true }
    | _ :: _ => Except.error Fault.rejected
  | Event.intr_leave =>
    match k.pending k.current with
    | [] => if k.intr_context then Except.ok { k with intr_context := false }
            else Except.error Fault.rejected
    | _ :: _ => Except.error Fault.rejected
  | Event.timer =>
    if k.intr_context then Except.error Fault.rejected
    else if k.pending k.current = [] ∨
        (k.idle_thread = some k.current ∧ k.pending k.current = [Instr.idle_loop]) then
      timer_interrupt_event k
    else Except.error Fault.rejected

/-- Effect of a sequence of events, stopping at the first fault. -/
def exec_trace : Kernel → List Event → Except Fault Kernel
  | k, [] => Except.ok k
  | k, e :: es =>
    match exec_event k e with
    | Except.ok k1 => exec_trace k1 es
    | Except.error f => Except.error f

/-- Execute the instructions `is` one after the other on behalf of the running
thread, stopping at the first fault. -/
def exec_program : Kernel → List Instr → Except Fault Kernel
  | k, [] => Except.ok k
  | k, i :: rest =>
    match step_instr k i rest with
    | Except.ok k1 => exec_program k1 rest
    | Except.error f => Except.error f

/-- Memory before `thread_init`: zeroed static storage, with the values the
boot leaves in `thread_mlfqs` (the command-line option) and in the word that
`cmp_sema_priority` reads from a thread page.  The loader's stack page is
page 0. -/
def boot_memory (mlfqs : Bool) (view : Nat → Int) : Kernel :=
  { threads := fun _ => {}
    semas := fun _ => {}
    locks := fun _ => {}
    ready_list := []
    sleep_list := []
    idle_thread := none
    initial_thread := 0
    current := 0
    global_tick := 0
    next_tid := 1
    thread_ticks := 0
    ticks := 0
    idle_ticks := 0
    kernel_ticks := 0
    user_ticks := 0
    yield_on_return := false
    conds := fun _ => []
    thread_mlfqs := mlfqs
    intr_context := false
    destruction_req := []
    allocated := []
    elem_as_sema_priority := view
    pending := fun _ => [] }

/-- The function `thread_init`: initialise `tid_lock` and the lists, turn the
running code into the thread `main` with the default priority, mark it running,
give it a tid, and set `global_tick` to the largest value.  `temp` is the
unassigned local of the `donate_priority` reached through `allocate_tid`. -/
def thread_init (mlfqs : Bool) (view : Nat → Int) (temp : Nat) : Except Fault Kernel := do
  let k0 := lock_init (boot_memory mlfqs view) lock_id.tid_lock
  let k1 := { k0 with ready_list := [], destruction_req := [], sleep_list := [],
                      initial_thread := 0 }
  let k2 ← init_thread { k1 with allocated := [0] } 0 PRI_DEFAULT
  let k3 := set_thread k2 0 { k2.threads 0 with status := thread_status.THREAD_RUNNING }
  let k4 ← exec_program k3 (allocate_tid_program 0 temp)
  Except.ok { k4 with global_tick := INT64_MAX }

/-- What the environment may do in the memory `k`.  The page that
`palloc_get_page` hands to `thread_create` is not in use.  A direct call of
`thread_unblock` names a thread in use whose `elem` is in no wait queue (the
caller has taken it out, or the thread blocked through `thread_block`) and
which is not still inside the `thread_create` that makes it.  The argument of
`thread_sleep` is an `int64_t`. -/
def admissible (k : Kernel) : Event → Prop
  | Event.call (Call.thread_create (some t) _ _) => t ∉ k.allocated
  | Event.call (Call.thread_sleep ticks) => -INT64_MAX - 1 ≤ ticks ∧ ticks ≤ INT64_MAX
  | Event.call (Call.thread_unblock t) =>
    t ∈ k.allocated ∧ t ∉ k.sleep_list ∧ (∀ s, t ∉ (get_sema k s).waiters) ∧
      ∀ u, Instr.thread_unblock t ∉ k.pending u
  | _ => True

/-- The events `es`, each admissible where it happens, lead from `k` to `k1`
without a fault. -/
def leads_to : Kernel → List Event → Kernel → Prop
  | k, [], k1 => k1 = k
  | k, e :: es, k1 =>
    admissible k e ∧ ∃ k2, exec_event k e = Except.ok k2 ∧ leads_to k2 es k1

/-- The memory `k` is reached from `thread_init` by some sequence of admissible
events. -/
def Reachable (k : Kernel) : Prop :=
  ∃ (mlfqs : Bool) (view : Nat → Int) (temp : Nat) (k0 : Kernel) (es : List Event),
    thread_init mlfqs view temp = Except.ok k0 ∧ leads_to k0 es k

/-- The running thread has nothing left to execute: it is between two calls. -/
@[reducible]
def quiescent (k : Kernel) : Prop :=
  k.pending k.current = []

/-! ## Running concrete scenarios -/

/-- The layout in which `cmp_sema_priority` reads 0 from every thread page. -/
def zero_view : Nat → Int := fun _ => 0

/-- The event `step`, `n` times. -/
def steps (n : Nat) : List Event := List.replicate n Event.step

/-- The events of a call that runs to its end without a switch. -/
def call_to_end (c : Call) : List Event :=
  Event.call c :: steps ((program c).length - 1)

/-- No event of `es` is a direct call of `thread_unblock`, no `thread_create`
is given a page in use, and the arguments of `thread_sleep` are `int64_t`
values. -/
def plain_trace : Kernel → List Event → Bool
  | _, [] => true
  | k, e :: es =>
    (match e with
      | Event.call (Call.thread_unblock _) => false
      | Event.call (Call.thread_create (some t) _ _) => decide (t ∉ k.allocated)
      | Event.call (Call.thread_sleep ticks) =>
        decide (-INT64_MAX - 1 ≤ ticks ∧ ticks ≤ INT64_MAX)
      | _ => true) &&
    (match exec_event k e with
      | Except.ok k1 => plain_trace k1 es
      | Except.error _ => false)

/-- The events `es` after a boot that gave `r`. -/
def after_boot (r : Except Fault Kernel) (es : List Event) : Except Fault Kernel :=
  match r with
  | Except.ok k0 => exec_trace k0 es
  | Except.error f => Except.error f

/-- Boot with `thread_init`, then the events `es`. -/
def outcome (mlfqs : Bool) (view : Nat → Int) (temp : Nat) (es : List Event) :
    Except Fault Kernel :=
  after_boot (thread_init mlfqs view temp) es

/-- The events `es` after a boot that gave `r` are admissible ones. -/
def plain_after_boot (r : Except Fault Kernel) (es : List Event) : Bool :=
  match r with
  | Except.ok k0 => plain_trace k0 es
  | Except.error _ => false

/-- The scenario `es` after boot is made of admissible events only. -/
def plain_outcome (mlfqs : Bool) (view : Nat → Int) (temp : Nat) (es : List Event) : Bool :=
  plain_after_boot (thread_init mlfqs view temp) es

/-- The run ended without a fault in a memory where `p` holds. -/
def ends_with (r : Except Fault Kernel) (p : Kernel → Bool) : Bool :=
  match r with
  | Except.ok k => p k
  | Except.error _ => false

/-- The run ended in the fault `f`. -/
def faults_with (r : Except Fault Kernel) (f : Fault) : Bool :=
  match r with
  | Except.ok _ => false
  | Except.error g => decide (g = f)

/-! ## Scenarios -/

/-- Scenario: `lock_init`, `lock_acquire` and `lock_release` of one lock by the
thread `main`, nobody waiting. -/
def release_scenario : List Event :=
  call_to_end (Call.lock_init 5) ++ call_to_end (Call.lock_acquire 5) ++
    call_to_end (Call.lock_release 5 0)

/-- Scenario: the same, then `lock_acquire` again. -/
def reacquire_scenario : List Event :=
  release_scenario ++ call_to_end (Call.lock_acquire 5)

/-- Scenario: `main` creates thread 1 (A, priority 1) and blocks on a
semaphore; A takes lock 5 and creates thread 2 (B, priority 10), which
preempts it; B calls `lock_acquire` on lock 5 and blocks, so A runs again. -/
def donation_scenario : List Event :=
  call_to_end (Call.sema_init (sema_ref.standalone 0) 0) ++
  call_to_end (Call.thread_create (some 1) 1 0) ++
  call_to_end (Call.sema_down (sema_ref.standalone 0)) ++
  call_to_end (Call.lock_init 5) ++ call_to_end (Call.lock_acquire 5) ++
  call_to_end (Call.thread_create (some 2) 10 0) ++
  Event.call (Call.lock_acquire 5) :: steps 2

/-- Scenario: `main` lowers its own priority to 5. -/
def set_priority_scenario : List Event :=
  call_to_end (Call.thread_set_priority 5)

/-- Scenario: `main` creates thread 1 with priority 40, which preempts it and
blocks in `sema_down` on semaphore 0; `main` runs again and an external
interrupt arrives. -/
def interrupt_scenario : List Event :=
  call_to_end (Call.sema_init (sema_ref.standalone 0) 0) ++
  call_to_end (Call.thread_create (some 1) 40 0) ++
  call_to_end (Call.sema_down (sema_ref.standalone 0)) ++ [Event.intr_enter]

/-- Memory with an endless chain of waiting threads: thread `t` waits for lock
`t`, which thread `t + 1` holds; thread 0 has priority 50, the others 10. -/
def chain_memory : Kernel :=
  { boot_memory false zero_view with
    threads := fun t =>
      { priority := if t = 0 then 50 else 10, original_priority := if t = 0 then 50 else 10,
        status := thread_status.THREAD_BLOCKED, waiting_lock := some (lock_id.addr t),
        magic := THREAD_MAGIC }
    locks := fun l =>
      match l with
      | lock_id.tid_lock => {}
      | lock_id.addr a => { holder := some (a + 1), semaphore := { value := 0, waiters := [a] } } }

/-- Memory with three ready threads 3, 2, 1 of priorities 30, 20, 10, the
running thread 0 of priority 20, and a blocked thread 4 of priority 20 at
the head of the sleep list. -/
def ready_memory : Kernel :=
  { boot_memory false zero_view with
    threads := fun t =>
      { priority := if t = 3 then 30 else if t = 1 then 10 else 20,
        original_priority := if t = 3 then 30 else if t = 1 then 10 else 20,
        status := if t = 0 then thread_status.THREAD_RUNNING
          else if t = 4 then thread_status.THREAD_BLOCKED else thread_status.THREAD_READY,
        magic := THREAD_MAGIC }
    ready_list := [3, 2, 1]
    sleep_list := [4]
    allocated := [0, 1, 2, 3, 4] }

/-- Memory where the threads 1, 2, 3 wait, in this order, on the standalone
semaphore 0; their priorities are now 10, 40 and 20, and the running thread 0
has priority 31. -/
def waiters_memory : Kernel :=
  { boot_memory false zero_view with
    threads := fun t =>
      { priority := if t = 0 then 31 else if t = 1 then 10 else if t = 2 then 40 else 20,
        original_priority := if t = 0 then 31 else 10,
        status := if t = 0 then thread_status.THREAD_RUNNING else thread_status.THREAD_BLOCKED,
        magic := THREAD_MAGIC }
    semas := fun a => if a = 0 then { value := 0, waiters := [1, 2, 3] } else {}
    allocated := [0, 1, 2, 3] }

/-- Scenario: `main` lowers its priority to 5, then takes and releases a
lock. -/
def set_priority_release_scenario : List Event :=
  call_to_end (Call.thread_set_priority 5) ++ call_to_end (Call.lock_init 5) ++
    call_to_end (Call.lock_acquire 5) ++ call_to_end (Call.lock_release 5 0)

/-- The value `thread_create` returns: `TID_ERROR` without a page, otherwise
the tid it stored in the new thread's page, read in the memory `k` in which the
call has ended. -/
def thread_create_value (k : Kernel) : Option Nat → Int
  | none => TID_ERROR
  | some t => (k.threads t).tid

/-! ## The queue discipline -/

/-- The instructions a thread can have still to execute when it is not
running: those that come after the first instruction of a call, and the loops
that are executed again after a switch. -/
def resumable : Instr → Bool
  | Instr.lock_acquire_enter _ => true
  | Instr.sema_down_enter => true
  | Instr.sema_down_loop _ => true
  | Instr.lock_acquire_leave _ => true
  | Instr.assign_tid _ => true
  | Instr.lock_release_enter _ _ => true
  | Instr.sema_up _ => true
  | Instr.lock_clear_holder _ => true
  | Instr.thread_unblock _ => true
  | Instr.test_max_priority => true
  | Instr.idle_loop => true
  | Instr.cond_broadcast _ _ => true
  | _ => false

/-- Consistency of the queues in a memory: the ready list is ordered by
non-increasing priority and holds ready threads; the sleep list is ordered by
wake-up tick, holds blocked threads, and `global_tick` caches the tick of its
head; the wait queue of every semaphore holds blocked threads; no thread is in
two queues or twice in one; queued threads live in pages in use; no thread
waits for a lock or has a donor; the idle thread is in no queue and alive; a
thread that `thread_create` has not yet unblocked is blocked and in no queue. -/
structure Inv (k : Kernel) : Prop where
  ready_sorted :
    k.ready_list.Pairwise (fun a b => (k.threads b).priority ≤ (k.threads a).priority)
  ready_nodup : k.ready_list.Nodup
  ready_ok : ∀ t ∈ k.ready_list,
    (k.threads t).status = thread_status.THREAD_READY ∧ t ∈ k.allocated
  sleep_sorted :
    k.sleep_list.Pairwise (fun a b => (k.threads a).wakeup_ticks ≤ (k.threads b).wakeup_ticks)
  sleep_nodup : k.sleep_list.Nodup
  sleep_ok : ∀ t ∈ k.sleep_list,
    (k.threads t).status = thread_status.THREAD_BLOCKED ∧ t ∈ k.allocated
  tick_cache : k.global_tick =
    match k.sleep_list with
    | [] => INT64_MAX
    | t :: _ => (k.threads t).wakeup_ticks
  wait_nodup : ∀ s, (get_sema k s).waiters.Nodup
  wait_ok : ∀ s, ∀ t ∈ (get_sema k s).waiters,
    (k.threads t).status = thread_status.THREAD_BLOCKED ∧ t ∈ k.allocated ∧ t ∉ k.sleep_list
  wait_disj : ∀ s1 s2, s1 ≠ s2 → ∀ t ∈ (get_sema k s1).waiters, t ∉ (get_sema k s2).waiters
  no_waiting_lock : ∀ t, (k.threads t).waiting_lock = none
  no_donations : ∀ t, (k.threads t).donations = []
  cur_alloc : k.current ∈ k.allocated
  idle_ok : ∀ i, k.idle_thread = some i →
    i ∈ k.allocated ∧ i ∉ k.sleep_list ∧ (∀ s, i ∉ (get_sema k s).waiters) ∧
    (k.threads i).status ≠ thread_status.THREAD_DYING
  dying_ok : ∀ v ∈ k.destruction_req,
    (k.threads v).status = thread_status.THREAD_DYING ∧ v ∈ k.allocated
  creating : ∀ u x, Instr.thread_unblock x ∈ k.pending u →
    x ∈ k.allocated ∧ (k.threads x).status = thread_status.THREAD_BLOCKED ∧
    x ∉ k.sleep_list ∧ (∀ s, x ∉ (get_sema k s).waiters) ∧ k.idle_thread ≠ some x
  creating_unique : ∀ u1 u2 x, Instr.thread_unblock x ∈ k.pending u1 →
    Instr.thread_unblock x ∈ k.pending u2 → u1 = u2
  creating_once : ∀ u x, (k.pending u).count (Instr.thread_unblock x) ≤ 1
  pending_ok : ∀ u, ∀ i ∈ k.pending u, resumable i = true

/-- The idle thread has nothing else to execute than the rest of the function
`idle`. -/
def idle_shape (k : Kernel) : Prop :=
  ∀ i, k.idle_thread = some i →
    (k.pending i = [Instr.idle_loop] ∨ ∃ s, k.pending i = [Instr.sema_up s, Instr.idle_loop])

/-- The part of a thread page the queue discipline speaks about. -/
def thread_view (th : thread) : thread_status × Int × Int × Option lock_id × List Nat :=
  (th.status, th.priority, th.wakeup_ticks, th.waiting_lock, th.donations)

/-- The memories `k` and `k1` have the same queues, the same threads as far as
the queue discipline goes, and the same pending instructions. -/
structure same_queues (k k1 : Kernel) : Prop where
  threads : ∀ t, thread_view (k1.threads t) = thread_view (k.threads t)
  ready_list : k1.ready_list = k.ready_list
  sleep_list : k1.sleep_list = k.sleep_list
  waiters : ∀ s, (get_sema k1 s).waiters = (get_sema k s).waiters
  allocated : k1.allocated = k.allocated
  destruction_req : k1.destruction_req = k.destruction_req
  idle_thread : k1.idle_thread = k.idle_thread
  global_tick : k1.global_tick = k.global_tick
  current : k1.current = k.current
  pending : k1.pending = k.pending

/-- The memory `k1` has the same idle thread, pending instructions, condition
queues, lock holders, pages in use, sleep list and mode flags as `k`: what the
scheduler functions leave alone. -/
structure same_context (k k1 : Kernel) : Prop where
  idle_thread : k1.idle_thread = k.idle_thread
  pending : k1.pending = k.pending
  conds : k1.conds = k.conds
  holder : ∀ l, (k1.locks l).holder = (k.locks l).holder
  allocated : k1.allocated = k.allocated
  sleep_list : k1.sleep_list = k.sleep_list
  global_tick : k1.global_tick = k.global_tick
  intr_context : k1.intr_context = k.intr_context
  thread_mlfqs : k1.thread_mlfqs = k.thread_mlfqs
  initial_thread : k1.initial_thread = k.initial_thread
  next_tid : k1.next_tid = k.next_tid
  ticks : k1.ticks = k.ticks

/-- The memory during `thread_init`: no thread but the running one exists, so
every queue is empty and no thread has anything left to execute. -/
structure Booting (k : Kernel) : Prop where
  ready_list : k.ready_list = []
  sleep_list : k.sleep_list = []
  idle_thread : k.idle_thread = none
  destruction_req : k.destruction_req = []
  waiters : ∀ s, (get_sema k s).waiters = []
  waiting_lock : ∀ t, (k.threads t).waiting_lock = none
  donations : ∀ t, (k.threads t).donations = []
  cur_alloc : k.current ∈ k.allocated
  pending : ∀ u, k.pending u = []

/-- The instructions of `allocate_tid`. -/
def allocate_tid_instr : Instr → Bool
  | Instr.lock_acquire_enter _ => true
  | Instr.sema_down_enter => true
  | Instr.sema_down_loop _ => true
  | Instr.lock_acquire_leave _ => true
  | Instr.assign_tid _ => true
  | Instr.lock_release_enter _ _ => true
  | Instr.sema_up _ => true
  | Instr.lock_clear_holder _ => true
  | _ => false

/-- Scenario: `main` (priority 31) creates the threads 1, 2 and 3 with the
priorities 10, 20 and 10. -/
def three_ready_scenario : List Event :=
  call_to_end (Call.thread_create (some 1) 10 0) ++
  call_to_end (Call.thread_create (some 2) 20 0) ++
  call_to_end (Call.thread_create (some 3) 10 0)

/-- Scenario: `main` creates thread 1 with priority 40, which preempts it and
sleeps until tick 100; then `main` creates thread 2 with priority 40, which
preempts it and sleeps until tick 50. -/
def two_sleepers_scenario : List Event :=
  call_to_end (Call.thread_create (some 1) 40 0) ++ [Event.call (Call.thread_sleep 100)] ++
  call_to_end (Call.thread_create (some 2) 40 0) ++ [Event.call (Call.thread_sleep 50)]

/-- The wait queue of every condition is ordered by non-increasing recorded
priority. -/
def conds_sorted (k : Kernel) : Prop :=
  ∀ c, (k.conds c).Pairwise (fun a b => b.priority ≤ a.priority)

/-- Scenario: `main` (priority 31) sets up lock 5 and condition 3 and creates
thread 1 with priority 40, which preempts it and takes the lock. -/
def cond_setup_scenario : List Event :=
  call_to_end (Call.lock_init 5) ++ call_to_end (Call.cond_init 3) ++
  call_to_end (Call.thread_create (some 1) 40 0) ++ call_to_end (Call.lock_acquire 5)

/-- Scenario: after the setup, thread 1 calls `cond_wait` with the waiter at
address 9 and blocks on it; `main` runs again and takes the lock. -/
def cond_scenario : List Event :=
  cond_setup_scenario ++ Event.call (Call.cond_wait 3 5 9 0) :: steps 6 ++
  call_to_end (Call.lock_acquire 5)

/-- Scenario: as `cond_scenario`, but `main` raises its own priority to 50
before it takes the lock. -/
def cond_quiet_scenario : List Event :=
  cond_setup_scenario ++ Event.call (Call.cond_wait 3 5 9 0) :: steps 6 ++
  call_to_end (Call.thread_set_priority 50) ++ call_to_end (Call.lock_acquire 5)

/-- Scenario: after `cond_scenario`, `main` signals the condition; thread 1
wakes up, preempts it and executes `cond_wait` up to its last instruction. -/
def cond_return_scenario : List Event :=
  cond_scenario ++ Event.call (Call.cond_signal 3 5) :: steps 4

/-- Number of times the loop `while (global_tick <= ticks) thread_wakeup ();`
of `timer_interrupt` executes its body, with `budget` iterations allowed. -/
def wakeup_loop_iterations : Nat → Kernel → Nat
  | 0, _ => 0
  | budget + 1, k =>
    if k.global_tick ≤ k.ticks then wakeup_loop_iterations budget (thread_wakeup k) + 1 else 0

/-- The threads the loop of `timer_interrupt` takes out of the sleep list, in
the order of the iterations. -/
def wakeup_loop_woken : Nat → Kernel → List Nat
  | 0, _ => []
  | budget + 1, k =>
    if k.global_tick ≤ k.ticks then
      k.sleep_list.head?.toList ++ wakeup_loop_woken budget (thread_wakeup k)
    else []

/-- The thread `t` is due in the memory `k`: its wake-up tick has come. -/
def is_due (k : Kernel) (t : Nat) : Bool :=
  decide ((k.threads t).wakeup_ticks ≤ k.ticks)

/-- Memory at tick 100 with the running thread 0 and three sleeping threads
2, 1 and 3 whose wake-up ticks are 50, 100 and 120. -/
def sleepers_memory : Kernel :=
  { boot_memory false zero_view with
    threads := fun t =>
      { priority := 31, original_priority := 31,
        wakeup_ticks := if t = 2 then 50 else if t = 1 then 100 else if t = 3 then 120 else 0,
        status := if t = 0 then thread_status.THREAD_RUNNING else thread_status.THREAD_BLOCKED,
        magic := THREAD_MAGIC }
    sleep_list := [2, 1, 3]
    global_tick := 50
    ticks := 100
    allocated := [0, 1, 2, 3] }

/-- The running thread calls `thread_yield`, then the thread that runs next
does, and so on, `n` times in all. -/
def thread_yield_times : Nat → Kernel → Except Fault Kernel
  | 0, k => Except.ok k
  | n + 1, k =>
    match thread_yield k with
    | Except.ok k1 => thread_yield_times n k1
    | Except.error f => Except.error f

/-- The thread `a` runs, `b` is at the head of the ready list with the same
priority, and the ready threads behind it have a lower priority. -/
structure yield_pair (a b : Nat) (rest : List Nat) (k : Kernel) : Prop where
  current : k.current = a
  ready_list : k.ready_list = b :: rest
  priority : (k.threads a).priority = (k.threads b).priority
  lower : ∀ r ∈ rest, (k.threads r).priority < (k.threads a).priority
  thread_a : is_thread k a = true
  thread_b : is_thread k b = true
  running : (k.threads a).status = thread_status.THREAD_RUNNING
  intr_context : k.intr_context = false
  not_idle_a : k.idle_thread ≠ some a
  not_idle_b : k.idle_thread ≠ some b

/-- Scenario: `main` (priority 31) creates thread 1 with priority 31 and
thread 2 with priority 10. -/
def equal_priority_scenario : List Event :=
  call_to_end (Call.thread_create (some 1) 31 0) ++
  call_to_end (Call.thread_create (some 2) 10 0)

/-- Scenario: `main` initialises lock 5 and takes it; lock 6 is initialised
and free. -/
def held_lock_scenario : List Event :=
  call_to_end (Call.lock_init 5) ++ call_to_end (Call.lock_init 6) ++
  call_to_end (Call.lock_acquire 5)

/-- Memory with a chain of waiting threads that meets a high holder: thread
`t` waits for lock `t`, which thread `t + 1` holds; thread 0 has priority
50, thread 3 priority 60 and the others 10. -/
def short_chain_memory : Kernel :=
  { boot_memory false zero_view with
    threads := fun t =>
      { priority := if t = 0 then 50 else if t = 3 then 60 else 10,
        original_priority := if t = 0 then 50 else if t = 3 then 60 else 10,
        status := thread_status.THREAD_BLOCKED, waiting_lock := some (lock_id.addr t),
        magic := THREAD_MAGIC }
    locks := fun l =>
      match l with
      | lock_id.tid_lock => {}
      | lock_id.addr a => { holder := some (a + 1), semaphore := { value := 0, waiters := [a] } } }

/-- Scenario: `main` creates thread 1 with priority 40, which preempts it and
blocks in `sema_down` on semaphore 0; `main` then creates thread 2 with
priority 41, which preempts it and blocks in `sema_down` on the same
semaphore. -/
def two_waiters_scenario : List Event :=
  call_to_end (Call.sema_init (sema_ref.standalone 0) 0) ++
  call_to_end (Call.thread_create (some 1) 40 0) ++
  call_to_end (Call.sema_down (sema_ref.standalone 0)) ++
  call_to_end (Call.thread_create (some 2) 41 0) ++
  call_to_end (Call.sema_down (sema_ref.standalone 0))

/-- Scenario: `main` (priority 31) takes lock 5, creates the threads 1, 2 and 3
with the priorities 10, 20 and 5 and blocks on semaphore 0; thread 2 and then
thread 1 call `lock_acquire` on lock 5 and block; thread 3 raises semaphore
0, so `main` runs again and returns from `sema_down`. -/
def lock_waiters_scenario : List Event :=
  call_to_end (Call.lock_init 5) ++
  call_to_end (Call.sema_init (sema_ref.standalone 0) 0) ++
  call_to_end (Call.lock_acquire 5) ++
  call_to_end (Call.thread_create (some 1) 10 0) ++
  call_to_end (Call.thread_create (some 2) 20 0) ++
  call_to_end (Call.thread_create (some 3) 5 0) ++
  call_to_end (Call.sema_down (sema_ref.standalone 0)) ++
  (Event.call (Call.lock_acquire 5) :: steps 2) ++
  (Event.call (Call.lock_acquire 5) :: steps 2) ++
  call_to_end (Call.sema_up (sema_ref.standalone 0)) ++ [Event.step]

/-- The memory `k1` has the same initial thread as `k`, every page in use in
`k` is still in use in `k1`, and the threads queued for destruction in `k1`
and not in `k` are other threads than the initial one. -/
structure req_kept (k k1 : Kernel) : Prop where
  initial_thread : k1.initial_thread = k.initial_thread
  destruction_req : ∀ t ∈ k1.destruction_req, t ∈ k.destruction_req ∨ t ≠ k.initial_thread
  allocated : ∀ t ∈ k.allocated, t ∈ k1.allocated

/-- Scenario: `main` creates thread 1 with priority 40, which preempts it and
calls `thread_exit`. -/
def exit_scenario : List Event :=
  call_to_end (Call.thread_create (some 1) 40 0) ++ [Event.call Call.thread_exit]

/-- The instruction that the event `e` executes in the memory `k`: the first
instruction of a call made between two calls, or the next pending instruction
of the running thread. -/
def executed (k : Kernel) : Event → Option Instr
  | Event.call c =>
    match k.pending k.current with
    | [] => (program c).head?
    | _ :: _ => none
  | Event.step => (k.pending k.current).head?
  | _ => none

/-- Scenario: `main` (priority 31) sets up lock 5 and condition 3; thread 1
(priority 40) and then thread 2 (priority 41) are created, preempt `main`,
take the lock and block in `cond_wait` with the waiters at the addresses 9
and 8; `main` raises its own priority to 50 and takes the lock. -/
def cond_two_waiters_scenario : List Event :=
  cond_setup_scenario ++ Event.call (Call.cond_wait 3 5 9 0) :: steps 6 ++
  call_to_end (Call.thread_create (some 2) 41 0) ++ call_to_end (Call.lock_acquire 5) ++
  Event.call (Call.cond_wait 3 5 8 0) :: steps 6 ++
  call_to_end (Call.thread_set_priority 50) ++ call_to_end (Call.lock_acquire 5)

/-- Scenario: `main` (priority 31) sets up lock 5 and condition 3; thread 1
(priority 40) and then thread 2 (priority 41) are created, preempt `main`,
take the lock and block in `cond_wait` with the waiters at the addresses 9
and 8; `main` takes the lock. -/
def cond_high_waiters_scenario : List Event :=
  cond_setup_scenario ++ Event.call (Call.cond_wait 3 5 9 0) :: steps 6 ++
  call_to_end (Call.thread_create (some 2) 41 0) ++ call_to_end (Call.lock_acquire 5) ++
  Event.call (Call.cond_wait 3 5 8 0) :: steps 6 ++
  call_to_end (Call.lock_acquire 5)

/-- Events: the running thread calls `cond_broadcast` on condition 3 with lock
5; the thread woken by the first turn of the loop finishes its `cond_wait`
(five instructions), releases the lock and exits. -/
def broadcast_then_waiter_events : List Event :=
  Event.call (Call.cond_broadcast 3 5) :: steps 5 ++
  call_to_end (Call.lock_release 5 0) ++ [Event.call Call.thread_exit]

/-- Scenario: `main` (priority 31) holds lock 5; thread 1 (priority 40) is
created, preempts `main` and blocks in `lock_acquire` on lock 5; `main`
calls `cond_wait` on condition 3 with the waiter at address 9 and is
preempted by thread 1 in the first `sema_up` of its `lock_release`; thread 1
takes the lock, calls `cond_signal`, releases the lock and exits; `main` runs
again and finishes its `lock_release`. -/
def early_signal_scenario : List Event :=
  call_to_end (Call.lock_init 5) ++ call_to_end (Call.cond_init 3) ++
  call_to_end (Call.lock_acquire 5) ++
  call_to_end (Call.thread_create (some 1) 40 0) ++
  Event.call (Call.lock_acquire 5) :: steps 2 ++
  Event.call (Call.cond_wait 3 5 9 0) :: steps 2 ++
  steps 2 ++ call_to_end (Call.cond_signal 3 5) ++ call_to_end (Call.lock_release 5 0) ++
  [Event.call Call.thread_exit] ++ steps 2

theorem mem_list_insert_ordered {α : Type} (less : α → α → Bool) (l : List α) (e x : α) :
    x ∈ list_insert_ordered less l e ↔ x = e ∨ x ∈ l := by
  induction l with
  | nil => simp [list_insert_ordered]
  | cons a rest ih =>
    unfold list_insert_ordered
    split
    · simp
    · simp only [List.mem_cons, ih]
      tauto

theorem list_insert_ordered_perm {α : Type} (less : α → α → Bool) (l : List α) (e : α) :
    (list_insert_ordered less l e).Perm (e :: l) := by
  induction l with
  | nil => simp [list_insert_ordered]
  | cons a rest ih =>
    unfold list_insert_ordered
    split
    · exact List.Perm.refl _
    · exact (List.Perm.cons a ih).trans (List.Perm.swap e a rest)

theorem list_insert_ordered_nodup {α : Type} (less : α → α → Bool) (l : List α) (e : α)
    (hl : l.Nodup) (he : e ∉ l) : (list_insert_ordered less l e).Nodup :=
  (list_insert_ordered_perm less l e).nodup_iff.mpr (List.nodup_cons.mpr ⟨he, hl⟩)

/-- Where `list_insert_ordered` puts the element: behind a front part none of
whose elements it is less than, and before a back part whose first element it
is less than. -/
theorem list_insert_ordered_split {α : Type} (less : α → α → Bool) (l : List α) (e : α) :
    ∃ l1 l2, l = l1 ++ l2 ∧ (∀ x ∈ l1, less e x = false) ∧ (∀ y ∈ l2.head?, less e y = true) ∧
      list_insert_ordered less l e = l1 ++ e :: l2 := by
  induction l with
  | nil => exact ⟨[], [], by simp [list_insert_ordered]⟩
  | cons a rest ih =>
    by_cases h : less e a = true
    · exact ⟨[], a :: rest, by simp [list_insert_ordered, h]⟩
    · obtain ⟨l1, l2, h1, h2, h3, h4⟩ := ih
      refine ⟨a :: l1, l2, by simp [h1], ?_, h3, by simp [list_insert_ordered, h, h4]⟩
      intro x hx
      rcases List.mem_cons.mp hx with rfl | hx
      · simpa using h
      · exact h2 x hx

/-- Inserting by a key comparator (`less a b` iff the key of `a` is strictly
greater) keeps a list with non-increasing keys in that order. -/
theorem list_insert_ordered_sorted {α : Type} (f : α → Int) (less : α → α → Bool)
    (hless : ∀ a b, less a b = decide (f b < f a)) (l : List α) (e : α)
    (hl : l.Pairwise (fun a b => f b ≤ f a)) :
    (list_insert_ordered less l e).Pairwise (fun a b => f b ≤ f a) := by
  induction l with
  | nil => simp [list_insert_ordered]
  | cons a rest ih =>
    rw [List.pairwise_cons] at hl
    unfold list_insert_ordered
    by_cases h : less e a = true
    · rw [if_pos h]
      rw [hless] at h
      have h : f a < f e := by simpa using h
      refine List.pairwise_cons.mpr ⟨?_, List.pairwise_cons.mpr hl⟩
      intro x hx
      rcases List.mem_cons.mp hx with rfl | hx
      · omega
      · have := hl.1 x hx
        omega
    · rw [if_neg h]
      rw [hless] at h
      have h : f e ≤ f a := by simpa using h
      refine List.pairwise_cons.mpr ⟨?_, ih hl.2⟩
      intro x hx
      rcases (mem_list_insert_ordered less rest e x).mp hx with rfl | hx
      · exact h
      · exact hl.1 x hx

/-- In a list with non-increasing keys, the element inserted by the key
comparator lands behind every element with a key at least its own and before
every element with a smaller key. -/
theorem list_insert_ordered_position {α : Type} (f : α → Int) (less : α → α → Bool)
    (hless : ∀ a b, less a b = decide (f b < f a)) (l : List α) (e : α)
    (hl : l.Pairwise (fun a b => f b ≤ f a)) :
    ∃ l1 l2, l = l1 ++ l2 ∧ (∀ x ∈ l1, f e ≤ f x) ∧ (∀ y ∈ l2, f y < f e) ∧
      list_insert_ordered less l e = l1 ++ e :: l2 := by
  obtain ⟨l1, l2, h1, h2, h3, h4⟩ := list_insert_ordered_split less l e
  refine ⟨l1, l2, h1, ?_, ?_, h4⟩
  · intro x hx
    have := h2 x hx
    rw [hless] at this
    simpa using this
  · intro y hy
    cases l2 with
    | nil => simp at hy
    | cons b rest =>
      have hb : f b < f e := by
        have := h3 b (by simp)
        rw [hless] at this
        simpa using this
      rcases List.mem_cons.mp hy with rfl | hy
      · exact hb
      · rw [h1] at hl
        have := (List.pairwise_append.mp hl).2.1
        have := (List.pairwise_cons.mp this).1 y hy
        omega

theorem mem_list_sort_insert {α : Type} (less : α → α → Bool) (x y : α) (l : List α) :
    y ∈ list_sort_insert less x l ↔ y = x ∨ y ∈ l := by
  induction l with
  | nil => simp [list_sort_insert]
  | cons a rest ih =>
    unfold list_sort_insert
    split
    · simp only [List.mem_cons, ih]
      tauto
    · simp

theorem list_sort_insert_perm {α : Type} (less : α → α → Bool) (x : α) (l : List α) :
    (list_sort_insert less x l).Perm (x :: l) := by
  induction l with
  | nil => simp [list_sort_insert]
  | cons a rest ih =>
    unfold list_sort_insert
    split
    · exact (List.Perm.cons a ih).trans (List.Perm.swap x a rest)
    · exact List.Perm.refl _

theorem list_sort_perm {α : Type} (less : α → α → Bool) (l : List α) :
    (list_sort less l).Perm l := by
  induction l with
  | nil => simp [list_sort]
  | cons a rest ih =>
    have : list_sort less (a :: rest) = list_sort_insert less a (list_sort less rest) := rfl
    rw [this]
    exact (list_sort_insert_perm less a _).trans (List.Perm.cons a ih)

theorem list_sort_insert_sorted {α : Type} (f : α → Int) (less : α → α → Bool)
    (hless : ∀ a b, less a b = decide (f b < f a)) (x : α) (l : List α)
    (hl : l.Pairwise (fun a b => f b ≤ f a)) :
    (list_sort_insert less x l).Pairwise (fun a b => f b ≤ f a) := by
  induction l with
  | nil => simp [list_sort_insert]
  | cons a rest ih =>
    rw [List.pairwise_cons] at hl
    unfold list_sort_insert
    by_cases h : less a x = true
    · rw [if_pos h]
      rw [hless] at h
      have h : f x < f a := by simpa using h
      refine List.pairwise_cons.mpr ⟨?_, ih hl.2⟩
      intro y hy
      rcases (mem_list_sort_insert less x y rest).mp hy with rfl | hy
      · omega
      · exact hl.1 y hy
    · rw [if_neg h]
      rw [hless] at h
      have h : f a ≤ f x := by simpa using h
      refine List.pairwise_cons.mpr ⟨?_, List.pairwise_cons.mpr hl⟩
      intro y hy
      rcases List.mem_cons.mp hy with rfl | hy
      · exact h
      · have := hl.1 y hy
        omega

/-- The result of `list_sort` by a key comparator has non-increasing keys. -/
theorem list_sort_sorted {α : Type} (f : α → Int) (less : α → α → Bool)
    (hless : ∀ a b, less a b = decide (f b < f a)) (l : List α) :
    (list_sort less l).Pairwise (fun a b => f b ≤ f a) := by
  induction l with
  | nil => simp [list_sort]
  | cons a rest ih =>
    have : list_sort less (a :: rest) = list_sort_insert less a (list_sort less rest) := rfl
    rw [this]
    exact list_sort_insert_sorted f less hless a _ ih

theorem cmp_priority_key (k : Kernel) (a b : Nat) :
    cmp_priority k a b = decide ((k.threads b).priority < (k.threads a).priority) := rfl

/-! ## Scenarios and reachability -/

theorem plain_trace_cons (k : Kernel) (e : Event) (es : List Event) :
    plain_trace k (e :: es) =
    ((match e with
      | Event.call (Call.thread_unblock _) => false
      | Event.call (Call.thread_create (some t) _ _) => decide (t ∉ k.allocated)
      | Event.call (Call.thread_sleep ticks) =>
        decide (-INT64_MAX - 1 ≤ ticks ∧ ticks ≤ INT64_MAX)
      | _ => true) &&
    (match exec_event k e with
      | Except.ok k1 => plain_trace k1 es
      | Except.error _ => false)) := rfl

theorem exec_trace_cons (k : Kernel) (e : Event) (es : List Event) :
    exec_trace k (e :: es) =
    (match exec_event k e with
    | Except.ok k1 => exec_trace k1 es
    | Except.error f => Except.error f) := rfl

theorem leads_to_of_plain_trace (es : List Event) :
    ∀ (k k1 : Kernel), plain_trace k es = true → exec_trace k es = Except.ok k1 →
      leads_to k es k1 := by
  induction es with
  | nil =>
    intro k k1 _ h
    simp only [exec_trace, Except.ok.injEq] at h
    exact h.symm
  | cons e es ih =>
    intro k k1 hp h
    rw [plain_trace_cons, Bool.and_eq_true] at hp
    rw [exec_trace_cons] at h
    cases hk : exec_event k e with
    | error f =>
      rw [hk] at h
      exact absurd h (by simp)
    | ok k2 =>
      rw [hk] at h hp
      refine ⟨?_, k2, hk, ih k2 k1 hp.2 h⟩
      have h1 := hp.1
      cases e with
      | call c =>
        cases c with
        | thread_unblock t => exact absurd h1 (by simp)
        | thread_sleep ticks =>
          have h2 : -INT64_MAX - 1 ≤ ticks ∧ ticks ≤ INT64_MAX := of_decide_eq_true h1
          exact h2
        | thread_create page p temp =>
          cases page with
          | none => trivial
          | some t => simpa [admissible] using h1
        | _ => trivial
      | _ => trivial

theorem reachable_of_outcome (mlfqs : Bool) (view : Nat → Int) (temp : Nat) (es : List Event)
    (k : Kernel) (hp : plain_outcome mlfqs view temp es = true)
    (h : outcome mlfqs view temp es = Except.ok k) : Reachable k := by
  have hp1 : plain_after_boot (thread_init mlfqs view temp) es = true := hp
  have h1 : after_boot (thread_init mlfqs view temp) es = Except.ok k := h
  cases h0 : thread_init mlfqs view temp with
  | error f =>
    rw [h0] at h1
    exact absurd h1 (by simp [after_boot])
  | ok k0 =>
    rw [h0] at h1 hp1
    exact ⟨mlfqs, view, temp, k0, es, h0, leads_to_of_plain_trace es k0 k hp1 h1⟩

theorem exists_of_ends_with (r : Except Fault Kernel) (p : Kernel → Bool)
    (h : ends_with r p = true) : ∃ k, r = Except.ok k ∧ p k = true := by
  cases r with
  | error f => simp [ends_with] at h
  | ok k => exact ⟨k, rfl, h⟩

theorem eq_error_of_faults_with (r : Except Fault Kernel) (f : Fault)
    (h : faults_with r f = true) : r = Except.error f := by
  cases r with
  | ok k => simp [faults_with] at h
  | error g =>
    have : g = f := by simpa [faults_with] using h
    rw [this]

/-- C1. After `lock_init`, `lock_acquire` and `lock_release` of lock 5 by
`main`, nobody waiting, the lock has no holder and the value of its semaphore
is 2; after a further `lock_acquire` the lock has a holder and the value is
1. -/
theorem lock_release_leaves_count_two :
    (∃ k, Reachable k ∧ quiescent k ∧ (k.locks (lock_id.addr 5)).holder = none ∧
      (k.locks (lock_id.addr 5)).semaphore.waiters = [] ∧
      (k.locks (lock_id.addr 5)).semaphore.value = 2) ∧
    (∃ k, Reachable k ∧ quiescent k ∧ (k.locks (lock_id.addr 5)).holder = some 0 ∧
      (k.locks (lock_id.addr 5)).semaphore.value = 1) := by
  constructor
  · obtain ⟨k, hk, hp⟩ := exists_of_ends_with (outcome false zero_view 0 release_scenario)
      (fun k => decide (quiescent k ∧ (k.locks (lock_id.addr 5)).holder = none ∧
        (k.locks (lock_id.addr 5)).semaphore.waiters = [] ∧
        (k.locks (lock_id.addr 5)).semaphore.value = 2)) (by decide!)
    exact ⟨k, reachable_of_outcome false zero_view 0 release_scenario k (by decide!) hk,
      of_decide_eq_true hp⟩
  · obtain ⟨k, hk, hp⟩ := exists_of_ends_with (outcome false zero_view 0 reacquire_scenario)
      (fun k => decide (quiescent k ∧ (k.locks (lock_id.addr 5)).holder = some 0 ∧
        (k.locks (lock_id.addr 5)).semaphore.value = 1)) (by decide!)
    exact ⟨k, reachable_of_outcome false zero_view 0 reacquire_scenario k (by decide!) hk,
      of_decide_eq_true hp⟩

/-- C2. In the memory of `donation_scenario` thread 1 (priority 1) holds lock
5 and thread 2 (priority 10) is blocked in `lock_acquire` on it: thread 1
still has priority 1 and no donor, and thread 2 waits for no lock on
record. -/
theorem lock_acquire_does_not_donate :
    ∃ k, Reachable k ∧ k.current = 1 ∧ (k.locks (lock_id.addr 5)).holder = some 1 ∧
      (k.locks (lock_id.addr 5)).semaphore.waiters = [2] ∧
      (k.threads 2).status = thread_status.THREAD_BLOCKED ∧
      k.pending 2 = [Instr.sema_down_loop (sema_ref.of_lock (lock_id.addr 5)),
        Instr.lock_acquire_leave (lock_id.addr 5)] ∧
      (k.threads 2).priority = 10 ∧ (k.threads 1).priority = 1 ∧
      (k.threads 1).donations = [] ∧ (k.threads 2).waiting_lock = none := by
  obtain ⟨k, hk, hp⟩ := exists_of_ends_with (outcome false zero_view 0 donation_scenario)
    (fun k => decide (k.current = 1 ∧ (k.locks (lock_id.addr 5)).holder = some 1 ∧
      (k.locks (lock_id.addr 5)).semaphore.waiters = [2] ∧
      (k.threads 2).status = thread_status.THREAD_BLOCKED ∧
      k.pending 2 = [Instr.sema_down_loop (sema_ref.of_lock (lock_id.addr 5)),
        Instr.lock_acquire_leave (lock_id.addr 5)] ∧
      (k.threads 2).priority = 10 ∧ (k.threads 1).priority = 1 ∧
      (k.threads 1).donations = [] ∧ (k.threads 2).waiting_lock = none)) (by decide!)
  exact ⟨k, reachable_of_outcome false zero_view 0 donation_scenario k (by decide!) hk,
    of_decide_eq_true hp⟩

/-- C3. After `thread_set_priority (5)` by `main` the priority of `main` is 5,
its base priority `original_priority` is still 31 and it has no donor: its
priority is below the maximum of its base priority and its donors'
priorities. -/
theorem set_priority_leaves_base_priority :
    ∃ k, Reachable k ∧ quiescent k ∧ k.current = 0 ∧ (k.threads 0).priority = 5 ∧
      (k.threads 0).original_priority = 31 ∧ (k.threads 0).donations = [] ∧
      (k.threads 0).priority <
        max_donated_priority k (k.threads 0).original_priority (k.threads 0).donations := by
  obtain ⟨k, hk, hp⟩ := exists_of_ends_with (outcome false zero_view 0 set_priority_scenario)
    (fun k => decide (quiescent k ∧ k.current = 0 ∧ (k.threads 0).priority = 5 ∧
      (k.threads 0).original_priority = 31 ∧ (k.threads 0).donations = [] ∧
      (k.threads 0).priority <
        max_donated_priority k (k.threads 0).original_priority (k.threads 0).donations))
    (by decide!)
  exact ⟨k, reachable_of_outcome false zero_view 0 set_priority_scenario k (by decide!) hk,
    of_decide_eq_true hp⟩

/-- C9. In the memory of `interrupt_scenario`, where thread 1 (priority 40)
waits on semaphore 0 and an interrupt handler runs on the stack of `main`
(priority 31), `sema_up` on the semaphore fails the assertion
`!intr_context ()` of `thread_yield`. -/
theorem sema_up_in_interrupt_faults :
    ∃ k, Reachable k ∧ quiescent k ∧ k.intr_context = true ∧ k.current = 0 ∧
      (k.semas 0).waiters = [1] ∧ (k.threads 1).priority = 40 ∧ (k.threads 0).priority = 31 ∧
      sema_up k (sema_ref.standalone 0) = Except.error Fault.assert_not_intr_context := by
  obtain ⟨k, hk, hp⟩ := exists_of_ends_with (outcome false zero_view 0 interrupt_scenario)
    (fun k => decide (quiescent k ∧ k.intr_context = true ∧ k.current = 0 ∧
      (k.semas 0).waiters = [1] ∧ (k.threads 1).priority = 40 ∧ (k.threads 0).priority = 31) &&
      faults_with (sema_up k (sema_ref.standalone 0)) Fault.assert_not_intr_context)
    (by decide!)
  rw [Bool.and_eq_true] at hp
  obtain ⟨h1, h2, h3, h4, h5, h6⟩ := of_decide_eq_true hp.1
  exact ⟨k, reachable_of_outcome false zero_view 0 interrupt_scenario k (by decide!) hk,
    h1, h2, h3, h4, h5, h6, eq_error_of_faults_with _ _ hp.2⟩

/-! ## Memory access -/

@[simp]
theorem sema_at_put (se : Nat → semaphore) (lo : lock_id → lock) (s s1 : sema_ref)
    (v : semaphore) :
    sema_at (put_semas se s v) (put_locks lo s v) s1 = if s1 = s then v else sema_at se lo s1 := by
  cases s <;> cases s1 <;> simp [sema_at, put_semas, put_locks, Function.update_apply]
  split <;> rfl

@[simp]
theorem put_locks_holder (lo : lock_id → lock) (s : sema_ref) (v : semaphore) (l : lock_id) :
    (put_locks lo s v l).holder = (lo l).holder := by
  cases s with
  | standalone a => rfl
  | of_lock l1 =>
    simp only [put_locks, Function.update_apply]
    split
    · next h => rw [h]
    · rfl

@[simp]
theorem sema_at_update_locks (se : Nat → semaphore) (lo : lock_id → lock) (l : lock_id)
    (lk : lock) (s : sema_ref) :
    sema_at se (Function.update lo l lk) s =
      if s = sema_ref.of_lock l then lk.semaphore else sema_at se lo s := by
  cases s <;> simp [sema_at, Function.update_apply]
  split <;> rfl

/-! ## The donation walk -/

theorem donate_priority_loop_none (n : Nat) (k : Kernel) (temp : Nat)
    (hw : (k.threads temp).waiting_lock = none) :
    donate_priority_loop (n + 1) k temp = (k, 0) := by
  rw [donate_priority_loop, hw]

theorem donate_priority_loop_free (n : Nat) (k : Kernel) (temp : Nat) (l : lock_id)
    (hw : (k.threads temp).waiting_lock = some l) (hh : (k.locks l).holder = none) :
    donate_priority_loop (n + 1) k temp = (k, 1) := by
  rw [donate_priority_loop, hw]
  simp only [hh]

theorem donate_priority_loop_stop (n : Nat) (k : Kernel) (temp : Nat) (l : lock_id)
    (holder : Nat) (hw : (k.threads temp).waiting_lock = some l)
    (hh : (k.locks l).holder = some holder)
    (hp : (k.threads temp).priority ≤ (k.threads holder).priority) :
    donate_priority_loop (n + 1) k temp = (k, 1) := by
  rw [donate_priority_loop, hw]
  simp only [hh]
  rw [if_pos hp]

theorem donate_priority_loop_go (n : Nat) (k : Kernel) (temp : Nat) (l : lock_id)
    (holder : Nat) (hw : (k.threads temp).waiting_lock = some l)
    (hh : (k.locks l).holder = some holder)
    (hp : (k.threads holder).priority < (k.threads temp).priority) :
    donate_priority_loop (n + 1) k temp =
      ((donate_priority_loop n (set_thread k holder
          { k.threads holder with priority := (k.threads temp).priority }) holder).1,
       (donate_priority_loop n (set_thread k holder
          { k.threads holder with priority := (k.threads temp).priority }) holder).2 + 1) := by
  rw [donate_priority_loop, hw]
  simp only [hh]
  rw [if_neg (by omega)]

theorem donate_priority_loop_frame (budget : Nat) :
    ∀ (k : Kernel) (temp : Nat),
      (donate_priority_loop budget k temp).2 ≤ budget ∧
      ∃ changed : List Nat, changed.length ≤ (donate_priority_loop budget k temp).2 ∧
        ∀ t, t ∉ changed → (donate_priority_loop budget k temp).1.threads t = k.threads t := by
  induction budget with
  | zero =>
    intro k temp
    exact ⟨Nat.le_refl _, [], Nat.le_refl _, fun _ _ => rfl⟩
  | succ n ih =>
    intro k temp
    cases hw : (k.threads temp).waiting_lock with
    | none =>
      rw [donate_priority_loop_none n k temp hw]
      exact ⟨Nat.zero_le _, [], Nat.le_refl _, fun _ _ => rfl⟩
    | some l =>
      cases hh : (k.locks l).holder with
      | none =>
        rw [donate_priority_loop_free n k temp l hw hh]
        exact ⟨by simp, [], by simp, fun _ _ => rfl⟩
      | some holder =>
        by_cases hp : (k.threads temp).priority ≤ (k.threads holder).priority
        · rw [donate_priority_loop_stop n k temp l holder hw hh hp]
          exact ⟨by simp, [], by simp, fun _ _ => rfl⟩
        · rw [donate_priority_loop_go n k temp l holder hw hh (by omega)]
          obtain ⟨h1, changed, h2, h3⟩ := ih (set_thread k holder
            { k.threads holder with priority := (k.threads temp).priority }) holder
          refine ⟨Nat.succ_le_succ h1, holder :: changed, Nat.succ_le_succ h2, ?_⟩
          intro t ht
          simp only [List.mem_cons, not_or] at ht
          show (donate_priority_loop n _ holder).1.threads t = k.threads t
          rw [h3 t ht.2]
          simp [set_thread, Function.update_apply, ht.1]

theorem donate_priority_loop_chain (c : Nat → Nat) (L : Nat → lock_id) (N : Nat) (P : Int)
    (hinj : ∀ a b, a < N → b < N → c a = c b → a = b) (budget : Nat) :
    ∀ (i : Nat) (k : Kernel), i + budget < N →
      (∀ j, j + 1 < N → (k.threads (c j)).waiting_lock = some (L j)) →
      (∀ j, j + 1 < N → (k.locks (L j)).holder = some (c (j + 1))) →
      (k.threads (c i)).priority = P →
      (∀ j, i < j → j < N → (k.threads (c j)).priority < P) →
      (∀ j, i < j → j ≤ i + budget →
        ((donate_priority_loop budget k (c i)).1.threads (c j)).priority = P) ∧
      (∀ t, (∀ j, i < j → j ≤ i + budget → t ≠ c j) →
        (donate_priority_loop budget k (c i)).1.threads t = k.threads t) ∧
      (donate_priority_loop budget k (c i)).2 = budget := by
  induction budget with
  | zero =>
    intro i k _ _ _ _ _
    refine ⟨?_, fun _ _ => rfl, rfl⟩
    intro j h1 h2
    omega
  | succ n ih =>
    intro i k hN hw hh hP hlow
    have hlt : (k.threads (c (i + 1))).priority < P := hlow (i + 1) (by omega) (by omega)
    have hstep : donate_priority_loop (n + 1) k (c i) =
        ((donate_priority_loop n (set_thread k (c (i + 1))
            { k.threads (c (i + 1)) with priority := P }) (c (i + 1))).1,
         (donate_priority_loop n (set_thread k (c (i + 1))
            { k.threads (c (i + 1)) with priority := P }) (c (i + 1))).2 + 1) := by
      rw [donate_priority_loop_go n k (c i) (L i) (c (i + 1)) (hw i (by omega))
        (hh i (by omega)) (by omega), hP]
    have hne : ∀ j, i + 1 < j → j < N → c j ≠ c (i + 1) := by
      intro j h1 h2 h3
      have := hinj j (i + 1) h2 (by omega) h3
      omega
    obtain ⟨ih1, ih2, ih3⟩ := ih (i + 1)
      (set_thread k (c (i + 1)) { k.threads (c (i + 1)) with priority := P }) (by omega)
      (by
        intro j hj
        simp only [set_thread, Function.update_apply]
        split
        · next h => rw [← h]; exact hw j hj
        · exact hw j hj)
      (by intro j hj; exact hh j hj)
      (by simp [set_thread])
      (by
        intro j h1 h2
        simp only [set_thread, Function.update_apply, if_neg (hne j h1 h2)]
        exact hlow j (by omega) h2)
    rw [hstep]
    refine ⟨?_, ?_, by simp [ih3]⟩
    · intro j h1 h2
      by_cases hj : j = i + 1
      · subst hj
        show ((donate_priority_loop n _ (c (i + 1))).1.threads (c (i + 1))).priority = P
        rw [ih2 (c (i + 1)) (fun j h1 h2 => (hne j h1 (by omega)).symm)]
        simp [set_thread]
      · exact ih1 j (by omega) (by omega)
    · intro t ht
      show (donate_priority_loop n _ (c (i + 1))).1.threads t = k.threads t
      rw [ih2 t (fun j h1 h2 => ht j (by omega) (by omega))]
      have := ht (i + 1) (by omega) (by omega)
      simp [set_thread, Function.update_apply, this]

theorem donate_priority_loop_fields (budget : Nat) :
    ∀ (k : Kernel) (temp : Nat),
      (donate_priority_loop budget k temp).1 =
        { k with threads := (donate_priority_loop budget k temp).1.threads } := by
  induction budget with
  | zero => intro k temp; rfl
  | succ n ih =>
    intro k temp
    cases hw : (k.threads temp).waiting_lock with
    | none => rw [donate_priority_loop_none n k temp hw]
    | some l =>
      cases hh : (k.locks l).holder with
      | none => rw [donate_priority_loop_free n k temp l hw hh]
      | some holder =>
        by_cases hp : (k.threads temp).priority ≤ (k.threads holder).priority
        · rw [donate_priority_loop_stop n k temp l holder hw hh hp]
        · rw [donate_priority_loop_go n k temp l holder hw hh (by omega)]
          show (donate_priority_loop n _ holder).1 = _
          rw [ih]
          rfl

/-- C7. The walk of `donate_priority`, from any thread `temp` in any memory
(cyclic waiting included), makes at most 8 loop iterations and changes the
page of at most 8 threads.  In a chain of `N ≥ 9` distinct threads
`c 0, c 1, ...`, each waiting for a lock held by the next, with the donor `c 0`
strictly above all the others, it makes exactly 8 iterations: the holders
`c 1 .. c 8` are raised to the donor's priority and the threads from `c 9` on
are unchanged. -/
theorem donate_priority_bounded (k : Kernel) (temp : Nat) :
    (donate_priority_loop DONATION_DEPTH k temp).2 ≤ 8 ∧
    (∃ changed : List Nat, changed.length ≤ 8 ∧
      ∀ t, t ∉ changed → (donate_priority k temp).threads t = k.threads t) ∧
    ∀ (c : Nat → Nat) (L : Nat → lock_id) (N : Nat), 9 ≤ N → c 0 = temp →
      (∀ a b, a < N → b < N → c a = c b → a = b) →
      (∀ j, j + 1 < N → (k.threads (c j)).waiting_lock = some (L j)) →
      (∀ j, j + 1 < N → (k.locks (L j)).holder = some (c (j + 1))) →
      (∀ j, 0 < j → j < N → (k.threads (c j)).priority < (k.threads (c 0)).priority) →
      (donate_priority_loop DONATION_DEPTH k temp).2 = 8 ∧
      (∀ j, 1 ≤ j → j ≤ 8 →
        (k.threads (c j)).priority < (k.threads (c 0)).priority ∧
        ((donate_priority k temp).threads (c j)).priority = (k.threads (c 0)).priority) ∧
      (∀ j, 9 ≤ j → j < N → (donate_priority k temp).threads (c j) = k.threads (c j)) ∧
      (donate_priority k temp).threads (c 0) = k.threads (c 0) := by
  obtain ⟨h1, changed, h2, h3⟩ := donate_priority_loop_frame DONATION_DEPTH k temp
  refine ⟨h1, ⟨changed, Nat.le_trans h2 h1, h3⟩, ?_⟩
  intro c L N hN hc hinj hw hh hlow
  subst hc
  obtain ⟨g1, g2, g3⟩ := donate_priority_loop_chain c L N (k.threads (c 0)).priority hinj
    DONATION_DEPTH 0 k (by simp only [DONATION_DEPTH]; omega) hw hh rfl
    (fun j h1 h2 => hlow j h1 h2)
  refine ⟨g3, ?_, ?_, ?_⟩
  · intro j hj1 hj2
    exact ⟨hlow j (by omega) (by omega), g1 j (by omega) (by simp only [DONATION_DEPTH]; omega)⟩
  · intro j hj1 hj2
    apply g2
    intro i hi1 hi2 heq
    simp only [DONATION_DEPTH] at hi2
    have := hinj j i hj2 (by omega) heq
    omega
  · apply g2
    intro i hi1 hi2 heq
    simp only [DONATION_DEPTH] at hi2
    have := hinj 0 i (by omega) (by omega) heq
    omega

theorem donate_priority_bounded_witness :
    (donate_priority_loop DONATION_DEPTH chain_memory 0).2 = 8 ∧
    (chain_memory.threads 8).priority = 10 ∧
    ((donate_priority chain_memory 0).threads 8).priority = 50 ∧
    (donate_priority chain_memory 0).threads 9 = chain_memory.threads 9 := by
  have h := (donate_priority_bounded chain_memory 0).2.2 id lock_id.addr 12 (by decide) rfl
    (fun a b _ _ hab => hab) (fun j _ => rfl) (fun j _ => rfl)
    (fun j h1 _ => by
      have : j ≠ 0 := by omega
      simp [chain_memory, this])
  refine ⟨h.1, ?_, ?_, h.2.2.1 9 (by decide) (by decide)⟩
  · rfl
  · have := (h.2.1 8 (by decide) (by decide)).2
    simpa [chain_memory] using this

/-! ## Scheduler functions on given inputs -/

theorem thread_current_ok (k : Kernel) (h1 : is_thread k k.current = true)
    (h2 : (k.threads k.current).status = thread_status.THREAD_RUNNING) :
    thread_current k = Except.ok k.current := by
  simp [thread_current, h1, h2]

theorem thread_current_eq (k : Kernel) (c : Nat) (h : thread_current k = Except.ok c) :
    c = k.current ∧ is_thread k k.current = true ∧
      (k.threads k.current).status = thread_status.THREAD_RUNNING := by
  unfold thread_current at h
  split at h
  · exact absurd h (by simp)
  · split at h
    · exact absurd h (by simp)
    · next h1 h2 =>
      simp only [Except.ok.injEq] at h
      refine ⟨h.symm, by simpa using h1, by simpa using h2⟩

theorem thread_unblock_ok (k : Kernel) (t : Nat) (h1 : is_thread k t = true)
    (h2 : (k.threads t).status = thread_status.THREAD_BLOCKED) :
    thread_unblock k t = Except.ok (set_thread
      { k with ready_list := list_insert_ordered (cmp_priority k) k.ready_list t } t
      { k.threads t with status := thread_status.THREAD_READY }) := by
  simp [thread_unblock, h1, h2]

theorem thread_unblock_eq (k k1 : Kernel) (t : Nat) (h : thread_unblock k t = Except.ok k1) :
    is_thread k t = true ∧ (k.threads t).status = thread_status.THREAD_BLOCKED ∧
    k1 = set_thread
      { k with ready_list := list_insert_ordered (cmp_priority k) k.ready_list t } t
      { k.threads t with status := thread_status.THREAD_READY } := by
  unfold thread_unblock at h
  split at h
  · exact absurd h (by simp)
  · split at h
    · exact absurd h (by simp)
    · next h1 h2 =>
      simp only [Except.ok.injEq] at h
      exact ⟨by simpa using h1, by simpa using h2, h.symm⟩

/-- The memory after `schedule` has picked `next`: `next` is marked running,
the time slice restarts, a dying thread that is left is queued for
destruction, and `next` is the running thread. -/
theorem schedule_cons (k : Kernel) (next : Nat) (rest : List Nat)
    (hr : k.ready_list = next :: rest)
    (hs : (k.threads k.current).status ≠ thread_status.THREAD_RUNNING)
    (hn : is_thread k next = true) :
    ∃ k1, schedule k = Except.ok k1 ∧ k1.ready_list = rest ∧ k1.current = next ∧
      k1.threads = Function.update k.threads next
        { k.threads next with status := thread_status.THREAD_RUNNING } := by
  unfold schedule next_thread_to_run
  rw [hr]
  dsimp only
  rw [if_neg hs]
  have hn1 : is_thread { k with ready_list := rest } next = true := hn
  rw [if_neg (by simp [hn1])]
  by_cases hc : k.current = next
  · rw [if_neg (by simp [hc])]
    exact ⟨_, rfl, rfl, hc, rfl⟩
  · rw [if_pos hc]
    refine ⟨_, rfl, ?_, rfl, ?_⟩
    · simp only [set_thread]
      split <;> rfl
    · simp only [set_thread]
      split <;> rfl

/-- What `schedule` does when it returns: it takes `next` from the head of the
ready list (or the idle thread when the list is empty), marks it running and
makes it the running thread. -/
theorem schedule_eq (k k1 : Kernel) (h : schedule k = Except.ok k1) :
    ∃ next rest,
      (k.ready_list = next :: rest ∨
        (k.ready_list = [] ∧ rest = [] ∧ k.idle_thread = some next)) ∧
      (k.threads k.current).status ≠ thread_status.THREAD_RUNNING ∧
      is_thread k next = true ∧
      k1 = { k with
        ready_list := rest
        threads := Function.update k.threads next
          { k.threads next with status := thread_status.THREAD_RUNNING }
        thread_ticks := 0
        current := next
        destruction_req := k1.destruction_req } := by
  unfold schedule next_thread_to_run at h
  cases hr : k.ready_list with
  | nil =>
    rw [hr] at h
    dsimp only at h
    split at h
    · exact absurd h (by simp)
    · next hs =>
      cases hi : k.idle_thread with
      | none =>
        rw [hi] at h
        exact absurd h (by simp)
      | some next =>
        rw [hi] at h
        dsimp only at h
        split at h
        · exact absurd h (by simp)
        · next hn =>
          refine ⟨next, [], Or.inr ⟨rfl, rfl, rfl⟩, hs, by simpa using hn, ?_⟩
          split at h
          · simp only [Except.ok.injEq] at h
            rw [← h]
            simp only [set_thread]
            split <;> simp [hr, hi]
          · simp only [Except.ok.injEq] at h
            next hc =>
            have hc : k.current = next := by simpa using hc
            rw [← h]
            simp [set_thread, hr, hc, hi]
  | cons next rest =>
    rw [hr] at h
    dsimp only at h
    split at h
    · exact absurd h (by simp)
    · next hs =>
      split at h
      · exact absurd h (by simp)
      · next hn =>
        refine ⟨next, rest, Or.inl rfl, hs, by simpa [is_thread] using hn, ?_⟩
        split at h
        · simp only [Except.ok.injEq] at h
          rw [← h]
          simp only [set_thread]
          split <;> rfl
        · simp only [Except.ok.injEq] at h
          next hc =>
          have hc : k.current = next := by simpa using hc
          rw [← h]
          simp [set_thread, hc]

theorem thread_wakeup_ready_list (k : Kernel) (t : Nat) (rest : List Nat)
    (h : k.sleep_list = t :: rest) :
    (thread_wakeup k).ready_list = list_insert_ordered (cmp_priority k) k.ready_list t := by
  unfold thread_wakeup
  rw [h]
  cases rest <;> rfl

theorem thread_yield_run (k : Kernel)
    (h1 : is_thread k k.current = true)
    (h2 : (k.threads k.current).status = thread_status.THREAD_RUNNING)
    (h3 : k.intr_context = false) :
    thread_yield k = schedule (set_thread
      (if some k.current ≠ k.idle_thread then { k with
        ready_list := list_insert_ordered (cmp_priority k) k.ready_list k.current } else k)
      k.current
      { k.threads k.current with status := thread_status.THREAD_READY }) := by
  unfold thread_yield
  rw [thread_current_ok k h1 h2]
  simp only [bind, Except.bind]
  rw [if_neg (by simp [h3])]
  split <;> rfl

theorem thread_yield_ok (k : Kernel) (next : Nat) (rest : List Nat)
    (h1 : is_thread k k.current = true)
    (h2 : (k.threads k.current).status = thread_status.THREAD_RUNNING)
    (h3 : k.intr_context = false) (h4 : k.idle_thread ≠ some k.current)
    (h5 : list_insert_ordered (cmp_priority k) k.ready_list k.current = next :: rest)
    (h6 : is_thread k next = true) :
    ∃ k1, thread_yield k = Except.ok k1 ∧ k1.ready_list = rest ∧ k1.current = next := by
  rw [thread_yield_run k h1 h2 h3, if_pos (Ne.symm h4)]
  obtain ⟨k1, g1, g2, g3, _⟩ := schedule_cons
    (set_thread { k with
        ready_list := list_insert_ordered (cmp_priority k) k.ready_list k.current } k.current
      { k.threads k.current with status := thread_status.THREAD_READY }) next rest h5
    (by simp [set_thread])
    (by
      simp only [is_thread, set_thread, Function.update_apply]
      split
      · next h => rw [h] at h6; exact h6
      · exact h6)
  exact ⟨k1, g1, g2, g3⟩

/-- C5. A thread `t` that enters a ready list ordered by non-increasing
priority lands behind every entry whose priority is at least its own and before
every entry with a lower priority, the entries already present keeping their
order: this is where `thread_unblock`, `thread_wakeup` and `thread_yield` put
it (after which `thread_yield` lets `schedule` take the head). -/
theorem ready_insert_position (k : Kernel) (t : Nat)
    (hs : k.ready_list.Pairwise (fun a b => (k.threads b).priority ≤ (k.threads a).priority)) :
    ∃ l1 l2, k.ready_list = l1 ++ l2 ∧
      (∀ x ∈ l1, (k.threads t).priority ≤ (k.threads x).priority) ∧
      (∀ y ∈ l2, (k.threads y).priority < (k.threads t).priority) ∧
      (is_thread k t = true → (k.threads t).status = thread_status.THREAD_BLOCKED →
        ∃ k1, thread_unblock k t = Except.ok k1 ∧ k1.ready_list = l1 ++ t :: l2) ∧
      (∀ rest, k.sleep_list = t :: rest → (thread_wakeup k).ready_list = l1 ++ t :: l2) ∧
      (k.current = t → is_thread k t = true →
        (k.threads t).status = thread_status.THREAD_RUNNING → k.intr_context = false →
        k.idle_thread ≠ some t → (∀ x ∈ k.ready_list, is_thread k x = true) →
        ∃ k1, thread_yield k = Except.ok k1 ∧ k1.current :: k1.ready_list = l1 ++ t :: l2) := by
  obtain ⟨l1, l2, h1, h2, h3, h4⟩ := list_insert_ordered_position
    (fun x => (k.threads x).priority) (cmp_priority k) (cmp_priority_key k) k.ready_list t hs
  refine ⟨l1, l2, h1, h2, h3, ?_, ?_, ?_⟩
  · intro g1 g2
    exact ⟨_, thread_unblock_ok k t g1 g2, h4⟩
  · intro rest hrest
    rw [thread_wakeup_ready_list k t rest hrest, h4]
  · intro hc g1 g2 g3 g4 g5
    subst hc
    have hne : l1 ++ k.current :: l2 ≠ [] := by simp
    obtain ⟨next, rest, hnr⟩ := List.exists_cons_of_ne_nil hne
    have hmem : next ∈ l1 ++ k.current :: l2 := by rw [hnr]; simp
    have hnt : is_thread k next = true := by
      rcases List.mem_append.mp hmem with hm | hm
      · exact g5 next (by rw [h1]; exact List.mem_append.mpr (Or.inl hm))
      · rcases List.mem_cons.mp hm with hm | hm
        · rw [hm]; exact g1
        · exact g5 next (by rw [h1]; exact List.mem_append.mpr (Or.inr hm))
    obtain ⟨k1, e1, e2, e3⟩ := thread_yield_ok k next rest g1 g2 g3 g4 (by rw [h4, hnr]) hnt
    exact ⟨k1, e1, by rw [e2, e3, hnr]⟩

theorem ready_insert_position_witness :
    ready_memory.ready_list.Pairwise
        (fun a b => (ready_memory.threads b).priority ≤ (ready_memory.threads a).priority) ∧
      (∃ k1, thread_unblock ready_memory 4 = Except.ok k1 ∧ k1.ready_list = [3, 2, 4, 1]) ∧
      (thread_wakeup ready_memory).ready_list = [3, 2, 4, 1] ∧
      (∃ k1, thread_yield ready_memory = Except.ok k1 ∧
        k1.current :: k1.ready_list = [3, 2, 0, 1]) := by
  have hs : ready_memory.ready_list.Pairwise
      (fun a b => (ready_memory.threads b).priority ≤ (ready_memory.threads a).priority) := by
    decide
  have key : ∀ t, (ready_memory.threads t).priority = 20 → ∀ l1 l2 : List Nat,
      ready_memory.ready_list = l1 ++ l2 →
      (∀ x ∈ l1, (ready_memory.threads t).priority ≤ (ready_memory.threads x).priority) →
      (∀ y ∈ l2, (ready_memory.threads y).priority < (ready_memory.threads t).priority) →
      l1 ++ t :: l2 = [3, 2, t, 1] := by
    intro t ht l1 l2 h1 h2 h3
    rw [ht] at h2 h3
    have hl : ready_memory.ready_list = [3, 2, 1] := rfl
    rw [hl] at h1
    match l1, l2, h1, h2, h3 with
    | [], _, h1, _, h3 =>
      simp only [List.nil_append] at h1
      subst h1
      exact absurd (h3 3 (by simp)) (by decide)
    | [a], _, h1, _, h3 =>
      simp only [List.cons_append, List.nil_append, List.cons.injEq] at h1
      obtain ⟨_, h1⟩ := h1
      subst h1
      exact absurd (h3 2 (by simp)) (by decide)
    | [a, b], _, h1, _, _ =>
      simp only [List.cons_append, List.nil_append, List.cons.injEq] at h1
      obtain ⟨ha, hb, h1⟩ := h1
      subst ha hb h1
      rfl
    | [a, b, c], _, h1, h2, _ =>
      simp only [List.cons_append, List.nil_append, List.cons.injEq] at h1
      obtain ⟨_, _, hc, _⟩ := h1
      subst hc
      exact absurd (h2 1 (by simp)) (by decide)
    | a :: b :: c :: d :: l, _, h1, _, _ =>
      simp at h1
  obtain ⟨l1, l2, h1, h2, h3, h4, h5, _⟩ := ready_insert_position ready_memory 4 hs
  obtain ⟨m1, m2, g1, g2, g3, _, _, g6⟩ := ready_insert_position ready_memory 0 hs
  refine ⟨hs, ?_, ?_, ?_⟩
  · obtain ⟨k1, e1, e2⟩ := h4 rfl rfl
    exact ⟨k1, e1, by rw [e2]; exact key 4 rfl l1 l2 h1 h2 h3⟩
  · rw [h5 [] rfl]
    exact key 4 rfl l1 l2 h1 h2 h3
  · obtain ⟨k1, e1, e2⟩ := g6 rfl rfl rfl rfl (by decide) (by decide)
    exact ⟨k1, e1, by rw [e2]; exact key 0 rfl m1 m2 g1 g2 g3⟩

theorem thread_yield_eq (k k1 : Kernel) (h : thread_yield k = Except.ok k1) :
    is_thread k k.current = true ∧
    (k.threads k.current).status = thread_status.THREAD_RUNNING ∧
    k.intr_context = false ∧
    schedule (set_thread
      (if some k.current ≠ k.idle_thread then { k with
        ready_list := list_insert_ordered (cmp_priority k) k.ready_list k.current } else k)
      k.current
      { k.threads k.current with status := thread_status.THREAD_READY }) = Except.ok k1 := by
  cases hc : thread_current k with
  | error f =>
    unfold thread_yield at h
    rw [hc] at h
    exact absurd h (by simp [bind, Except.bind])
  | ok c =>
    obtain ⟨_, h1, h2⟩ := thread_current_eq k c hc
    by_cases h3 : k.intr_context = true
    · unfold thread_yield at h
      rw [thread_current_ok k h1 h2] at h
      simp only [bind, Except.bind] at h
      rw [if_pos h3] at h
      exact absurd h (by simp)
    · have h3 : k.intr_context = false := by simpa using h3
      rw [thread_yield_run k h1 h2 h3] at h
      exact ⟨h1, h2, h3, h⟩

theorem test_max_priority_eq (k k1 : Kernel) (h : test_max_priority k = Except.ok k1) :
    k1 = k ∨ (k.ready_list ≠ [] ∧ thread_yield k = Except.ok k1) := by
  unfold test_max_priority at h
  cases hr : k.ready_list with
  | nil =>
    rw [hr] at h
    simp only [Except.ok.injEq] at h
    exact Or.inl h.symm
  | cons front rest =>
    rw [hr] at h
    simp only [bind, Except.bind] at h
    cases hc : thread_current k with
    | error f =>
      rw [hc] at h
      exact absurd h (by simp)
    | ok c =>
      rw [hc] at h
      simp only at h
      split at h
      · exact Or.inr ⟨by simp, h⟩
      · simp only [Except.ok.injEq] at h
        exact Or.inl h.symm

theorem list_sort_head_max {α : Type} (f : α → Int) (less : α → α → Bool)
    (hless : ∀ a b, less a b = decide (f b < f a)) (l : List α) (t : α) (rest : List α)
    (h : list_sort less l = t :: rest) :
    t ∈ l ∧ (∀ w ∈ l, f w ≤ f t) ∧ (t :: rest).Perm l := by
  have hp : (t :: rest).Perm l := by rw [← h]; exact list_sort_perm less l
  have hs := list_sort_sorted f less hless l
  rw [h, List.pairwise_cons] at hs
  refine ⟨hp.subset (by simp), ?_, hp⟩
  intro w hw
  rcases List.mem_cons.mp (hp.symm.subset hw) with rfl | hw
  · exact le_refl _
  · exact hs.1 w hw

theorem list_sort_ne_nil {α : Type} (less : α → α → Bool) (l : List α) (h : l ≠ []) :
    list_sort less l ≠ [] := by
  intro hn
  have := (list_sort_perm less l).length_eq
  rw [hn] at this
  exact h (List.length_eq_zero.mp this.symm)

theorem sema_up_wake_cons (k : Kernel) (s : sema_ref) (t : Nat) (rest : List Nat)
    (hsort : list_sort (cmp_priority k) (get_sema k s).waiters = t :: rest)
    (h1 : is_thread k t = true) (h2 : (k.threads t).status = thread_status.THREAD_BLOCKED) :
    sema_up_wake k s = Except.ok
      { k with
        semas := put_semas k.semas s
          { value := ((get_sema k s).value + 1) % UINT_MOD, waiters := rest }
        locks := put_locks k.locks s
          { value := ((get_sema k s).value + 1) % UINT_MOD, waiters := rest }
        ready_list := list_insert_ordered (cmp_priority k) k.ready_list t
        threads := Function.update k.threads t
          { k.threads t with status := thread_status.THREAD_READY } } := by
  unfold sema_up_wake
  simp only [hsort]
  rw [thread_unblock_ok (set_sema k s { get_sema k s with waiters := rest }) t h1 h2]
  simp only [bind, Except.bind, Except.ok.injEq]
  cases s with
  | standalone a =>
    simp [set_sema, set_thread, get_sema, put_semas, put_locks, sema_at]
    rfl
  | of_lock l =>
    simp [set_sema, set_thread, get_sema, put_semas, put_locks, sema_at]
    rfl

theorem schedule_keeps_semas (k k1 : Kernel) (h : schedule k = Except.ok k1) (s : sema_ref) :
    get_sema k1 s = get_sema k s := by
  obtain ⟨next, rest, _, _, _, h4⟩ := schedule_eq k k1 h
  rw [h4]
  rfl

theorem thread_yield_keeps_semas (k k1 : Kernel) (h : thread_yield k = Except.ok k1)
    (s : sema_ref) : get_sema k1 s = get_sema k s := by
  obtain ⟨_, _, _, h4⟩ := thread_yield_eq k k1 h
  rw [schedule_keeps_semas _ k1 h4 s]
  simp only [get_sema, set_thread]
  split <;> rfl

theorem test_max_priority_keeps_semas (k k1 : Kernel) (h : test_max_priority k = Except.ok k1)
    (s : sema_ref) : get_sema k1 s = get_sema k s := by
  rcases test_max_priority_eq k k1 h with h | ⟨_, h⟩
  · rw [h]
  · exact thread_yield_keeps_semas k k1 h s

/-- After `thread_yield`, a thread that was in the ready list is still in it or
is the running thread. -/
theorem thread_yield_keeps_ready (k k1 : Kernel) (h : thread_yield k = Except.ok k1) (t : Nat)
    (ht : t ∈ k.ready_list) : t ∈ k1.ready_list ∨ k1.current = t := by
  obtain ⟨_, _, _, h4⟩ := thread_yield_eq k k1 h
  obtain ⟨next, rest, h5, _, _, h6⟩ := schedule_eq _ k1 h4
  have hmem : t ∈ (set_thread
      (if some k.current ≠ k.idle_thread then { k with
        ready_list := list_insert_ordered (cmp_priority k) k.ready_list k.current } else k)
      k.current
      { k.threads k.current with status := thread_status.THREAD_READY }).ready_list := by
    simp only [set_thread]
    split
    · exact (mem_list_insert_ordered _ _ _ _).mpr (Or.inr ht)
    · exact ht
  have e1 : k1.ready_list = rest := by rw [h6]
  have e2 : k1.current = next := by rw [h6]
  rcases h5 with h5 | ⟨h5, _, _⟩
  · rw [h5] at hmem
    rcases List.mem_cons.mp hmem with hm | hm
    · exact Or.inr (by rw [e2, hm])
    · exact Or.inl (by rw [e1]; exact hm)
  · rw [h5] at hmem
    exact absurd hmem (by simp)

/-- C8. `sema_up` on a semaphore with waiting threads (each a blocked thread)
takes out of the wait queue a waiter `t` whose priority, as it is when
`sema_up` runs, is the highest among the waiters, and moves exactly that thread
to the ready list: before the preemption check `t` is ready and in the ready
list at its priority position, every other thread page is untouched and the
other waiters stay queued; when `sema_up` returns `t` is in the ready list or
is the running thread. -/
theorem sema_up_wakes_highest (k : Kernel) (s : sema_ref)
    (hne : (get_sema k s).waiters ≠ [])
    (hw : ∀ w ∈ (get_sema k s).waiters,
      is_thread k w = true ∧ (k.threads w).status = thread_status.THREAD_BLOCKED) :
    ∃ t rest k1,
      t ∈ (get_sema k s).waiters ∧
      (∀ w ∈ (get_sema k s).waiters, (k.threads w).priority ≤ (k.threads t).priority) ∧
      (t :: rest).Perm (get_sema k s).waiters ∧
      sema_up_wake k s = Except.ok k1 ∧
      sema_up k s = test_max_priority k1 ∧
      (get_sema k1 s).waiters = rest ∧
      (get_sema k1 s).value = ((get_sema k s).value + 1) % UINT_MOD ∧
      k1.ready_list = list_insert_ordered (cmp_priority k) k.ready_list t ∧
      (k1.threads t).status = thread_status.THREAD_READY ∧
      (∀ u, u ≠ t → k1.threads u = k.threads u) ∧
      (∀ k2, sema_up k s = Except.ok k2 →
        (get_sema k2 s).waiters = rest ∧ (t ∈ k2.ready_list ∨ k2.current = t)) := by
  obtain ⟨t, rest, hsort⟩ := List.exists_cons_of_ne_nil
    (list_sort_ne_nil (cmp_priority k) _ hne)
  obtain ⟨hmem, hmax, hperm⟩ := list_sort_head_max (fun x => (k.threads x).priority)
    (cmp_priority k) (cmp_priority_key k) _ t rest hsort
  obtain ⟨k1, hk1, hdef⟩ : ∃ k1, sema_up_wake k s = Except.ok k1 ∧ k1 = { k with
        semas := put_semas k.semas s
          { value := ((get_sema k s).value + 1) % UINT_MOD, waiters := rest }
        locks := put_locks k.locks s
          { value := ((get_sema k s).value + 1) % UINT_MOD, waiters := rest }
        ready_list := list_insert_ordered (cmp_priority k) k.ready_list t
        threads := Function.update k.threads t
          { k.threads t with status := thread_status.THREAD_READY } } :=
    ⟨_, sema_up_wake_cons k s t rest hsort (hw t hmem).1 (hw t hmem).2, rfl⟩
  have hup : sema_up k s = test_max_priority k1 := by
    unfold sema_up
    rw [hk1]
    rfl
  have hwait : get_sema k1 s =
      { value := ((get_sema k s).value + 1) % UINT_MOD, waiters := rest } := by
    rw [hdef]
    simp [get_sema]
  have hready : k1.ready_list = list_insert_ordered (cmp_priority k) k.ready_list t := by
    rw [hdef]
  have hthreads : k1.threads = Function.update k.threads t
      { k.threads t with status := thread_status.THREAD_READY } := by
    rw [hdef]
  refine ⟨t, rest, k1, hmem, hmax, hperm, hk1, hup, by rw [hwait], by rw [hwait], hready,
    by simp [hthreads], ?_, ?_⟩
  · intro u hu
    simp [hthreads, Function.update_apply, hu]
  · intro k2 h2
    rw [hup] at h2
    have ht : t ∈ k1.ready_list := by
      rw [hready]
      exact (mem_list_insert_ordered _ _ _ _).mpr (Or.inl rfl)
    refine ⟨by rw [test_max_priority_keeps_semas _ k2 h2 s, hwait], ?_⟩
    rcases test_max_priority_eq _ k2 h2 with h | ⟨_, h⟩
    · rw [h]
      exact Or.inl ht
    · exact thread_yield_keeps_ready _ k2 h t ht

theorem sema_up_wakes_highest_witness :
    (get_sema waiters_memory (sema_ref.standalone 0)).waiters = [1, 2, 3] ∧
    (∃ k1, sema_up_wake waiters_memory (sema_ref.standalone 0) = Except.ok k1 ∧
      (get_sema k1 (sema_ref.standalone 0)).waiters = [3, 1] ∧ k1.ready_list = [2] ∧
      (k1.threads 2).status = thread_status.THREAD_READY) ∧
    (∃ k2, sema_up waiters_memory (sema_ref.standalone 0) = Except.ok k2 ∧ k2.current = 2) := by
  obtain ⟨t, rest, k1, hmem, hmax, _, hk1, hup, _, _, _, hst, _, hfin⟩ :=
    sema_up_wakes_highest waiters_memory (sema_ref.standalone 0) (by decide) (by decide)
  have ht : t = 2 := by
    have h2 := hmax 2 (by decide)
    have hm : t = 1 ∨ t = 2 ∨ t = 3 := by
      have : t ∈ [1, 2, 3] := hmem
      simpa using this
    rcases hm with h | h | h
    · rw [h] at h2; exact absurd h2 (by decide)
    · exact h
    · rw [h] at h2; exact absurd h2 (by decide)
  subst ht
  obtain ⟨k1a, e1, e2⟩ := exists_of_ends_with
    (sema_up_wake waiters_memory (sema_ref.standalone 0))
    (fun k => decide ((get_sema k (sema_ref.standalone 0)).waiters = [3, 1] ∧
      k.ready_list = [2])) (by decide!)
  have hk : k1 = k1a := by
    rw [hk1] at e1
    exact Except.ok.inj e1
  subst hk
  obtain ⟨k2, f1, f2⟩ := exists_of_ends_with
    (sema_up waiters_memory (sema_ref.standalone 0))
    (fun k => decide (k.current = 2)) (by decide!)
  exact ⟨rfl, ⟨k1, hk1, (of_decide_eq_true e2).1, (of_decide_eq_true e2).2, hst⟩,
    ⟨k2, f1, of_decide_eq_true f2⟩⟩

/-! ## Semaphores -/

theorem uint_decrement (v : Nat) (h0 : 0 < v) (hv : v < UINT_MOD) :
    (v + UINT_MOD - 1) % UINT_MOD + 1 = v := by
  simp only [UINT_MOD] at *
  omega

theorem get_sema_set_sema (k : Kernel) (s s1 : sema_ref) (v : semaphore) :
    get_sema (set_sema k s v) s1 = if s1 = s then v else get_sema k s1 := by
  simp [get_sema, set_sema]

theorem thread_block_eq (k k1 : Kernel) (h : thread_block k = Except.ok k1) :
    k.intr_context = false ∧ is_thread k k.current = true ∧
    (k.threads k.current).status = thread_status.THREAD_RUNNING ∧
    schedule (set_thread k k.current
      { k.threads k.current with status := thread_status.THREAD_BLOCKED }) = Except.ok k1 := by
  unfold thread_block at h
  by_cases h3 : k.intr_context = true
  · rw [if_pos h3] at h
    exact absurd h (by simp)
  · rw [if_neg h3] at h
    cases hc : thread_current k with
    | error f =>
      rw [hc] at h
      exact absurd h (by simp [bind, Except.bind])
    | ok c =>
      obtain ⟨hcc, h1, h2⟩ := thread_current_eq k c hc
      rw [hc] at h
      subst hcc
      exact ⟨by simpa using h3, h1, h2, h⟩

/-- The value `sema_try_down` returns and the memory it leaves. -/
theorem sema_try_down_eq (k : Kernel) (s : sema_ref) :
    (0 < (get_sema k s).value → sema_try_down k s =
      (set_sema k s { get_sema k s with
        value := ((get_sema k s).value + UINT_MOD - 1) % UINT_MOD }, true)) ∧
    ((get_sema k s).value = 0 → sema_try_down k s = (k, false)) := by
  unfold sema_try_down
  constructor
  · intro h
    rw [if_pos h]
  · intro h
    rw [if_neg (by omega)]

/-- C11. `sema_try_down` does not block (it is a total function that leaves
the running thread, the thread pages, the ready list and what each thread has
still to execute as they are) and returns true exactly when the counter was
positive on entry; when it returns true the counter is one lower and the wait
queue is the same, when it returns false the memory is unchanged. -/
theorem sema_try_down_result (k : Kernel) (s : sema_ref)
    (hv : (get_sema k s).value < UINT_MOD) :
    ((sema_try_down k s).2 = true ↔ 0 < (get_sema k s).value) ∧
    ((sema_try_down k s).2 = true →
      (get_sema (sema_try_down k s).1 s).value + 1 = (get_sema k s).value ∧
      (get_sema (sema_try_down k s).1 s).waiters = (get_sema k s).waiters) ∧
    ((sema_try_down k s).2 = false → (sema_try_down k s).1 = k) ∧
    (sema_try_down k s).1.current = k.current ∧
    (sema_try_down k s).1.threads = k.threads ∧
    (sema_try_down k s).1.ready_list = k.ready_list ∧
    (sema_try_down k s).1.pending = k.pending := by
  by_cases h : 0 < (get_sema k s).value
  · rw [(sema_try_down_eq k s).1 h]
    refine ⟨by simp [h], ?_, by simp, rfl, rfl, rfl, rfl⟩
    intro _
    simp only [get_sema_set_sema, if_true]
    exact ⟨uint_decrement _ h hv, trivial⟩
  · have h0 : (get_sema k s).value = 0 := by omega
    rw [(sema_try_down_eq k s).2 h0]
    exact ⟨by simp [h0], by simp, fun _ => rfl, rfl, rfl, rfl, rfl⟩

theorem sema_try_down_result_witness :
    (get_sema waiters_memory (sema_ref.standalone 0)).value < UINT_MOD ∧
    (sema_try_down waiters_memory (sema_ref.standalone 0)).2 = false ∧
    (sema_try_down waiters_memory (sema_ref.standalone 0)).1 = waiters_memory ∧
    (get_sema (sema_init waiters_memory (sema_ref.standalone 7) 3) (sema_ref.standalone 7)).value
      < UINT_MOD ∧
    (get_sema (sema_try_down (sema_init waiters_memory (sema_ref.standalone 7) 3)
      (sema_ref.standalone 7)).1 (sema_ref.standalone 7)).value + 1 = 3 := by
  have hv1 : (get_sema waiters_memory (sema_ref.standalone 0)).value < UINT_MOD := by decide
  have hv2 : (get_sema (sema_init waiters_memory (sema_ref.standalone 7) 3)
      (sema_ref.standalone 7)).value < UINT_MOD := by decide
  have h1 := sema_try_down_result waiters_memory (sema_ref.standalone 0) hv1
  have h2 := sema_try_down_result (sema_init waiters_memory (sema_ref.standalone 7) 3)
    (sema_ref.standalone 7) hv2
  have hf : (sema_try_down waiters_memory (sema_ref.standalone 0)).2 = false := by decide
  have ht : (sema_try_down (sema_init waiters_memory (sema_ref.standalone 7) 3)
      (sema_ref.standalone 7)).2 = true := by decide
  exact ⟨hv1, hf, h1.2.2.1 hf, hv2, (h2.2.1 ht).1⟩

theorem sema_down_loop_pos (k : Kernel) (s : sema_ref) (rest : List Instr)
    (h : 0 < (get_sema k s).value) :
    sema_down_loop k s rest = Except.ok (set_sema k s { get_sema k s with
      value := ((get_sema k s).value + UINT_MOD - 1) % UINT_MOD }) := by
  unfold sema_down_loop
  rw [if_neg (by omega)]

/-- What `sema_down_loop` does at value 0 when it returns: the running thread
is put into the wait queue with the loop still to execute, then blocks. -/
theorem sema_down_loop_zero (k k1 : Kernel) (s : sema_ref) (rest : List Instr)
    (h : (get_sema k s).value = 0) (h1 : sema_down_loop k s rest = Except.ok k1) :
    thread_block (set_pending (set_sema k s { get_sema k s with
        waiters := list_insert_ordered (cmp_sema_priority k) (get_sema k s).waiters k.current })
      k.current (Instr.sema_down_loop s :: rest)) = Except.ok k1 := by
  unfold sema_down_loop at h1
  rw [if_pos h] at h1
  cases hc : thread_current k with
  | error f =>
    rw [hc] at h1
    exact absurd h1 (by simp [bind, Except.bind])
  | ok c =>
    obtain ⟨hcc, _, _⟩ := thread_current_eq k c hc
    rw [hc] at h1
    subst hcc
    exact h1

theorem sema_up_wake_value (k k1 : Kernel) (s : sema_ref)
    (h : sema_up_wake k s = Except.ok k1) :
    (get_sema k1 s).value = ((get_sema k s).value + 1) % UINT_MOD := by
  unfold sema_up_wake at h
  dsimp only at h
  cases hsort : list_sort (cmp_priority k) (get_sema k s).waiters with
  | nil =>
    rw [hsort] at h
    simp only [Except.ok.injEq] at h
    rw [← h]
    simp [get_sema_set_sema]
  | cons t rest =>
    rw [hsort] at h
    dsimp only at h
    cases hu : thread_unblock
        (set_sema k s { value := (get_sema k s).value, waiters := rest }) t with
    | error f =>
      rw [hu] at h
      exact absurd h (by simp [bind, Except.bind])
    | ok k2 =>
      rw [hu] at h
      simp only [bind, Except.bind, Except.ok.injEq] at h
      obtain ⟨_, _, h2⟩ := thread_unblock_eq _ k2 t hu
      rw [← h]
      simp only [get_sema_set_sema, if_true]
      rw [h2]
      simp [get_sema, set_sema, set_thread]

/-- C10. On a semaphore whose counter is an `unsigned` value: `sema_try_down`
and `sema_down` decrement only a positive counter, by exactly one, so the
counter never passes below zero and the unsigned value does not wrap.
`sema_down` completes exactly from a positive counter, leaving it one lower;
at counter 0 it does not complete: when it returns control the counter is still
0, the caller is in the wait queue and the loop of `sema_down` is still to be
executed by it.  `sema_up` adds one, and every one of the three leaves an
`unsigned` value. -/
theorem sema_counter_never_negative (k : Kernel) (s : sema_ref) (rest : List Instr)
    (hv : (get_sema k s).value < UINT_MOD) :
    (0 < (get_sema k s).value →
      (∃ k1, sema_down_loop k s rest = Except.ok k1 ∧
        (get_sema k1 s).value + 1 = (get_sema k s).value ∧
        k1.current = k.current ∧ k1.pending = k.pending ∧ k1.threads = k.threads) ∧
      (get_sema (sema_try_down k s).1 s).value + 1 = (get_sema k s).value) ∧
    ((get_sema k s).value = 0 →
      (∀ k1, sema_down_loop k s rest = Except.ok k1 →
        (get_sema k1 s).value = 0 ∧ k.current ∈ (get_sema k1 s).waiters ∧
        k1.pending k.current = Instr.sema_down_loop s :: rest) ∧
      (sema_try_down k s).1 = k) ∧
    (∀ k1, sema_up k s = Except.ok k1 →
      (get_sema k1 s).value = ((get_sema k s).value + 1) % UINT_MOD) ∧
    (get_sema (sema_try_down k s).1 s).value < UINT_MOD ∧
    (∀ k1, sema_down_loop k s rest = Except.ok k1 → (get_sema k1 s).value < UINT_MOD) ∧
    (∀ k1, sema_up k s = Except.ok k1 → (get_sema k1 s).value < UINT_MOD) := by
  have hup : ∀ k1, sema_up k s = Except.ok k1 →
      (get_sema k1 s).value = ((get_sema k s).value + 1) % UINT_MOD := by
    intro k1 h
    unfold sema_up at h
    cases hw : sema_up_wake k s with
    | error f =>
      rw [hw] at h
      exact absurd h (by simp [bind, Except.bind])
    | ok k2 =>
      rw [hw] at h
      have h : test_max_priority k2 = Except.ok k1 := h
      rw [test_max_priority_keeps_semas k2 k1 h s]
      exact sema_up_wake_value k k2 s hw
  have hzero : (get_sema k s).value = 0 →
      ∀ k1, sema_down_loop k s rest = Except.ok k1 →
        (get_sema k1 s).value = 0 ∧ k.current ∈ (get_sema k1 s).waiters ∧
        k1.pending k.current = Instr.sema_down_loop s :: rest := by
    intro h0 k1 h
    have hb := sema_down_loop_zero k k1 s rest h0 h
    obtain ⟨_, _, _, hs⟩ := thread_block_eq _ k1 hb
    obtain ⟨next, r, _, _, _, hk1⟩ := schedule_eq _ k1 hs
    have e1 : get_sema k1 s = { get_sema k s with
        waiters := list_insert_ordered (cmp_sema_priority k) (get_sema k s).waiters
          k.current } := by
      rw [hk1]
      simp [get_sema, set_sema, set_thread, set_pending]
    have e2 : k1.pending k.current = Instr.sema_down_loop s :: rest := by
      rw [hk1]
      simp [set_sema, set_thread, set_pending]
    rw [e1]
    exact ⟨h0, (mem_list_insert_ordered _ _ _ _).mpr (Or.inl rfl), e2⟩
  refine ⟨?_, ?_, hup, ?_, ?_, ?_⟩
  · intro h
    refine ⟨⟨_, sema_down_loop_pos k s rest h, ?_, rfl, rfl, rfl⟩, ?_⟩
    · simp only [get_sema_set_sema, if_true]
      exact uint_decrement _ h hv
    · rw [(sema_try_down_eq k s).1 h]
      simp only [get_sema_set_sema, if_true]
      exact uint_decrement _ h hv
  · intro h
    exact ⟨hzero h, by rw [(sema_try_down_eq k s).2 h]⟩
  · by_cases h : 0 < (get_sema k s).value
    · rw [(sema_try_down_eq k s).1 h]
      simp only [get_sema_set_sema, if_true]
      exact Nat.mod_lt _ (by decide)
    · rw [(sema_try_down_eq k s).2 (by omega)]
      exact hv
  · intro k1 h
    by_cases h0 : 0 < (get_sema k s).value
    · rw [sema_down_loop_pos k s rest h0] at h
      simp only [Except.ok.injEq] at h
      rw [← h]
      simp only [get_sema_set_sema, if_true]
      exact Nat.mod_lt _ (by decide)
    · rw [(hzero (by omega) k1 h).1]
      decide
  · intro k1 h
    rw [hup k1 h]
    exact Nat.mod_lt _ (by decide)

theorem sema_counter_never_negative_witness :
    (get_sema (sema_init waiters_memory (sema_ref.standalone 7) 3)
      (sema_ref.standalone 7)).value < UINT_MOD ∧
    (∃ k1, sema_down_loop (sema_init waiters_memory (sema_ref.standalone 7) 3)
        (sema_ref.standalone 7) [] = Except.ok k1 ∧
      (get_sema k1 (sema_ref.standalone 7)).value + 1 = 3) ∧
    (get_sema waiters_memory (sema_ref.standalone 0)).value < UINT_MOD ∧
    (sema_try_down waiters_memory (sema_ref.standalone 0)).1 = waiters_memory := by
  have hv1 : (get_sema (sema_init waiters_memory (sema_ref.standalone 7) 3)
      (sema_ref.standalone 7)).value < UINT_MOD := by decide
  have hv2 : (get_sema waiters_memory (sema_ref.standalone 0)).value < UINT_MOD := by decide
  have h1 := sema_counter_never_negative (sema_init waiters_memory (sema_ref.standalone 7) 3)
    (sema_ref.standalone 7) [] hv1
  have h2 := sema_counter_never_negative waiters_memory (sema_ref.standalone 0) [] hv2
  obtain ⟨k1, e1, e2, _⟩ := (h1.1 (by decide)).1
  exact ⟨hv1, ⟨k1, e1, e2⟩, hv2, (h2.2.1 (by decide)).2⟩

/-- C14. After `thread_set_priority (5)` by `main`, `thread_get_priority`
returns 5 while the base priority `original_priority` is still 31 and there
is no donor; after a following `lock_acquire` and `lock_release` the priority
of `main` is 31 again. -/
theorem set_priority_base_not_updated :
    (∃ k, Reachable k ∧ quiescent k ∧ k.current = 0 ∧
      thread_get_priority k = Except.ok 5 ∧ (k.threads 0).original_priority = 31 ∧
      (k.threads 0).donations = []) ∧
    (∃ k, Reachable k ∧ quiescent k ∧ k.current = 0 ∧
      (k.threads 0).priority = 31 ∧ (k.threads 0).original_priority = 31) := by
  constructor
  · obtain ⟨k, hk, hp⟩ := exists_of_ends_with (outcome false zero_view 0 set_priority_scenario)
      (fun k => decide (quiescent k ∧ k.current = 0 ∧ is_thread k k.current = true ∧
        (k.threads k.current).status = thread_status.THREAD_RUNNING ∧
        (k.threads k.current).priority = 5 ∧ (k.threads 0).original_priority = 31 ∧
        (k.threads 0).donations = [])) (by decide!)
    obtain ⟨h1, h2, h3, h4, h5, h6, h7⟩ := of_decide_eq_true hp
    refine ⟨k, reachable_of_outcome false zero_view 0 set_priority_scenario k (by decide!) hk,
      h1, h2, ?_, h6, h7⟩
    unfold thread_get_priority
    rw [thread_current_ok k h3 h4]
    show Except.ok (k.threads k.current).priority = Except.ok 5
    rw [h5]
  · obtain ⟨k, hk, hp⟩ := exists_of_ends_with
      (outcome false zero_view 0 set_priority_release_scenario)
      (fun k => decide (quiescent k ∧ k.current = 0 ∧
        (k.threads 0).priority = 31 ∧ (k.threads 0).original_priority = 31)) (by decide!)
    exact ⟨k, reachable_of_outcome false zero_view 0 set_priority_release_scenario k
      (by decide!) hk, of_decide_eq_true hp⟩

theorem set_pending_self (k : Kernel) (t : Nat) : set_pending k t (k.pending t) = k := by
  simp [set_pending]

/-- C15. When the page allocator has no page, `thread_create` returns
`TID_ERROR` (-1) without executing anything: the memory (next tid, ready list,
running thread and all the rest) is the same as before the call. -/
theorem thread_create_without_page (k : Kernel) (priority : Int) (temp : Nat)
    (hq : quiescent k) :
    program (Call.thread_create none priority temp) = [] ∧
    exec_event k (Event.call (Call.thread_create none priority temp)) = Except.ok k ∧
    thread_create_value k none = -1 := by
  refine ⟨rfl, ?_, rfl⟩
  have hq1 : k.pending k.current = [] := hq
  show (match k.pending k.current with
    | [] =>
      match program (Call.thread_create none priority temp) with
      | [] => Except.ok k
      | i :: rest => step_instr (set_pending k k.current rest) i rest
    | _ :: _ => Except.error Fault.rejected) = Except.ok k
  rw [hq1]
  rfl

theorem thread_create_without_page_witness :
    quiescent ready_memory ∧
    exec_event ready_memory (Event.call (Call.thread_create none 31 0)) =
      Except.ok ready_memory ∧
    thread_create_value ready_memory none = -1 := by
  have h := thread_create_without_page ready_memory 31 0 rfl
  exact ⟨rfl, h.2.1, h.2.2⟩

/-- C17. `thread_unblock (t)` on a blocked thread `t` marks it ready and puts
it into the ready list, and does not preempt: the running thread is the same
and still running afterwards, whatever the priority of `t`, and no other thread
page, and nothing any thread has still to execute, is changed. -/
theorem thread_unblock_keeps_caller (k : Kernel) (t : Nat)
    (h1 : is_thread k t = true)
    (h2 : (k.threads t).status = thread_status.THREAD_BLOCKED)
    (h3 : (k.threads k.current).status = thread_status.THREAD_RUNNING) :
    ∃ k1, thread_unblock k t = Except.ok k1 ∧
      (k1.threads t).status = thread_status.THREAD_READY ∧
      k1.ready_list = list_insert_ordered (cmp_priority k) k.ready_list t ∧
      t ∈ k1.ready_list ∧
      k1.current = k.current ∧
      (k1.threads k1.current).status = thread_status.THREAD_RUNNING ∧
      (∀ u, u ≠ t → k1.threads u = k.threads u) ∧
      k1.pending = k.pending := by
  have hne : k.current ≠ t := by
    intro h
    rw [h, h2] at h3
    exact absurd h3 (by decide)
  refine ⟨_, thread_unblock_ok k t h1 h2, by simp [set_thread], rfl,
    (mem_list_insert_ordered _ _ _ _).mpr (Or.inl rfl), rfl, ?_, ?_, rfl⟩
  · simp [set_thread, Function.update_apply, hne, h3]
  · intro u hu
    simp [set_thread, Function.update_apply, hu]

theorem thread_unblock_keeps_caller_witness :
    (waiters_memory.threads waiters_memory.current).priority = 31 ∧
    (waiters_memory.threads 2).priority = 40 ∧
    ∃ k1, thread_unblock waiters_memory 2 = Except.ok k1 ∧ k1.ready_list = [2] ∧
      k1.current = 0 ∧ (k1.threads 0).status = thread_status.THREAD_RUNNING := by
  obtain ⟨k1, e1, _, e3, _, e5, e6, _⟩ :=
    thread_unblock_keeps_caller waiters_memory 2 (by decide) (by decide) (by decide)
  refine ⟨by decide, by decide, k1, e1, by rw [e3]; decide, e5, ?_⟩
  rw [e5] at e6
  exact e6

theorem thread_view_eq (a b : thread) (h : thread_view a = thread_view b) :
    a.status = b.status ∧ a.priority = b.priority ∧ a.wakeup_ticks = b.wakeup_ticks ∧
      a.waiting_lock = b.waiting_lock ∧ a.donations = b.donations := by
  simp only [thread_view, Prod.mk.injEq] at h
  exact h

theorem Inv_of_same_queues (k k1 : Kernel) (hs : same_queues k k1) (h : Inv k) : Inv k1 := by
  have hst : ∀ t, (k1.threads t).status = (k.threads t).status :=
    fun t => (thread_view_eq _ _ (hs.threads t)).1
  have hpr : ∀ t, (k1.threads t).priority = (k.threads t).priority :=
    fun t => (thread_view_eq _ _ (hs.threads t)).2.1
  have hwk : ∀ t, (k1.threads t).wakeup_ticks = (k.threads t).wakeup_ticks :=
    fun t => (thread_view_eq _ _ (hs.threads t)).2.2.1
  have hwl : ∀ t, (k1.threads t).waiting_lock = (k.threads t).waiting_lock :=
    fun t => (thread_view_eq _ _ (hs.threads t)).2.2.2.1
  have hdo : ∀ t, (k1.threads t).donations = (k.threads t).donations :=
    fun t => (thread_view_eq _ _ (hs.threads t)).2.2.2.2
  constructor
  · rw [hs.ready_list]; simpa only [hpr] using h.ready_sorted
  · rw [hs.ready_list]; exact h.ready_nodup
  · rw [hs.ready_list, hs.allocated]; simpa only [hst] using h.ready_ok
  · rw [hs.sleep_list]; simpa only [hwk] using h.sleep_sorted
  · rw [hs.sleep_list]; exact h.sleep_nodup
  · rw [hs.sleep_list, hs.allocated]; simpa only [hst] using h.sleep_ok
  · rw [hs.sleep_list, hs.global_tick]; simpa only [hwk] using h.tick_cache
  · intro s; rw [hs.waiters]; exact h.wait_nodup s
  · intro s; rw [hs.waiters, hs.sleep_list, hs.allocated]; simpa only [hst] using h.wait_ok s
  · intro s1 s2; rw [hs.waiters, hs.waiters]; exact h.wait_disj s1 s2
  · intro t; rw [hwl]; exact h.no_waiting_lock t
  · intro t; rw [hdo]; exact h.no_donations t
  · rw [hs.current, hs.allocated]; exact h.cur_alloc
  · intro i; rw [hs.idle_thread, hs.allocated, hs.sleep_list, hst]
    simpa only [hs.waiters] using h.idle_ok i
  · rw [hs.destruction_req, hs.allocated]; simpa only [hst] using h.dying_ok
  · intro u x; rw [hs.pending, hs.allocated, hs.sleep_list, hs.idle_thread, hst]
    simpa only [hs.waiters] using h.creating u x
  · intro u1 u2 x; rw [hs.pending]; exact h.creating_unique u1 u2 x
  · intro u x; rw [hs.pending]; exact h.creating_once u x
  · intro u; rw [hs.pending]; exact h.pending_ok u

/-! ## Elementary moves that keep the queue discipline -/

theorem get_sema_set_thread (k : Kernel) (t : Nat) (th : thread) (s : sema_ref) :
    get_sema (set_thread k t th) s = get_sema k s := rfl

theorem get_sema_set_pending (k : Kernel) (t : Nat) (is : List Instr) (s : sema_ref) :
    get_sema (set_pending k t is) s = get_sema k s := rfl

theorem pairwise_key_congr (f g : Nat → Int) (l : List Nat) (h : ∀ t ∈ l, g t = f t)
    (hp : l.Pairwise (fun a b => f b ≤ f a)) : l.Pairwise (fun a b => g b ≤ g a) := by
  refine List.Pairwise.imp_of_mem ?_ hp
  intro a b ha hb hab
  rw [h a ha, h b hb]
  exact hab

theorem pairwise_key_congr_asc (f g : Nat → Int) (l : List Nat) (h : ∀ t ∈ l, g t = f t)
    (hp : l.Pairwise (fun a b => f a ≤ f b)) : l.Pairwise (fun a b => g a ≤ g b) := by
  refine List.Pairwise.imp_of_mem ?_ hp
  intro a b ha hb hab
  rw [h a ha, h b hb]
  exact hab

/-- Rewriting the page of `t` keeps the discipline when the new page fits the
queues `t` is in. -/
theorem Inv_set_thread (k : Kernel) (h : Inv k) (t : Nat) (th : thread)
    (h1 : th.waiting_lock = none) (h2 : th.donations = [])
    (h3 : t ∈ k.ready_list → th.status = thread_status.THREAD_READY ∧
      th.priority = (k.threads t).priority)
    (h4 : t ∈ k.sleep_list → th.status = thread_status.THREAD_BLOCKED ∧
      th.wakeup_ticks = (k.threads t).wakeup_ticks)
    (h5 : ∀ s, t ∈ (get_sema k s).waiters → th.status = thread_status.THREAD_BLOCKED)
    (h6 : k.idle_thread = some t → th.status ≠ thread_status.THREAD_DYING)
    (h7 : t ∈ k.destruction_req → th.status = thread_status.THREAD_DYING)
    (h8 : ∀ u, Instr.thread_unblock t ∈ k.pending u →
      th.status = thread_status.THREAD_BLOCKED) :
    Inv (set_thread k t th) := by
  have hth : ∀ u, (set_thread k t th).threads u = if u = t then th else k.threads u := by
    intro u
    simp [set_thread, Function.update_apply]
  constructor
  · show k.ready_list.Pairwise _
    refine pairwise_key_congr (fun a => (k.threads a).priority) _ _ ?_ h.ready_sorted
    intro u hu
    rw [hth]
    split
    · next e => subst e; exact (h3 hu).2
    · rfl
  · exact h.ready_nodup
  · intro u hu
    rw [hth]
    split
    · next e => subst e; exact ⟨(h3 hu).1, (h.ready_ok u hu).2⟩
    · exact h.ready_ok u hu
  · show k.sleep_list.Pairwise _
    refine pairwise_key_congr_asc (fun a => (k.threads a).wakeup_ticks) _ _ ?_ h.sleep_sorted
    intro u hu
    rw [hth]
    split
    · next e => subst e; exact (h4 hu).2
    · rfl
  · exact h.sleep_nodup
  · intro u hu
    rw [hth]
    split
    · next e => subst e; exact ⟨(h4 hu).1, (h.sleep_ok u hu).2⟩
    · exact h.sleep_ok u hu
  · show k.global_tick = _
    rw [h.tick_cache]
    show (match k.sleep_list with
      | [] => INT64_MAX
      | u :: _ => (k.threads u).wakeup_ticks) =
      (match k.sleep_list with
      | [] => INT64_MAX
      | u :: _ => ((set_thread k t th).threads u).wakeup_ticks)
    cases hl : k.sleep_list with
    | nil => rfl
    | cons u rest =>
      show (k.threads u).wakeup_ticks = ((set_thread k t th).threads u).wakeup_ticks
      rw [hth]
      split
      · next e => subst e; exact ((h4 (by rw [hl]; simp)).2).symm
      · rfl
  · exact h.wait_nodup
  · intro s u hu
    have hu1 : u ∈ (get_sema k s).waiters := hu
    rw [hth]
    split
    · next e => subst e; exact ⟨h5 s hu1, (h.wait_ok s u hu1).2⟩
    · exact h.wait_ok s u hu1
  · exact h.wait_disj
  · intro u
    rw [hth]
    split
    · exact h1
    · exact h.no_waiting_lock u
  · intro u
    rw [hth]
    split
    · exact h2
    · exact h.no_donations u
  · exact h.cur_alloc
  · intro i hi
    have hi1 : k.idle_thread = some i := hi
    obtain ⟨a1, a2, a3, a4⟩ := h.idle_ok i hi1
    refine ⟨a1, a2, a3, ?_⟩
    rw [hth]
    split
    · next e => subst e; exact h6 hi1
    · exact a4
  · intro v hv
    have hv1 : v ∈ k.destruction_req := hv
    rw [hth]
    split
    · next e => subst e; exact ⟨h7 hv1, (h.dying_ok v hv1).2⟩
    · exact h.dying_ok v hv1
  · intro u x hx
    have hx1 : Instr.thread_unblock x ∈ k.pending u := hx
    obtain ⟨a1, a2, a3, a4, a5⟩ := h.creating u x hx1
    refine ⟨a1, ?_, a3, a4, a5⟩
    rw [hth]
    split
    · next e => subst e; exact h8 u hx1
    · exact a2
  · exact h.creating_unique
  · exact h.creating_once
  · exact h.pending_ok

/-- Putting a ready thread that is in no queue into the ready list at its
priority position. -/
theorem Inv_ready_insert (k : Kernel) (h : Inv k) (t : Nat) (less : Nat → Nat → Bool)
    (hless : ∀ a b, less a b = decide ((k.threads b).priority < (k.threads a).priority))
    (h1 : t ∉ k.ready_list) (h2 : (k.threads t).status = thread_status.THREAD_READY)
    (h3 : t ∈ k.allocated) :
    Inv { k with ready_list := list_insert_ordered less k.ready_list t } := by
  constructor
  · exact list_insert_ordered_sorted (fun a => (k.threads a).priority) less hless _ _
      h.ready_sorted
  · exact list_insert_ordered_nodup less _ _ h.ready_nodup h1
  · intro u hu
    rcases (mem_list_insert_ordered less _ _ _).mp hu with e | e
    · subst e; exact ⟨h2, h3⟩
    · exact h.ready_ok u e
  · exact h.sleep_sorted
  · exact h.sleep_nodup
  · exact h.sleep_ok
  · exact h.tick_cache
  · exact h.wait_nodup
  · exact h.wait_ok
  · exact h.wait_disj
  · exact h.no_waiting_lock
  · exact h.no_donations
  · exact h.cur_alloc
  · exact h.idle_ok
  · exact h.dying_ok
  · exact h.creating
  · exact h.creating_unique
  · exact h.creating_once
  · exact h.pending_ok

/-- Taking threads out of the ready list. -/
theorem Inv_ready_sub (k : Kernel) (h : Inv k) (l : List Nat) (hl : l.Sublist k.ready_list) :
    Inv { k with ready_list := l } := by
  constructor
  · exact h.ready_sorted.sublist hl
  · exact h.ready_nodup.sublist hl
  · intro u hu
    exact h.ready_ok u (hl.subset hu)
  · exact h.sleep_sorted
  · exact h.sleep_nodup
  · exact h.sleep_ok
  · exact h.tick_cache
  · exact h.wait_nodup
  · exact h.wait_ok
  · exact h.wait_disj
  · exact h.no_waiting_lock
  · exact h.no_donations
  · exact h.cur_alloc
  · exact h.idle_ok
  · exact h.dying_ok
  · exact h.creating
  · exact h.creating_unique
  · exact h.creating_once
  · exact h.pending_ok

theorem list_insert_ordered_sorted_asc {α : Type} (f : α → Int) (less : α → α → Bool)
    (hless : ∀ a b, less a b = decide (f a < f b)) (l : List α) (e : α)
    (hl : l.Pairwise (fun a b => f a ≤ f b)) :
    (list_insert_ordered less l e).Pairwise (fun a b => f a ≤ f b) := by
  have h1 : l.Pairwise (fun a b => (fun x => - f x) b ≤ (fun x => - f x) a) :=
    hl.imp (by intro a b hab; simpa using hab)
  have h2 := list_insert_ordered_sorted (fun x => - f x) less
    (by intro a b; rw [hless]; simp) l e h1
  exact h2.imp (by intro a b hab; simpa using hab)

theorem list_insert_ordered_head {α : Type} (less : α → α → Bool) (l : List α) (e : α) :
    (list_insert_ordered less l e).head? =
      match l with
      | [] => some e
      | a :: _ => if less e a then some e else some a := by
  cases l with
  | nil => rfl
  | cons a rest =>
    show (if less e a then e :: a :: rest else a :: list_insert_ordered less rest e).head? =
      if less e a then some e else some a
    by_cases hc : less e a = true
    · rw [if_pos hc, if_pos hc]; rfl
    · rw [if_neg hc, if_neg hc]; rfl

/-- Putting a blocked thread that is in no queue into the sleep list at the
position of its wake-up tick, and lowering `global_tick` to that tick when it
is earlier. -/
theorem Inv_sleep_insert (k : Kernel) (h : Inv k) (t : Nat) (less : Nat → Nat → Bool)
    (hless : ∀ a b, less a b =
      decide ((k.threads a).wakeup_ticks < (k.threads b).wakeup_ticks))
    (h1 : (k.threads t).status = thread_status.THREAD_BLOCKED)
    (h2 : t ∈ k.allocated) (h3 : t ∉ k.sleep_list)
    (h4 : ∀ s, t ∉ (get_sema k s).waiters) (h5 : k.idle_thread ≠ some t)
    (h6 : ∀ u, Instr.thread_unblock t ∉ k.pending u)
    (h7 : (k.threads t).wakeup_ticks ≤ INT64_MAX) :
    Inv { k with
      sleep_list := list_insert_ordered less k.sleep_list t
      global_tick := if (k.threads t).wakeup_ticks < k.global_tick
        then (k.threads t).wakeup_ticks else k.global_tick } := by
  have hmem : ∀ u, u ∈ list_insert_ordered less k.sleep_list t ↔ u = t ∨ u ∈ k.sleep_list :=
    fun u => mem_list_insert_ordered less _ _ _
  constructor
  · exact h.ready_sorted
  · exact h.ready_nodup
  · exact h.ready_ok
  · exact list_insert_ordered_sorted_asc (fun a => (k.threads a).wakeup_ticks) less hless _ _
      h.sleep_sorted
  · exact list_insert_ordered_nodup less _ _ h.sleep_nodup h3
  · intro u hu
    rcases (hmem u).mp hu with e | e
    · subst e; exact ⟨h1, h2⟩
    · exact h.sleep_ok u e
  · show (if (k.threads t).wakeup_ticks < k.global_tick
        then (k.threads t).wakeup_ticks else k.global_tick) =
      match list_insert_ordered less k.sleep_list t with
      | [] => INT64_MAX
      | u :: _ => (k.threads u).wakeup_ticks
    have hh := list_insert_ordered_head less k.sleep_list t
    have htc := h.tick_cache
    cases hl : k.sleep_list with
    | nil =>
      rw [hl] at htc
      simp only at htc
      rw [htc]
      show _ = (k.threads t).wakeup_ticks
      split
      · rfl
      · omega
    | cons a rest =>
      rw [hl] at htc hh
      simp only at htc hh
      rw [htc]
      rw [hless] at hh
      by_cases hlt : (k.threads t).wakeup_ticks < (k.threads a).wakeup_ticks
      · rw [if_pos hlt]
        simp only [hlt, decide_True, if_true] at hh
        cases hi : list_insert_ordered less (a :: rest) t with
        | nil => rw [hi] at hh; exact absurd hh (by simp)
        | cons b r =>
          rw [hi] at hh
          simp only [List.head?_cons, Option.some.injEq] at hh
          rw [hh]
      · rw [if_neg hlt]
        simp only [hlt, decide_False] at hh
        cases hi : list_insert_ordered less (a :: rest) t with
        | nil => rw [hi] at hh; exact absurd hh (by simp)
        | cons b r =>
          rw [hi] at hh
          simp at hh
          rw [hh]
  · exact h.wait_nodup
  · intro s u hu
    obtain ⟨a1, a2, a3⟩ := h.wait_ok s u hu
    refine ⟨a1, a2, ?_⟩
    intro hm
    rcases (hmem u).mp hm with e | e
    · subst e; exact h4 s hu
    · exact a3 e
  · exact h.wait_disj
  · exact h.no_waiting_lock
  · exact h.no_donations
  · exact h.cur_alloc
  · intro i hi
    obtain ⟨a1, a2, a3, a4⟩ := h.idle_ok i hi
    refine ⟨a1, ?_, a3, a4⟩
    intro hm
    rcases (hmem i).mp hm with e | e
    · subst e; exact h5 hi
    · exact a2 e
  · exact h.dying_ok
  · intro u x hx
    obtain ⟨a1, a2, a3, a4, a5⟩ := h.creating u x hx
    refine ⟨a1, a2, ?_, a4, a5⟩
    intro hm
    rcases (hmem x).mp hm with e | e
    · subst e; exact h6 u hx
    · exact a3 e
  · exact h.creating_unique
  · exact h.creating_once
  · exact h.pending_ok

/-- Taking the head out of the sleep list and caching the tick of the new
head. -/
theorem Inv_sleep_pop (k : Kernel) (h : Inv k) (t : Nat) (rest : List Nat) (g : Int)
    (hl : k.sleep_list = t :: rest)
    (hg1 : rest = [] → g = INT64_MAX)
    (hg2 : ∀ n r, rest = n :: r → g = (k.threads n).wakeup_ticks) :
    Inv { k with sleep_list := rest, global_tick := g } := by
  have hsub : ∀ u, u ∈ rest → u ∈ k.sleep_list := by
    intro u hu
    rw [hl]
    exact List.mem_cons_of_mem _ hu
  have hs := h.sleep_sorted
  have hn := h.sleep_nodup
  rw [hl] at hs hn
  constructor
  · exact h.ready_sorted
  · exact h.ready_nodup
  · exact h.ready_ok
  · exact (List.pairwise_cons.mp hs).2
  · exact (List.nodup_cons.mp hn).2
  · intro u hu
    exact h.sleep_ok u (hsub u hu)
  · cases rest with
    | nil => exact hg1 rfl
    | cons n r => exact hg2 n r rfl
  · exact h.wait_nodup
  · intro s u hu
    obtain ⟨a1, a2, a3⟩ := h.wait_ok s u hu
    exact ⟨a1, a2, fun hm => a3 (hsub u hm)⟩
  · exact h.wait_disj
  · exact h.no_waiting_lock
  · exact h.no_donations
  · exact h.cur_alloc
  · intro i hi
    obtain ⟨a1, a2, a3, a4⟩ := h.idle_ok i hi
    exact ⟨a1, fun hm => a2 (hsub i hm), a3, a4⟩
  · exact h.dying_ok
  · intro u x hx
    obtain ⟨a1, a2, a3, a4, a5⟩ := h.creating u x hx
    exact ⟨a1, a2, fun hm => a3 (hsub x hm), a4, a5⟩
  · exact h.creating_unique
  · exact h.creating_once
  · exact h.pending_ok

/-- Storing a semaphore at `s` whose waiters are waiters of `s` already or
blocked threads that are in no queue. -/
theorem Inv_set_sema (k : Kernel) (h : Inv k) (s : sema_ref) (v : semaphore)
    (hn : v.waiters.Nodup)
    (hm : ∀ t ∈ v.waiters, t ∈ (get_sema k s).waiters ∨
      ((k.threads t).status = thread_status.THREAD_BLOCKED ∧ t ∈ k.allocated ∧
        t ∉ k.sleep_list ∧ (∀ s1, t ∉ (get_sema k s1).waiters) ∧ k.idle_thread ≠ some t ∧
        ∀ u, Instr.thread_unblock t ∉ k.pending u)) :
    Inv (set_sema k s v) := by
  have hg : ∀ s1, get_sema (set_sema k s v) s1 = if s1 = s then v else get_sema k s1 :=
    fun s1 => get_sema_set_sema k s s1 v
  constructor
  · exact h.ready_sorted
  · exact h.ready_nodup
  · exact h.ready_ok
  · exact h.sleep_sorted
  · exact h.sleep_nodup
  · exact h.sleep_ok
  · exact h.tick_cache
  · intro s1
    rw [hg]
    split
    · exact hn
    · exact h.wait_nodup s1
  · intro s1 t ht
    rw [hg] at ht
    split at ht
    · rcases hm t ht with e | e
      · exact h.wait_ok s t e
      · exact ⟨e.1, e.2.1, e.2.2.1⟩
    · exact h.wait_ok s1 t ht
  · intro s1 s2 hne t ht
    rw [hg] at ht
    rw [hg]
    split at ht
    · next e1 =>
      have e2 : ¬ s2 = s := fun e => hne (e1.trans e.symm)
      rw [if_neg e2]
      rcases hm t ht with e | e
      · exact h.wait_disj s s2 (fun e => e2 e.symm) t e
      · exact e.2.2.2.1 s2
    · next e1 =>
      split
      · intro ht2
        rcases hm t ht2 with e | e
        · exact h.wait_disj s1 s e1 t ht e
        · exact e.2.2.2.1 s1 ht
      · exact h.wait_disj s1 s2 hne t ht
  · exact h.no_waiting_lock
  · exact h.no_donations
  · exact h.cur_alloc
  · intro i hi
    obtain ⟨a1, a2, a3, a4⟩ := h.idle_ok i hi
    refine ⟨a1, a2, ?_, a4⟩
    intro s1
    rw [hg]
    split
    · intro hi2
      rcases hm i hi2 with e | e
      · exact a3 s e
      · exact e.2.2.2.2.1 hi
    · exact a3 s1
  · exact h.dying_ok
  · intro u x hx
    obtain ⟨a1, a2, a3, a4, a5⟩ := h.creating u x hx
    refine ⟨a1, a2, a3, ?_, a5⟩
    intro s1
    rw [hg]
    split
    · intro hx2
      rcases hm x hx2 with e | e
      · exact a4 s e
      · exact e.2.2.2.2.2 u hx
    · exact a4 s1
  · exact h.creating_unique
  · exact h.creating_once
  · exact h.pending_ok

/-- Replacing the instructions the threads have still to execute. -/
theorem Inv_with_pending (k : Kernel) (h : Inv k) (P : Nat → List Instr)
    (h1 : ∀ u, ∀ i ∈ P u, resumable i = true)
    (h2 : ∀ u x, Instr.thread_unblock x ∈ P u →
      x ∈ k.allocated ∧ (k.threads x).status = thread_status.THREAD_BLOCKED ∧
      x ∉ k.sleep_list ∧ (∀ s, x ∉ (get_sema k s).waiters) ∧ k.idle_thread ≠ some x)
    (h3 : ∀ u1 u2 x, Instr.thread_unblock x ∈ P u1 → Instr.thread_unblock x ∈ P u2 → u1 = u2)
    (h4 : ∀ u x, (P u).count (Instr.thread_unblock x) ≤ 1) :
    Inv { k with pending := P } := by
  constructor
  · exact h.ready_sorted
  · exact h.ready_nodup
  · exact h.ready_ok
  · exact h.sleep_sorted
  · exact h.sleep_nodup
  · exact h.sleep_ok
  · exact h.tick_cache
  · exact h.wait_nodup
  · exact h.wait_ok
  · exact h.wait_disj
  · exact h.no_waiting_lock
  · exact h.no_donations
  · exact h.cur_alloc
  · exact h.idle_ok
  · exact h.dying_ok
  · exact h2
  · exact h3
  · exact h4
  · exact h1

/-- A thread keeps a part of what it had still to execute. -/
theorem Inv_pending_sub (k : Kernel) (h : Inv k) (u : Nat) (is : List Instr)
    (hs : is.Sublist (k.pending u)) : Inv (set_pending k u is) := by
  have hP : ∀ w, (Function.update k.pending u is w).Sublist (k.pending w) := by
    intro w
    rw [Function.update_apply]
    split
    · next e => rw [e]; exact hs
    · exact List.Sublist.refl _
  refine Inv_with_pending k h (Function.update k.pending u is) ?_ ?_ ?_ ?_
  · intro w i hi
    exact h.pending_ok w i ((hP w).subset hi)
  · intro w x hx
    exact h.creating w x ((hP w).subset hx)
  · intro u1 u2 x hx1 hx2
    exact h.creating_unique u1 u2 x ((hP u1).subset hx1) ((hP u2).subset hx2)
  · intro w x
    exact le_trans ((hP w).count_le _) (h.creating_once w x)

/-- A thread puts a loop it is in back in front of what it has still to
execute. -/
theorem Inv_pending_push (k : Kernel) (h : Inv k) (u : Nat) (i : Instr)
    (hi : resumable i = true) (hu : ∀ x, i ≠ Instr.thread_unblock x) :
    Inv (set_pending k u (i :: k.pending u)) := by
  have hP : ∀ w j, j ∈ Function.update k.pending u (i :: k.pending u) w →
      j = i ∨ j ∈ k.pending w := by
    intro w j
    rw [Function.update_apply]
    split
    · next e =>
      rw [e]
      intro hj
      exact List.mem_cons.mp hj
    · exact Or.inr
  have hQ : ∀ w x, Instr.thread_unblock x ∈ Function.update k.pending u (i :: k.pending u) w →
      Instr.thread_unblock x ∈ k.pending w := by
    intro w x hx
    rcases hP w _ hx with e | e
    · exact absurd e.symm (hu x)
    · exact e
  refine Inv_with_pending k h (Function.update k.pending u (i :: k.pending u)) ?_ ?_ ?_ ?_
  · intro w j hj
    rcases hP w j hj with e | e
    · rw [e]; exact hi
    · exact h.pending_ok w j e
  · intro w x hx
    exact h.creating w x (hQ w x hx)
  · intro u1 u2 x hx1 hx2
    exact h.creating_unique u1 u2 x (hQ u1 x hx1) (hQ u2 x hx2)
  · intro w x
    rw [Function.update_apply]
    split
    · next e =>
      rw [List.count_cons_of_ne (fun e1 => hu x e1.symm), ← e]
      exact h.creating_once w x
    · exact h.creating_once w x

/-- The page allocator hands out a page that was not in use. -/
theorem Inv_alloc (k : Kernel) (h : Inv k) (t : Nat) :
    Inv { k with allocated := t :: k.allocated } := by
  constructor
  · exact h.ready_sorted
  · exact h.ready_nodup
  · intro u hu
    exact ⟨(h.ready_ok u hu).1, List.mem_cons_of_mem _ (h.ready_ok u hu).2⟩
  · exact h.sleep_sorted
  · exact h.sleep_nodup
  · intro u hu
    exact ⟨(h.sleep_ok u hu).1, List.mem_cons_of_mem _ (h.sleep_ok u hu).2⟩
  · exact h.tick_cache
  · exact h.wait_nodup
  · intro s u hu
    obtain ⟨a1, a2, a3⟩ := h.wait_ok s u hu
    exact ⟨a1, List.mem_cons_of_mem _ a2, a3⟩
  · exact h.wait_disj
  · exact h.no_waiting_lock
  · exact h.no_donations
  · exact List.mem_cons_of_mem _ h.cur_alloc
  · intro i hi
    obtain ⟨a1, a2, a3, a4⟩ := h.idle_ok i hi
    exact ⟨List.mem_cons_of_mem _ a1, a2, a3, a4⟩
  · intro v hv
    exact ⟨(h.dying_ok v hv).1, List.mem_cons_of_mem _ (h.dying_ok v hv).2⟩
  · intro u x hx
    obtain ⟨a1, a2, a3, a4, a5⟩ := h.creating u x hx
    exact ⟨List.mem_cons_of_mem _ a1, a2, a3, a4, a5⟩
  · exact h.creating_unique
  · exact h.creating_once
  · exact h.pending_ok

/-- The pages of the threads queued for destruction are freed. -/
theorem Inv_free (k : Kernel) (h : Inv k)
    (hc : (k.threads k.current).status ≠ thread_status.THREAD_DYING) :
    Inv { k with
      allocated := List.filter (fun t => decide (t ∉ k.destruction_req)) k.allocated
      destruction_req := [] } := by
  have hkeep : ∀ t, t ∈ k.allocated → (k.threads t).status ≠ thread_status.THREAD_DYING →
      t ∈ List.filter (fun t => decide (t ∉ k.destruction_req)) k.allocated := by
    intro t ht hs
    rw [List.mem_filter]
    refine ⟨ht, ?_⟩
    simp only [decide_eq_true_eq]
    intro hd
    exact hs (h.dying_ok t hd).1
  constructor
  · exact h.ready_sorted
  · exact h.ready_nodup
  · intro u hu
    obtain ⟨a1, a2⟩ := h.ready_ok u hu
    exact ⟨a1, hkeep u a2 (by rw [a1]; decide)⟩
  · exact h.sleep_sorted
  · exact h.sleep_nodup
  · intro u hu
    obtain ⟨a1, a2⟩ := h.sleep_ok u hu
    exact ⟨a1, hkeep u a2 (by rw [a1]; decide)⟩
  · exact h.tick_cache
  · exact h.wait_nodup
  · intro s u hu
    obtain ⟨a1, a2, a3⟩ := h.wait_ok s u hu
    exact ⟨a1, hkeep u a2 (by rw [a1]; decide), a3⟩
  · exact h.wait_disj
  · exact h.no_waiting_lock
  · exact h.no_donations
  · exact hkeep _ h.cur_alloc hc
  · intro i hi
    obtain ⟨a1, a2, a3, a4⟩ := h.idle_ok i hi
    exact ⟨hkeep i a1 a4, a2, a3, a4⟩
  · intro v hv
    exact absurd hv (List.not_mem_nil v)
  · intro u x hx
    obtain ⟨a1, a2, a3, a4, a5⟩ := h.creating u x hx
    exact ⟨hkeep x a1 (by rw [a2]; decide), a2, a3, a4, a5⟩
  · exact h.creating_unique
  · exact h.creating_once
  · exact h.pending_ok

/-- Another thread in use becomes the running thread. -/
theorem Inv_set_current (k : Kernel) (h : Inv k) (n : Nat) (hn : n ∈ k.allocated) :
    Inv { k with current := n } := by
  constructor
  · exact h.ready_sorted
  · exact h.ready_nodup
  · exact h.ready_ok
  · exact h.sleep_sorted
  · exact h.sleep_nodup
  · exact h.sleep_ok
  · exact h.tick_cache
  · exact h.wait_nodup
  · exact h.wait_ok
  · exact h.wait_disj
  · exact h.no_waiting_lock
  · exact h.no_donations
  · exact hn
  · exact h.idle_ok
  · exact h.dying_ok
  · exact h.creating
  · exact h.creating_unique
  · exact h.creating_once
  · exact h.pending_ok

/-- A dying thread is queued for destruction. -/
theorem Inv_destruction_push (k : Kernel) (h : Inv k) (v : Nat)
    (h1 : (k.threads v).status = thread_status.THREAD_DYING) (h2 : v ∈ k.allocated) :
    Inv { k with destruction_req := k.destruction_req ++ [v] } := by
  constructor
  · exact h.ready_sorted
  · exact h.ready_nodup
  · exact h.ready_ok
  · exact h.sleep_sorted
  · exact h.sleep_nodup
  · exact h.sleep_ok
  · exact h.tick_cache
  · exact h.wait_nodup
  · exact h.wait_ok
  · exact h.wait_disj
  · exact h.no_waiting_lock
  · exact h.no_donations
  · exact h.cur_alloc
  · exact h.idle_ok
  · intro u hu
    rcases List.mem_append.mp hu with e | e
    · exact h.dying_ok u e
    · have e1 : u = v := by simpa using e
      rw [e1]
      exact ⟨h1, h2⟩
  · exact h.creating
  · exact h.creating_unique
  · exact h.creating_once
  · exact h.pending_ok

/-- A thread in no queue becomes the idle thread. -/
theorem Inv_set_idle (k : Kernel) (h : Inv k) (c : Nat) (h1 : c ∈ k.allocated)
    (h2 : c ∉ k.sleep_list) (h3 : ∀ s, c ∉ (get_sema k s).waiters)
    (h4 : (k.threads c).status ≠ thread_status.THREAD_DYING)
    (h5 : ∀ u, Instr.thread_unblock c ∉ k.pending u) :
    Inv { k with idle_thread := some c } := by
  constructor
  · exact h.ready_sorted
  · exact h.ready_nodup
  · exact h.ready_ok
  · exact h.sleep_sorted
  · exact h.sleep_nodup
  · exact h.sleep_ok
  · exact h.tick_cache
  · exact h.wait_nodup
  · exact h.wait_ok
  · exact h.wait_disj
  · exact h.no_waiting_lock
  · exact h.no_donations
  · exact h.cur_alloc
  · intro i hi
    have e : c = i := by simpa using hi
    subst e
    exact ⟨h1, h2, h3, h4⟩
  · exact h.dying_ok
  · intro u x hx
    obtain ⟨a1, a2, a3, a4, _⟩ := h.creating u x hx
    refine ⟨a1, a2, a3, a4, ?_⟩
    intro e
    have e1 : c = x := by simpa using e
    subst e1
    exact h5 u hx
  · exact h.creating_unique
  · exact h.creating_once
  · exact h.pending_ok

/-- A running thread is in no queue and nobody is about to unblock it. -/
theorem free_of_running (k : Kernel) (h : Inv k) (t : Nat)
    (hs : (k.threads t).status = thread_status.THREAD_RUNNING) :
    t ∉ k.ready_list ∧ t ∉ k.sleep_list ∧ (∀ s, t ∉ (get_sema k s).waiters) ∧
      t ∉ k.destruction_req ∧ ∀ u, Instr.thread_unblock t ∉ k.pending u := by
  refine ⟨?_, ?_, ?_, ?_, ?_⟩
  · intro hm
    have := (h.ready_ok t hm).1
    rw [hs] at this
    exact absurd this (by decide)
  · intro hm
    have := (h.sleep_ok t hm).1
    rw [hs] at this
    exact absurd this (by decide)
  · intro s hm
    have := (h.wait_ok s t hm).1
    rw [hs] at this
    exact absurd this (by decide)
  · intro hm
    have := (h.dying_ok t hm).1
    rw [hs] at this
    exact absurd this (by decide)
  · intro u hm
    have := (h.creating u t hm).2.1
    rw [hs] at this
    exact absurd this (by decide)

/-- What `schedule` does to the destruction queue. -/
theorem schedule_req (k k1 : Kernel) (h : schedule k = Except.ok k1) :
    k1.destruction_req = k.destruction_req ∨
      (k1.destruction_req = k.destruction_req ++ [k.current] ∧
        (k.threads k.current).status = thread_status.THREAD_DYING ∧ k1.current ≠ k.current) := by
  unfold schedule next_thread_to_run at h
  cases hr : k.ready_list with
  | nil =>
    rw [hr] at h
    dsimp only at h
    split at h
    · exact absurd h (by simp)
    · cases hi : k.idle_thread with
      | none =>
        rw [hi] at h
        exact absurd h (by simp)
      | some next =>
        rw [hi] at h
        dsimp only at h
        split at h
        · exact absurd h (by simp)
        · split at h
          · next hc =>
            simp only [Except.ok.injEq] at h
            rw [← h]
            simp only [set_thread]
            split
            · next hd =>
              refine Or.inr ⟨rfl, ?_, fun e => hc e.symm⟩
              have := hd.1
              simpa [Function.update_apply, hc] using this
            · exact Or.inl rfl
          · simp only [Except.ok.injEq] at h
            rw [← h]
            exact Or.inl rfl
  | cons next rest =>
    rw [hr] at h
    dsimp only at h
    split at h
    · exact absurd h (by simp)
    · split at h
      · exact absurd h (by simp)
      · split at h
        · next hc =>
          simp only [Except.ok.injEq] at h
          rw [← h]
          simp only [set_thread]
          split
          · next hd =>
            refine Or.inr ⟨rfl, ?_, fun e => hc e.symm⟩
            have := hd.1
            simpa [Function.update_apply, hc] using this
          · exact Or.inl rfl
        · simp only [Except.ok.injEq] at h
          rw [← h]
          exact Or.inl rfl

/-- The memories `k` and `k1` differ in nothing the queue discipline speaks
about. -/
theorem Inv_frame (k k1 : Kernel) (h : Inv k)
    (h1 : k1.threads = k.threads) (h2 : k1.ready_list = k.ready_list)
    (h3 : k1.sleep_list = k.sleep_list) (h4 : k1.semas = k.semas) (h5 : k1.locks = k.locks)
    (h6 : k1.allocated = k.allocated) (h7 : k1.destruction_req = k.destruction_req)
    (h8 : k1.idle_thread = k.idle_thread) (h9 : k1.global_tick = k.global_tick)
    (h10 : k1.current = k.current) (h11 : k1.pending = k.pending) : Inv k1 := by
  refine Inv_of_same_queues k k1 ⟨?_, h2, h3, ?_, h6, h7, h8, h9, h10, h11⟩ h
  · intro t; rw [h1]
  · intro s; unfold get_sema; rw [h4, h5]

/-- The function `schedule` keeps the queue discipline. -/
theorem Inv_schedule (k k1 : Kernel) (h : Inv k) (hs : schedule k = Except.ok k1) : Inv k1 := by
  obtain ⟨next, rest, hnext, hrun, hth, hk1⟩ := schedule_eq k k1 hs
  have hreq := schedule_req k k1 hs
  have hsub : rest.Sublist k.ready_list := by
    rcases hnext with e | ⟨e1, e2, _⟩
    · rw [e]; exact List.sublist_cons_self _ _
    · rw [e1, e2]
  have A1 := Inv_ready_sub k h rest hsub
  have hnext_alloc : next ∈ k.allocated := by
    rcases hnext with e | ⟨_, _, e3⟩
    · exact (h.ready_ok next (by rw [e]; simp)).2
    · exact (h.idle_ok next e3).1
  have A2 : Inv (set_thread { k with ready_list := rest } next
      { k.threads next with status := thread_status.THREAD_RUNNING }) := by
    refine Inv_set_thread _ A1 next _ (h.no_waiting_lock next) (h.no_donations next)
      ?_ ?_ ?_ ?_ ?_ ?_
    · intro hm
      rcases hnext with e | ⟨_, e2, _⟩
      · have hn := h.ready_nodup
        rw [e] at hn
        exact absurd hm (List.nodup_cons.mp hn).1
      · rw [e2] at hm
        exact absurd hm (List.not_mem_nil _)
    · intro hm
      rcases hnext with e | ⟨_, _, e3⟩
      · have a := (h.ready_ok next (by rw [e]; simp)).1
        have b := (h.sleep_ok next hm).1
        rw [a] at b
        exact absurd b (by decide)
      · exact absurd hm (h.idle_ok next e3).2.1
    · intro s hm
      rcases hnext with e | ⟨_, _, e3⟩
      · have a := (h.ready_ok next (by rw [e]; simp)).1
        have b := (h.wait_ok s next hm).1
        rw [a] at b
        exact absurd b (by decide)
      · exact absurd hm ((h.idle_ok next e3).2.2.1 s)
    · intro _
      show thread_status.THREAD_RUNNING ≠ thread_status.THREAD_DYING
      decide
    · intro hm
      rcases hnext with e | ⟨_, _, e3⟩
      · have a := (h.ready_ok next (by rw [e]; simp)).1
        have b := (h.dying_ok next hm).1
        rw [a] at b
        exact absurd b (by decide)
      · exact absurd (h.dying_ok next hm).1 (h.idle_ok next e3).2.2.2
    · intro u hm
      rcases hnext with e | ⟨_, _, e3⟩
      · have a := (h.ready_ok next (by rw [e]; simp)).1
        have b := (h.creating u next hm).2.1
        rw [a] at b
        exact absurd b (by decide)
      · exact absurd e3 (h.creating u next hm).2.2.2.2
  have hcur1 : k1.current = next := by rw [hk1]
  have A3 : Inv { set_thread { k with ready_list := rest } next
      { k.threads next with status := thread_status.THREAD_RUNNING } with
      destruction_req := k1.destruction_req } := by
    rcases hreq with e | ⟨e1, e2, e3⟩
    · rw [e]
      exact A2
    · rw [e1]
      refine Inv_destruction_push _ A2 k.current ?_ h.cur_alloc
      have hne : k.current ≠ next := by
        intro e
        rw [hcur1] at e3
        exact e3 e.symm
      simp only [set_thread, Function.update_apply, hne, if_false]
      exact e2
  have A4 := Inv_set_current _ A3 next hnext_alloc
  rw [hk1]
  exact Inv_frame _ _ A4 rfl rfl rfl rfl rfl rfl rfl rfl rfl rfl rfl

/-- A thread that is in no queue enters the ready list as ready. -/
theorem Inv_make_ready (k : Kernel) (h : Inv k) (t : Nat)
    (h1 : t ∉ k.ready_list) (h2 : t ∉ k.sleep_list) (h3 : ∀ s, t ∉ (get_sema k s).waiters)
    (h4 : t ∉ k.destruction_req) (h5 : ∀ u, Instr.thread_unblock t ∉ k.pending u)
    (h6 : t ∈ k.allocated) :
    Inv (set_thread
      { k with ready_list := list_insert_ordered (cmp_priority k) k.ready_list t } t
      { k.threads t with status := thread_status.THREAD_READY }) := by
  have B1 : Inv (set_thread k t { k.threads t with status := thread_status.THREAD_READY }) := by
    refine Inv_set_thread k h t _ (h.no_waiting_lock t) (h.no_donations t) ?_ ?_ ?_ ?_ ?_ ?_
    · intro hm; exact absurd hm h1
    · intro hm; exact absurd hm h2
    · intro s hm; exact absurd hm (h3 s)
    · intro _
      show thread_status.THREAD_READY ≠ thread_status.THREAD_DYING
      decide
    · intro hm; exact absurd hm h4
    · intro u hm; exact absurd hm (h5 u)
  have hp : ∀ a, ((set_thread k t
      { k.threads t with status := thread_status.THREAD_READY }).threads a).priority =
      (k.threads a).priority := by
    intro a
    simp only [set_thread, Function.update_apply]
    split
    · next e => rw [e]
    · rfl
  have B2 := Inv_ready_insert _ B1 t (cmp_priority k) (by
    intro a b
    rw [hp a, hp b]
    rfl) h1 (by simp [set_thread]) h6
  exact B2

/-- The function `thread_unblock` keeps the queue discipline when the thread
is in no wait queue. -/
theorem Inv_thread_unblock (k k1 : Kernel) (h : Inv k) (t : Nat)
    (hu : thread_unblock k t = Except.ok k1)
    (h2 : t ∉ k.sleep_list) (h3 : ∀ s, t ∉ (get_sema k s).waiters)
    (h5 : ∀ u, Instr.thread_unblock t ∉ k.pending u) (h6 : t ∈ k.allocated) : Inv k1 := by
  obtain ⟨_, hb, hk1⟩ := thread_unblock_eq k k1 t hu
  rw [hk1]
  refine Inv_make_ready k h t ?_ h2 h3 ?_ h5 h6
  · intro hm
    have := (h.ready_ok t hm).1
    rw [hb] at this
    exact absurd this (by decide)
  · intro hm
    have := (h.dying_ok t hm).1
    rw [hb] at this
    exact absurd this (by decide)

/-- The function `thread_yield` keeps the queue discipline. -/
theorem Inv_thread_yield (k k1 : Kernel) (h : Inv k) (hy : thread_yield k = Except.ok k1) :
    Inv k1 := by
  obtain ⟨_, hrun, _, hs⟩ := thread_yield_eq k k1 hy
  obtain ⟨f1, f2, f3, f4, f5⟩ := free_of_running k h k.current hrun
  refine Inv_schedule _ k1 ?_ hs
  by_cases hi : some k.current ≠ k.idle_thread
  · rw [if_pos hi]
    exact Inv_make_ready k h k.current f1 f2 f3 f4 f5 h.cur_alloc
  · rw [if_neg hi]
    refine Inv_set_thread k h k.current _ (h.no_waiting_lock _) (h.no_donations _)
      ?_ ?_ ?_ ?_ ?_ ?_
    · intro hm; exact absurd hm f1
    · intro hm; exact absurd hm f2
    · intro s hm; exact absurd hm (f3 s)
    · intro _
      show thread_status.THREAD_READY ≠ thread_status.THREAD_DYING
      decide
    · intro hm; exact absurd hm f4
    · intro u hm; exact absurd hm (f5 u)

/-- The function `test_max_priority` keeps the queue discipline. -/
theorem Inv_test_max_priority (k k1 : Kernel) (h : Inv k)
    (ht : test_max_priority k = Except.ok k1) : Inv k1 := by
  rcases test_max_priority_eq k k1 ht with e | ⟨_, e⟩
  · rw [e]; exact h
  · exact Inv_thread_yield k k1 h e

/-- The running thread may be given any status but dying, or any priority. -/
theorem Inv_set_running (k : Kernel) (h : Inv k) (th : thread)
    (hrun : (k.threads k.current).status = thread_status.THREAD_RUNNING)
    (h1 : th.waiting_lock = none) (h2 : th.donations = [])
    (h3 : k.idle_thread = some k.current → th.status ≠ thread_status.THREAD_DYING) :
    Inv (set_thread k k.current th) := by
  obtain ⟨f1, f2, f3, f4, f5⟩ := free_of_running k h k.current hrun
  refine Inv_set_thread k h k.current th h1 h2 ?_ ?_ ?_ h3 ?_ ?_
  · intro hm; exact absurd hm f1
  · intro hm; exact absurd hm f2
  · intro s hm; exact absurd hm (f3 s)
  · intro hm; exact absurd hm f4
  · intro u hm; exact absurd hm (f5 u)

/-- The function `thread_block` keeps the queue discipline. -/
theorem Inv_thread_block (k k1 : Kernel) (h : Inv k) (hb : thread_block k = Except.ok k1) :
    Inv k1 := by
  obtain ⟨_, _, hrun, hs⟩ := thread_block_eq k k1 hb
  refine Inv_schedule _ k1 ?_ hs
  refine Inv_set_running k h _ hrun (h.no_waiting_lock _) (h.no_donations _) ?_
  intro _
  show thread_status.THREAD_BLOCKED ≠ thread_status.THREAD_DYING
  decide

/-- The function `thread_set_priority` keeps the queue discipline. -/
theorem Inv_thread_set_priority (k k1 : Kernel) (h : Inv k) (p : Int)
    (hp : thread_set_priority k p = Except.ok k1) : Inv k1 := by
  unfold thread_set_priority at hp
  cases hc : thread_current k with
  | error f =>
    rw [hc] at hp
    exact absurd hp (by simp [bind, Except.bind])
  | ok c =>
    obtain ⟨hcc, _, hrun⟩ := thread_current_eq k c hc
    rw [hc] at hp
    subst hcc
    refine Inv_test_max_priority _ k1 ?_ hp
    refine Inv_set_running k h _ hrun (h.no_waiting_lock _) (h.no_donations _) ?_
    intro _
    show (k.threads k.current).status ≠ thread_status.THREAD_DYING
    rw [hrun]
    decide

/-- The function `thread_wakeup` keeps the queue discipline. -/
theorem Inv_thread_wakeup (k : Kernel) (h : Inv k) : Inv (thread_wakeup k) := by
  unfold thread_wakeup
  cases hl : k.sleep_list with
  | nil => exact h
  | cons t rest =>
    dsimp only
    have ht := h.sleep_ok t (by rw [hl]; simp)
    have hn := h.sleep_nodup
    rw [hl] at hn
    have key : ∀ g, (rest = [] → g = INT64_MAX) →
        (∀ n r, rest = n :: r → g = (k.threads n).wakeup_ticks) →
        Inv (set_thread
          { k with sleep_list := rest, global_tick := g,
                   ready_list := list_insert_ordered
                     (cmp_priority { k with sleep_list := rest, global_tick := g })
                     k.ready_list t } t
          { k.threads t with status := thread_status.THREAD_READY }) := by
      intro g hg1 hg2
      have A1 := Inv_sleep_pop k h t rest g hl hg1 hg2
      refine Inv_make_ready _ A1 t ?_ ?_ ?_ ?_ ?_ ht.2
      · intro hm
        have := (h.ready_ok t hm).1
        rw [ht.1] at this
        exact absurd this (by decide)
      · exact (List.nodup_cons.mp hn).1
      · intro s hm
        exact (h.wait_ok s t hm).2.2 (by rw [hl]; simp)
      · intro hm
        have := (h.dying_ok t hm).1
        rw [ht.1] at this
        exact absurd this (by decide)
      · intro u hm
        exact (h.creating u t hm).2.2.1 (by rw [hl]; simp)
    cases rest with
    | nil => exact key INT64_MAX (fun _ => rfl) (fun n r e => absurd e (by simp))
    | cons n r =>
      refine key (k.threads n).wakeup_ticks (fun e => absurd e (by simp)) ?_
      intro n1 r1 e
      simp only [List.cons.injEq] at e
      rw [e.1]

/-- The loop of `timer_interrupt` keeps the queue discipline. -/
theorem Inv_wakeup_loop (n : Nat) : ∀ (k k1 : Kernel), Inv k →
    wakeup_loop n k = Except.ok k1 → Inv k1 := by
  induction n with
  | zero =>
    intro k k1 h hw
    unfold wakeup_loop at hw
    split at hw
    · exact absurd hw (by simp)
    · simp only [Except.ok.injEq] at hw
      rw [← hw]; exact h
  | succ n ih =>
    intro k k1 h hw
    unfold wakeup_loop at hw
    split at hw
    · exact ih _ k1 (Inv_thread_wakeup k h) hw
    · simp only [Except.ok.injEq] at hw
      rw [← hw]; exact h

/-- What `thread_tick` changes: the tick counters and the request to yield. -/
theorem thread_tick_eq (k k1 : Kernel) (h : thread_tick k = Except.ok k1) :
    k1.threads = k.threads ∧ k1.ready_list = k.ready_list ∧ k1.sleep_list = k.sleep_list ∧
    k1.semas = k.semas ∧ k1.locks = k.locks ∧ k1.allocated = k.allocated ∧
    k1.destruction_req = k.destruction_req ∧ k1.idle_thread = k.idle_thread ∧
    k1.global_tick = k.global_tick ∧ k1.current = k.current ∧ k1.pending = k.pending ∧
    k1.ticks = k.ticks ∧ k1.intr_context = k.intr_context ∧ k1.conds = k.conds := by
  unfold thread_tick at h
  cases hc : thread_current k with
  | error f =>
    rw [hc] at h
    exact absurd h (by simp [bind, Except.bind])
  | ok c =>
    rw [hc] at h
    simp only [bind, Except.bind, Except.ok.injEq] at h
    rw [← h]
    split <;> split <;> simp

/-- The function `timer_interrupt` keeps the queue discipline. -/
theorem Inv_timer_interrupt (k k1 : Kernel) (h : Inv k)
    (ht : timer_interrupt k = Except.ok k1) : Inv k1 := by
  unfold timer_interrupt at ht
  cases hc : thread_tick { k with ticks := k.ticks + 1 } with
  | error f =>
    rw [hc] at ht
    exact absurd ht (by simp [bind, Except.bind])
  | ok k2 =>
    rw [hc] at ht
    obtain ⟨a1, a2, a3, a4, a5, a6, a7, a8, a9, a10, a11, _⟩ := thread_tick_eq _ k2 hc
    exact Inv_wakeup_loop _ k2 k1 (Inv_frame k k2 h a1 a2 a3 a4 a5 a6 a7 a8 a9 a10 a11) ht

/-- The timer interrupt, with the yield it may ask for, keeps the queue
discipline. -/
theorem Inv_timer_interrupt_event (k k1 : Kernel) (h : Inv k)
    (ht : timer_interrupt_event k = Except.ok k1) : Inv k1 := by
  unfold timer_interrupt_event at ht
  cases hc : timer_interrupt { k with intr_context := true, yield_on_return := false } with
  | error f =>
    rw [hc] at ht
    exact absurd ht (by simp [bind, Except.bind])
  | ok k2 =>
    rw [hc] at ht
    simp only [bind, Except.bind] at ht
    have A1 : Inv { k with intr_context := true, yield_on_return := false } :=
      Inv_frame k _ h rfl rfl rfl rfl rfl rfl rfl rfl rfl rfl rfl
    have A2 := Inv_timer_interrupt _ k2 A1 hc
    have A3 : Inv { k2 with intr_context := false } :=
      Inv_frame k2 _ A2 rfl rfl rfl rfl rfl rfl rfl rfl rfl rfl rfl
    split at ht
    · exact Inv_thread_yield _ k1 A3 ht
    · simp only [Except.ok.injEq] at ht
      rw [← ht]; exact A3

/-- The function `thread_exit` keeps the queue discipline when the caller is
not the idle thread. -/
theorem Inv_thread_exit (k k1 : Kernel) (h : Inv k) (hi : k.idle_thread ≠ some k.current)
    (he : thread_exit k = Except.ok k1) : Inv k1 := by
  unfold thread_exit at he
  split at he
  · exact absurd he (by simp)
  · cases hd : do_schedule k thread_status.THREAD_DYING with
    | error f =>
      rw [hd] at he
      exact absurd he (by simp [bind, Except.bind])
    | ok k2 =>
      rw [hd] at he
      simp only [bind, Except.bind] at he
      split at he
      · exact absurd he (by simp)
      · simp only [Except.ok.injEq] at he
        rw [← he]
        unfold do_schedule at hd
        cases hc : thread_current k with
        | error f =>
          rw [hc] at hd
          exact absurd hd (by simp [bind, Except.bind])
        | ok c =>
          obtain ⟨hcc, _, hrun⟩ := thread_current_eq k c hc
          rw [hc] at hd
          subst hcc
          refine Inv_schedule _ k2 ?_ hd
          have A1 := Inv_free k h (by rw [hrun]; decide)
          refine Inv_set_running _ A1 _ hrun (h.no_waiting_lock _) (h.no_donations _) ?_
          intro e
          exact absurd e hi

/-- What `thread_sleep` does when it returns: for the idle thread nothing,
otherwise `thread_block` in the memory where the caller is in the sleep
list. -/
theorem thread_sleep_eq (k k1 : Kernel) (ticks : Int)
    (h : thread_sleep k ticks = Except.ok k1) :
    (k.threads k.current).status = thread_status.THREAD_RUNNING ∧
    ((some k.current = k.idle_thread ∧ k1 = k) ∨
     (some k.current ≠ k.idle_thread ∧
      thread_block { k with
        global_tick := if ticks < k.global_tick then ticks else k.global_tick
        threads := Function.update k.threads k.current
          { k.threads k.current with wakeup_ticks := ticks }
        sleep_list := list_insert_ordered
          (fun a b => decide
            (((Function.update k.threads k.current
              { k.threads k.current with wakeup_ticks := ticks }) a).wakeup_ticks <
             ((Function.update k.threads k.current
              { k.threads k.current with wakeup_ticks := ticks }) b).wakeup_ticks))
          k.sleep_list k.current } = Except.ok k1)) := by
  unfold thread_sleep at h
  cases hc : thread_current k with
  | error f =>
    rw [hc] at h
    exact absurd h (by simp [bind, Except.bind])
  | ok c =>
    obtain ⟨hcc, hth, hrun⟩ := thread_current_eq k c hc
    rw [hc] at h
    subst hcc
    refine ⟨hrun, ?_⟩
    have h1 : (if k.intr_context = true then Except.error Fault.assert_not_intr_context
      else if some k.current ≠ k.idle_thread then
        thread_block { set_thread (if ticks < k.global_tick then { k with global_tick := ticks }
            else k) k.current
            { (if ticks < k.global_tick then { k with global_tick := ticks }
              else k).threads k.current with wakeup_ticks := ticks } with
          sleep_list := list_insert_ordered
            (wakeup_tick_less_function (set_thread (if ticks < k.global_tick then
              { k with global_tick := ticks } else k) k.current
              { (if ticks < k.global_tick then { k with global_tick := ticks }
                else k).threads k.current with wakeup_ticks := ticks }))
            (set_thread (if ticks < k.global_tick then { k with global_tick := ticks }
              else k) k.current
              { (if ticks < k.global_tick then { k with global_tick := ticks }
                else k).threads k.current with wakeup_ticks := ticks }).sleep_list k.current }
      else Except.ok k) = Except.ok k1 := h
    by_cases hin : k.intr_context = true
    · rw [if_pos hin] at h1
      exact absurd h1 (by simp)
    · rw [if_neg hin] at h1
      by_cases hi : some k.current ≠ k.idle_thread
      · rw [if_pos hi] at h1
        refine Or.inr ⟨hi, ?_⟩
        by_cases hlt : ticks < k.global_tick
        · rw [if_pos hlt]
          simp only [if_pos hlt] at h1
          exact h1
        · rw [if_neg hlt]
          simp only [if_neg hlt] at h1
          exact h1
      · rw [if_neg hi] at h1
        simp only [Except.ok.injEq] at h1
        exact Or.inl ⟨by simpa using hi, h1.symm⟩

/-- The function `thread_sleep` keeps the queue discipline when its argument
is an `int64_t`. -/
theorem Inv_thread_sleep (k k1 : Kernel) (h : Inv k) (ticks : Int) (hr : ticks ≤ INT64_MAX)
    (hsl : thread_sleep k ticks = Except.ok k1) : Inv k1 := by
  obtain ⟨hrun, hcase⟩ := thread_sleep_eq k k1 ticks hsl
  rcases hcase with ⟨_, e⟩ | ⟨hi, hb⟩
  · rw [e]; exact h
  · obtain ⟨_, _, _, hs⟩ := thread_block_eq _ k1 hb
    refine Inv_schedule _ k1 ?_ hs
    obtain ⟨f1, f2, f3, f4, f5⟩ := free_of_running k h k.current hrun
    have C1 : Inv (set_thread k k.current { k.threads k.current with
        wakeup_ticks := ticks, status := thread_status.THREAD_BLOCKED }) := by
      refine Inv_set_running k h _ hrun (h.no_waiting_lock _) (h.no_donations _) ?_
      intro _
      show thread_status.THREAD_BLOCKED ≠ thread_status.THREAD_DYING
      decide
    have hw : ∀ a, ((set_thread k k.current { k.threads k.current with
        wakeup_ticks := ticks, status := thread_status.THREAD_BLOCKED }).threads a).wakeup_ticks
        = ((Function.update k.threads k.current { k.threads k.current with
        wakeup_ticks := ticks }) a).wakeup_ticks := by
      intro a
      simp only [set_thread, Function.update_apply]
      split <;> rfl
    have C2 := Inv_sleep_insert _ C1 k.current
      (fun a b => decide (((Function.update k.threads k.current { k.threads k.current with
        wakeup_ticks := ticks }) a).wakeup_ticks < ((Function.update k.threads k.current
        { k.threads k.current with wakeup_ticks := ticks }) b).wakeup_ticks))
      (by intro a b; rw [hw a, hw b]) (by simp [set_thread]) h.cur_alloc f2 f3
      (fun e => hi e.symm) f5 (by simpa [set_thread] using hr)
    have e : ((set_thread k k.current { k.threads k.current with
        wakeup_ticks := ticks, status := thread_status.THREAD_BLOCKED }).threads
        k.current).wakeup_ticks = ticks := by
      simp [set_thread]
    rw [e] at C2
    refine Inv_frame _ _ C2 ?_ rfl rfl rfl rfl rfl rfl rfl rfl rfl rfl
    simp [set_thread]

/-- Storing a semaphore at `s` with waiters taken among those of `s`. -/
theorem Inv_set_sema_sub (k : Kernel) (h : Inv k) (s : sema_ref) (v : semaphore)
    (hn : v.waiters.Nodup) (hm : ∀ t ∈ v.waiters, t ∈ (get_sema k s).waiters) :
    Inv (set_sema k s v) :=
  Inv_set_sema k h s v hn (fun t ht => Or.inl (hm t ht))

/-- Changing the value of a semaphore. -/
theorem Inv_sema_value (k : Kernel) (h : Inv k) (s : sema_ref) (v : Nat) :
    Inv (set_sema k s { get_sema k s with value := v }) :=
  Inv_set_sema_sub k h s _ (h.wait_nodup s) (fun _ ht => ht)

/-- The function `sema_init` keeps the queue discipline. -/
theorem Inv_sema_init (k : Kernel) (h : Inv k) (s : sema_ref) (v : Nat) :
    Inv (sema_init k s v) :=
  Inv_set_sema_sub k h s _ List.nodup_nil (fun _ ht => absurd ht (List.not_mem_nil _))

/-- The function `sema_try_down` keeps the queue discipline. -/
theorem Inv_sema_try_down (k : Kernel) (h : Inv k) (s : sema_ref) :
    Inv (sema_try_down k s).1 := by
  unfold sema_try_down
  split
  · exact Inv_sema_value k h s _
  · exact h

/-- The loop of `sema_down` keeps the queue discipline when the caller is not
the idle thread and `rest` is what it has still to execute. -/
theorem Inv_sema_down_loop (k k1 : Kernel) (h : Inv k) (s : sema_ref) (rest : List Instr)
    (hrest : k.pending k.current = rest) (hi : k.idle_thread ≠ some k.current)
    (hd : sema_down_loop k s rest = Except.ok k1) : Inv k1 := by
  by_cases hv : (get_sema k s).value = 0
  · have hb := sema_down_loop_zero k k1 s rest hv hd
    obtain ⟨_, _, hrun, hs⟩ := thread_block_eq _ k1 hb
    have hrun1 : (k.threads k.current).status = thread_status.THREAD_RUNNING := hrun
    refine Inv_schedule _ k1 ?_ hs
    obtain ⟨f1, f2, f3, f4, f5⟩ := free_of_running k h k.current hrun1
    have D1 : Inv (set_thread k k.current { k.threads k.current with
        status := thread_status.THREAD_BLOCKED }) := by
      refine Inv_set_running k h _ hrun1 (h.no_waiting_lock _) (h.no_donations _) ?_
      intro _
      show thread_status.THREAD_BLOCKED ≠ thread_status.THREAD_DYING
      decide
    have D2 := Inv_set_sema _ D1 s { get_sema k s with
        waiters := list_insert_ordered (cmp_sema_priority k) (get_sema k s).waiters k.current }
      (list_insert_ordered_nodup _ _ _ (h.wait_nodup s) (f3 s)) (by
        intro t ht
        rcases (mem_list_insert_ordered _ _ _ _).mp ht with e | e
        · subst e
          exact Or.inr ⟨by simp [set_thread], h.cur_alloc, f2, f3, hi, f5⟩
        · exact Or.inl e)
    have D3 := Inv_pending_push _ D2 k.current (Instr.sema_down_loop s) rfl
      (by intro x; simp)
    have e : (set_sema (set_thread k k.current { k.threads k.current with
        status := thread_status.THREAD_BLOCKED }) s { get_sema k s with
        waiters := list_insert_ordered (cmp_sema_priority k) (get_sema k s).waiters
          k.current }).pending k.current = rest := hrest
    rw [e] at D3
    exact D3
  · rw [sema_down_loop_pos k s rest (by omega)] at hd
    simp only [Except.ok.injEq] at hd
    rw [← hd]
    exact Inv_sema_value k h s _

/-- First part of `sema_up` keeps the queue discipline. -/
theorem Inv_sema_up_wake (k k1 : Kernel) (h : Inv k) (s : sema_ref)
    (hw : sema_up_wake k s = Except.ok k1) : Inv k1 := by
  unfold sema_up_wake at hw
  dsimp only at hw
  have hperm := list_sort_perm (cmp_priority k) (get_sema k s).waiters
  cases hsort : list_sort (cmp_priority k) (get_sema k s).waiters with
  | nil =>
    rw [hsort] at hw
    simp only [Except.ok.injEq] at hw
    rw [← hw]
    exact Inv_sema_value _ (Inv_set_sema_sub k h s _ List.nodup_nil
      (fun _ ht => absurd ht (List.not_mem_nil _))) s _
  | cons t rest =>
    rw [hsort] at hw hperm
    dsimp only at hw
    have hnd : (t :: rest).Nodup := hperm.nodup_iff.mpr (h.wait_nodup s)
    have hmem : ∀ u, u ∈ t :: rest → u ∈ (get_sema k s).waiters := fun u hu => hperm.subset hu
    have ht := hmem t (by simp)
    have A1 : Inv (set_sema k s { get_sema k s with waiters := rest }) :=
      Inv_set_sema_sub k h s _ (List.nodup_cons.mp hnd).2
        (fun u hu => hmem u (List.mem_cons_of_mem _ hu))
    cases hu : thread_unblock (set_sema k s { get_sema k s with waiters := rest }) t with
    | error f =>
      rw [hu] at hw
      exact absurd hw (by simp [bind, Except.bind])
    | ok k2 =>
      rw [hu] at hw
      simp only [bind, Except.bind, Except.ok.injEq] at hw
      rw [← hw]
      refine Inv_sema_value _ ?_ s _
      refine Inv_thread_unblock _ k2 A1 t hu ?_ ?_ ?_ ?_
      · exact (h.wait_ok s t ht).2.2
      · intro s1
        rw [get_sema_set_sema]
        split
        · exact (List.nodup_cons.mp hnd).1
        · next hne => exact h.wait_disj s s1 (fun e => hne e.symm) t ht
      · intro u hm
        exact (h.creating u t hm).2.2.2.1 s ht
      · exact (h.wait_ok s t ht).2.1

/-- The function `sema_up` keeps the queue discipline. -/
theorem Inv_sema_up (k k1 : Kernel) (h : Inv k) (s : sema_ref)
    (hu : sema_up k s = Except.ok k1) : Inv k1 := by
  unfold sema_up at hu
  cases hw : sema_up_wake k s with
  | error f =>
    rw [hw] at hu
    exact absurd hu (by simp [bind, Except.bind])
  | ok k2 =>
    rw [hw] at hu
    exact Inv_test_max_priority k2 k1 (Inv_sema_up_wake k k2 h s hw) hu

/-- Writing the member `holder` of a lock. -/
theorem Inv_set_holder (k : Kernel) (h : Inv k) (l : lock_id) (x : Option Nat) :
    Inv (set_lock k l { k.locks l with holder := x }) := by
  refine Inv_of_same_queues k _ ⟨fun _ => rfl, rfl, rfl, ?_, rfl, rfl, rfl, rfl, rfl, rfl⟩ h
  intro s
  simp only [get_sema, set_lock, sema_at_update_locks]
  split
  · next e => rw [e]; rfl
  · rfl

/-- The function `lock_init` keeps the queue discipline. -/
theorem Inv_lock_init (k : Kernel) (h : Inv k) (l : lock_id) : Inv (lock_init k l) :=
  Inv_sema_init _ (Inv_set_holder k h l none) _ _

/-- What `lock_held_by_current_thread` returns. -/
theorem lock_held_eq (k : Kernel) (l : lock_id) (b : Bool)
    (h : lock_held_by_current_thread k l = Except.ok b) :
    (k.threads k.current).status = thread_status.THREAD_RUNNING ∧
      b = decide ((k.locks l).holder = some k.current) := by
  unfold lock_held_by_current_thread at h
  cases hc : thread_current k with
  | error f =>
    rw [hc] at h
    exact absurd h (by simp [bind, Except.bind])
  | ok c =>
    obtain ⟨hcc, _, hrun⟩ := thread_current_eq k c hc
    rw [hc] at h
    subst hcc
    simp only [bind, Except.bind, Except.ok.injEq] at h
    exact ⟨hrun, h.symm⟩

/-- Entry of `lock_acquire` changes nothing. -/
theorem lock_acquire_enter_eq (k k1 : Kernel) (l : lock_id)
    (h : lock_acquire_enter k l = Except.ok k1) :
    k1 = k ∧ k.intr_context = false ∧
      (k.threads k.current).status = thread_status.THREAD_RUNNING ∧
      (k.locks l).holder ≠ some k.current := by
  unfold lock_acquire_enter at h
  cases hp : thread_get_priority k with
  | error f =>
    rw [hp] at h
    exact absurd h (by simp [bind, Except.bind])
  | ok p =>
    rw [hp] at h
    simp only [bind, Except.bind] at h
    split at h
    · exact absurd h (by simp)
    · next hin =>
      cases hb : lock_held_by_current_thread k l with
      | error f =>
        rw [hb] at h
        exact absurd h (by simp)
      | ok b =>
        rw [hb] at h
        obtain ⟨hrun, hbe⟩ := lock_held_eq k l b hb
        simp only at h
        split at h
        · exact absurd h (by simp)
        · next hb2 =>
          simp only [Except.ok.injEq] at h
          refine ⟨h.symm, by simpa using hin, hrun, ?_⟩
          intro e
          rw [hbe] at hb2
          simp [e] at hb2

/-- End of `lock_acquire` keeps the queue discipline. -/
theorem Inv_lock_acquire_leave (k k1 : Kernel) (h : Inv k) (l : lock_id)
    (hl : lock_acquire_leave k l = Except.ok k1) : Inv k1 := by
  unfold lock_acquire_leave at hl
  cases hc : thread_current k with
  | error f =>
    rw [hc] at hl
    exact absurd hl (by simp [bind, Except.bind])
  | ok c =>
    obtain ⟨hcc, _, hrun⟩ := thread_current_eq k c hc
    rw [hc] at hl
    subst hcc
    simp only [bind, Except.bind, Except.ok.injEq] at hl
    rw [← hl]
    refine Inv_set_running _ (Inv_set_holder k h l _) _ hrun rfl (h.no_donations _) ?_
    intro _
    show (k.threads k.current).status ≠ thread_status.THREAD_DYING
    rw [hrun]
    decide

/-- The function `lock_try_acquire` keeps the queue discipline. -/
theorem Inv_lock_try_acquire (k : Kernel) (h : Inv k) (l : lock_id) (r : Kernel × Bool)
    (hl : lock_try_acquire k l = Except.ok r) : Inv r.1 := by
  unfold lock_try_acquire at hl
  cases hb : lock_held_by_current_thread k l with
  | error f =>
    rw [hb] at hl
    exact absurd hl (by simp [bind, Except.bind])
  | ok b =>
    rw [hb] at hl
    simp only [bind, Except.bind] at hl
    split at hl
    · exact absurd hl (by simp)
    · split at hl
      · cases hc : thread_current (sema_try_down k (sema_ref.of_lock l)).1 with
        | error f =>
          rw [hc] at hl
          exact absurd hl (by simp)
        | ok c =>
          rw [hc] at hl
          simp only [Except.ok.injEq] at hl
          rw [← hl]
          exact Inv_set_holder _ (Inv_sema_try_down k h _) l _
      · simp only [Except.ok.injEq] at hl
        rw [← hl]
        exact Inv_sema_try_down k h _

/-- While no thread waits for a lock, `donate_priority` changes nothing. -/
theorem donate_priority_idle (k : Kernel) (temp : Nat)
    (h : (k.threads temp).waiting_lock = none) : donate_priority k temp = k := by
  unfold donate_priority DONATION_DEPTH
  rw [donate_priority_loop_none 7 k temp h]

/-- While no thread has a donor, `remove_lock` gives the holder its base
priority. -/
theorem remove_lock_eq (k : Kernel) (l : lock_id) (c : Nat)
    (hh : (k.locks l).holder = some c) (hd : (k.threads c).donations = []) :
    remove_lock k l = set_thread k c { k.threads c with
      donations := [], priority := (k.threads c).original_priority } := by
  unfold remove_lock
  rw [hh]
  simp only [hd, List.filter_nil, max_donated_priority, List.foldl_nil]

/-- Entry of `lock_release` keeps the queue discipline. -/
theorem Inv_lock_release_enter (k k1 : Kernel) (h : Inv k) (l : lock_id) (temp : Nat)
    (hl : lock_release_enter k l temp = Except.ok k1) : Inv k1 := by
  unfold lock_release_enter at hl
  cases hb : lock_held_by_current_thread k l with
  | error f =>
    rw [hb] at hl
    exact absurd hl (by simp [bind, Except.bind])
  | ok b =>
    rw [hb] at hl
    obtain ⟨hrun, hbe⟩ := lock_held_eq k l b hb
    simp only [bind, Except.bind] at hl
    split at hl
    · exact absurd hl (by simp)
    · next hb2 =>
      have hheld : (k.locks l).holder = some k.current := by
        rw [hbe] at hb2
        simpa using hb2
      simp only [Except.ok.injEq] at hl
      rw [← hl]
      have A : Inv (if k.thread_mlfqs = false then donate_priority (remove_lock k l) temp
          else k) := by
        split
        · have A1 : Inv (remove_lock k l) := by
            rw [remove_lock_eq k l k.current hheld (h.no_donations _)]
            refine Inv_set_running k h _ hrun (h.no_waiting_lock _) rfl ?_
            intro _
            show (k.threads k.current).status ≠ thread_status.THREAD_DYING
            rw [hrun]
            decide
          rw [donate_priority_idle _ temp (A1.no_waiting_lock temp)]
          exact A1
        · exact h
      exact Inv_set_holder _ A l none

/-- The statement `lock->holder = NULL` keeps the queue discipline. -/
theorem Inv_lock_clear_holder (k : Kernel) (h : Inv k) (l : lock_id) :
    Inv (lock_clear_holder k l) :=
  Inv_set_holder k h l none

/-- Writing the wait queues of the conditions. -/
theorem Inv_set_conds (k : Kernel) (h : Inv k) (c : Nat → List semaphore_elem) :
    Inv { k with conds := c } :=
  Inv_frame k _ h rfl rfl rfl rfl rfl rfl rfl rfl rfl rfl rfl

/-- Entry of `cond_wait` keeps the queue discipline. -/
theorem Inv_cond_wait_enter (k k1 : Kernel) (h : Inv k) (c : Nat) (l : lock_id) (a : Nat)
    (hw : cond_wait_enter k c l a = Except.ok k1) : Inv k1 := by
  unfold cond_wait_enter at hw
  split at hw
  · exact absurd hw (by simp)
  · cases hb : lock_held_by_current_thread k l with
    | error f =>
      rw [hb] at hw
      exact absurd hw (by simp [bind, Except.bind])
    | ok b =>
      rw [hb] at hw
      simp only [bind, Except.bind] at hw
      split at hw
      · exact absurd hw (by simp)
      · cases hp : thread_get_priority k with
        | error f =>
          rw [hp] at hw
          exact absurd hw (by simp)
        | ok p =>
          rw [hp] at hw
          simp only [Except.ok.injEq] at hw
          rw [← hw]
          exact Inv_set_conds _ (Inv_sema_init k h _ _) _

/-- The function `cond_signal` keeps the queue discipline. -/
theorem Inv_cond_signal (k k1 : Kernel) (h : Inv k) (c : Nat) (l : lock_id)
    (hs : cond_signal k c l = Except.ok k1) : Inv k1 := by
  unfold cond_signal at hs
  split at hs
  · exact absurd hs (by simp)
  · cases hb : lock_held_by_current_thread k l with
    | error f =>
      rw [hb] at hs
      exact absurd hs (by simp [bind, Except.bind])
    | ok b =>
      rw [hb] at hs
      simp only [bind, Except.bind] at hs
      split at hs
      · exact absurd hs (by simp)
      · split at hs
        · simp only [Except.ok.injEq] at hs
          rw [← hs]; exact h
        · exact Inv_sema_up _ k1 (Inv_set_conds k h _) _ hs

/-- One turn of the loop of `cond_broadcast` keeps the queue discipline when
`rest` is what the caller has still to execute. -/
theorem Inv_cond_broadcast (k k1 : Kernel) (h : Inv k) (c : Nat) (l : lock_id)
    (rest : List Instr) (hrest : k.pending k.current = rest)
    (hb : cond_broadcast k c l rest = Except.ok k1) : Inv k1 := by
  unfold cond_broadcast at hb
  split at hb
  · simp only [Except.ok.injEq] at hb
    rw [← hb]; exact h
  · refine Inv_cond_signal _ k1 ?_ c l hb
    have A := Inv_pending_push k h k.current (Instr.cond_broadcast c l) rfl (by intro x; simp)
    rw [hrest] at A
    exact A

theorem same_context_refl (k : Kernel) : same_context k k :=
  ⟨rfl, rfl, rfl, fun _ => rfl, rfl, rfl, rfl, rfl, rfl, rfl, rfl, rfl⟩

theorem same_context_trans (k k1 k2 : Kernel) (h1 : same_context k k1)
    (h2 : same_context k1 k2) : same_context k k2 :=
  ⟨h2.idle_thread.trans h1.idle_thread, h2.pending.trans h1.pending,
   h2.conds.trans h1.conds, fun l => (h2.holder l).trans (h1.holder l),
   h2.allocated.trans h1.allocated, h2.sleep_list.trans h1.sleep_list,
   h2.global_tick.trans h1.global_tick, h2.intr_context.trans h1.intr_context,
   h2.thread_mlfqs.trans h1.thread_mlfqs, h2.initial_thread.trans h1.initial_thread,
   h2.next_tid.trans h1.next_tid, h2.ticks.trans h1.ticks⟩

theorem same_context_set_thread (k : Kernel) (t : Nat) (th : thread) :
    same_context k (set_thread k t th) :=
  ⟨rfl, rfl, rfl, fun _ => rfl, rfl, rfl, rfl, rfl, rfl, rfl, rfl, rfl⟩

theorem same_context_set_sema (k : Kernel) (s : sema_ref) (v : semaphore) :
    same_context k (set_sema k s v) :=
  ⟨rfl, rfl, rfl, fun l => put_locks_holder k.locks s v l, rfl, rfl, rfl, rfl, rfl, rfl, rfl,
    rfl⟩

theorem same_context_ready (k : Kernel) (l : List Nat) :
    same_context k { k with ready_list := l } :=
  ⟨rfl, rfl, rfl, fun _ => rfl, rfl, rfl, rfl, rfl, rfl, rfl, rfl, rfl⟩

theorem same_context_schedule (k k1 : Kernel) (h : schedule k = Except.ok k1) :
    same_context k k1 := by
  obtain ⟨next, rest, _, _, _, hk1⟩ := schedule_eq k k1 h
  rw [hk1]
  exact ⟨rfl, rfl, rfl, fun _ => rfl, rfl, rfl, rfl, rfl, rfl, rfl, rfl, rfl⟩

theorem same_context_thread_unblock (k k1 : Kernel) (t : Nat)
    (h : thread_unblock k t = Except.ok k1) : same_context k k1 := by
  obtain ⟨_, _, hk1⟩ := thread_unblock_eq k k1 t h
  rw [hk1]
  exact ⟨rfl, rfl, rfl, fun _ => rfl, rfl, rfl, rfl, rfl, rfl, rfl, rfl, rfl⟩

theorem same_context_thread_yield (k k1 : Kernel) (h : thread_yield k = Except.ok k1) :
    same_context k k1 := by
  obtain ⟨_, _, _, hs⟩ := thread_yield_eq k k1 h
  refine same_context_trans k _ k1 ?_ (same_context_schedule _ k1 hs)
  split
  · exact ⟨rfl, rfl, rfl, fun _ => rfl, rfl, rfl, rfl, rfl, rfl, rfl, rfl, rfl⟩
  · exact ⟨rfl, rfl, rfl, fun _ => rfl, rfl, rfl, rfl, rfl, rfl, rfl, rfl, rfl⟩

theorem same_context_thread_block (k k1 : Kernel) (h : thread_block k = Except.ok k1) :
    same_context k k1 := by
  obtain ⟨_, _, _, hs⟩ := thread_block_eq k k1 h
  exact same_context_trans k _ k1 (same_context_set_thread k _ _)
    (same_context_schedule _ k1 hs)

theorem same_context_test_max_priority (k k1 : Kernel)
    (h : test_max_priority k = Except.ok k1) : same_context k k1 := by
  rcases test_max_priority_eq k k1 h with e | ⟨_, e⟩
  · rw [e]; exact same_context_refl k
  · exact same_context_thread_yield k k1 e

theorem same_context_sema_up_wake (k k1 : Kernel) (s : sema_ref)
    (h : sema_up_wake k s = Except.ok k1) : same_context k k1 := by
  unfold sema_up_wake at h
  dsimp only at h
  cases hsort : list_sort (cmp_priority k) (get_sema k s).waiters with
  | nil =>
    rw [hsort] at h
    simp only [Except.ok.injEq] at h
    rw [← h]
    exact same_context_trans k _ _ (same_context_set_sema k s _) (same_context_set_sema _ s _)
  | cons t rest =>
    rw [hsort] at h
    dsimp only at h
    cases hu : thread_unblock (set_sema k s { get_sema k s with waiters := rest }) t with
    | error f =>
      rw [hu] at h
      exact absurd h (by simp [bind, Except.bind])
    | ok k2 =>
      rw [hu] at h
      simp only [bind, Except.bind, Except.ok.injEq] at h
      rw [← h]
      exact same_context_trans k _ _ (same_context_set_sema k s _)
        (same_context_trans _ k2 _ (same_context_thread_unblock _ k2 t hu)
          (same_context_set_sema _ s _))

theorem same_context_sema_up (k k1 : Kernel) (s : sema_ref)
    (h : sema_up k s = Except.ok k1) : same_context k k1 := by
  unfold sema_up at h
  cases hw : sema_up_wake k s with
  | error f =>
    rw [hw] at h
    exact absurd h (by simp [bind, Except.bind])
  | ok k2 =>
    rw [hw] at h
    exact same_context_trans k k2 k1 (same_context_sema_up_wake k k2 s hw)
      (same_context_test_max_priority k2 k1 h)

theorem thread_wakeup_context (k : Kernel) :
    (thread_wakeup k).idle_thread = k.idle_thread ∧ (thread_wakeup k).pending = k.pending ∧
    (thread_wakeup k).conds = k.conds ∧ (thread_wakeup k).locks = k.locks ∧
    (thread_wakeup k).semas = k.semas ∧ (thread_wakeup k).current = k.current ∧
    (thread_wakeup k).ticks = k.ticks ∧ (thread_wakeup k).allocated = k.allocated ∧
    (thread_wakeup k).intr_context = k.intr_context := by
  unfold thread_wakeup
  cases k.sleep_list with
  | nil => exact ⟨rfl, rfl, rfl, rfl, rfl, rfl, rfl, rfl, rfl⟩
  | cons t rest =>
    cases rest with
    | nil => exact ⟨rfl, rfl, rfl, rfl, rfl, rfl, rfl, rfl, rfl⟩
    | cons n r => exact ⟨rfl, rfl, rfl, rfl, rfl, rfl, rfl, rfl, rfl⟩

theorem wakeup_loop_context (n : Nat) : ∀ (k k1 : Kernel), wakeup_loop n k = Except.ok k1 →
    k1.idle_thread = k.idle_thread ∧ k1.pending = k.pending ∧
    k1.conds = k.conds ∧ k1.locks = k.locks ∧
    k1.semas = k.semas ∧ k1.current = k.current ∧
    k1.ticks = k.ticks ∧ k1.allocated = k.allocated ∧
    k1.intr_context = k.intr_context := by
  induction n with
  | zero =>
    intro k k1 hw
    unfold wakeup_loop at hw
    split at hw
    · exact absurd hw (by simp)
    · simp only [Except.ok.injEq] at hw
      rw [← hw]
      exact ⟨rfl, rfl, rfl, rfl, rfl, rfl, rfl, rfl, rfl⟩
  | succ n ih =>
    intro k k1 hw
    unfold wakeup_loop at hw
    split at hw
    · obtain ⟨a1, a2, a3, a4, a5, a6, a7, a8, a9⟩ := ih _ k1 hw
      obtain ⟨b1, b2, b3, b4, b5, b6, b7, b8, b9⟩ := thread_wakeup_context k
      exact ⟨a1.trans b1, a2.trans b2, a3.trans b3, a4.trans b4, a5.trans b5, a6.trans b6,
        a7.trans b7, a8.trans b8, a9.trans b9⟩
    · simp only [Except.ok.injEq] at hw
      rw [← hw]
      exact ⟨rfl, rfl, rfl, rfl, rfl, rfl, rfl, rfl, rfl⟩

/-- The timer interrupt leaves the idle thread and the pending instructions as
they are. -/
theorem timer_interrupt_event_context (k k1 : Kernel)
    (ht : timer_interrupt_event k = Except.ok k1) :
    k1.idle_thread = k.idle_thread ∧ k1.pending = k.pending := by
  unfold timer_interrupt_event at ht
  cases hc : timer_interrupt { k with intr_context := true, yield_on_return := false } with
  | error f =>
    rw [hc] at ht
    exact absurd ht (by simp [bind, Except.bind])
  | ok k2 =>
    rw [hc] at ht
    simp only [bind, Except.bind] at ht
    have h2 : k2.idle_thread = k.idle_thread ∧ k2.pending = k.pending := by
      unfold timer_interrupt at hc
      cases hd : thread_tick { { k with intr_context := true, yield_on_return := false } with
          ticks := k.ticks + 1 } with
      | error f =>
        rw [hd] at hc
        exact absurd hc (by simp [bind, Except.bind])
      | ok k3 =>
        rw [hd] at hc
        obtain ⟨_, _, _, _, _, _, _, a8, _, _, a11, _⟩ := thread_tick_eq _ k3 hd
        obtain ⟨b1, b2, _⟩ := wakeup_loop_context _ k3 k2 hc
        exact ⟨b1.trans a8, b2.trans a11⟩
    split at ht
    · have h3 := same_context_thread_yield _ k1 ht
      exact ⟨h3.idle_thread.trans h2.1, h3.pending.trans h2.2⟩
    · simp only [Except.ok.injEq] at ht
      rw [← ht]
      exact h2

/-- What an instruction does to the idle thread and to the pending
instructions: only `idle_enter` changes the idle thread; `init_thread` clears
what the new page has to execute, and the three loops may put themselves back
in front of what the caller has still to execute. -/
theorem step_instr_context (k k1 : Kernel) (h : Inv k) (i : Instr) (rest : List Instr)
    (hs : step_instr k i rest = Except.ok k1) :
    (k1.idle_thread = k.idle_thread ∨ (i = Instr.idle_enter ∧ k1.idle_thread = some k.current)) ∧
    (k1.pending = k.pending ∨
      (k1.pending = Function.update k.pending k.current (i :: rest) ∧ resumable i = true ∧
        i ≠ Instr.idle_enter ∧ ∀ x, i ≠ Instr.thread_unblock x) ∨
      (∃ t p, i = Instr.init_thread t p ∧ t ∉ k.allocated ∧
        k1.pending = Function.update k.pending t [])) := by
  have of_ctx : ∀ {a b : Kernel}, same_context a b →
      (b.idle_thread = a.idle_thread ∨ (i = Instr.idle_enter ∧ b.idle_thread = some a.current)) ∧
      (b.pending = a.pending ∨
        (b.pending = Function.update a.pending a.current (i :: rest) ∧ resumable i = true ∧
          i ≠ Instr.idle_enter ∧ ∀ x, i ≠ Instr.thread_unblock x) ∨
        (∃ t p, i = Instr.init_thread t p ∧ t ∉ a.allocated ∧
          b.pending = Function.update a.pending t [])) :=
    fun c => ⟨Or.inl c.idle_thread, Or.inl c.pending⟩
  cases i with
  | init_thread t p =>
    simp only [step_instr] at hs
    split at hs
    · exact absurd hs (by simp)
    · next hn =>
      unfold init_thread at hs
      split at hs
      · exact absurd hs (by simp)
      · simp only [Except.ok.injEq] at hs
        rw [← hs]
        exact ⟨Or.inl rfl, Or.inr (Or.inr ⟨t, p, rfl, hn, rfl⟩)⟩
  | assign_tid t =>
    simp only [step_instr, Except.ok.injEq] at hs
    rw [← hs]
    exact ⟨Or.inl rfl, Or.inl rfl⟩
  | thread_unblock t => exact of_ctx (same_context_thread_unblock k k1 t hs)
  | test_max_priority => exact of_ctx (same_context_test_max_priority k k1 hs)
  | thread_yield => exact of_ctx (same_context_thread_yield k k1 hs)
  | thread_block => exact of_ctx (same_context_thread_block k k1 hs)
  | thread_set_priority p =>
    simp only [step_instr] at hs
    unfold thread_set_priority at hs
    cases hc : thread_current k with
    | error f =>
      rw [hc] at hs
      exact absurd hs (by simp [bind, Except.bind])
    | ok c =>
      rw [hc] at hs
      exact of_ctx (same_context_trans k _ k1 (same_context_set_thread k _ _)
        (same_context_test_max_priority _ k1 hs))
  | thread_sleep ticks =>
    obtain ⟨_, hcase⟩ := thread_sleep_eq k k1 ticks hs
    rcases hcase with ⟨_, e⟩ | ⟨_, hb⟩
    · rw [e]; exact ⟨Or.inl rfl, Or.inl rfl⟩
    · have c := same_context_thread_block _ k1 hb
      exact ⟨Or.inl c.idle_thread, Or.inl c.pending⟩
  | thread_wakeup =>
    simp only [step_instr, Except.ok.injEq] at hs
    rw [← hs]
    obtain ⟨a1, a2, _⟩ := thread_wakeup_context k
    exact ⟨Or.inl a1, Or.inl a2⟩
  | sema_init s v =>
    simp only [step_instr, Except.ok.injEq] at hs
    rw [← hs]
    exact ⟨Or.inl rfl, Or.inl rfl⟩
  | sema_down_enter =>
    simp only [step_instr] at hs
    split at hs
    · exact absurd hs (by simp)
    · simp only [Except.ok.injEq] at hs
      rw [← hs]
      exact ⟨Or.inl rfl, Or.inl rfl⟩
  | sema_down_loop s =>
    have hs1 : sema_down_loop k s rest = Except.ok k1 := hs
    by_cases hv : (get_sema k s).value = 0
    · have hb := sema_down_loop_zero k k1 s rest hv hs1
      have c := same_context_thread_block _ k1 hb
      exact ⟨Or.inl c.idle_thread, Or.inr (Or.inl ⟨c.pending, rfl, by simp, by simp⟩)⟩
    · rw [sema_down_loop_pos k s rest (by omega)] at hs1
      simp only [Except.ok.injEq] at hs1
      rw [← hs1]
      exact ⟨Or.inl rfl, Or.inl rfl⟩
  | sema_try_down s =>
    simp only [step_instr, Except.ok.injEq] at hs
    rw [← hs]
    unfold sema_try_down
    split
    · exact ⟨Or.inl rfl, Or.inl rfl⟩
    · exact ⟨Or.inl rfl, Or.inl rfl⟩
  | sema_up s => exact of_ctx (same_context_sema_up k k1 s hs)
  | lock_init l =>
    simp only [step_instr, Except.ok.injEq] at hs
    rw [← hs]
    exact ⟨Or.inl rfl, Or.inl rfl⟩
  | lock_acquire_enter l =>
    obtain ⟨e, _⟩ := lock_acquire_enter_eq k k1 l hs
    rw [e]
    exact ⟨Or.inl rfl, Or.inl rfl⟩
  | lock_acquire_leave l =>
    simp only [step_instr] at hs
    unfold lock_acquire_leave at hs
    cases hc : thread_current k with
    | error f =>
      rw [hc] at hs
      exact absurd hs (by simp [bind, Except.bind])
    | ok c =>
      rw [hc] at hs
      simp only [bind, Except.bind, Except.ok.injEq] at hs
      rw [← hs]
      exact ⟨Or.inl rfl, Or.inl rfl⟩
  | lock_try_acquire l =>
    simp only [step_instr] at hs
    unfold lock_try_acquire at hs
    cases hb : lock_held_by_current_thread k l with
    | error f =>
      rw [hb] at hs
      exact absurd hs (by simp [bind, Except.bind, Except.map])
    | ok b =>
      rw [hb] at hs
      simp only [bind, Except.bind] at hs
      split at hs
      · exact absurd hs (by simp [Except.map])
      · have hp : (sema_try_down k (sema_ref.of_lock l)).1.idle_thread = k.idle_thread ∧
            (sema_try_down k (sema_ref.of_lock l)).1.pending = k.pending := by
          unfold sema_try_down
          split
          · exact ⟨rfl, rfl⟩
          · exact ⟨rfl, rfl⟩
        split at hs
        · cases hc : thread_current (sema_try_down k (sema_ref.of_lock l)).1 with
          | error f =>
            rw [hc] at hs
            exact absurd hs (by simp [Except.map])
          | ok c =>
            rw [hc] at hs
            simp only [Except.map, Except.ok.injEq] at hs
            rw [← hs]
            exact ⟨Or.inl hp.1, Or.inl hp.2⟩
        · simp only [Except.map, Except.ok.injEq] at hs
          rw [← hs]
          exact ⟨Or.inl hp.1, Or.inl hp.2⟩
  | lock_release_enter l temp =>
    simp only [step_instr] at hs
    unfold lock_release_enter at hs
    cases hb : lock_held_by_current_thread k l with
    | error f =>
      rw [hb] at hs
      exact absurd hs (by simp [bind, Except.bind])
    | ok b =>
      rw [hb] at hs
      obtain ⟨hrun, hbe⟩ := lock_held_eq k l b hb
      simp only [bind, Except.bind] at hs
      split at hs
      · exact absurd hs (by simp)
      · next hb2 =>
        have hheld : (k.locks l).holder = some k.current := by
          rw [hbe] at hb2
          simpa using hb2
        simp only [Except.ok.injEq] at hs
        rw [← hs]
        have A : (if k.thread_mlfqs = false then donate_priority (remove_lock k l) temp
            else k).idle_thread = k.idle_thread ∧
            (if k.thread_mlfqs = false then donate_priority (remove_lock k l) temp
            else k).pending = k.pending := by
          split
          · rw [remove_lock_eq k l k.current hheld (h.no_donations _)]
            rw [donate_priority_idle _ temp (by
              simp only [set_thread, Function.update_apply]
              split
              · exact h.no_waiting_lock _
              · exact h.no_waiting_lock _)]
            exact ⟨rfl, rfl⟩
          · exact ⟨rfl, rfl⟩
        exact ⟨Or.inl A.1, Or.inl A.2⟩
  | lock_clear_holder l =>
    simp only [step_instr, Except.ok.injEq] at hs
    rw [← hs]
    exact ⟨Or.inl rfl, Or.inl rfl⟩
  | idle_enter =>
    simp only [step_instr] at hs
    cases hc : thread_current k with
    | error f =>
      rw [hc] at hs
      exact absurd hs (by simp [bind, Except.bind])
    | ok c =>
      obtain ⟨hcc, _, _⟩ := thread_current_eq k c hc
      rw [hc] at hs
      simp only [bind, Except.bind, Except.ok.injEq] at hs
      rw [← hs, hcc]
      exact ⟨Or.inr ⟨rfl, rfl⟩, Or.inl rfl⟩
  | idle_loop =>
    simp only [step_instr] at hs
    cases hc : thread_current k with
    | error f =>
      rw [hc] at hs
      exact absurd hs (by simp [bind, Except.bind])
    | ok c =>
      obtain ⟨hcc, _, _⟩ := thread_current_eq k c hc
      rw [hc] at hs
      subst hcc
      have c := same_context_thread_block _ k1 hs
      exact ⟨Or.inl c.idle_thread, Or.inr (Or.inl ⟨c.pending, rfl, by simp, by simp⟩)⟩
  | thread_exit =>
    simp only [step_instr] at hs
    unfold thread_exit at hs
    split at hs
    · exact absurd hs (by simp)
    · cases hd : do_schedule k thread_status.THREAD_DYING with
      | error f =>
        rw [hd] at hs
        exact absurd hs (by simp [bind, Except.bind])
      | ok k2 =>
        rw [hd] at hs
        simp only [bind, Except.bind] at hs
        split at hs
        · exact absurd hs (by simp)
        · simp only [Except.ok.injEq] at hs
          rw [← hs]
          unfold do_schedule at hd
          cases hc : thread_current k with
          | error f =>
            rw [hc] at hd
            exact absurd hd (by simp [bind, Except.bind])
          | ok c =>
            rw [hc] at hd
            have c := same_context_schedule _ k2 hd
            exact ⟨Or.inl c.idle_thread, Or.inl c.pending⟩
  | cond_init c =>
    simp only [step_instr, Except.ok.injEq] at hs
    rw [← hs]
    exact ⟨Or.inl rfl, Or.inl rfl⟩
  | cond_wait_enter c l a =>
    simp only [step_instr] at hs
    unfold cond_wait_enter at hs
    split at hs
    · exact absurd hs (by simp)
    · cases hb : lock_held_by_current_thread k l with
      | error f =>
        rw [hb] at hs
        exact absurd hs (by simp [bind, Except.bind])
      | ok b =>
        rw [hb] at hs
        simp only [bind, Except.bind] at hs
        split at hs
        · exact absurd hs (by simp)
        · cases hp : thread_get_priority k with
          | error f =>
            rw [hp] at hs
            exact absurd hs (by simp)
          | ok p =>
            rw [hp] at hs
            simp only [Except.ok.injEq] at hs
            rw [← hs]
            exact ⟨Or.inl rfl, Or.inl rfl⟩
  | cond_signal c l =>
    simp only [step_instr] at hs
    unfold cond_signal at hs
    split at hs
    · exact absurd hs (by simp)
    · cases hb : lock_held_by_current_thread k l with
      | error f =>
        rw [hb] at hs
        exact absurd hs (by simp [bind, Except.bind])
      | ok b =>
        rw [hb] at hs
        simp only [bind, Except.bind] at hs
        split at hs
        · exact absurd hs (by simp)
        · split at hs
          · simp only [Except.ok.injEq] at hs
            rw [← hs]
            exact ⟨Or.inl rfl, Or.inl rfl⟩
          · have c := same_context_sema_up _ k1 _ hs
            exact ⟨Or.inl c.idle_thread, Or.inl c.pending⟩
  | cond_broadcast c l =>
    simp only [step_instr] at hs
    unfold cond_broadcast at hs
    split at hs
    · simp only [Except.ok.injEq] at hs
      rw [← hs]
      exact ⟨Or.inl rfl, Or.inl rfl⟩
    · unfold cond_signal at hs
      split at hs
      · exact absurd hs (by simp)
      · cases hb : lock_held_by_current_thread
            (set_pending k k.current (Instr.cond_broadcast c l :: rest)) l with
        | error f =>
          rw [hb] at hs
          exact absurd hs (by simp [bind, Except.bind])
        | ok b =>
          rw [hb] at hs
          simp only [bind, Except.bind] at hs
          split at hs
          · exact absurd hs (by simp)
          · split at hs
            · simp only [Except.ok.injEq] at hs
              rw [← hs]
              exact ⟨Or.inl rfl, Or.inr (Or.inl ⟨rfl, rfl, by simp, by simp⟩)⟩
            · have c := same_context_sema_up _ k1 _ hs
              exact ⟨Or.inl c.idle_thread, Or.inr (Or.inl ⟨c.pending, rfl, by simp, by simp⟩)⟩

/-- Every instruction but `init_thread` keeps the queue discipline, when
`rest` is what the caller has still to execute, a thread that is unblocked is
in no queue, the argument of `thread_sleep` is an `int64_t`, and the idle
thread neither exits nor waits for a semaphore. -/
theorem Inv_step_instr (k k1 : Kernel) (h : Inv k) (i : Instr) (rest : List Instr)
    (hrest : k.pending k.current = rest)
    (hnot : ∀ t p, i ≠ Instr.init_thread t p)
    (hub : ∀ t, i = Instr.thread_unblock t →
      t ∈ k.allocated ∧ t ∉ k.sleep_list ∧ (∀ s, t ∉ (get_sema k s).waiters) ∧
      ∀ u, Instr.thread_unblock t ∉ k.pending u)
    (hsl : ∀ ticks, i = Instr.thread_sleep ticks → ticks ≤ INT64_MAX)
    (hid : (i = Instr.thread_exit ∨ ∃ s, i = Instr.sema_down_loop s) →
      k.idle_thread ≠ some k.current)
    (hs : step_instr k i rest = Except.ok k1) : Inv k1 := by
  cases i with
  | init_thread t p => exact absurd rfl (hnot t p)
  | assign_tid t =>
    simp only [step_instr, Except.ok.injEq] at hs
    rw [← hs]
    refine Inv_of_same_queues k _ ⟨?_, rfl, rfl, fun _ => rfl, rfl, rfl, rfl, rfl, rfl, rfl⟩ h
    intro u
    simp only [set_thread, Function.update_apply]
    split
    · next e => rw [e]; rfl
    · rfl
  | thread_unblock t =>
    obtain ⟨a1, a2, a3, a4⟩ := hub t rfl
    exact Inv_thread_unblock k k1 h t hs a2 a3 a4 a1
  | test_max_priority => exact Inv_test_max_priority k k1 h hs
  | thread_yield => exact Inv_thread_yield k k1 h hs
  | thread_block => exact Inv_thread_block k k1 h hs
  | thread_set_priority p => exact Inv_thread_set_priority k k1 h p hs
  | thread_sleep ticks => exact Inv_thread_sleep k k1 h ticks (hsl ticks rfl) hs
  | thread_wakeup =>
    simp only [step_instr, Except.ok.injEq] at hs
    rw [← hs]
    exact Inv_thread_wakeup k h
  | sema_init s v =>
    simp only [step_instr, Except.ok.injEq] at hs
    rw [← hs]
    exact Inv_sema_init k h s v
  | sema_down_enter =>
    simp only [step_instr] at hs
    split at hs
    · exact absurd hs (by simp)
    · simp only [Except.ok.injEq] at hs
      rw [← hs]
      exact h
  | sema_down_loop s => exact Inv_sema_down_loop k k1 h s rest hrest (hid (Or.inr ⟨s, rfl⟩)) hs
  | sema_try_down s =>
    simp only [step_instr, Except.ok.injEq] at hs
    rw [← hs]
    exact Inv_sema_try_down k h s
  | sema_up s => exact Inv_sema_up k k1 h s hs
  | lock_init l =>
    simp only [step_instr, Except.ok.injEq] at hs
    rw [← hs]
    exact Inv_lock_init k h l
  | lock_acquire_enter l =>
    obtain ⟨e, _⟩ := lock_acquire_enter_eq k k1 l hs
    rw [e]
    exact h
  | lock_acquire_leave l => exact Inv_lock_acquire_leave k k1 h l hs
  | lock_try_acquire l =>
    simp only [step_instr] at hs
    cases hr : lock_try_acquire k l with
    | error f =>
      rw [hr] at hs
      exact absurd hs (by simp [Except.map])
    | ok r =>
      rw [hr] at hs
      simp only [Except.map, Except.ok.injEq] at hs
      rw [← hs]
      exact Inv_lock_try_acquire k h l r hr
  | lock_release_enter l temp => exact Inv_lock_release_enter k k1 h l temp hs
  | lock_clear_holder l =>
    simp only [step_instr, Except.ok.injEq] at hs
    rw [← hs]
    exact Inv_lock_clear_holder k h l
  | idle_enter =>
    simp only [step_instr] at hs
    cases hc : thread_current k with
    | error f =>
      rw [hc] at hs
      exact absurd hs (by simp [bind, Except.bind])
    | ok c =>
      obtain ⟨hcc, _, hrun⟩ := thread_current_eq k c hc
      rw [hc] at hs
      subst hcc
      simp only [bind, Except.bind, Except.ok.injEq] at hs
      rw [← hs]
      obtain ⟨_, f2, f3, _, f5⟩ := free_of_running k h k.current hrun
      exact Inv_set_idle k h k.current h.cur_alloc f2 f3 (by rw [hrun]; decide) f5
  | idle_loop =>
    simp only [step_instr] at hs
    cases hc : thread_current k with
    | error f =>
      rw [hc] at hs
      exact absurd hs (by simp [bind, Except.bind])
    | ok c =>
      obtain ⟨hcc, _, _⟩ := thread_current_eq k c hc
      rw [hc] at hs
      subst hcc
      refine Inv_thread_block _ k1 ?_ hs
      have A := Inv_pending_push k h k.current Instr.idle_loop rfl (by intro x; simp)
      rw [hrest] at A
      exact A
  | thread_exit => exact Inv_thread_exit k k1 h (hid (Or.inl rfl)) hs
  | cond_init c =>
    simp only [step_instr, Except.ok.injEq] at hs
    rw [← hs]
    exact Inv_set_conds k h _
  | cond_wait_enter c l a => exact Inv_cond_wait_enter k k1 h c l a hs
  | cond_signal c l => exact Inv_cond_signal k k1 h c l hs
  | cond_broadcast c l => exact Inv_cond_broadcast k k1 h c l rest hrest hs

/-- What a call leaves to be executed after its first instruction can be
resumed, and unblocks only the page a `thread_create` was given. -/
theorem program_tail (c : Call) (i : Instr) (rest : List Instr) (hp : program c = i :: rest) :
    (∀ j ∈ rest, resumable j = true) ∧
    (∀ x, Instr.thread_unblock x ∈ rest →
      ∃ p temp, c = Call.thread_create (some x) p temp) ∧
    (∀ x, rest.count (Instr.thread_unblock x) ≤ 1) ∧
    (∀ t p, i = Instr.init_thread t p → ∃ temp, c = Call.thread_create (some t) p temp) ∧
    (i = Instr.idle_enter → ∃ s, rest = [Instr.sema_up s, Instr.idle_loop]) ∧
    (∀ x, i = Instr.thread_unblock x → c = Call.thread_unblock x) ∧
    (∀ ticks, i = Instr.thread_sleep ticks → c = Call.thread_sleep ticks) := by
  cases c with
  | thread_create page p temp =>
    cases page with
    | none => exact absurd hp (by simp [program])
    | some t =>
      simp only [program, allocate_tid_program, lock_acquire_program, sema_down_program,
        lock_release_program, List.cons_append, List.nil_append, List.cons.injEq] at hp
      obtain ⟨hi, hr⟩ := hp
      subst hi
      subst hr
      refine ⟨by simp [resumable], ?_, ?_, ?_, by simp, by simp, by simp⟩
      · intro x hx
        simp only [List.mem_cons, Instr.thread_unblock.injEq, List.mem_singleton,
          List.not_mem_nil, or_false, false_or, reduceCtorEq] at hx
        exact ⟨p, temp, by rw [hx]⟩
      · intro x
        simp only [List.count_cons, List.count_nil, beq_iff_eq, reduceCtorEq, if_false,
          Instr.thread_unblock.injEq]
        split <;> simp
      · intro t1 p1 e
        simp only [Instr.init_thread.injEq] at e
        exact ⟨temp, by rw [e.1, e.2]⟩
  | cond_wait c a waiter temp =>
    simp only [program, cond_wait_program, lock_acquire_program, sema_down_program,
      lock_release_program, List.cons_append, List.nil_append, List.cons.injEq] at hp
    obtain ⟨hi, hr⟩ := hp
    subst hi
    subst hr
    refine ⟨by simp [resumable], by simp, ?_, by simp, by simp, by simp, by simp⟩
    intro x
    simp [List.count_cons]
  | lock_acquire a =>
    simp only [program, lock_acquire_program, sema_down_program,
      List.cons_append, List.nil_append, List.cons.injEq] at hp
    obtain ⟨hi, hr⟩ := hp
    subst hi
    subst hr
    refine ⟨by simp [resumable], by simp, ?_, by simp, by simp, by simp, by simp⟩
    intro x
    simp [List.count_cons]
  | lock_release a temp =>
    simp only [program, lock_release_program, List.cons.injEq] at hp
    obtain ⟨hi, hr⟩ := hp
    subst hi
    subst hr
    refine ⟨by simp [resumable], by simp, ?_, by simp, by simp, by simp, by simp⟩
    intro x
    simp [List.count_cons]
  | sema_down s =>
    simp only [program, sema_down_program, List.cons.injEq] at hp
    obtain ⟨hi, hr⟩ := hp
    subst hi
    subst hr
    refine ⟨by simp [resumable], by simp, ?_, by simp, by simp, by simp, by simp⟩
    intro x
    simp [List.count_cons]
  | idle s =>
    simp only [program, List.cons.injEq] at hp
    obtain ⟨hi, hr⟩ := hp
    subst hi
    subst hr
    refine ⟨by simp [resumable], by simp, ?_, by simp, fun _ => ⟨s, rfl⟩, by simp, by simp⟩
    intro x
    simp [List.count_cons]
  | thread_unblock t =>
    simp only [program, List.cons.injEq] at hp
    obtain ⟨hi, hr⟩ := hp
    subst hi
    subst hr
    refine ⟨by simp, by simp, by simp, by simp, by simp, ?_, by simp⟩
    intro x e
    simp only [Instr.thread_unblock.injEq] at e
    rw [e]
  | thread_sleep ticks =>
    simp only [program, List.cons.injEq] at hp
    obtain ⟨hi, hr⟩ := hp
    subst hi
    subst hr
    refine ⟨by simp, by simp, by simp, by simp, by simp, by simp, ?_⟩
    intro x e
    simp only [Instr.thread_sleep.injEq] at e
    rw [e]
  | _ =>
    simp only [program, List.cons.injEq] at hp
    obtain ⟨hi, hr⟩ := hp
    subst hi
    subst hr
    exact ⟨by simp, by simp, by simp, by simp, by simp, by simp, by simp⟩

/-- The loop of `idle` always puts itself back in front of what the idle
thread has to execute. -/
theorem step_idle_loop_pending (k k1 : Kernel) (rest : List Instr)
    (hs : step_instr k Instr.idle_loop rest = Except.ok k1) :
    k1.pending = Function.update k.pending k.current (Instr.idle_loop :: rest) := by
  simp only [step_instr] at hs
  cases hc : thread_current k with
  | error f =>
    rw [hc] at hs
    exact absurd hs (by simp [bind, Except.bind])
  | ok c =>
    obtain ⟨hcc, _, _⟩ := thread_current_eq k c hc
    rw [hc] at hs
    subst hcc
    exact (same_context_thread_block _ k1 hs).pending

/-- A thread with nothing to execute is not the idle thread. -/
theorem not_idle_of_quiescent (k : Kernel) (hsh : idle_shape k)
    (hp : k.pending k.current = []) : k.idle_thread ≠ some k.current := by
  intro e
  rcases hsh k.current e with e1 | ⟨s, e1⟩
  · rw [hp] at e1; exact absurd e1 (by simp)
  · rw [hp] at e1; exact absurd e1 (by simp)

/-- A call that is not `thread_create` leaves instructions to execute that
keep the queue discipline. -/
theorem Inv_call_pending (k : Kernel) (h : Inv k)
    (rest : List Instr) (hres : ∀ j ∈ rest, resumable j = true)
    (hno : ∀ x, Instr.thread_unblock x ∉ rest) : Inv (set_pending k k.current rest) := by
  have hP : ∀ u x, Instr.thread_unblock x ∈ Function.update k.pending k.current rest u →
      Instr.thread_unblock x ∈ k.pending u := by
    intro u x hx
    rw [Function.update_apply] at hx
    split at hx
    · exact absurd hx (hno x)
    · exact hx
  refine Inv_with_pending k h _ ?_ ?_ ?_ ?_
  · intro u j hj
    rw [Function.update_apply] at hj
    split at hj
    · exact hres j hj
    · exact h.pending_ok u j hj
  · intro u x hx
    exact h.creating u x (hP u x hx)
  · intro u1 u2 x h1 h2
    exact h.creating_unique u1 u2 x (hP u1 x h1) (hP u2 x h2)
  · intro u x
    rw [Function.update_apply]
    split
    · rw [List.count_eq_zero_of_not_mem (hno x)]
      exact Nat.zero_le _
    · exact h.creating_once u x

/-- The first instruction of `thread_create` on a fresh page, with the rest
of the call still to execute, keeps the queue discipline. -/
theorem Inv_thread_create_call (k k1 : Kernel) (h : Inv k) (hsh : idle_shape k)
    (hp : k.pending k.current = []) (t : Nat) (p : Int) (rest : List Instr)
    (hres : ∀ j ∈ rest, resumable j = true)
    (hun : ∀ x, Instr.thread_unblock x ∈ rest → x = t)
    (hcount : ∀ x, rest.count (Instr.thread_unblock x) ≤ 1)
    (hs : step_instr (set_pending k k.current rest) (Instr.init_thread t p) rest =
      Except.ok k1) : Inv k1 ∧ idle_shape k1 := by
  simp only [step_instr] at hs
  split at hs
  · exact absurd hs (by simp)
  · next hn =>
    have hn1 : t ∉ k.allocated := hn
    unfold init_thread at hs
    split at hs
    · exact absurd hs (by simp)
    · simp only [Except.ok.injEq] at hs
      have hcur : k.current ≠ t := fun e => hn1 (e ▸ h.cur_alloc)
      have E1 := Inv_alloc k h t
      have E2 : Inv (set_thread { k with allocated := t :: k.allocated } t
          { status := thread_status.THREAD_BLOCKED, priority := p, magic := THREAD_MAGIC,
            original_priority := p, donations := [] }) := by
        refine Inv_set_thread _ E1 t _ rfl rfl ?_ ?_ ?_ ?_ ?_ ?_
        · intro hm; exact absurd (h.ready_ok t hm).2 hn1
        · intro hm; exact absurd (h.sleep_ok t hm).2 hn1
        · intro s hm; exact absurd (h.wait_ok s t hm).2.1 hn1
        · intro e; exact absurd (h.idle_ok t e).1 hn1
        · intro hm; exact absurd (h.dying_ok t hm).2 hn1
        · intro u hm; exact absurd (h.creating u t hm).1 hn1
      have hP : ∀ u, Function.update (Function.update k.pending k.current rest) t [] u =
          if u = t then [] else if u = k.current then rest else k.pending u := by
        intro u
        simp only [Function.update_apply]
      have hother : ∀ u x, Instr.thread_unblock x ∈
          Function.update (Function.update k.pending k.current rest) t [] u →
          (u = k.current ∧ x = t) ∨ (u ≠ t ∧ u ≠ k.current ∧
            Instr.thread_unblock x ∈ k.pending u) := by
        intro u x hx
        rw [hP] at hx
        split at hx
        · exact absurd hx (List.not_mem_nil _)
        · next hut =>
          split at hx
          · next huc => exact Or.inl ⟨huc, hun x hx⟩
          · next huc => exact Or.inr ⟨hut, huc, hx⟩
      have E3 := Inv_with_pending _ E2
        (Function.update (Function.update k.pending k.current rest) t []) (by
          intro u j hj
          rw [hP] at hj
          split at hj
          · exact absurd hj (List.not_mem_nil _)
          · split at hj
            · exact hres j hj
            · exact h.pending_ok u j hj) (by
          intro u x hx
          rcases hother u x hx with ⟨_, e⟩ | ⟨_, _, hx1⟩
          · subst e
            refine ⟨List.mem_cons_self _ _, by simp [set_thread], ?_, ?_, ?_⟩
            · intro hm; exact absurd (h.sleep_ok x hm).2 hn1
            · intro s hm; exact absurd (h.wait_ok s x hm).2.1 hn1
            · intro e; exact absurd (h.idle_ok x e).1 hn1
          · obtain ⟨a1, a2, a3, a4, a5⟩ := h.creating u x hx1
            have hxt : x ≠ t := fun e => hn1 (e ▸ a1)
            refine ⟨List.mem_cons_of_mem _ a1, ?_, a3, a4, a5⟩
            simp only [set_thread, Function.update_apply, hxt, if_false]
            exact a2) (by
          intro u1 u2 x h1 h2
          rcases hother u1 x h1 with ⟨e1, ex⟩ | ⟨_, _, hx1⟩
          · rcases hother u2 x h2 with ⟨e2, _⟩ | ⟨_, _, hx2⟩
            · rw [e1, e2]
            · exact absurd (h.creating u2 x hx2).1 (ex ▸ hn1)
          · rcases hother u2 x h2 with ⟨_, ex⟩ | ⟨_, _, hx2⟩
            · exact absurd (h.creating u1 x hx1).1 (ex ▸ hn1)
            · exact h.creating_unique u1 u2 x hx1 hx2) (by
          intro u x
          rw [hP]
          split
          · simp
          · split
            · exact hcount x
            · exact h.creating_once u x)
      rw [← hs]
      refine ⟨E3, ?_⟩
      intro j hj
      have hj1 : k.idle_thread = some j := hj
      have hjc : j ≠ k.current := by
        intro e
        rw [e] at hj1
        exact not_idle_of_quiescent k hsh hp hj1
      have hjt : j ≠ t := fun e => hn1 (e ▸ (h.idle_ok j hj1).1)
      have e : (set_thread (set_pending { set_pending k k.current rest with
          allocated := t :: (set_pending k k.current rest).allocated } t []) t
          { status := thread_status.THREAD_BLOCKED, priority := p, magic := THREAD_MAGIC,
            original_priority := p, donations := [] }).pending j = k.pending j := by
        show Function.update (Function.update k.pending k.current rest) t [] j = k.pending j
        rw [hP, if_neg hjt, if_neg hjc]
      rw [e]
      exact hsh j hj1

/-- Every admissible event keeps the queue discipline and the shape of what
the idle thread has to execute. -/
theorem Inv_exec_event (k k1 : Kernel) (h : Inv k) (hsh : idle_shape k) (e : Event)
    (ha : admissible k e) (he : exec_event k e = Except.ok k1) : Inv k1 ∧ idle_shape k1 := by
  cases e with
  | call c =>
    have he1 : (match k.pending k.current with
      | [] =>
        match program c with
        | [] => Except.ok k
        | i :: rest => step_instr (set_pending k k.current rest) i rest
      | _ :: _ => Except.error Fault.rejected) = Except.ok k1 := he
    cases hp : k.pending k.current with
    | cons i0 r0 =>
      rw [hp] at he1
      exact absurd he1 (by simp)
    | nil =>
      rw [hp] at he1
      cases hprog : program c with
      | nil =>
        rw [hprog] at he1
        simp only [Except.ok.injEq] at he1
        rw [← he1]
        exact ⟨h, hsh⟩
      | cons i rest =>
        rw [hprog] at he1
        have hs : step_instr (set_pending k k.current rest) i rest = Except.ok k1 := he1
        obtain ⟨t1, t2, t3, t4, t5, t6, t7⟩ := program_tail c i rest hprog
        have hni := not_idle_of_quiescent k hsh hp
        by_cases hinit : ∃ t p, i = Instr.init_thread t p
        · obtain ⟨t, p, hi⟩ := hinit
          obtain ⟨temp, hc⟩ := t4 t p hi
          subst hi
          refine Inv_thread_create_call k k1 h hsh hp t p rest t1 ?_ t3 hs
          intro x hx
          obtain ⟨p1, temp1, hc1⟩ := t2 x hx
          rw [hc] at hc1
          simp only [Call.thread_create.injEq, Option.some.injEq] at hc1
          exact hc1.1.symm
        · have hno : ∀ x, Instr.thread_unblock x ∉ rest := by
            intro x hx
            obtain ⟨p1, temp1, hc1⟩ := t2 x hx
            rw [hc1] at hprog
            have hprog1 : Instr.init_thread x p1 :: (allocate_tid_program x temp1 ++
                [Instr.thread_unblock x, Instr.test_max_priority]) = i :: rest := hprog
            exact hinit ⟨x, p1, (List.cons.inj hprog1).1.symm⟩
          have A := Inv_call_pending k h rest t1 hno
          have hpend : ∀ u, (set_pending k k.current rest).pending u =
              if u = k.current then rest else k.pending u := by
            intro u
            simp only [set_pending, Function.update_apply]
          have B := Inv_step_instr _ k1 A i rest (by simp [set_pending])
            (fun t p e => hinit ⟨t, p, e⟩) (by
              intro t e
              have hc := t6 t e
              subst hc
              obtain ⟨a1, a2, a3, a4⟩ := ha
              refine ⟨a1, a2, a3, ?_⟩
              intro u
              rw [hpend]
              split
              · exact hno t
              · exact a4 u) (by
              intro ticks e
              have hc := t7 ticks e
              subst hc
              exact ha.2) (fun _ => hni) hs
          refine ⟨B, ?_⟩
          obtain ⟨c1, c2⟩ := step_instr_context _ k1 A i rest hs
          intro j hj
          rcases c1 with c1 | ⟨c1, c1a⟩
          · have hj1 : k.idle_thread = some j := by rw [← hj, c1]; rfl
            have hjc : j ≠ k.current := by
              intro e
              rw [e] at hj1
              exact hni hj1
            have hpj : k1.pending j = k.pending j := by
              rcases c2 with c2 | ⟨c2, _⟩ | ⟨t, p, c2, _⟩
              · rw [c2, hpend, if_neg hjc]
              · rw [c2]
                show Function.update (Function.update k.pending k.current rest) k.current
                  (i :: rest) j = k.pending j
                simp only [Function.update_apply, if_neg hjc]
              · exact absurd ⟨t, p, c2⟩ hinit
            rw [hpj]
            exact hsh j hj1
          · have hjc : j = k.current := by
              rw [c1a] at hj
              simp only [Option.some.injEq] at hj
              exact hj.symm
            obtain ⟨s, hr⟩ := t5 c1
            have hpj : k1.pending j = rest := by
              rcases c2 with c2 | ⟨_, _, c2, _⟩ | ⟨t, p, c2, _⟩
              · rw [c2, hpend, if_pos hjc]
              · exact absurd c1 c2
              · exact absurd ⟨t, p, c2⟩ hinit
            rw [hpj, hr]
            exact Or.inr ⟨s, rfl⟩
  | step =>
    have he1 : (match k.pending k.current with
      | [] => Except.error Fault.rejected
      | i :: rest => step_instr (set_pending k k.current rest) i rest) = Except.ok k1 := he
    cases hp : k.pending k.current with
    | nil =>
      rw [hp] at he1
      exact absurd he1 (by simp)
    | cons i rest =>
      rw [hp] at he1
      have hs : step_instr (set_pending k k.current rest) i rest = Except.ok k1 := he1
      have hres : resumable i = true := h.pending_ok k.current i (by rw [hp]; simp)
      have A := Inv_pending_sub k h k.current rest (by rw [hp]; exact List.sublist_cons_self _ _)
      have hpend : ∀ u, (set_pending k k.current rest).pending u =
          if u = k.current then rest else k.pending u := by
        intro u
        simp only [set_pending, Function.update_apply]
      have hshape : k.idle_thread = some k.current →
          (i = Instr.idle_loop ∧ rest = []) ∨ ∃ s, i = Instr.sema_up s ∧ rest = [Instr.idle_loop] := by
        intro e
        rcases hsh k.current e with e1 | ⟨s, e1⟩
        · rw [hp] at e1
          simp only [List.cons.injEq] at e1
          exact Or.inl e1
        · rw [hp] at e1
          simp only [List.cons.injEq] at e1
          exact Or.inr ⟨s, e1⟩
      have B := Inv_step_instr _ k1 A i rest (by simp [set_pending])
        (by intro t p e; rw [e] at hres; exact absurd hres (by simp [resumable])) (by
          intro t e
          subst e
          obtain ⟨a1, _, a3, a4, _⟩ := h.creating k.current t (by rw [hp]; simp)
          refine ⟨a1, a3, a4, ?_⟩
          intro u
          rw [hpend]
          split
          · intro hm
            have hc := h.creating_once k.current t
            rw [hp, List.count_cons_self] at hc
            have := List.count_pos_iff.mpr hm
            omega
          · next hu =>
            intro hm
            exact hu (h.creating_unique u k.current t hm (by rw [hp]; simp)))
        (by intro ticks e; rw [e] at hres; exact absurd hres (by simp [resumable])) (by
          intro hcase e
          have e1 : k.idle_thread = some k.current := e
          rcases hshape e1 with ⟨e2, _⟩ | ⟨s, e2, _⟩
          · rcases hcase with e3 | ⟨s1, e3⟩
            · rw [e2] at e3; exact absurd e3 (by simp)
            · rw [e2] at e3; exact absurd e3 (by simp)
          · rcases hcase with e3 | ⟨s1, e3⟩
            · rw [e2] at e3; exact absurd e3 (by simp)
            · rw [e2] at e3; exact absurd e3 (by simp)) hs
      refine ⟨B, ?_⟩
      obtain ⟨c1, c2⟩ := step_instr_context _ k1 A i rest hs
      have hidle : k1.idle_thread = k.idle_thread := by
        rcases c1 with c1 | ⟨c1, _⟩
        · exact c1
        · rw [c1] at hres; exact absurd hres (by simp [resumable])
      intro j hj
      have hj1 : k.idle_thread = some j := by rw [← hj, hidle]
      by_cases hjc : j = k.current
      · subst hjc
        rcases hshape hj1 with ⟨e2, e3⟩ | ⟨s, e2, e3⟩
        · subst e2
          rw [step_idle_loop_pending _ k1 rest hs, e3]
          exact Or.inl (by simp [set_pending])
        · rcases c2 with c2 | ⟨c2, _⟩ | ⟨t, p, c2, _⟩
          · rw [c2, hpend, if_pos rfl, e3]
            exact Or.inl rfl
          · rw [c2, e2, e3]
            exact Or.inr ⟨s, by simp [set_pending]⟩
          · rw [c2] at hres; exact absurd hres (by simp [resumable])
      · have hpj : k1.pending j = k.pending j := by
          rcases c2 with c2 | ⟨c2, _⟩ | ⟨t, p, c2, _⟩
          · rw [c2, hpend, if_neg hjc]
          · rw [c2]
            show Function.update (Function.update k.pending k.current rest) k.current
              (i :: rest) j = k.pending j
            simp only [Function.update_apply, if_neg hjc]
          · rw [c2] at hres; exact absurd hres (by simp [resumable])
        rw [hpj]
        exact hsh j hj1
  | intr_enter =>
    have he1 : (match k.pending k.current with
      | [] => if k.intr_context then Except.error Fault.rejected
              else Except.ok { k with intr_context := true }
      | _ :: _ => Except.error Fault.rejected) = Except.ok k1 := he
    split at he1
    · split at he1
      · exact absurd he1 (by simp)
      · simp only [Except.ok.injEq] at he1
        rw [← he1]
        exact ⟨Inv_frame k _ h rfl rfl rfl rfl rfl rfl rfl rfl rfl rfl rfl, hsh⟩
    · exact absurd he1 (by simp)
  | intr_leave =>
    have he1 : (match k.pending k.current with
      | [] => if k.intr_context then Except.ok { k with intr_context := false }
              else Except.error Fault.rejected
      | _ :: _ => Except.error Fault.rejected) = Except.ok k1 := he
    split at he1
    · split at he1
      · simp only [Except.ok.injEq] at he1
        rw [← he1]
        exact ⟨Inv_frame k _ h rfl rfl rfl rfl rfl rfl rfl rfl rfl rfl rfl, hsh⟩
      · exact absurd he1 (by simp)
    · exact absurd he1 (by simp)
  | timer =>
    have he1 : (if k.intr_context then Except.error Fault.rejected
      else if k.pending k.current = [] ∨
          (k.idle_thread = some k.current ∧ k.pending k.current = [Instr.idle_loop]) then
        timer_interrupt_event k
      else Except.error Fault.rejected) = Except.ok k1 := he
    split at he1
    · exact absurd he1 (by simp)
    · split at he1
      · obtain ⟨c1, c2⟩ := timer_interrupt_event_context k k1 he1
        refine ⟨Inv_timer_interrupt_event k k1 h he1, ?_⟩
        intro j hj
        rw [c1] at hj
        rw [c2]
        exact hsh j hj
      · exact absurd he1 (by simp)

theorem Booting_set_thread (k : Kernel) (h : Booting k) (t : Nat) (th : thread)
    (h1 : th.waiting_lock = none) (h2 : th.donations = []) : Booting (set_thread k t th) := by
  refine ⟨h.ready_list, h.sleep_list, h.idle_thread, h.destruction_req, h.waiters, ?_, ?_,
    h.cur_alloc, h.pending⟩
  · intro u
    simp only [set_thread, Function.update_apply]
    split
    · exact h1
    · exact h.waiting_lock u
  · intro u
    simp only [set_thread, Function.update_apply]
    split
    · exact h2
    · exact h.donations u

theorem Booting_set_sema (k : Kernel) (h : Booting k) (s : sema_ref) (v : semaphore)
    (hv : v.waiters = []) : Booting (set_sema k s v) := by
  refine ⟨h.ready_list, h.sleep_list, h.idle_thread, h.destruction_req, ?_, h.waiting_lock,
    h.donations, h.cur_alloc, h.pending⟩
  intro s1
  rw [get_sema_set_sema]
  split
  · exact hv
  · exact h.waiters s1

theorem Booting_set_holder (k : Kernel) (h : Booting k) (l : lock_id) (x : Option Nat) :
    Booting (set_lock k l { k.locks l with holder := x }) := by
  refine ⟨h.ready_list, h.sleep_list, h.idle_thread, h.destruction_req, ?_, h.waiting_lock,
    h.donations, h.cur_alloc, h.pending⟩
  intro s
  have e : get_sema (set_lock k l { k.locks l with holder := x }) s = get_sema k s := by
    simp only [get_sema, set_lock, sema_at_update_locks]
    split
    · next e => rw [e]; rfl
    · rfl
  rw [e]
  exact h.waiters s

/-- During `thread_init` nothing can be scheduled. -/
theorem Booting_no_schedule (k k1 : Kernel) (h : k.ready_list = []) (hi : k.idle_thread = none)
    (hs : schedule k = Except.ok k1) : False := by
  obtain ⟨next, rest, hnext, _⟩ := schedule_eq k k1 hs
  rcases hnext with e | ⟨_, _, e⟩
  · rw [h] at e; exact absurd e (by simp)
  · rw [hi] at e; exact absurd e (by simp)

/-- The instructions of `allocate_tid` keep the memory as it is during
`thread_init`. -/
theorem Booting_step_instr (k k1 : Kernel) (h : Booting k) (i : Instr) (rest : List Instr)
    (hi : allocate_tid_instr i = true) (hs : step_instr k i rest = Except.ok k1) :
    Booting k1 := by
  cases i with
  | lock_acquire_enter l =>
    obtain ⟨e, _⟩ := lock_acquire_enter_eq k k1 l hs
    rw [e]
    exact h
  | sema_down_enter =>
    simp only [step_instr] at hs
    split at hs
    · exact absurd hs (by simp)
    · simp only [Except.ok.injEq] at hs
      rw [← hs]
      exact h
  | sema_down_loop s =>
    have hs1 : sema_down_loop k s rest = Except.ok k1 := hs
    by_cases hv : (get_sema k s).value = 0
    · have hb := sema_down_loop_zero k k1 s rest hv hs1
      obtain ⟨_, _, _, hsch⟩ := thread_block_eq _ k1 hb
      refine absurd (Booting_no_schedule _ k1 ?_ ?_ hsch) id
      · exact h.ready_list
      · exact h.idle_thread
    · rw [sema_down_loop_pos k s rest (by omega)] at hs1
      simp only [Except.ok.injEq] at hs1
      rw [← hs1]
      exact Booting_set_sema k h s _ (h.waiters s)
  | lock_acquire_leave l =>
    simp only [step_instr] at hs
    unfold lock_acquire_leave at hs
    cases hc : thread_current k with
    | error f =>
      rw [hc] at hs
      exact absurd hs (by simp [bind, Except.bind])
    | ok c =>
      rw [hc] at hs
      simp only [bind, Except.bind, Except.ok.injEq] at hs
      rw [← hs]
      exact Booting_set_thread _ (Booting_set_holder k h l _) _ _ rfl (h.donations _)
  | assign_tid t =>
    simp only [step_instr, Except.ok.injEq] at hs
    rw [← hs]
    have B := Booting_set_thread k h t { k.threads t with tid := k.next_tid }
      (h.waiting_lock t) (h.donations t)
    exact ⟨B.ready_list, B.sleep_list, B.idle_thread, B.destruction_req, B.waiters,
      B.waiting_lock, B.donations, B.cur_alloc, B.pending⟩
  | lock_release_enter l temp =>
    simp only [step_instr] at hs
    unfold lock_release_enter at hs
    cases hb : lock_held_by_current_thread k l with
    | error f =>
      rw [hb] at hs
      exact absurd hs (by simp [bind, Except.bind])
    | ok b =>
      rw [hb] at hs
      obtain ⟨hrun, hbe⟩ := lock_held_eq k l b hb
      simp only [bind, Except.bind] at hs
      split at hs
      · exact absurd hs (by simp)
      · next hb2 =>
        have hheld : (k.locks l).holder = some k.current := by
          rw [hbe] at hb2
          simpa using hb2
        simp only [Except.ok.injEq] at hs
        rw [← hs]
        refine Booting_set_holder _ ?_ l none
        split
        · have A1 : Booting (remove_lock k l) := by
            rw [remove_lock_eq k l k.current hheld (h.donations _)]
            exact Booting_set_thread k h _ _ (h.waiting_lock _) rfl
          rw [donate_priority_idle _ temp (A1.waiting_lock temp)]
          exact A1
        · exact h
  | sema_up s =>
    have hs1 : sema_up k s = Except.ok k1 := hs
    unfold sema_up at hs1
    cases hw : sema_up_wake k s with
    | error f =>
      rw [hw] at hs1
      exact absurd hs1 (by simp [bind, Except.bind])
    | ok k2 =>
      rw [hw] at hs1
      have hk2 : Booting k2 := by
        unfold sema_up_wake at hw
        rw [h.waiters s] at hw
        simp only [list_sort, List.foldr_nil, Except.ok.injEq] at hw
        rw [← hw]
        exact Booting_set_sema _ (Booting_set_sema k h s _ rfl) s _
          (by rw [get_sema_set_sema, if_pos rfl])
      have hs2 : test_max_priority k2 = Except.ok k1 := hs1
      unfold test_max_priority at hs2
      rw [hk2.ready_list] at hs2
      simp only [Except.ok.injEq] at hs2
      rw [← hs2]
      exact hk2
  | lock_clear_holder l =>
    simp only [step_instr, Except.ok.injEq] at hs
    rw [← hs]
    exact Booting_set_holder k h l none
  | _ => exact absurd hi (by simp [allocate_tid_instr])

theorem Booting_exec_program (is : List Instr) : ∀ (k k1 : Kernel), Booting k →
    (∀ i ∈ is, allocate_tid_instr i = true) → exec_program k is = Except.ok k1 →
    Booting k1 := by
  induction is with
  | nil =>
    intro k k1 h _ he
    simp only [exec_program, Except.ok.injEq] at he
    rw [← he]
    exact h
  | cons i rest ih =>
    intro k k1 h hall he
    have he1 : (match step_instr k i rest with
      | Except.ok k2 => exec_program k2 rest
      | Except.error f => Except.error f) = Except.ok k1 := he
    cases hs : step_instr k i rest with
    | error f =>
      rw [hs] at he1
      exact absurd he1 (by simp)
    | ok k2 =>
      rw [hs] at he1
      exact ih k2 k1 (Booting_step_instr k k2 h i rest (hall i (by simp)) hs)
        (fun j hj => hall j (List.mem_cons_of_mem _ hj)) he1

theorem Booting_boot (mlfqs : Bool) (view : Nat → Int) :
    Booting { lock_init (boot_memory mlfqs view) lock_id.tid_lock with
          ready_list := [], destruction_req := [], sleep_list := [], initial_thread := 0,
          allocated := [0] } := by
  refine ⟨rfl, rfl, rfl, rfl, ?_, fun _ => rfl, fun _ => rfl, ?_, fun _ => rfl⟩
  · intro s
    cases s with
    | standalone a => rfl
    | of_lock l =>
      simp only [get_sema, lock_init, sema_init, set_sema, set_lock, put_locks, sema_at,
        Function.update_apply]
      split <;> rfl
  · show (0 : Nat) ∈ [0]
    simp

theorem except_bind_ok {ε α β : Type} (x : Except ε α) (f : α → Except ε β) (b : β)
    (h : x >>= f = Except.ok b) : ∃ a, x = Except.ok a ∧ f a = Except.ok b := by
  cases x with
  | error e => exact absurd h (by simp [bind, Except.bind])
  | ok a => exact ⟨a, rfl, h⟩

/-- What `thread_init` does when it returns. -/
theorem thread_init_eq (mlfqs : Bool) (view : Nat → Int) (temp : Nat) (k0 : Kernel)
    (h : thread_init mlfqs view temp = Except.ok k0) :
    ∃ k3 k4, Booting k3 ∧ exec_program k3 (allocate_tid_program 0 temp) = Except.ok k4 ∧
      k0 = { k4 with global_tick := INT64_MAX } := by
  have h1 : (init_thread { lock_init (boot_memory mlfqs view) lock_id.tid_lock with
          ready_list := [], destruction_req := [], sleep_list := [], initial_thread := 0,
          allocated := [0] } 0 PRI_DEFAULT >>= fun k2 =>
        (exec_program (set_thread k2 0
          { k2.threads 0 with status := thread_status.THREAD_RUNNING })
          (allocate_tid_program 0 temp) >>= fun k4 =>
            (Except.ok { k4 with global_tick := INT64_MAX } : Except Fault Kernel))) =
      Except.ok k0 := h
  obtain ⟨k2, e2, h2⟩ := except_bind_ok _ _ _ h1
  obtain ⟨k4, e4, h4⟩ := except_bind_ok _ _ _ h2
  unfold init_thread at e2
  rw [if_neg (by decide)] at e2
  have e3 := (Except.ok.inj e2).symm
  have e5 := (Except.ok.inj h4).symm
  subst e3
  refine ⟨_, k4, ?_, e4, e5⟩
  exact Booting_set_thread _ (Booting_set_thread _ (Booting_boot mlfqs view) _ _ rfl rfl)
      _ _ rfl rfl

/-- The memory `thread_init` leaves satisfies the queue discipline. -/
theorem Inv_thread_init (mlfqs : Bool) (view : Nat → Int) (temp : Nat) (k0 : Kernel)
    (h : thread_init mlfqs view temp = Except.ok k0) : Inv k0 ∧ idle_shape k0 := by
  obtain ⟨k3, k4, B0, h4, hk0⟩ := thread_init_eq mlfqs view temp k0 h
  have B4 := Booting_exec_program _ _ k4 B0 (by
    intro i hi
    simp only [allocate_tid_program, lock_acquire_program, sema_down_program,
      lock_release_program, List.cons_append, List.nil_append, List.mem_cons,
      List.mem_singleton, List.not_mem_nil, or_false] at hi
    rcases hi with e | e | e | e | e | e | e | e | e <;> rw [e] <;> rfl) h4
  rw [hk0]
  constructor
  · constructor
    · show k4.ready_list.Pairwise _
      rw [B4.ready_list]; exact List.Pairwise.nil
    · show k4.ready_list.Nodup
      rw [B4.ready_list]; exact List.nodup_nil
    · intro t ht
      have ht1 : t ∈ k4.ready_list := ht
      rw [B4.ready_list] at ht1
      exact absurd ht1 (List.not_mem_nil _)
    · show k4.sleep_list.Pairwise _
      rw [B4.sleep_list]; exact List.Pairwise.nil
    · show k4.sleep_list.Nodup
      rw [B4.sleep_list]; exact List.nodup_nil
    · intro t ht
      have ht1 : t ∈ k4.sleep_list := ht
      rw [B4.sleep_list] at ht1
      exact absurd ht1 (List.not_mem_nil _)
    · show INT64_MAX = match k4.sleep_list with
        | [] => INT64_MAX
        | t :: _ => (k4.threads t).wakeup_ticks
      rw [B4.sleep_list]
    · intro s
      show (get_sema k4 s).waiters.Nodup
      rw [B4.waiters s]; exact List.nodup_nil
    · intro s t ht
      have ht1 : t ∈ (get_sema k4 s).waiters := ht
      rw [B4.waiters s] at ht1
      exact absurd ht1 (List.not_mem_nil _)
    · intro s1 s2 _ t ht
      have ht1 : t ∈ (get_sema k4 s1).waiters := ht
      rw [B4.waiters s1] at ht1
      exact absurd ht1 (List.not_mem_nil _)
    · exact B4.waiting_lock
    · exact B4.donations
    · exact B4.cur_alloc
    · intro i hi
      have hi1 : k4.idle_thread = some i := hi
      rw [B4.idle_thread] at hi1
      exact absurd hi1 (by simp)
    · intro v hv
      have hv1 : v ∈ k4.destruction_req := hv
      rw [B4.destruction_req] at hv1
      exact absurd hv1 (List.not_mem_nil _)
    · intro u x hx
      have hx1 : Instr.thread_unblock x ∈ k4.pending u := hx
      rw [B4.pending u] at hx1
      exact absurd hx1 (List.not_mem_nil _)
    · intro u1 u2 x hx _
      have hx1 : Instr.thread_unblock x ∈ k4.pending u1 := hx
      rw [B4.pending u1] at hx1
      exact absurd hx1 (List.not_mem_nil _)
    · intro u x
      show (k4.pending u).count _ ≤ 1
      rw [B4.pending u]
      simp
    · intro u i hi
      have hi1 : i ∈ k4.pending u := hi
      rw [B4.pending u] at hi1
      exact absurd hi1 (List.not_mem_nil _)
  · intro i hi
    have hi1 : k4.idle_thread = some i := hi
    rw [B4.idle_thread] at hi1
    exact absurd hi1 (by simp)

/-- The queue discipline holds along every sequence of admissible events. -/
theorem Inv_leads_to (es : List Event) : ∀ (k k1 : Kernel), Inv k → idle_shape k →
    leads_to k es k1 → Inv k1 ∧ idle_shape k1 := by
  induction es with
  | nil =>
    intro k k1 h hsh hl
    have e : k1 = k := hl
    rw [e]
    exact ⟨h, hsh⟩
  | cons e es ih =>
    intro k k1 h hsh hl
    obtain ⟨ha, k2, he, hl2⟩ := hl
    obtain ⟨h2, hsh2⟩ := Inv_exec_event k k2 h hsh e ha he
    exact ih k2 k1 h2 hsh2 hl2

/-- Every memory reached from `thread_init` satisfies the queue discipline. -/
theorem Inv_of_Reachable (k : Kernel) (h : Reachable k) : Inv k ∧ idle_shape k := by
  obtain ⟨mlfqs, view, temp, k0, es, h0, hl⟩ := h
  obtain ⟨a, b⟩ := Inv_thread_init mlfqs view temp k0 h0
  exact Inv_leads_to es k0 k a b hl

/-- C4. In every memory reached from `thread_init` by admissible events (calls
of `thread_create`, `thread_unblock`, `thread_yield`, `thread_wakeup` and of
every other function of the model, their instructions one by one, and
interrupts), so also at every point between two operations, the ready list is
ordered by non-increasing priority. -/
theorem ready_list_sorted (k : Kernel) (h : Reachable k) :
    k.ready_list.Pairwise (fun a b => (k.threads b).priority ≤ (k.threads a).priority) :=
  (Inv_of_Reachable k h).1.ready_sorted

theorem ready_list_sorted_witness :
    ∃ k, Reachable k ∧ k.ready_list = [2, 1, 3] ∧
      (k.threads 2).priority = 20 ∧ (k.threads 1).priority = 10 ∧
      (k.threads 3).priority = 10 ∧
      k.ready_list.Pairwise (fun a b => (k.threads b).priority ≤ (k.threads a).priority) := by
  obtain ⟨k, hk, hp⟩ := exists_of_ends_with (outcome false zero_view 0 three_ready_scenario)
    (fun k => decide (k.ready_list = [2, 1, 3] ∧ (k.threads 2).priority = 20 ∧
      (k.threads 1).priority = 10 ∧ (k.threads 3).priority = 10)) (by decide!)
  obtain ⟨h1, h2, h3, h4⟩ := of_decide_eq_true hp
  have hr := reachable_of_outcome false zero_view 0 three_ready_scenario k (by decide!) hk
  exact ⟨k, hr, h1, h2, h3, h4, ready_list_sorted k hr⟩

/-- C13. In every memory reached from `thread_init` by admissible events
(`thread_sleep`, `thread_wakeup`, timer interrupts and every other call of the
model) the sleep list is ordered by ascending `wakeup_ticks`, and `global_tick`
is the `wakeup_ticks` of the head of the sleep list, or `INT64_MAX`
(`0x7FFFFFFFFFFFFFFF`) when the sleep list is empty. -/
theorem sleep_list_sorted (k : Kernel) (h : Reachable k) :
    k.sleep_list.Pairwise
      (fun a b => (k.threads a).wakeup_ticks ≤ (k.threads b).wakeup_ticks) ∧
    (k.sleep_list = [] → k.global_tick = 0x7FFFFFFFFFFFFFFF) ∧
    (∀ t rest, k.sleep_list = t :: rest → k.global_tick = (k.threads t).wakeup_ticks) := by
  have hi := (Inv_of_Reachable k h).1
  refine ⟨hi.sleep_sorted, ?_, ?_⟩
  · intro e
    have := hi.tick_cache
    rw [e] at this
    exact this
  · intro t rest e
    have := hi.tick_cache
    rw [e] at this
    exact this

theorem sleep_list_sorted_witness :
    ∃ k, Reachable k ∧ k.sleep_list = [2, 1] ∧ (k.threads 2).wakeup_ticks = 50 ∧
      (k.threads 1).wakeup_ticks = 100 ∧ k.global_tick = 50 := by
  obtain ⟨k, hk, hp⟩ := exists_of_ends_with (outcome false zero_view 0 two_sleepers_scenario)
    (fun k => decide (k.sleep_list = [2, 1] ∧ (k.threads 2).wakeup_ticks = 50 ∧
      (k.threads 1).wakeup_ticks = 100)) (by decide!)
  obtain ⟨h1, h2, h3⟩ := of_decide_eq_true hp
  have hr := reachable_of_outcome false zero_view 0 two_sleepers_scenario k (by decide!) hk
  have hs := (sleep_list_sorted k hr).2.2 2 [1] h1
  rw [h2] at hs
  exact ⟨k, hr, h1, h2, h3, hs⟩

/-! ## Condition variables -/

theorem sema_up_wake_other (k k1 : Kernel) (s s1 : sema_ref) (hne : s1 ≠ s)
    (h : sema_up_wake k s = Except.ok k1) : get_sema k1 s1 = get_sema k s1 := by
  unfold sema_up_wake at h
  dsimp only at h
  cases hsort : list_sort (cmp_priority k) (get_sema k s).waiters with
  | nil =>
    rw [hsort] at h
    simp only [Except.ok.injEq] at h
    rw [← h, get_sema_set_sema, if_neg hne, get_sema_set_sema, if_neg hne]
  | cons t rest =>
    rw [hsort] at h
    dsimp only at h
    cases hu : thread_unblock (set_sema k s { get_sema k s with waiters := rest }) t with
    | error f =>
      rw [hu] at h
      exact absurd h (by simp [bind, Except.bind])
    | ok k2 =>
      rw [hu] at h
      simp only [bind, Except.bind, Except.ok.injEq] at h
      obtain ⟨_, _, hk2⟩ := thread_unblock_eq _ k2 t hu
      rw [← h, get_sema_set_sema, if_neg hne, hk2]
      show get_sema (set_sema k s { get_sema k s with waiters := rest }) s1 = get_sema k s1
      rw [get_sema_set_sema, if_neg hne]

/-- The function `sema_up` adds one to the value of its semaphore and leaves
every other semaphore as it is. -/
theorem sema_up_semas (k k1 : Kernel) (s : sema_ref) (h : sema_up k s = Except.ok k1) :
    (get_sema k1 s).value = ((get_sema k s).value + 1) % UINT_MOD ∧
    ∀ s1, s1 ≠ s → get_sema k1 s1 = get_sema k s1 := by
  unfold sema_up at h
  cases hw : sema_up_wake k s with
  | error f =>
    rw [hw] at h
    exact absurd h (by simp [bind, Except.bind])
  | ok k2 =>
    rw [hw] at h
    have ht : test_max_priority k2 = Except.ok k1 := h
    refine ⟨?_, ?_⟩
    · rw [test_max_priority_keeps_semas k2 k1 ht s]
      exact sema_up_wake_value k k2 s hw
    · intro s1 hne
      rw [test_max_priority_keeps_semas k2 k1 ht s1]
      exact sema_up_wake_other k k2 s s1 hne hw

/-- What `cond_signal` does when it returns. -/
theorem cond_signal_eq (k k1 : Kernel) (c : Nat) (l : lock_id)
    (h : cond_signal k c l = Except.ok k1) :
    k.intr_context = false ∧ (k.locks l).holder = some k.current ∧
    (k.threads k.current).status = thread_status.THREAD_RUNNING ∧
    ((k.conds c = [] ∧ k1 = k) ∨
      ∃ w rest, k.conds c = w :: rest ∧
        sema_up { k with conds := Function.update k.conds c rest }
          (sema_ref.standalone w.semaphore) = Except.ok k1) := by
  unfold cond_signal at h
  split at h
  · exact absurd h (by simp)
  · next hin =>
    cases hb : lock_held_by_current_thread k l with
    | error f =>
      rw [hb] at h
      exact absurd h (by simp [bind, Except.bind])
    | ok b =>
      rw [hb] at h
      obtain ⟨hrun, hbe⟩ := lock_held_eq k l b hb
      simp only [bind, Except.bind] at h
      split at h
      · exact absurd h (by simp)
      · next hb2 =>
        have hheld : (k.locks l).holder = some k.current := by
          rw [hbe] at hb2
          simpa using hb2
        refine ⟨by simpa using hin, hheld, hrun, ?_⟩
        cases hq : k.conds c with
        | nil =>
          rw [hq] at h
          simp only [Except.ok.injEq] at h
          exact Or.inl ⟨rfl, h.symm⟩
        | cons w rest =>
          rw [hq] at h
          exact Or.inr ⟨w, rest, rfl, h⟩

/-- What entry of `cond_wait` does when it returns: the waiter, with the
caller's priority and a semaphore at 0 without waiters, is put into the wait
queue of the condition. -/
theorem cond_wait_enter_eq (k k1 : Kernel) (c : Nat) (l : lock_id) (a : Nat)
    (h : cond_wait_enter k c l a = Except.ok k1) :
    k.intr_context = false ∧ (k.locks l).holder = some k.current ∧
    (k.threads k.current).status = thread_status.THREAD_RUNNING ∧
    k1 = { sema_init k (sema_ref.standalone a) 0 with
      conds := Function.update k.conds c
        (list_insert_ordered cmp_sema_elem_priority (k.conds c)
          { semaphore := a, priority := (k.threads k.current).priority }) } := by
  unfold cond_wait_enter at h
  split at h
  · exact absurd h (by simp)
  · next hin =>
    cases hb : lock_held_by_current_thread k l with
    | error f =>
      rw [hb] at h
      exact absurd h (by simp [bind, Except.bind])
    | ok b =>
      rw [hb] at h
      obtain ⟨hrun, hbe⟩ := lock_held_eq k l b hb
      simp only [bind, Except.bind] at h
      split at h
      · exact absurd h (by simp)
      · next hb2 =>
        have hheld : (k.locks l).holder = some k.current := by
          rw [hbe] at hb2
          simpa using hb2
        cases hp : thread_get_priority k with
        | error f =>
          rw [hp] at h
          exact absurd h (by simp)
        | ok p =>
          rw [hp] at h
          simp only [Except.ok.injEq] at h
          have hpe : p = (k.threads k.current).priority := by
            unfold thread_get_priority at hp
            cases hc : thread_current k with
            | error f =>
              rw [hc] at hp
              exact absurd hp (by simp [bind, Except.bind])
            | ok c0 =>
              obtain ⟨hcc, _, _⟩ := thread_current_eq k c0 hc
              rw [hc] at hp
              simp only [bind, Except.bind, Except.ok.injEq] at hp
              rw [← hp, hcc]
          refine ⟨by simpa using hin, hheld, hrun, ?_⟩
          rw [← h, hpe]
          rfl

theorem cmp_sema_elem_priority_key (a b : semaphore_elem) :
    cmp_sema_elem_priority a b = decide (b.priority < a.priority) := rfl

/-- What an instruction does to the wait queues of the conditions: `cond_init`
empties one, entry of `cond_wait` inserts the caller's waiter into one,
`cond_signal` and a turn of `cond_broadcast` take the first waiter out of one;
every other instruction leaves them as they are. -/
theorem step_instr_conds (k k1 : Kernel) (i : Instr) (rest : List Instr)
    (hs : step_instr k i rest = Except.ok k1) :
    k1.conds = k.conds ∨
    (∃ c, i = Instr.cond_init c ∧ k1.conds = Function.update k.conds c []) ∨
    (∃ c l a, i = Instr.cond_wait_enter c l a ∧
      k1.conds = Function.update k.conds c
        (list_insert_ordered cmp_sema_elem_priority (k.conds c)
          { semaphore := a, priority := (k.threads k.current).priority })) ∨
    (∃ c l w tl, (i = Instr.cond_signal c l ∨ i = Instr.cond_broadcast c l) ∧
      k.conds c = w :: tl ∧ k1.conds = Function.update k.conds c tl) := by
  cases i with
  | init_thread t p =>
    simp only [step_instr] at hs
    split at hs
    · exact absurd hs (by simp)
    · unfold init_thread at hs
      split at hs
      · exact absurd hs (by simp)
      · simp only [Except.ok.injEq] at hs
        rw [← hs]
        exact Or.inl rfl
  | assign_tid t =>
    simp only [step_instr, Except.ok.injEq] at hs
    rw [← hs]
    exact Or.inl rfl
  | thread_unblock t => exact Or.inl (same_context_thread_unblock k k1 t hs).conds
  | test_max_priority => exact Or.inl (same_context_test_max_priority k k1 hs).conds
  | thread_yield => exact Or.inl (same_context_thread_yield k k1 hs).conds
  | thread_block => exact Or.inl (same_context_thread_block k k1 hs).conds
  | thread_set_priority p =>
    simp only [step_instr] at hs
    unfold thread_set_priority at hs
    cases hc : thread_current k with
    | error f =>
      rw [hc] at hs
      exact absurd hs (by simp [bind, Except.bind])
    | ok c =>
      rw [hc] at hs
      exact Or.inl (same_context_test_max_priority _ k1 hs).conds
  | thread_sleep ticks =>
    obtain ⟨_, hcase⟩ := thread_sleep_eq k k1 ticks hs
    rcases hcase with ⟨_, e⟩ | ⟨_, hb⟩
    · rw [e]; exact Or.inl rfl
    · exact Or.inl (same_context_thread_block _ k1 hb).conds
  | thread_wakeup =>
    simp only [step_instr, Except.ok.injEq] at hs
    rw [← hs]
    exact Or.inl (thread_wakeup_context k).2.2.1
  | sema_init s v =>
    simp only [step_instr, Except.ok.injEq] at hs
    rw [← hs]
    exact Or.inl rfl
  | sema_down_enter =>
    simp only [step_instr] at hs
    split at hs
    · exact absurd hs (by simp)
    · simp only [Except.ok.injEq] at hs
      rw [← hs]
      exact Or.inl rfl
  | sema_down_loop s =>
    have hs1 : sema_down_loop k s rest = Except.ok k1 := hs
    by_cases hv : (get_sema k s).value = 0
    · have hb := sema_down_loop_zero k k1 s rest hv hs1
      exact Or.inl (same_context_thread_block _ k1 hb).conds
    · rw [sema_down_loop_pos k s rest (by omega)] at hs1
      simp only [Except.ok.injEq] at hs1
      rw [← hs1]
      exact Or.inl rfl
  | sema_try_down s =>
    simp only [step_instr, Except.ok.injEq] at hs
    rw [← hs]
    unfold sema_try_down
    split
    · exact Or.inl rfl
    · exact Or.inl rfl
  | sema_up s => exact Or.inl (same_context_sema_up k k1 s hs).conds
  | lock_init l =>
    simp only [step_instr, Except.ok.injEq] at hs
    rw [← hs]
    exact Or.inl rfl
  | lock_acquire_enter l =>
    obtain ⟨e, _⟩ := lock_acquire_enter_eq k k1 l hs
    rw [e]
    exact Or.inl rfl
  | lock_acquire_leave l =>
    simp only [step_instr] at hs
    unfold lock_acquire_leave at hs
    cases hc : thread_current k with
    | error f =>
      rw [hc] at hs
      exact absurd hs (by simp [bind, Except.bind])
    | ok c =>
      rw [hc] at hs
      simp only [bind, Except.bind, Except.ok.injEq] at hs
      rw [← hs]
      exact Or.inl rfl
  | lock_try_acquire l =>
    simp only [step_instr] at hs
    unfold lock_try_acquire at hs
    cases hb : lock_held_by_current_thread k l with
    | error f =>
      rw [hb] at hs
      exact absurd hs (by simp [bind, Except.bind, Except.map])
    | ok b =>
      rw [hb] at hs
      simp only [bind, Except.bind] at hs
      split at hs
      · exact absurd hs (by simp [Except.map])
      · have hp : (sema_try_down k (sema_ref.of_lock l)).1.conds = k.conds := by
          unfold sema_try_down
          split
          · rfl
          · rfl
        split at hs
        · cases hc : thread_current (sema_try_down k (sema_ref.of_lock l)).1 with
          | error f =>
            rw [hc] at hs
            exact absurd hs (by simp [Except.map])
          | ok c =>
            rw [hc] at hs
            simp only [Except.map, Except.ok.injEq] at hs
            rw [← hs]
            exact Or.inl hp
        · simp only [Except.map, Except.ok.injEq] at hs
          rw [← hs]
          exact Or.inl hp
  | lock_release_enter l temp =>
    simp only [step_instr] at hs
    unfold lock_release_enter at hs
    cases hb : lock_held_by_current_thread k l with
    | error f =>
      rw [hb] at hs
      exact absurd hs (by simp [bind, Except.bind])
    | ok b =>
      rw [hb] at hs
      simp only [bind, Except.bind] at hs
      split at hs
      · exact absurd hs (by simp)
      · simp only [Except.ok.injEq] at hs
        rw [← hs]
        refine Or.inl ?_
        show (if k.thread_mlfqs = false then donate_priority (remove_lock k l) temp
          else k).conds = k.conds
        split
        · unfold donate_priority
          rw [donate_priority_loop_fields]
          show (remove_lock k l).conds = k.conds
          unfold remove_lock
          split <;> rfl
        · rfl
  | lock_clear_holder l =>
    simp only [step_instr, Except.ok.injEq] at hs
    rw [← hs]
    exact Or.inl rfl
  | idle_enter =>
    simp only [step_instr] at hs
    cases hc : thread_current k with
    | error f =>
      rw [hc] at hs
      exact absurd hs (by simp [bind, Except.bind])
    | ok c =>
      rw [hc] at hs
      simp only [bind, Except.bind, Except.ok.injEq] at hs
      rw [← hs]
      exact Or.inl rfl
  | idle_loop =>
    simp only [step_instr] at hs
    cases hc : thread_current k with
    | error f =>
      rw [hc] at hs
      exact absurd hs (by simp [bind, Except.bind])
    | ok c =>
      rw [hc] at hs
      exact Or.inl (same_context_thread_block _ k1 hs).conds
  | thread_exit =>
    simp only [step_instr] at hs
    unfold thread_exit at hs
    split at hs
    · exact absurd hs (by simp)
    · cases hd : do_schedule k thread_status.THREAD_DYING with
      | error f =>
        rw [hd] at hs
        exact absurd hs (by simp [bind, Except.bind])
      | ok k2 =>
        rw [hd] at hs
        simp only [bind, Except.bind] at hs
        split at hs
        · exact absurd hs (by simp)
        · simp only [Except.ok.injEq] at hs
          rw [← hs]
          unfold do_schedule at hd
          cases hc : thread_current k with
          | error f =>
            rw [hc] at hd
            exact absurd hd (by simp [bind, Except.bind])
          | ok c =>
            rw [hc] at hd
            exact Or.inl (same_context_schedule _ k2 hd).conds
  | cond_init c =>
    simp only [step_instr, Except.ok.injEq] at hs
    rw [← hs]
    exact Or.inr (Or.inl ⟨c, rfl, rfl⟩)
  | cond_wait_enter c l a =>
    obtain ⟨_, _, _, e⟩ := cond_wait_enter_eq k k1 c l a hs
    rw [e]
    exact Or.inr (Or.inr (Or.inl ⟨c, l, a, rfl, rfl⟩))
  | cond_signal c l =>
    obtain ⟨_, _, _, hcase⟩ := cond_signal_eq k k1 c l hs
    rcases hcase with ⟨_, e⟩ | ⟨w, tl, hq, hu⟩
    · rw [e]; exact Or.inl rfl
    · exact Or.inr (Or.inr (Or.inr ⟨c, l, w, tl, Or.inl rfl, hq,
        (same_context_sema_up _ k1 _ hu).conds⟩))
  | cond_broadcast c l =>
    have hs1 : cond_broadcast k c l rest = Except.ok k1 := hs
    unfold cond_broadcast at hs1
    cases hq : k.conds c with
    | nil =>
      rw [hq] at hs1
      simp only [Except.ok.injEq] at hs1
      rw [← hs1]
      exact Or.inl rfl
    | cons w tl =>
      rw [hq] at hs1
      obtain ⟨_, _, _, hcase⟩ := cond_signal_eq _ k1 c l hs1
      rcases hcase with ⟨e, _⟩ | ⟨w1, tl1, hq1, hu⟩
      · have e1 : k.conds c = [] := e
        rw [hq] at e1
        exact absurd e1 (by simp)
      · have hq2 : k.conds c = w1 :: tl1 := hq1
        exact Or.inr (Or.inr (Or.inr ⟨c, l, w1, tl1, Or.inr rfl, hq2,
          (same_context_sema_up _ k1 _ hu).conds⟩))

/-- Every instruction keeps the wait queues of the conditions ordered. -/
theorem conds_sorted_step_instr (k k1 : Kernel) (h : conds_sorted k) (i : Instr)
    (rest : List Instr) (hs : step_instr k i rest = Except.ok k1) : conds_sorted k1 := by
  intro c0
  rcases step_instr_conds k k1 i rest hs with e | ⟨c, _, e⟩ | ⟨c, l, a, _, e⟩ |
    ⟨c, l, w, tl, _, hq, e⟩
  · rw [e]; exact h c0
  · rw [e, Function.update_apply]
    split
    · exact List.Pairwise.nil
    · exact h c0
  · rw [e, Function.update_apply]
    split
    · exact list_insert_ordered_sorted (fun x => x.priority) cmp_sema_elem_priority
        cmp_sema_elem_priority_key _ _ (h c)
    · exact h c0
  · rw [e, Function.update_apply]
    split
    · have := h c
      rw [hq] at this
      exact (List.pairwise_cons.mp this).2
    · exact h c0

theorem conds_sorted_exec_program (is : List Instr) : ∀ (k k1 : Kernel), conds_sorted k →
    exec_program k is = Except.ok k1 → conds_sorted k1 := by
  induction is with
  | nil =>
    intro k k1 h he
    simp only [exec_program, Except.ok.injEq] at he
    rw [← he]
    exact h
  | cons i rest ih =>
    intro k k1 h he
    have he1 : (match step_instr k i rest with
      | Except.ok k2 => exec_program k2 rest
      | Except.error f => Except.error f) = Except.ok k1 := he
    cases hs : step_instr k i rest with
    | error f =>
      rw [hs] at he1
      exact absurd he1 (by simp)
    | ok k2 =>
      rw [hs] at he1
      exact ih k2 k1 (conds_sorted_step_instr k k2 h i rest hs) he1

theorem conds_sorted_thread_init (mlfqs : Bool) (view : Nat → Int) (temp : Nat) (k0 : Kernel)
    (h : thread_init mlfqs view temp = Except.ok k0) : conds_sorted k0 := by
  have h1 : (init_thread { lock_init (boot_memory mlfqs view) lock_id.tid_lock with
          ready_list := [], destruction_req := [], sleep_list := [], initial_thread := 0,
          allocated := [0] } 0 PRI_DEFAULT >>= fun k2 =>
        (exec_program (set_thread k2 0
          { k2.threads 0 with status := thread_status.THREAD_RUNNING })
          (allocate_tid_program 0 temp) >>= fun k4 =>
            (Except.ok { k4 with global_tick := INT64_MAX } : Except Fault Kernel))) =
      Except.ok k0 := h
  obtain ⟨k2, e2, h2⟩ := except_bind_ok _ _ _ h1
  obtain ⟨k4, e4, h4⟩ := except_bind_ok _ _ _ h2
  unfold init_thread at e2
  rw [if_neg (by decide)] at e2
  have e3 := (Except.ok.inj e2).symm
  have e5 := (Except.ok.inj h4).symm
  subst e3
  have h4s := conds_sorted_exec_program _ _ k4 (fun _ => List.Pairwise.nil) e4
  rw [e5]
  exact h4s

theorem conds_sorted_exec_event (k k1 : Kernel) (h : conds_sorted k) (e : Event)
    (he : exec_event k e = Except.ok k1) : conds_sorted k1 := by
  cases e with
  | call c =>
    have he1 : (match k.pending k.current with
      | [] =>
        match program c with
        | [] => Except.ok k
        | i :: rest => step_instr (set_pending k k.current rest) i rest
      | _ :: _ => Except.error Fault.rejected) = Except.ok k1 := he
    split at he1
    · split at he1
      · simp only [Except.ok.injEq] at he1
        rw [← he1]; exact h
      · refine conds_sorted_step_instr _ k1 ?_ _ _ he1
        exact h
    · exact absurd he1 (by simp)
  | step =>
    have he1 : (match k.pending k.current with
      | [] => Except.error Fault.rejected
      | i :: rest => step_instr (set_pending k k.current rest) i rest) = Except.ok k1 := he
    split at he1
    · exact absurd he1 (by simp)
    · refine conds_sorted_step_instr _ k1 ?_ _ _ he1
      exact h
  | intr_enter =>
    have he1 : (match k.pending k.current with
      | [] => if k.intr_context then Except.error Fault.rejected
              else Except.ok { k with intr_context := true }
      | _ :: _ => Except.error Fault.rejected) = Except.ok k1 := he
    split at he1
    · split at he1
      · exact absurd he1 (by simp)
      · simp only [Except.ok.injEq] at he1
        rw [← he1]; exact h
    · exact absurd he1 (by simp)
  | intr_leave =>
    have he1 : (match k.pending k.current with
      | [] => if k.intr_context then Except.ok { k with intr_context := false }
              else Except.error Fault.rejected
      | _ :: _ => Except.error Fault.rejected) = Except.ok k1 := he
    split at he1
    · split at he1
      · simp only [Except.ok.injEq] at he1
        rw [← he1]; exact h
      · exact absurd he1 (by simp)
    · exact absurd he1 (by simp)
  | timer =>
    have he1 : (if k.intr_context then Except.error Fault.rejected
      else if k.pending k.current = [] ∨
          (k.idle_thread = some k.current ∧ k.pending k.current = [Instr.idle_loop]) then
        timer_interrupt_event k
      else Except.error Fault.rejected) = Except.ok k1 := he
    split at he1
    · exact absurd he1 (by simp)
    · split at he1
      · have hc : k1.conds = k.conds := by
          unfold timer_interrupt_event at he1
          generalize hie : ({ k with intr_context := true, yield_on_return := false } : Kernel)
            = intr_entry at he1
          have hie2 : intr_entry.conds = k.conds := by rw [← hie]
          have hie3 : intr_entry.ticks = k.ticks := by rw [← hie]
          cases hc : timer_interrupt intr_entry with
          | error f =>
            rw [hc] at he1
            exact absurd he1 (by simp [bind, Except.bind])
          | ok k2 =>
            rw [hc] at he1
            simp only [bind, Except.bind] at he1
            have h2 : k2.conds = k.conds := by
              unfold timer_interrupt at hc
              cases hd : thread_tick { intr_entry with ticks := intr_entry.ticks + 1 } with
              | error f =>
                rw [hd] at hc
                exact absurd hc (by simp [bind, Except.bind])
              | ok k3 =>
                rw [hd] at hc
                have a := (thread_tick_eq _ k3 hd).2.2.2.2.2.2.2.2.2.2.2.2.2
                have b := (wakeup_loop_context _ k3 k2 hc).2.2.1
                exact (b.trans a).trans hie2
            split at he1
            · exact ((same_context_thread_yield _ k1 he1).conds).trans h2
            · simp only [Except.ok.injEq] at he1
              rw [← he1]
              exact h2
        intro c
        rw [hc]
        exact h c
      · exact absurd he1 (by simp)

/-- In every memory reached from `thread_init` the wait queue of every
condition is ordered by non-increasing recorded priority. -/
theorem conds_sorted_of_Reachable (k : Kernel) (h : Reachable k) : conds_sorted k := by
  obtain ⟨mlfqs, view, temp, k0, es, h0, hl⟩ := h
  have a := conds_sorted_thread_init mlfqs view temp k0 h0
  clear h0
  induction es generalizing k0 with
  | nil =>
    have e : k = k0 := hl
    rw [e]; exact a
  | cons e es ih =>
    obtain ⟨_, k2, he, hl2⟩ := hl
    exact ih k2 hl2 (conds_sorted_exec_event k0 k2 a e he)

/-- C18. `cond_signal` on a condition whose wait queue is not empty takes the
first waiter `w` out of the queue and raises the semaphore of `w` by one, and
of no other: the rest of the queue, the other conditions and every other
semaphore are as before.  In a memory reached from `thread_init` no waiter in
the queue has a higher recorded priority than `w`.  On an empty queue
`cond_signal` changes nothing.  Entry of `cond_wait` records the caller's
priority in its waiter and puts the waiter behind every waiter whose recorded
priority is not lower and in front of those whose priority is lower, so that
among equal priorities the earliest arrival is first. -/
theorem cond_signal_wakes_first (k k1 : Kernel) (c : Nat) (l : lock_id)
    (hr : Reachable k) (hs : cond_signal k c l = Except.ok k1)
    (k0 k2 : Kernel) (l0 : lock_id) (a : Nat)
    (hr0 : Reachable k0) (hw : cond_wait_enter k0 c l0 a = Except.ok k2) :
    (k.conds c = [] → k1 = k) ∧
    (∀ w rest, k.conds c = w :: rest →
      (∀ x ∈ rest, x.priority ≤ w.priority) ∧
      k1.conds c = rest ∧ (∀ c1, c1 ≠ c → k1.conds c1 = k.conds c1) ∧
      (get_sema k1 (sema_ref.standalone w.semaphore)).value =
        ((get_sema k (sema_ref.standalone w.semaphore)).value + 1) % UINT_MOD ∧
      (∀ s, s ≠ sema_ref.standalone w.semaphore → get_sema k1 s = get_sema k s)) ∧
    (∃ l1 l2, k0.conds c = l1 ++ l2 ∧
      k2.conds c = l1 ++ { semaphore := a, priority := (k0.threads k0.current).priority } :: l2 ∧
      (∀ x ∈ l1, (k0.threads k0.current).priority ≤ x.priority) ∧
      (∀ y ∈ l2, y.priority < (k0.threads k0.current).priority)) := by
  obtain ⟨_, _, _, hcase⟩ := cond_signal_eq k k1 c l hs
  refine ⟨?_, ?_, ?_⟩
  · intro he
    rcases hcase with ⟨_, e⟩ | ⟨w, rest, hq, _⟩
    · exact e
    · rw [he] at hq
      exact absurd hq (by simp)
  · intro w rest hq
    rcases hcase with ⟨e, _⟩ | ⟨w1, rest1, hq1, hu⟩
    · rw [hq] at e
      exact absurd e (by simp)
    · rw [hq] at hq1
      simp only [List.cons.injEq] at hq1
      obtain ⟨e1, e2⟩ := hq1
      subst e1
      subst e2
      have hsorted := conds_sorted_of_Reachable k hr c
      rw [hq] at hsorted
      have hctx := same_context_sema_up _ k1 _ hu
      obtain ⟨hv, ho⟩ := sema_up_semas _ k1 _ hu
      refine ⟨(List.pairwise_cons.mp hsorted).1, ?_, ?_, hv, ho⟩
      · rw [hctx.conds]
        simp
      · intro c1 hne
        rw [hctx.conds]
        simp [Function.update_apply, hne]
  · obtain ⟨_, _, _, e⟩ := cond_wait_enter_eq k0 k2 c l0 a hw
    obtain ⟨l1, l2, h1, h2, h3, h4⟩ := list_insert_ordered_split cmp_sema_elem_priority
      (k0.conds c) { semaphore := a, priority := (k0.threads k0.current).priority }
    refine ⟨l1, l2, h1, ?_, ?_, ?_⟩
    · rw [e]
      simp only [Function.update_same]
      exact h4
    · intro x hx
      have := h2 x hx
      rw [cmp_sema_elem_priority_key] at this
      simpa using this
    · intro y hy
      have hsorted := conds_sorted_of_Reachable k0 hr0 c
      rw [h1] at hsorted
      have hs2 := (List.pairwise_append.mp hsorted).2.1
      cases l2 with
      | nil => exact absurd hy (List.not_mem_nil _)
      | cons z tl =>
        have hz := h3 z (by simp)
        rw [cmp_sema_elem_priority_key] at hz
        have hz1 : z.priority < (k0.threads k0.current).priority := by simpa using hz
        rcases List.mem_cons.mp hy with e1 | e1
        · rw [e1]; exact hz1
        · exact lt_of_le_of_lt ((List.pairwise_cons.mp hs2).1 y e1) hz1

theorem cond_signal_wakes_first_witness :
    ∃ k k1 k0 k2, Reachable k ∧ cond_signal k 3 (lock_id.addr 5) = Except.ok k1 ∧
      Reachable k0 ∧ cond_wait_enter k0 3 (lock_id.addr 5) 9 = Except.ok k2 ∧
      k.conds 3 = [{ semaphore := 9, priority := 40 }] ∧ k1.conds 3 = [] ∧
      (get_sema k (sema_ref.standalone 9)).value = 0 ∧
      (get_sema k1 (sema_ref.standalone 9)).value = 1 ∧
      k0.conds 3 = [] ∧ k2.conds 3 = [{ semaphore := 9, priority := 40 }] := by
  obtain ⟨k, hk, hp⟩ := exists_of_ends_with (outcome false zero_view 0 cond_scenario)
    (fun k => decide (k.conds 3 = [{ semaphore := 9, priority := 40 }] ∧
      (get_sema k (sema_ref.standalone 9)).value = 0) &&
      ends_with (cond_signal k 3 (lock_id.addr 5)) (fun _ => true)) (by decide!)
  rw [Bool.and_eq_true] at hp
  obtain ⟨hp1, hp2⟩ := hp
  obtain ⟨q1, q2⟩ := of_decide_eq_true hp1
  obtain ⟨k1, hk1, _⟩ := exists_of_ends_with _ _ hp2
  obtain ⟨k0, hk0, hp0⟩ := exists_of_ends_with (outcome false zero_view 0 cond_setup_scenario)
    (fun k0 => decide (k0.conds 3 = [] ∧ (k0.threads k0.current).priority = 40) &&
      ends_with (cond_wait_enter k0 3 (lock_id.addr 5) 9) (fun _ => true)) (by decide!)
  rw [Bool.and_eq_true] at hp0
  obtain ⟨hp3, hp4⟩ := hp0
  obtain ⟨q3, q4⟩ := of_decide_eq_true hp3
  obtain ⟨k2, hk2, _⟩ := exists_of_ends_with _ _ hp4
  have hr := reachable_of_outcome false zero_view 0 cond_scenario k (by decide!) hk
  have hr0 := reachable_of_outcome false zero_view 0 cond_setup_scenario k0 (by decide!) hk0
  obtain ⟨_, t2, l1, l2, t3, t4, _, _⟩ :=
    cond_signal_wakes_first k k1 3 (lock_id.addr 5) hr hk1 k0 k2 (lock_id.addr 5) 9 hr0 hk2
  obtain ⟨_, u2, _, u4, _⟩ := t2 _ _ q1
  rw [q2] at u4
  refine ⟨k, k1, k0, k2, hr, hk1, hr0, hk2, q1, u2, q2, u4, q3, ?_⟩
  rw [q3] at t3
  have e1 : l1 = [] := (List.append_eq_nil.mp t3.symm).1
  have e2 : l2 = [] := (List.append_eq_nil.mp t3.symm).2
  rw [t4, e1, e2, q4]
  rfl

/-- What the first part of `sema_up` leaves alone: the running thread, every
priority, the status of a running thread; and a thread in the ready list
afterwards was in it before or was a waiter. -/
theorem sema_up_wake_sched (k k2 : Kernel) (s : sema_ref)
    (h : sema_up_wake k s = Except.ok k2) :
    k2.current = k.current ∧ (∀ u, (k2.threads u).priority = (k.threads u).priority) ∧
    (∀ u ∈ k2.ready_list, u ∈ k.ready_list ∨ u ∈ (get_sema k s).waiters) ∧
    (∀ u, (k.threads u).status = thread_status.THREAD_RUNNING →
      (k2.threads u).status = thread_status.THREAD_RUNNING) := by
  unfold sema_up_wake at h
  dsimp only at h
  have hperm := list_sort_perm (cmp_priority k) (get_sema k s).waiters
  cases hsort : list_sort (cmp_priority k) (get_sema k s).waiters with
  | nil =>
    rw [hsort] at h
    simp only [Except.ok.injEq] at h
    rw [← h]
    exact ⟨rfl, fun _ => rfl, fun u hu => Or.inl hu, fun _ hu => hu⟩
  | cons t rest =>
    rw [hsort] at h hperm
    dsimp only at h
    cases hu : thread_unblock (set_sema k s { get_sema k s with waiters := rest }) t with
    | error f =>
      rw [hu] at h
      exact absurd h (by simp [bind, Except.bind])
    | ok k3 =>
      rw [hu] at h
      simp only [bind, Except.bind, Except.ok.injEq] at h
      obtain ⟨_, hb, hk3⟩ := thread_unblock_eq _ k3 t hu
      have hb1 : (k.threads t).status = thread_status.THREAD_BLOCKED := hb
      rw [← h, hk3]
      refine ⟨rfl, ?_, ?_, ?_⟩
      · intro u
        show ((Function.update k.threads t _) u).priority = _
        rw [Function.update_apply]
        split
        · next e => rw [e]; rfl
        · rfl
      · intro u hm
        have hm1 : u ∈ list_insert_ordered
            (cmp_priority (set_sema k s { get_sema k s with waiters := rest }))
            k.ready_list t := hm
        rcases (mem_list_insert_ordered _ _ _ _).mp hm1 with e | e
        · exact Or.inr (by rw [e]; exact hperm.subset (List.mem_cons_self _ _))
        · exact Or.inl e
      · intro u hrun
        show ((Function.update k.threads t _) u).status = _
        rw [Function.update_apply]
        split
        · next e =>
          rw [e, hb1] at hrun
          exact absurd hrun (by decide)
        · exact hrun

/-- The function `test_max_priority` changes nothing when no thread in the
ready list has a higher priority than the running thread. -/
theorem test_max_priority_quiet (k k1 : Kernel)
    (hq : ∀ u ∈ k.ready_list, (k.threads u).priority ≤ (k.threads k.current).priority)
    (h : test_max_priority k = Except.ok k1) : k1 = k := by
  unfold test_max_priority at h
  cases hr : k.ready_list with
  | nil =>
    rw [hr] at h
    simp only [Except.ok.injEq] at h
    exact h.symm
  | cons front rest =>
    rw [hr] at h
    simp only [bind, Except.bind] at h
    cases hc : thread_current k with
    | error f =>
      rw [hc] at h
      exact absurd h (by simp)
    | ok c =>
      obtain ⟨hcc, _, _⟩ := thread_current_eq k c hc
      rw [hc] at h
      simp only at h
      have hle := hq front (by rw [hr]; simp)
      rw [hcc, if_neg (by omega)] at h
      simp only [Except.ok.injEq] at h
      exact h.symm

/-- The preemption check of `sema_up`, run by `cond_signal`, deschedules the
caller: in the memory of `cond_scenario`, where `main` holds the lock and
thread 1 (priority 40) waits on the condition, `cond_signal` returns with
thread 1 running and `main` ready in the ready list. -/
theorem cond_signal_deschedules_caller :
    ∃ k k1, Reachable k ∧ quiescent k ∧
      (k.locks (lock_id.addr 5)).holder = some k.current ∧
      cond_signal k 3 (lock_id.addr 5) = Except.ok k1 ∧
      k1.current ≠ k.current ∧
      (k1.threads k.current).status = thread_status.THREAD_READY ∧
      k.current ∈ k1.ready_list := by
  obtain ⟨k, hk, hp⟩ := exists_of_ends_with (outcome false zero_view 0 cond_scenario)
    (fun k => decide (quiescent k ∧ (k.locks (lock_id.addr 5)).holder = some k.current) &&
      ends_with (cond_signal k 3 (lock_id.addr 5)) (fun k1 =>
        decide (k1.current ≠ k.current ∧
          (k1.threads k.current).status = thread_status.THREAD_READY ∧
          k.current ∈ k1.ready_list))) (by decide!)
  rw [Bool.and_eq_true] at hp
  obtain ⟨hp1, hp2⟩ := hp
  obtain ⟨q1, q2⟩ := of_decide_eq_true hp1
  obtain ⟨k1, hk1, hp3⟩ := exists_of_ends_with _ _ hp2
  obtain ⟨q3, q4, q5⟩ := of_decide_eq_true hp3
  exact ⟨k, k1, reachable_of_outcome false zero_view 0 cond_scenario k (by decide!) hk,
    q1, q2, hk1, q3, q4, q5⟩

/-- End of `lock_acquire`: the caller is recorded as the holder and keeps
running. -/
theorem lock_acquire_leave_eq (k k1 : Kernel) (l : lock_id)
    (h : lock_acquire_leave k l = Except.ok k1) :
    k1.current = k.current ∧ (k1.locks l).holder = some k.current ∧
      k1.pending = k.pending ∧
      (k1.threads k1.current).status = thread_status.THREAD_RUNNING := by
  unfold lock_acquire_leave at h
  cases hc : thread_current k with
  | error f =>
    rw [hc] at h
    exact absurd h (by simp [bind, Except.bind])
  | ok c =>
    obtain ⟨hcc, _, hrun⟩ := thread_current_eq k c hc
    rw [hc] at h
    subst hcc
    simp only [bind, Except.bind, Except.ok.injEq] at h
    rw [← h]
    refine ⟨rfl, ?_, rfl, ?_⟩
    · simp [set_thread, set_lock]
    · simp [set_thread, set_lock, hrun]

/-- The memory `thread_wakeup` leaves on a sleep list with head `t`. -/
theorem thread_wakeup_eq (k : Kernel) (t : Nat) (rest : List Nat)
    (hl : k.sleep_list = t :: rest) :
    thread_wakeup k = set_thread
      { k with
        sleep_list := rest
        global_tick := (rest.head?.map (fun n => (k.threads n).wakeup_ticks)).getD INT64_MAX
        ready_list := list_insert_ordered (cmp_priority k) k.ready_list t } t
      { k.threads t with status := thread_status.THREAD_READY } := by
  unfold thread_wakeup
  rw [hl]
  cases rest <;> rfl

/-- What `thread_wakeup` does on a sleep list with head `t`. -/
theorem thread_wakeup_cons (k : Kernel) (t : Nat) (rest : List Nat)
    (hl : k.sleep_list = t :: rest) :
    (thread_wakeup k).sleep_list = rest ∧
    (thread_wakeup k).global_tick =
      (rest.head?.map (fun n => (k.threads n).wakeup_ticks)).getD INT64_MAX ∧
    (thread_wakeup k).ticks = k.ticks ∧
    (∀ u, ((thread_wakeup k).threads u).wakeup_ticks = (k.threads u).wakeup_ticks) ∧
    (∀ u, ((thread_wakeup k).threads u).priority = (k.threads u).priority) ∧
    t ∈ (thread_wakeup k).ready_list ∧
    ((thread_wakeup k).threads t).status = thread_status.THREAD_READY ∧
    (∀ u, u ≠ t → (thread_wakeup k).threads u = k.threads u) ∧
    (∀ u ∈ k.ready_list, u ∈ (thread_wakeup k).ready_list) ∧
    (∀ u ∈ (thread_wakeup k).ready_list, u = t ∨ u ∈ k.ready_list) := by
  rw [thread_wakeup_eq k t rest hl]
  have hth : ∀ (u : Nat),
      (Function.update k.threads t { k.threads t with status := thread_status.THREAD_READY }) u =
        if u = t then { k.threads t with status := thread_status.THREAD_READY }
        else k.threads u := by
    intro u
    rw [Function.update_apply]
  refine ⟨rfl, rfl, rfl, ?_, ?_, ?_, ?_, ?_, ?_, ?_⟩
  · intro u
    show ((Function.update k.threads t _) u).wakeup_ticks = _
    rw [hth]
    split
    · next e => rw [e]
    · rfl
  · intro u
    show ((Function.update k.threads t _) u).priority = _
    rw [hth]
    split
    · next e => rw [e]
    · rfl
  · exact (mem_list_insert_ordered _ _ _ _).mpr (Or.inl rfl)
  · show ((Function.update k.threads t _) t).status = _
    rw [hth, if_pos rfl]
  · intro u hu
    show (Function.update k.threads t _) u = _
    rw [hth, if_neg hu]
  · intro u hu
    exact (mem_list_insert_ordered _ _ _ _).mpr (Or.inr hu)
  · intro u hu
    exact (mem_list_insert_ordered _ _ _ _).mp hu

theorem is_due_congr (k k1 : Kernel) (h1 : k1.ticks = k.ticks)
    (h2 : ∀ u, (k1.threads u).wakeup_ticks = (k.threads u).wakeup_ticks) :
    is_due k1 = is_due k := by
  funext u
  simp only [is_due, h1, h2]

/-- In a list ordered by wake-up tick the due threads are a front part. -/
theorem takeWhile_due_eq_filter (k : Kernel) (l : List Nat)
    (hs : l.Pairwise (fun a b => (k.threads a).wakeup_ticks ≤ (k.threads b).wakeup_ticks)) :
    l.takeWhile (is_due k) = l.filter (is_due k) ∧
    l.dropWhile (is_due k) = l.filter (fun t => !is_due k t) := by
  induction l with
  | nil => exact ⟨rfl, rfl⟩
  | cons a rest ih =>
    obtain ⟨h1, h2⟩ := List.pairwise_cons.mp hs
    obtain ⟨i1, i2⟩ := ih h2
    by_cases hd : is_due k a = true
    · rw [List.takeWhile_cons_of_pos hd, List.filter_cons_of_pos hd, i1,
        List.dropWhile_cons_of_pos hd, List.filter_cons_of_neg (by simp [hd]), i2]
      exact ⟨rfl, rfl⟩
    · have hnone : ∀ b ∈ rest, is_due k b = false := by
        intro b hb
        have hab := h1 b hb
        simp only [is_due, decide_eq_true_eq, not_le] at hd
        simp only [is_due, decide_eq_false_iff_not, not_le]
        omega
      rw [List.takeWhile_cons_of_neg hd, List.filter_cons_of_neg hd,
        List.dropWhile_cons_of_neg hd, List.filter_cons_of_pos (by simp [hd])]
      refine ⟨?_, ?_⟩
      · symm
        rw [List.filter_eq_nil_iff]
        intro b hb
        rw [hnone b hb]
        simp
      · congr 1
        symm
        rw [List.filter_eq_self]
        intro b hb
        rw [hnone b hb]
        rfl

/-- The loop of `timer_interrupt` on a sleep list ordered by wake-up tick whose
first tick is cached in `global_tick`. -/
theorem wakeup_loop_run : ∀ (l : List Nat) (k : Kernel) (budget : Nat),
    k.sleep_list = l →
    l.Pairwise (fun a b => (k.threads a).wakeup_ticks ≤ (k.threads b).wakeup_ticks) →
    k.global_tick = (l.head?.map (fun n => (k.threads n).wakeup_ticks)).getD INT64_MAX →
    k.ticks < INT64_MAX →
    (l.takeWhile (is_due k)).length ≤ budget →
    ∃ k1, wakeup_loop budget k = Except.ok k1 ∧
      wakeup_loop_iterations budget k = (l.takeWhile (is_due k)).length ∧
      wakeup_loop_woken budget k = l.takeWhile (is_due k) ∧
      k1.sleep_list = l.dropWhile (is_due k) ∧
      k1.ticks = k.ticks ∧
      (∀ u, (k1.threads u).wakeup_ticks = (k.threads u).wakeup_ticks) ∧
      (∀ u ∈ l.takeWhile (is_due k),
        u ∈ k1.ready_list ∧ (k1.threads u).status = thread_status.THREAD_READY) ∧
      (∀ u, u ∉ l.takeWhile (is_due k) → k1.threads u = k.threads u) ∧
      (∀ u ∈ k.ready_list, u ∈ k1.ready_list) ∧
      (∀ u ∈ k1.ready_list, u ∈ k.ready_list ∨ u ∈ l.takeWhile (is_due k)) := by
  intro l
  induction l with
  | nil =>
    intro k budget hl _ hc ht _
    have hg : ¬ k.global_tick ≤ k.ticks := by
      rw [hc]
      simp only [List.head?_nil, Option.map_none', Option.getD_none]
      omega
    refine ⟨k, ?_, ?_, ?_, hl, rfl, fun _ => rfl, ?_, fun _ _ => rfl, fun _ h => h,
      fun _ h => Or.inl h⟩
    · cases budget with
      | zero => simp only [wakeup_loop, if_neg hg]
      | succ b => simp only [wakeup_loop, if_neg hg]
    · cases budget with
      | zero => rfl
      | succ b => simp only [wakeup_loop_iterations, if_neg hg]; try rfl
    · cases budget with
      | zero => rfl
      | succ b => simp only [wakeup_loop_woken, if_neg hg]; try rfl
    · intro u hu
      exact absurd hu (List.not_mem_nil _)
  | cons t rest ih =>
    intro k budget hl hs hc ht hb
    have hc1 : k.global_tick = (k.threads t).wakeup_ticks := by
      rw [hc]
      rfl
    by_cases hd : is_due k t = true
    · have hg : k.global_tick ≤ k.ticks := by
        rw [hc1]
        simpa [is_due] using hd
      rw [List.takeWhile_cons_of_pos hd] at hb ⊢
      rw [List.dropWhile_cons_of_pos hd]
      cases budget with
      | zero => exact absurd hb (by simp)
      | succ b =>
        obtain ⟨w1, w2, w3, w4, w5, w6, w7, w8, w9, w10⟩ := thread_wakeup_cons k t rest hl
        have hdue := is_due_congr k (thread_wakeup k) w3 w4
        have hs2 := (List.pairwise_cons.mp hs).2
        obtain ⟨k1, r1, r2, r3, r4, r5, r6, r7, r8, r9, r10⟩ :=
          ih (thread_wakeup k) b w1
            (hs2.imp (by intro a c hac; rw [w4 a, w4 c]; exact hac))
            (by
              rw [w2]
              cases rest with
              | nil => rfl
              | cons n r =>
                show (k.threads n).wakeup_ticks = ((thread_wakeup k).threads n).wakeup_ticks
                rw [w4 n])
            (by rw [w3]; exact ht)
            (by rw [hdue]; exact Nat.le_of_succ_le_succ hb)
        rw [hdue] at r2 r3 r4 r7 r8 r10
        refine ⟨k1, ?_, ?_, ?_, r4, r5.trans w3, fun u => (r6 u).trans (w4 u), ?_, ?_, ?_, ?_⟩
        · simp only [wakeup_loop, if_pos hg]
          exact r1
        · simp only [wakeup_loop_iterations, if_pos hg, r2, List.length_cons]
        · simp only [wakeup_loop_woken, if_pos hg, r3, hl]
          rfl
        · intro u hu
          by_cases hur : u ∈ List.takeWhile (is_due k) rest
          · exact r7 u hur
          · have e : u = t := by
              rcases List.mem_cons.mp hu with e | e
              · exact e
              · exact absurd e hur
            rw [e] at hur ⊢
            refine ⟨r9 t w6, ?_⟩
            rw [r8 t hur]
            exact w7
        · intro u hu
          have hut : u ≠ t := fun e => hu (by rw [e]; exact List.mem_cons_self _ _)
          have hur : u ∉ List.takeWhile (is_due k) rest :=
            fun e => hu (List.mem_cons_of_mem _ e)
          rw [r8 u hur]
          exact w8 u hut
        · intro u hu
          exact r9 u (w9 u hu)
        · intro u hu
          rcases r10 u hu with e | e
          · rcases w10 u e with e1 | e1
            · exact Or.inr (by rw [e1]; exact List.mem_cons_self _ _)
            · exact Or.inl e1
          · exact Or.inr (List.mem_cons_of_mem _ e)
    · have hg : ¬ k.global_tick ≤ k.ticks := by
        rw [hc1]
        simpa [is_due] using hd
      rw [List.takeWhile_cons_of_neg hd, List.dropWhile_cons_of_neg hd]
      refine ⟨k, ?_, ?_, ?_, hl, rfl, fun _ => rfl, ?_, fun _ _ => rfl, fun _ h => h,
        fun _ h => Or.inl h⟩
      · cases budget with
        | zero => simp only [wakeup_loop, if_neg hg]
        | succ b => simp only [wakeup_loop, if_neg hg]
      · cases budget with
        | zero => rfl
        | succ b => simp only [wakeup_loop_iterations, if_neg hg]; try rfl
      · cases budget with
        | zero => rfl
        | succ b => simp only [wakeup_loop_woken, if_neg hg]; try rfl
      · intro u hu
        exact absurd hu (List.not_mem_nil _)

/-- C30. When the sleep list is ordered by wake-up tick, `global_tick` is the
tick of its head (`INT64_MAX` when it is empty) and `ticks` is below
`INT64_MAX`, the loop `while (global_tick <= ticks) thread_wakeup ();` ends
(for every number of allowed iterations that is at least the number of
sleeping threads with `wakeup_ticks <= ticks`, as the `length + 1` of
`timer_interrupt` is) after exactly that number of iterations; it takes exactly
those threads out of the sleep list, in sleep-list order, and makes them ready
in the ready list; every thread with `wakeup_ticks > ticks` stays in the sleep
list, its page unchanged. -/
theorem wakeup_loop_wakes_due (k : Kernel) (budget : Nat)
    (hs : k.sleep_list.Pairwise
      (fun a b => (k.threads a).wakeup_ticks ≤ (k.threads b).wakeup_ticks))
    (hc1 : k.sleep_list = [] → k.global_tick = INT64_MAX)
    (hc2 : ∀ t rest, k.sleep_list = t :: rest → k.global_tick = (k.threads t).wakeup_ticks)
    (ht : k.ticks < INT64_MAX)
    (hb : (k.sleep_list.filter (is_due k)).length ≤ budget) :
    (k.sleep_list.filter (is_due k)).length ≤ k.sleep_list.length + 1 ∧
    ∃ k1, wakeup_loop budget k = Except.ok k1 ∧
      wakeup_loop_iterations budget k = (k.sleep_list.filter (is_due k)).length ∧
      wakeup_loop_woken budget k = k.sleep_list.filter (is_due k) ∧
      k1.sleep_list = k.sleep_list.filter (fun t => !is_due k t) ∧
      (∀ t ∈ k.sleep_list, (k.threads t).wakeup_ticks ≤ k.ticks →
        t ∈ k1.ready_list ∧ (k1.threads t).status = thread_status.THREAD_READY ∧
        t ∉ k1.sleep_list) ∧
      (∀ t ∈ k.sleep_list, k.ticks < (k.threads t).wakeup_ticks →
        t ∈ k1.sleep_list ∧ k1.threads t = k.threads t) := by
  obtain ⟨e1, e2⟩ := takeWhile_due_eq_filter k k.sleep_list hs
  have hc : k.global_tick =
      (k.sleep_list.head?.map (fun n => (k.threads n).wakeup_ticks)).getD INT64_MAX := by
    cases hl : k.sleep_list with
    | nil => exact hc1 hl
    | cons t rest => exact hc2 t rest hl
  obtain ⟨k1, r1, r2, r3, r4, _, _, r7, r8, _, _⟩ :=
    wakeup_loop_run k.sleep_list k budget rfl hs hc ht (by rw [e1]; exact hb)
  rw [e1] at r2 r3 r7 r8
  rw [e2] at r4
  refine ⟨?_, k1, r1, r2, r3, r4, ?_, ?_⟩
  · exact Nat.le_succ_of_le (List.length_filter_le _ _)
  · intro t ht1 hd
    have hm : t ∈ k.sleep_list.filter (is_due k) :=
      List.mem_filter.mpr ⟨ht1, by simpa [is_due] using hd⟩
    refine ⟨(r7 t hm).1, (r7 t hm).2, ?_⟩
    rw [r4]
    intro hm2
    have := (List.mem_filter.mp hm2).2
    simp [is_due, hd] at this
  · intro t ht1 hd
    have hnd : is_due k t = false := by
      simp only [is_due, decide_eq_false_iff_not, not_le]
      exact hd
    refine ⟨?_, ?_⟩
    · rw [r4]
      exact List.mem_filter.mpr ⟨ht1, by simp [hnd]⟩
    · apply r8
      intro hm
      have := (List.mem_filter.mp hm).2
      rw [hnd] at this
      exact absurd this (by simp)

theorem wakeup_loop_wakes_due_witness :
    ∃ k1, wakeup_loop 4 sleepers_memory = Except.ok k1 ∧
      wakeup_loop_iterations 4 sleepers_memory = 2 ∧
      wakeup_loop_woken 4 sleepers_memory = [2, 1] ∧
      k1.sleep_list = [3] ∧ 2 ∈ k1.ready_list ∧ 1 ∈ k1.ready_list ∧
      (k1.threads 3).status = thread_status.THREAD_BLOCKED := by
  have h := wakeup_loop_wakes_due sleepers_memory 4 (by decide) (by decide)
    (by
      intro t rest e
      have e1 : [2, 1, 3] = t :: rest := e
      simp only [List.cons.injEq] at e1
      rw [← e1.1]
      rfl)
    (by decide) (by decide)
  obtain ⟨_, k1, r1, r2, r3, r4, r5, r6⟩ := h
  have q3 := (r6 3 (by decide) (by decide)).2
  refine ⟨k1, r1, r2, r3, r4, (r5 2 (by decide) (by decide)).1,
    (r5 1 (by decide) (by decide)).1, ?_⟩
  rw [q3]
  rfl

theorem thread_tick_ok (k : Kernel) (h1 : is_thread k k.current = true)
    (h2 : (k.threads k.current).status = thread_status.THREAD_RUNNING) :
    ∃ k1, thread_tick k = Except.ok k1 := by
  unfold thread_tick
  rw [thread_current_ok k h1 h2]
  exact ⟨_, rfl⟩

theorem list_insert_ordered_front {α : Type} (less : α → α → Bool) (l : List α) (e : α)
    (h : ∀ x ∈ l, less e x = true) : list_insert_ordered less l e = e :: l := by
  cases l with
  | nil => rfl
  | cons a rest =>
    show (if less e a then e :: a :: rest else a :: list_insert_ordered less rest e) = _
    rw [if_pos (h a (List.mem_cons_self _ _))]

/-- Writing the status of a thread changes neither a priority nor a magic
number. -/
theorem update_status_fields (f : Nat → thread) (t : Nat) (st : thread_status) (u : Nat) :
    ((Function.update f t { f t with status := st }) u).priority = (f u).priority ∧
    ((Function.update f t { f t with status := st }) u).magic = (f u).magic := by
  rw [Function.update_apply]
  split
  · next e => rw [e]; exact ⟨rfl, rfl⟩
  · exact ⟨rfl, rfl⟩

/-- One `thread_yield` exchanges the two threads of a `yield_pair`. -/
theorem yield_pair_step (a b : Nat) (rest : List Nat) (k : Kernel)
    (h : yield_pair a b rest k) :
    ∃ k1, thread_yield k = Except.ok k1 ∧ yield_pair b a rest k1 := by
  have hc := h.current
  have hins : list_insert_ordered (cmp_priority k) k.ready_list k.current = b :: a :: rest := by
    rw [h.ready_list, hc]
    show (if cmp_priority k a b then a :: b :: rest
      else b :: list_insert_ordered (cmp_priority k) rest a) = _
    have hf : cmp_priority k a b = false := by
      simp only [cmp_priority, decide_eq_false_iff_not, h.priority]
      omega
    rw [hf]
    simp only [Bool.false_eq_true, if_false]
    rw [list_insert_ordered_front]
    intro x hx
    simp only [cmp_priority, decide_eq_true_eq]
    exact h.lower x hx
  have h1 : is_thread k k.current = true := by rw [hc]; exact h.thread_a
  have h2 : (k.threads k.current).status = thread_status.THREAD_RUNNING := by
    rw [hc]; exact h.running
  have h4 : k.idle_thread ≠ some k.current := by rw [hc]; exact h.not_idle_a
  rw [thread_yield_run k h1 h2 h.intr_context, if_pos (Ne.symm h4)]
  obtain ⟨k1, g1, g2, g3, g4⟩ := schedule_cons
    (set_thread { k with
        ready_list := list_insert_ordered (cmp_priority k) k.ready_list k.current } k.current
      { k.threads k.current with status := thread_status.THREAD_READY }) b (a :: rest) hins
    (by simp [set_thread])
    (by
      simp only [is_thread, set_thread, Function.update_apply]
      split
      · exact h1
      · exact h.thread_b)
  have hctx := same_context_schedule _ k1 g1
  have hth : ∀ u, (k1.threads u).priority = (k.threads u).priority ∧
      (k1.threads u).magic = (k.threads u).magic := by
    intro u
    rw [g4]
    have s1 := update_status_fields (Function.update k.threads k.current
      { k.threads k.current with status := thread_status.THREAD_READY }) b
      thread_status.THREAD_RUNNING u
    have s2 := update_status_fields k.threads k.current thread_status.THREAD_READY u
    exact ⟨s1.1.trans s2.1, s1.2.trans s2.2⟩
  have hprio : ∀ u, (k1.threads u).priority = (k.threads u).priority := fun u => (hth u).1
  have hmagic : ∀ u, is_thread k1 u = is_thread k u := by
    intro u
    simp only [is_thread, (hth u).2]
  refine ⟨k1, g1, ⟨g3, g2, ?_, ?_, ?_, ?_, ?_, ?_, ?_, ?_⟩⟩
  · rw [hprio, hprio]; exact h.priority.symm
  · intro r hr
    rw [hprio, hprio, ← h.priority]
    exact h.lower r hr
  · rw [hmagic]; exact h.thread_b
  · rw [hmagic]; exact h.thread_a
  · rw [g4]
    simp [Function.update_apply]
  · exact hctx.intr_context.trans h.intr_context
  · rw [hctx.idle_thread]; exact h.not_idle_b
  · rw [hctx.idle_thread]; exact h.not_idle_a

/-- C21. With a thread `a` running and a thread `b` of the same priority at
the head of the ready list, the ready threads behind `b` having a lower
priority (neither of the two being the idle thread), every `thread_yield` of
the running thread makes the other of the two the running thread: after `n`
calls of `thread_yield`, each by the thread running then, the running thread is
`a` for even `n` and `b` for odd `n`, and the other one is at the head of the
ready list. -/
theorem thread_yield_alternates (a b : Nat) (rest : List Nat) (k : Kernel)
    (h : yield_pair a b rest k) (n : Nat) :
    ∃ kn, thread_yield_times n k = Except.ok kn ∧
      kn.current = (if n % 2 = 0 then a else b) ∧
      kn.ready_list = (if n % 2 = 0 then b else a) :: rest ∧
      (kn.threads kn.current).status = thread_status.THREAD_RUNNING := by
  induction n generalizing a b k with
  | zero =>
    refine ⟨k, rfl, h.current, h.ready_list, ?_⟩
    rw [h.current]
    exact h.running
  | succ n ih =>
    obtain ⟨k1, e1, h1⟩ := yield_pair_step a b rest k h
    obtain ⟨kn, e2, e3, e4, e5⟩ := ih b a k1 h1
    refine ⟨kn, ?_, ?_, ?_, e5⟩
    · show (match thread_yield k with
        | Except.ok k1 => thread_yield_times n k1
        | Except.error f => Except.error f) = _
      rw [e1]
      exact e2
    · rw [e3]
      rcases Nat.mod_two_eq_zero_or_one n with e | e
      · rw [if_pos e, if_neg (by omega)]
      · rw [if_neg (by omega), if_pos (by omega)]
    · rw [e4]
      rcases Nat.mod_two_eq_zero_or_one n with e | e
      · rw [if_pos e, if_neg (by omega)]
      · rw [if_neg (by omega), if_pos (by omega)]

theorem thread_yield_alternates_witness :
    ∃ k k1 k2 k3, Reachable k ∧ k.current = 0 ∧ k.ready_list = [1, 2] ∧
      thread_yield_times 1 k = Except.ok k1 ∧ k1.current = 1 ∧
      thread_yield_times 2 k = Except.ok k2 ∧ k2.current = 0 ∧
      thread_yield_times 3 k = Except.ok k3 ∧ k3.current = 1 ∧ k3.ready_list = [0, 2] := by
  obtain ⟨k, hk, hp⟩ := exists_of_ends_with (outcome false zero_view 0 equal_priority_scenario)
    (fun k => decide (k.current = 0 ∧ k.ready_list = [1, 2] ∧
      (k.threads 0).priority = (k.threads 1).priority ∧
      (k.threads 2).priority < (k.threads 0).priority ∧
      is_thread k 0 = true ∧ is_thread k 1 = true ∧
      (k.threads 0).status = thread_status.THREAD_RUNNING ∧ k.intr_context = false ∧
      k.idle_thread ≠ some 0 ∧ k.idle_thread ≠ some 1)) (by decide!)
  obtain ⟨q1, q2, q3, q4, q5, q6, q7, q8, q9, q10⟩ := of_decide_eq_true hp
  have hr := reachable_of_outcome false zero_view 0 equal_priority_scenario k (by decide!) hk
  have hpair : yield_pair 0 1 [2] k := ⟨q1, q2, q3, by
    intro r hr
    rw [List.mem_singleton.mp hr]
    exact q4, q5, q6, q7, q8, q9, q10⟩
  obtain ⟨k1, a1, a2, _, _⟩ := thread_yield_alternates 0 1 [2] k hpair 1
  obtain ⟨k2, b1, b2, _, _⟩ := thread_yield_alternates 0 1 [2] k hpair 2
  obtain ⟨k3, c1, c2, c3, _⟩ := thread_yield_alternates 0 1 [2] k hpair 3
  exact ⟨k, k1, k2, k3, hr, q1, q2, a1, a2, b1, b2, c1, c2, c3⟩

/-- C22. `lock_acquire` and `lock_try_acquire` by the thread that holds the
lock always end in a failed assertion, and `lock_release` by a thread that
does not hold the lock does: no memory results from the call.  When the
caller's page is sound (and, for `lock_acquire`, no interrupt handler is
running) the assertion that fails is the one on the holder.  The check is the
first instruction of each call, and the entry of `lock_acquire`, when it does
not fail, returns the memory it was given. -/
theorem lock_assertions (k : Kernel) (l l2 : lock_id) (temp : Nat) (rest : List Instr)
    (hheld : (k.locks l).holder = some k.current)
    (hnot : (k.locks l2).holder ≠ some k.current) :
    (∃ f, lock_acquire_enter k l = Except.error f) ∧
    (∃ f, lock_try_acquire k l = Except.error f) ∧
    (∃ f, lock_release_enter k l2 temp = Except.error f) ∧
    (∃ f, step_instr k (Instr.lock_acquire_enter l) rest = Except.error f) ∧
    (∃ f, step_instr k (Instr.lock_try_acquire l) rest = Except.error f) ∧
    (∃ f, step_instr k (Instr.lock_release_enter l2 temp) rest = Except.error f) ∧
    (is_thread k k.current = true →
      (k.threads k.current).status = thread_status.THREAD_RUNNING →
      (k.intr_context = false →
        lock_acquire_enter k l = Except.error Fault.assert_lock_not_held) ∧
      lock_try_acquire k l = Except.error Fault.assert_lock_not_held ∧
      lock_release_enter k l2 temp = Except.error Fault.assert_lock_held) ∧
    (lock_acquire_program l).head? = some (Instr.lock_acquire_enter l) ∧
    (lock_release_program l2 temp).head? = some (Instr.lock_release_enter l2 temp) ∧
    (∀ k1, lock_acquire_enter k l2 = Except.ok k1 → k1 = k) := by
  have hA : ∃ f, lock_acquire_enter k l = Except.error f := by
    cases h : lock_acquire_enter k l with
    | error f => exact ⟨f, rfl⟩
    | ok k1 => exact absurd hheld (lock_acquire_enter_eq k k1 l h).2.2.2
  have hT : ∃ f, lock_try_acquire k l = Except.error f := by
    unfold lock_try_acquire
    cases hb : lock_held_by_current_thread k l with
    | error f => exact ⟨f, rfl⟩
    | ok b =>
      obtain ⟨_, hbe⟩ := lock_held_eq k l b hb
      have hb1 : b = true := by rw [hbe]; simpa using hheld
      simp only [bind, Except.bind, hb1, if_true]
      exact ⟨_, rfl⟩
  have hR : ∃ f, lock_release_enter k l2 temp = Except.error f := by
    unfold lock_release_enter
    cases hb : lock_held_by_current_thread k l2 with
    | error f => exact ⟨f, rfl⟩
    | ok b =>
      obtain ⟨_, hbe⟩ := lock_held_eq k l2 b hb
      have hb1 : b = false := by rw [hbe]; simpa using hnot
      simp only [bind, Except.bind, hb1, if_true]
      exact ⟨_, rfl⟩
  refine ⟨hA, hT, hR, hA, ?_, hR, ?_, rfl, rfl, ?_⟩
  · obtain ⟨f, hf⟩ := hT
    exact ⟨f, by simp only [step_instr, hf, Except.map]⟩
  · intro h1 h2
    have hc := thread_current_ok k h1 h2
    refine ⟨?_, ?_, ?_⟩
    · intro hin
      simp [lock_acquire_enter, thread_get_priority, lock_held_by_current_thread, hc, hin,
        hheld, bind, Except.bind]
    · simp [lock_try_acquire, lock_held_by_current_thread, hc, hheld, bind, Except.bind]
    · simp [lock_release_enter, lock_held_by_current_thread, hc, hnot, bind, Except.bind]
  · intro k1 h
    exact (lock_acquire_enter_eq k k1 l2 h).1

theorem lock_assertions_witness :
    ∃ k, Reachable k ∧ (k.locks (lock_id.addr 5)).holder = some k.current ∧
      (k.locks (lock_id.addr 6)).holder ≠ some k.current ∧
      lock_acquire_enter k (lock_id.addr 5) = Except.error Fault.assert_lock_not_held ∧
      lock_try_acquire k (lock_id.addr 5) = Except.error Fault.assert_lock_not_held ∧
      lock_release_enter k (lock_id.addr 6) 0 = Except.error Fault.assert_lock_held := by
  obtain ⟨k, hk, hp⟩ := exists_of_ends_with (outcome false zero_view 0 held_lock_scenario)
    (fun k => decide ((k.locks (lock_id.addr 5)).holder = some k.current ∧
      (k.locks (lock_id.addr 6)).holder ≠ some k.current ∧ is_thread k k.current = true ∧
      (k.threads k.current).status = thread_status.THREAD_RUNNING ∧
      k.intr_context = false)) (by decide!)
  obtain ⟨q1, q2, q3, q4, q5⟩ := of_decide_eq_true hp
  have hr := reachable_of_outcome false zero_view 0 held_lock_scenario k (by decide!) hk
  obtain ⟨_, _, _, _, _, _, t7, _⟩ :=
    lock_assertions k (lock_id.addr 5) (lock_id.addr 6) 0 [] q1 q2
  obtain ⟨t8, t9, t10⟩ := t7 q3 q4
  exact ⟨k, hr, q1, q2, t8 q5, t9, t10⟩

/-- C26. `thread_tick` adds one to `thread_ticks` and asks for a yield on
return from the interrupt exactly when the count, this tick included, has
reached `TIME_SLICE` = 4 (no yield was asked for before, and the unsigned
counter does not wrap); it adds one to exactly one of the tick counters: to
`idle_ticks` when the idle thread is running, to `kernel_ticks` otherwise, and
never to `user_ticks` in this build.  Every `schedule` that returns leaves
`thread_ticks` at 0. -/
theorem thread_tick_time_slice (k k1 : Kernel) (h : thread_tick k = Except.ok k1)
    (hy : k.yield_on_return = false) (hw : k.thread_ticks + 1 < UINT_MOD) :
    TIME_SLICE = 4 ∧
    k1.thread_ticks = k.thread_ticks + 1 ∧
    (k1.yield_on_return = true ↔ TIME_SLICE ≤ k.thread_ticks + 1) ∧
    ((k.idle_thread = some k.current ∧ k1.idle_ticks = k.idle_ticks + 1 ∧
        k1.kernel_ticks = k.kernel_ticks ∧ k1.user_ticks = k.user_ticks) ∨
     (k.idle_thread ≠ some k.current ∧ k1.idle_ticks = k.idle_ticks ∧
        k1.kernel_ticks = k.kernel_ticks + 1 ∧ k1.user_ticks = k.user_ticks)) ∧
    (∀ k2 k3, schedule k2 = Except.ok k3 → k3.thread_ticks = 0) := by
  refine ⟨rfl, ?_⟩
  have hsched : ∀ k2 k3, schedule k2 = Except.ok k3 → k3.thread_ticks = 0 := by
    intro k2 k3 hs
    obtain ⟨next, rest, _, _, _, hk⟩ := schedule_eq k2 k3 hs
    rw [hk]
  unfold thread_tick at h
  cases hc : thread_current k with
  | error f =>
    rw [hc] at h
    exact absurd h (by simp [bind, Except.bind])
  | ok c =>
    obtain ⟨hcc, _, _⟩ := thread_current_eq k c hc
    rw [hc] at h
    subst hcc
    simp only [bind, Except.bind, Except.ok.injEq] at h
    have hmod : (k.thread_ticks + 1) % UINT_MOD = k.thread_ticks + 1 := Nat.mod_eq_of_lt hw
    by_cases hi : some k.current = k.idle_thread
    · rw [if_pos hi] at h
      simp only [hmod] at h
      by_cases hts : k.thread_ticks + 1 ≥ TIME_SLICE
      · rw [if_pos hts] at h
        rw [← h]
        exact ⟨rfl, ⟨fun _ => hts, fun _ => rfl⟩, Or.inl ⟨hi.symm, rfl, rfl, rfl⟩, hsched⟩
      · rw [if_neg hts] at h
        rw [← h]
        refine ⟨rfl, ⟨?_, fun e => absurd e hts⟩, Or.inl ⟨hi.symm, rfl, rfl, rfl⟩, hsched⟩
        intro e
        have e1 : k.yield_on_return = true := e
        rw [hy] at e1
        exact absurd e1 (by simp)
    · rw [if_neg hi] at h
      simp only [hmod] at h
      by_cases hts : k.thread_ticks + 1 ≥ TIME_SLICE
      · rw [if_pos hts] at h
        rw [← h]
        exact ⟨rfl, ⟨fun _ => hts, fun _ => rfl⟩,
          Or.inr ⟨fun e => hi e.symm, rfl, rfl, rfl⟩, hsched⟩
      · rw [if_neg hts] at h
        rw [← h]
        refine ⟨rfl, ⟨?_, fun e => absurd e hts⟩,
          Or.inr ⟨fun e => hi e.symm, rfl, rfl, rfl⟩, hsched⟩
        intro e
        have e1 : k.yield_on_return = true := e
        rw [hy] at e1
        exact absurd e1 (by simp)

theorem thread_tick_time_slice_witness :
    ∃ k1 k2, thread_tick ready_memory = Except.ok k1 ∧ k1.thread_ticks = 1 ∧
      k1.yield_on_return = false ∧ k1.kernel_ticks = 1 ∧ k1.idle_ticks = 0 ∧
      thread_tick { ready_memory with thread_ticks := 3 } = Except.ok k2 ∧
      k2.thread_ticks = 4 ∧ k2.yield_on_return = true := by
  obtain ⟨k1, h1⟩ := thread_tick_ok ready_memory (by decide) (by decide)
  obtain ⟨k2, h2⟩ := thread_tick_ok { ready_memory with thread_ticks := 3 }
    (by decide) (by decide)
  obtain ⟨_, a1, a2, a3, _⟩ := thread_tick_time_slice ready_memory k1 h1 rfl (by decide)
  obtain ⟨_, b1, b2, _, _⟩ := thread_tick_time_slice _ k2 h2 rfl (by decide)
  have a4 : k1.yield_on_return = false := by
    cases hv : k1.yield_on_return with
    | false => rfl
    | true => exact absurd (a2.mp hv) (by decide)
  rcases a3 with ⟨a5, _⟩ | ⟨_, a6, a7, _⟩
  · exact absurd a5 (by decide)
  · exact ⟨k1, k2, h1, a1, a4, a7, a6, h2, b1, b2.mpr (by decide)⟩

/-- Every thread is either left as it was by the walk or was below the donor
and has received the donor's priority, nothing else of it changing. -/
theorem donate_priority_loop_raise (budget : Nat) :
    ∀ (k : Kernel) (temp t : Nat),
      (donate_priority_loop budget k temp).1.threads t = k.threads t ∨
      ((k.threads t).priority < (k.threads temp).priority ∧
        (donate_priority_loop budget k temp).1.threads t =
          { k.threads t with priority := (k.threads temp).priority }) := by
  induction budget with
  | zero => intro k temp t; exact Or.inl rfl
  | succ n ih =>
    intro k temp t
    cases hw : (k.threads temp).waiting_lock with
    | none => rw [donate_priority_loop_none n k temp hw]; exact Or.inl rfl
    | some l =>
      cases hh : (k.locks l).holder with
      | none => rw [donate_priority_loop_free n k temp l hw hh]; exact Or.inl rfl
      | some holder =>
        by_cases hp : (k.threads temp).priority ≤ (k.threads holder).priority
        · rw [donate_priority_loop_stop n k temp l holder hw hh hp]; exact Or.inl rfl
        · rw [donate_priority_loop_go n k temp l holder hw hh (by omega)]
          show (donate_priority_loop n _ holder).1.threads t = _ ∨ _ ∧
            (donate_priority_loop n _ holder).1.threads t = _
          have hP : ((set_thread k holder
              { k.threads holder with priority := (k.threads temp).priority }).threads
                holder).priority = (k.threads temp).priority := by
            simp [set_thread]
          rcases ih (set_thread k holder
            { k.threads holder with priority := (k.threads temp).priority }) holder t with h | h
          · by_cases ht : t = holder
            · subst ht
              right
              refine ⟨by omega, ?_⟩
              rw [h]
              simp [set_thread]
            · left
              rw [h]
              simp [set_thread, Function.update_apply, ht]
          · rw [hP] at h
            by_cases ht : t = holder
            · subst ht
              rw [hP] at h
              omega
            · have e : (set_thread k holder
                  { k.threads holder with priority := (k.threads temp).priority }).threads t =
                  k.threads t := by
                simp [set_thread, Function.update_apply, ht]
              rw [e] at h
              exact Or.inr h

/-- A chain of distinct threads `c i .. c m` below the donor that ends at a link
where the walk stops: the threads after `c i` up to `c m` receive the
donor's priority and every other thread is untouched. -/
theorem donate_priority_loop_halt (c : Nat → Nat) (L : Nat → lock_id) (m : Nat) (P : Int)
    (hinj : ∀ a b, a ≤ m → b ≤ m → c a = c b → a = b) (budget : Nat) :
    ∀ (i : Nat) (k : Kernel), i ≤ m → m < i + budget →
      (∀ j, j < m → (k.threads (c j)).waiting_lock = some (L j)) →
      (∀ j, j < m → (k.locks (L j)).holder = some (c (j + 1))) →
      (k.threads (c i)).priority = P →
      (∀ j, i < j → j ≤ m → (k.threads (c j)).priority < P) →
      ((k.threads (c m)).waiting_lock = none ∨
        ∃ l, (k.threads (c m)).waiting_lock = some l ∧
          ((k.locks l).holder = none ∨
            ∃ h, (k.locks l).holder = some h ∧ P ≤ (k.threads h).priority)) →
      (∀ j, i < j → j ≤ m →
        (donate_priority_loop budget k (c i)).1.threads (c j) =
          { k.threads (c j) with priority := P }) ∧
      (∀ t, (∀ j, i < j → j ≤ m → t ≠ c j) →
        (donate_priority_loop budget k (c i)).1.threads t = k.threads t) := by
  induction budget with
  | zero =>
    intro i k h1 h2
    omega
  | succ n ih =>
    intro i k him hb hw hh hP hlow hstop
    by_cases hi : i = m
    · subst hi
      have hk : (donate_priority_loop (n + 1) k (c i)).1 = k := by
        rcases hstop with h | ⟨l, h, h2 | ⟨h0, h2, h3⟩⟩
        · rw [donate_priority_loop_none n k _ h]
        · rw [donate_priority_loop_free n k _ l h h2]
        · rw [donate_priority_loop_stop n k _ l h0 h h2 (by omega)]
      rw [hk]
      exact ⟨fun j h1 h2 => by omega, fun _ _ => rfl⟩
    · have hlt : (k.threads (c (i + 1))).priority < P := hlow (i + 1) (by omega) (by omega)
      have hstep : (donate_priority_loop (n + 1) k (c i)).1 =
          (donate_priority_loop n (set_thread k (c (i + 1))
              { k.threads (c (i + 1)) with priority := P }) (c (i + 1))).1 := by
        rw [donate_priority_loop_go n k (c i) (L i) (c (i + 1)) (hw i (by omega))
          (hh i (by omega)) (by omega), hP]
      have hne : ∀ j, i + 1 < j → j ≤ m → c j ≠ c (i + 1) := by
        intro j h1 h2 h3
        have := hinj j (i + 1) h2 (by omega) h3
        omega
      have hwl : ∀ x, ((set_thread k (c (i + 1))
          { k.threads (c (i + 1)) with priority := P }).threads x).waiting_lock =
          (k.threads x).waiting_lock := by
        intro x
        simp only [set_thread, Function.update_apply]
        split
        · next h => rw [h]
        · rfl
      obtain ⟨ih1, ih2⟩ := ih (i + 1)
        (set_thread k (c (i + 1)) { k.threads (c (i + 1)) with priority := P }) (by omega)
        (by omega)
        (by intro j hj; rw [hwl]; exact hw j hj)
        (by intro j hj; exact hh j hj)
        (by simp [set_thread])
        (by
          intro j h1 h2
          simp only [set_thread, Function.update_apply, if_neg (hne j h1 h2)]
          exact hlow j (by omega) h2)
        (by
          rw [hwl]
          rcases hstop with h | ⟨l, h, h2 | ⟨h0, h2, h3⟩⟩
          · exact Or.inl h
          · exact Or.inr ⟨l, h, Or.inl h2⟩
          · refine Or.inr ⟨l, h, Or.inr ⟨h0, h2, ?_⟩⟩
            simp only [set_thread, Function.update_apply]
            split
            · exact Int.le_refl _
            · exact h3)
      rw [hstep]
      refine ⟨?_, ?_⟩
      · intro j h1 h2
        by_cases hj : j = i + 1
        · subst hj
          rw [ih2 (c (i + 1)) (fun j h1 h2 => (hne j h1 h2).symm)]
          simp [set_thread]
        · rw [ih1 j (by omega) h2]
          simp only [set_thread, Function.update_apply, if_neg (hne j (by omega) h2)]
      · intro t ht
        rw [ih2 t (fun j h1 h2 => ht j (by omega) h2)]
        have := ht (i + 1) (by omega) (by omega)
        simp [set_thread, Function.update_apply, this]

/-- C25. The walk of `donate_priority` from any donor `temp` in any memory
changes nothing but thread priorities: each thread is either left exactly as
it was, or it was strictly below the donor and ends with the donor's
priority, so no priority is lowered.  On a chain of distinct threads
`c 0 = temp, c 1, .., c m` (`m ≤ 7`), each waiting for a lock held by the
next and `c 1 .. c m` strictly below the donor, whose last thread `c m`
waits for a lock without a holder or with a holder already at or above the
donor's priority, the walk stops there: `c 1 .. c m` end with the donor's
priority and every other thread, that holder and whatever lies beyond it
included, is unchanged. -/
theorem donate_priority_walk (k : Kernel) (temp : Nat) :
    donate_priority k temp = { k with threads := (donate_priority k temp).threads } ∧
    (∀ t, (donate_priority k temp).threads t = k.threads t ∨
      ((k.threads t).priority < (k.threads temp).priority ∧
        (donate_priority k temp).threads t =
          { k.threads t with priority := (k.threads temp).priority })) ∧
    (∀ t, (k.threads t).priority ≤ ((donate_priority k temp).threads t).priority) ∧
    ∀ (c : Nat → Nat) (L : Nat → lock_id) (m : Nat) (l : lock_id), m ≤ 7 → c 0 = temp →
      (∀ a b, a ≤ m → b ≤ m → c a = c b → a = b) →
      (∀ j, j < m → (k.threads (c j)).waiting_lock = some (L j)) →
      (∀ j, j < m → (k.locks (L j)).holder = some (c (j + 1))) →
      (∀ j, 0 < j → j ≤ m → (k.threads (c j)).priority < (k.threads temp).priority) →
      (k.threads (c m)).waiting_lock = some l →
      ((k.locks l).holder = none ∨
        ∃ h, (k.locks l).holder = some h ∧
          (k.threads temp).priority ≤ (k.threads h).priority) →
      (∀ j, 0 < j → j ≤ m →
        (donate_priority k temp).threads (c j) =
          { k.threads (c j) with priority := (k.threads temp).priority }) ∧
      (∀ t, (∀ j, 0 < j → j ≤ m → t ≠ c j) →
        (donate_priority k temp).threads t = k.threads t) ∧
      (∀ h, (k.locks l).holder = some h →
        (donate_priority k temp).threads h = k.threads h) := by
  have hr := donate_priority_loop_raise DONATION_DEPTH k temp
  refine ⟨donate_priority_loop_fields DONATION_DEPTH k temp, hr, ?_, ?_⟩
  · intro t
    rcases hr t with h | ⟨h1, h2⟩
    · show _ ≤ ((donate_priority_loop DONATION_DEPTH k temp).1.threads t).priority
      rw [h]
    · show _ ≤ ((donate_priority_loop DONATION_DEPTH k temp).1.threads t).priority
      rw [h2]
      exact Int.le_of_lt h1
  · intro c L m l hm hc hinj hw hh hlow hwm hstop
    subst hc
    obtain ⟨g1, g2⟩ := donate_priority_loop_halt c L m (k.threads (c 0)).priority hinj
      DONATION_DEPTH 0 k (Nat.zero_le _) (by simp only [DONATION_DEPTH]; omega) hw hh rfl hlow
      (Or.inr ⟨l, hwm, hstop⟩)
    refine ⟨g1, g2, ?_⟩
    intro h hh2
    apply g2
    intro j hj1 hj2 heq
    rcases hstop with h0 | ⟨h0, h3, h4⟩
    · rw [h0] at hh2
      cases hh2
    · rw [h3] at hh2
      cases hh2
      have := hlow j hj1 hj2
      rw [← heq] at this
      omega

theorem donate_priority_walk_witness :
    ((donate_priority short_chain_memory 0).threads 1).priority = 50 ∧
    ((donate_priority short_chain_memory 0).threads 2).priority = 50 ∧
    (donate_priority short_chain_memory 0).threads 3 = short_chain_memory.threads 3 ∧
    (donate_priority short_chain_memory 0).threads 4 = short_chain_memory.threads 4 := by
  have h := (donate_priority_walk short_chain_memory 0).2.2.2 id lock_id.addr 2
    (lock_id.addr 2) (by decide) rfl
    (fun a b _ _ hab => hab) (fun j _ => rfl) (fun j _ => rfl)
    (fun j h1 h2 => by
      have h3 : j ≠ 0 := by omega
      have h4 : j ≠ 3 := by omega
      simp [short_chain_memory, h3, h4])
    rfl (Or.inr ⟨3, rfl, by decide⟩)
  refine ⟨?_, ?_, h.2.2 3 rfl, h.2.1 4 (fun j h1 h2 => by simp only [id]; omega)⟩
  · have e : (donate_priority short_chain_memory 0).threads 1 = _ :=
      h.1 1 (by decide) (by decide)
    rw [e]
    rfl
  · have e : (donate_priority short_chain_memory 0).threads 2 = _ :=
      h.1 2 (by decide) (by decide)
    rw [e]
    rfl

/-- C24. After thread 1 (priority 40) and then thread 2 (priority 41) have
blocked in `sema_down` on one semaphore, the wait list is `[1, 2]`: the
thread of the higher priority stands behind the one of the lower priority.
`sema_down` ranks the threads with `cmp_sema_priority`, which reads each
thread's `elem` as the `elem` of a `struct semaphore_elem`; where that read
gives 0 for every thread, the insertion is at the back whatever the
priorities are. -/
theorem sema_down_inserts_at_back :
    (∃ k, Reachable k ∧ quiescent k ∧ k.current = 0 ∧
      (get_sema k (sema_ref.standalone 0)).waiters = [1, 2] ∧
      (get_sema k (sema_ref.standalone 0)).value = 0 ∧
      (k.threads 1).status = thread_status.THREAD_BLOCKED ∧
      (k.threads 2).status = thread_status.THREAD_BLOCKED ∧
      (k.threads 1).priority = 40 ∧ (k.threads 2).priority = 41) ∧
    ∀ (k : Kernel) (ws : List Nat) (t : Nat), k.elem_as_sema_priority = zero_view →
      list_insert_ordered (cmp_sema_priority k) ws t = ws ++ [t] := by
  refine ⟨?_, ?_⟩
  · obtain ⟨k, hk, hp⟩ := exists_of_ends_with (outcome false zero_view 0 two_waiters_scenario)
      (fun k => decide (quiescent k ∧ k.current = 0 ∧
        (get_sema k (sema_ref.standalone 0)).waiters = [1, 2] ∧
        (get_sema k (sema_ref.standalone 0)).value = 0 ∧
        (k.threads 1).status = thread_status.THREAD_BLOCKED ∧
        (k.threads 2).status = thread_status.THREAD_BLOCKED ∧
        (k.threads 1).priority = 40 ∧ (k.threads 2).priority = 41)) (by decide!)
    exact ⟨k, reachable_of_outcome false zero_view 0 two_waiters_scenario k (by decide!) hk,
      of_decide_eq_true hp⟩
  · intro k ws t hv
    induction ws with
    | nil => rfl
    | cons w ws ih =>
      simp only [list_insert_ordered, cmp_sema_priority, hv, zero_view] at ih ⊢
      simp [ih]

theorem sema_down_inserts_at_back_witness :
    list_insert_ordered (cmp_sema_priority (boot_memory false zero_view)) [1] 2 = [1] ++ [2] :=
  sema_down_inserts_at_back.2 (boot_memory false zero_view) [1] 2 rfl

/-- C23. `lock_release` on a lock with two waiting threads unblocks both and
leaves the semaphore count at 2.  In the memory of `lock_waiters_scenario`,
with or without the multi-level feedback queue option, `main` holds lock 5
and the threads 2 and 1 are blocked in its wait queue; after `lock_release`
by `main`, which is still running, the wait queue is empty, both threads
are ready in the ready list, the lock has no holder and its count is 2. -/
theorem lock_release_wakes_two (mlfqs : Bool) :
    ∃ k k1, Reachable k ∧ quiescent k ∧ k.thread_mlfqs = mlfqs ∧ k.current = 0 ∧
      (k.locks (lock_id.addr 5)).holder = some 0 ∧
      (k.locks (lock_id.addr 5)).semaphore.waiters = [2, 1] ∧
      (k.locks (lock_id.addr 5)).semaphore.value = 0 ∧
      (k.threads 1).status = thread_status.THREAD_BLOCKED ∧
      (k.threads 2).status = thread_status.THREAD_BLOCKED ∧
      (k.threads 1).priority = 10 ∧ (k.threads 2).priority = 20 ∧
      exec_trace k (call_to_end (Call.lock_release 5 0)) = Except.ok k1 ∧
      quiescent k1 ∧ k1.current = 0 ∧
      (k1.locks (lock_id.addr 5)).holder = none ∧
      (k1.locks (lock_id.addr 5)).semaphore.waiters = [] ∧
      (k1.locks (lock_id.addr 5)).semaphore.value = 2 ∧
      (k1.threads 1).status = thread_status.THREAD_READY ∧
      (k1.threads 2).status = thread_status.THREAD_READY ∧
      k1.ready_list = [2, 1, 3] := by
  have key : ∀ m : Bool, m = mlfqs → ends_with (outcome m zero_view 0 lock_waiters_scenario)
      (fun k => decide (quiescent k ∧ k.thread_mlfqs = m ∧ k.current = 0 ∧
        (k.locks (lock_id.addr 5)).holder = some 0 ∧
        (k.locks (lock_id.addr 5)).semaphore.waiters = [2, 1] ∧
        (k.locks (lock_id.addr 5)).semaphore.value = 0 ∧
        (k.threads 1).status = thread_status.THREAD_BLOCKED ∧
        (k.threads 2).status = thread_status.THREAD_BLOCKED ∧
        (k.threads 1).priority = 10 ∧ (k.threads 2).priority = 20) &&
        ends_with (exec_trace k (call_to_end (Call.lock_release 5 0))) (fun k1 =>
          decide (quiescent k1 ∧ k1.current = 0 ∧
            (k1.locks (lock_id.addr 5)).holder = none ∧
            (k1.locks (lock_id.addr 5)).semaphore.waiters = [] ∧
            (k1.locks (lock_id.addr 5)).semaphore.value = 2 ∧
            (k1.threads 1).status = thread_status.THREAD_READY ∧
            (k1.threads 2).status = thread_status.THREAD_READY ∧
            k1.ready_list = [2, 1, 3]))) = true ∧
      plain_outcome m zero_view 0 lock_waiters_scenario = true := by
    intro m _
    cases m
    · decide!
    · decide!
  obtain ⟨h1, h2⟩ := key mlfqs rfl
  obtain ⟨k, hk, hp⟩ := exists_of_ends_with _ _ h1
  rw [Bool.and_eq_true] at hp
  obtain ⟨hp1, hp2⟩ := hp
  obtain ⟨k1, hk1, hp3⟩ := exists_of_ends_with _ _ hp2
  exact ⟨k, k1, reachable_of_outcome mlfqs zero_view 0 lock_waiters_scenario k h2 hk,
    (of_decide_eq_true hp1).1, (of_decide_eq_true hp1).2.1, (of_decide_eq_true hp1).2.2.1,
    (of_decide_eq_true hp1).2.2.2.1, (of_decide_eq_true hp1).2.2.2.2.1,
    (of_decide_eq_true hp1).2.2.2.2.2.1, (of_decide_eq_true hp1).2.2.2.2.2.2.1,
    (of_decide_eq_true hp1).2.2.2.2.2.2.2.1, (of_decide_eq_true hp1).2.2.2.2.2.2.2.2.1,
    (of_decide_eq_true hp1).2.2.2.2.2.2.2.2.2, hk1, of_decide_eq_true hp3⟩

theorem req_kept_of_eq (k k1 : Kernel) (h1 : k1.initial_thread = k.initial_thread)
    (h2 : k1.destruction_req = k.destruction_req) (h3 : k1.allocated = k.allocated) :
    req_kept k k1 :=
  ⟨h1, fun _ ht => Or.inl (h2 ▸ ht), fun _ ht => h3 ▸ ht⟩

theorem req_kept_refl (k : Kernel) : req_kept k k := req_kept_of_eq k k rfl rfl rfl

theorem req_kept_trans (k k1 k2 : Kernel) (h1 : req_kept k k1) (h2 : req_kept k1 k2) :
    req_kept k k2 := by
  refine ⟨h2.initial_thread.trans h1.initial_thread, ?_, fun t ht =>
    h2.allocated t (h1.allocated t ht)⟩
  intro t ht
  rcases h2.destruction_req t ht with h | h
  · exact h1.destruction_req t h
  · rw [h1.initial_thread] at h
    exact Or.inr h

/-- What `schedule` does to the destruction queue: the thread switched away
from is appended exactly when it is dying and is not the initial thread. -/
theorem schedule_queue (k k1 : Kernel) (h : schedule k = Except.ok k1) :
    (k1.destruction_req = k.destruction_req ++ [k.current] ∧
      k1.current ≠ k.current ∧ (k.threads k.current).status = thread_status.THREAD_DYING ∧
      k.current ≠ k.initial_thread) ∨
    (k1.destruction_req = k.destruction_req ∧
      ¬ (k1.current ≠ k.current ∧ (k.threads k.current).status = thread_status.THREAD_DYING ∧
        k.current ≠ k.initial_thread)) := by
  unfold schedule next_thread_to_run at h
  cases hr : k.ready_list with
  | nil =>
    rw [hr] at h
    dsimp only at h
    split at h
    · exact absurd h (by simp)
    · cases hi : k.idle_thread with
      | none =>
        rw [hi] at h
        exact absurd h (by simp)
      | some next =>
        rw [hi] at h
        dsimp only at h
        split at h
        · exact absurd h (by simp)
        · split at h
          · next hc =>
            simp only [Except.ok.injEq] at h
            rw [← h]
            simp only [set_thread]
            split
            · next hd =>
              refine Or.inl ⟨rfl, fun e => hc e.symm, ?_, hd.2⟩
              have := hd.1
              simpa [Function.update_apply, hc] using this
            · next hd =>
              refine Or.inr ⟨rfl, ?_⟩
              intro ⟨_, h2, h3⟩
              apply hd
              refine ⟨?_, h3⟩
              simpa [set_thread, Function.update_apply, hc] using h2
          · next hc =>
            simp only [Except.ok.injEq] at h
            rw [← h]
            exact Or.inr ⟨rfl, fun h2 => h2.1 rfl⟩
  | cons next rest =>
    rw [hr] at h
    dsimp only at h
    split at h
    · exact absurd h (by simp)
    · split at h
      · exact absurd h (by simp)
      · split at h
        · next hc =>
          simp only [Except.ok.injEq] at h
          rw [← h]
          simp only [set_thread]
          split
          · next hd =>
            refine Or.inl ⟨rfl, fun e => hc e.symm, ?_, hd.2⟩
            have := hd.1
            simpa [Function.update_apply, hc] using this
          · next hd =>
            refine Or.inr ⟨rfl, ?_⟩
            intro ⟨_, h2, h3⟩
            apply hd
            refine ⟨?_, h3⟩
            simpa [set_thread, Function.update_apply, hc] using h2
        · next hc =>
          simp only [Except.ok.injEq] at h
          rw [← h]
          exact Or.inr ⟨rfl, fun h2 => h2.1 rfl⟩

theorem req_kept_schedule (k k1 : Kernel) (h : schedule k = Except.ok k1) :
    req_kept k k1 := by
  have c := same_context_schedule k k1 h
  refine ⟨c.initial_thread, ?_, fun t ht => c.allocated ▸ ht⟩
  intro t ht
  rcases schedule_queue k k1 h with ⟨e, _, _, hn⟩ | ⟨e, _⟩
  · rw [e, List.mem_append, List.mem_singleton] at ht
    rcases ht with ht | ht
    · exact Or.inl ht
    · rw [ht]; exact Or.inr hn
  · rw [e] at ht
    exact Or.inl ht

theorem req_kept_pre (k ka k1 : Kernel) (c : req_kept ka k1)
    (h1 : ka.initial_thread = k.initial_thread)
    (h2 : ka.destruction_req = k.destruction_req) (h3 : ka.allocated = k.allocated) :
    req_kept k k1 :=
  req_kept_trans k ka k1 (req_kept_of_eq k ka h1 h2 h3) c

theorem req_kept_thread_unblock (k k1 : Kernel) (t : Nat)
    (h : thread_unblock k t = Except.ok k1) : req_kept k k1 := by
  obtain ⟨_, _, hk1⟩ := thread_unblock_eq k k1 t h
  rw [hk1]
  exact req_kept_of_eq _ _ rfl rfl rfl

theorem req_kept_thread_yield (k k1 : Kernel) (h : thread_yield k = Except.ok k1) :
    req_kept k k1 := by
  obtain ⟨_, _, _, hs⟩ := thread_yield_eq k k1 h
  have c := req_kept_schedule _ k1 hs
  refine req_kept_trans k _ k1 ?_ c
  split
  · exact req_kept_of_eq _ _ rfl rfl rfl
  · exact req_kept_of_eq _ _ rfl rfl rfl

theorem req_kept_thread_block (k k1 : Kernel) (h : thread_block k = Except.ok k1) :
    req_kept k k1 := by
  obtain ⟨_, _, _, hs⟩ := thread_block_eq k k1 h
  have c := req_kept_schedule _ k1 hs
  exact req_kept_pre k _ k1 c rfl rfl rfl

theorem req_kept_test_max_priority (k k1 : Kernel)
    (h : test_max_priority k = Except.ok k1) : req_kept k k1 := by
  rcases test_max_priority_eq k k1 h with e | ⟨_, e⟩
  · rw [e]; exact req_kept_refl k
  · exact req_kept_thread_yield k k1 e

theorem req_kept_set_sema (k : Kernel) (s : sema_ref) (v : semaphore) :
    req_kept k (set_sema k s v) := req_kept_of_eq _ _ rfl rfl rfl

theorem req_kept_sema_up_wake (k k1 : Kernel) (s : sema_ref)
    (h : sema_up_wake k s = Except.ok k1) : req_kept k k1 := by
  unfold sema_up_wake at h
  dsimp only at h
  cases hsort : list_sort (cmp_priority k) (get_sema k s).waiters with
  | nil =>
    rw [hsort] at h
    simp only [Except.ok.injEq] at h
    rw [← h]
    exact req_kept_trans k _ _ (req_kept_set_sema k s _) (req_kept_set_sema _ s _)
  | cons t rest =>
    rw [hsort] at h
    dsimp only at h
    cases hu : thread_unblock (set_sema k s { get_sema k s with waiters := rest }) t with
    | error f =>
      rw [hu] at h
      exact absurd h (by simp [bind, Except.bind])
    | ok k2 =>
      rw [hu] at h
      simp only [bind, Except.bind, Except.ok.injEq] at h
      rw [← h]
      exact req_kept_trans k _ _ (req_kept_set_sema k s _)
        (req_kept_trans _ k2 _ (req_kept_thread_unblock _ k2 t hu)
          (req_kept_set_sema _ s _))

theorem req_kept_sema_up (k k1 : Kernel) (s : sema_ref)
    (h : sema_up k s = Except.ok k1) : req_kept k k1 := by
  unfold sema_up at h
  cases hw : sema_up_wake k s with
  | error f =>
    rw [hw] at h
    exact absurd h (by simp [bind, Except.bind])
  | ok k2 =>
    rw [hw] at h
    exact req_kept_trans k k2 k1 (req_kept_sema_up_wake k k2 s hw)
      (req_kept_test_max_priority k2 k1 h)

theorem req_kept_thread_wakeup (k : Kernel) : req_kept k (thread_wakeup k) := by
  unfold thread_wakeup
  cases k.sleep_list with
  | nil => exact req_kept_refl k
  | cons t rest =>
    cases rest with
    | nil => exact req_kept_of_eq _ _ rfl rfl rfl
    | cons n r => exact req_kept_of_eq _ _ rfl rfl rfl

theorem req_kept_wakeup_loop (n : Nat) : ∀ (k k1 : Kernel), wakeup_loop n k = Except.ok k1 →
    req_kept k k1 := by
  induction n with
  | zero =>
    intro k k1 hw
    unfold wakeup_loop at hw
    split at hw
    · exact absurd hw (by simp)
    · simp only [Except.ok.injEq] at hw
      rw [← hw]
      exact req_kept_refl k
  | succ n ih =>
    intro k k1 hw
    unfold wakeup_loop at hw
    split at hw
    · exact req_kept_trans k _ k1 (req_kept_thread_wakeup k) (ih _ k1 hw)
    · simp only [Except.ok.injEq] at hw
      rw [← hw]
      exact req_kept_refl k

theorem req_kept_thread_tick (k k1 : Kernel) (h : thread_tick k = Except.ok k1) :
    req_kept k k1 := by
  unfold thread_tick at h
  cases hc : thread_current k with
  | error f =>
    rw [hc] at h
    exact absurd h (by simp [bind, Except.bind])
  | ok c =>
    rw [hc] at h
    simp only [bind, Except.bind, Except.ok.injEq] at h
    rw [← h]
    split <;> split <;> exact req_kept_of_eq _ _ rfl rfl rfl

theorem req_kept_timer_interrupt_event (k k1 : Kernel)
    (ht : timer_interrupt_event k = Except.ok k1) : req_kept k k1 := by
  unfold timer_interrupt_event at ht
  generalize hie : ({ k with intr_context := true, yield_on_return := false } : Kernel)
    = intr_entry at ht
  have hie2 : req_kept k intr_entry := by
    rw [← hie]; exact req_kept_of_eq _ _ rfl rfl rfl
  cases hc : timer_interrupt intr_entry with
  | error f =>
    rw [hc] at ht
    exact absurd ht (by simp [bind, Except.bind])
  | ok k2 =>
    rw [hc] at ht
    simp only [bind, Except.bind] at ht
    have h2 : req_kept k k2 := by
      unfold timer_interrupt at hc
      cases hd : thread_tick { intr_entry with ticks := intr_entry.ticks + 1 } with
      | error f =>
        rw [hd] at hc
        exact absurd hc (by simp [bind, Except.bind])
      | ok k3 =>
        rw [hd] at hc
        have c1 := req_kept_thread_tick _ k3 hd
        have c2 := req_kept_wakeup_loop _ k3 k2 hc
        exact req_kept_trans k _ k2 hie2
          (req_kept_pre intr_entry _ k2 (req_kept_trans _ k3 k2 c1 c2) rfl rfl rfl)
    split at ht
    · have c := req_kept_thread_yield _ k1 ht
      exact req_kept_trans k k2 k1 h2 (req_kept_pre k2 _ k1 c rfl rfl rfl)
    · simp only [Except.ok.injEq] at ht
      rw [← ht]
      exact req_kept_trans k k2 _ h2 (req_kept_of_eq _ _ rfl rfl rfl)

/-- What `do_schedule` does when it returns: the caller is the running thread,
the pages queued for destruction are freed and the queue is emptied, and then
`schedule` runs. -/
theorem do_schedule_eq (k k1 : Kernel) (status : thread_status)
    (h : do_schedule k status = Except.ok k1) :
    (k.threads k.current).status = thread_status.THREAD_RUNNING ∧
    schedule (set_thread { k with
        allocated := List.filter (fun t => decide (t ∉ k.destruction_req)) k.allocated,
        destruction_req := [] } k.current
      { k.threads k.current with status := status }) = Except.ok k1 := by
  unfold do_schedule at h
  cases hc : thread_current k with
  | error f =>
    rw [hc] at h
    exact absurd h (by simp [bind, Except.bind])
  | ok c =>
    obtain ⟨hcc, _, hrun⟩ := thread_current_eq k c hc
    rw [hc] at h
    subst hcc
    exact ⟨hrun, h⟩

theorem thread_exit_eq (k k1 : Kernel) (h : thread_exit k = Except.ok k1) :
    k.intr_context = false ∧ do_schedule k thread_status.THREAD_DYING = Except.ok k1 ∧
    k1.current ≠ k.current := by
  unfold thread_exit at h
  split at h
  · exact absurd h (by simp)
  · next hi =>
    cases hd : do_schedule k thread_status.THREAD_DYING with
    | error f =>
      rw [hd] at h
      exact absurd h (by simp [bind, Except.bind])
    | ok k2 =>
      rw [hd] at h
      simp only [bind, Except.bind] at h
      split at h
      · exact absurd h (by simp)
      · next hne =>
        simp only [Except.ok.injEq] at h
        rw [← h]
        exact ⟨by simpa using hi, rfl, hne⟩

/-- Every instruction but `thread_exit` keeps the pages in use and queues no
thread but threads other than the initial one. -/
theorem step_instr_req (k k1 : Kernel) (i : Instr) (rest : List Instr)
    (hs : step_instr k i rest = Except.ok k1) :
    req_kept k k1 ∨ (i = Instr.thread_exit ∧ thread_exit k = Except.ok k1) := by
  cases i with
  | init_thread t p =>
    simp only [step_instr] at hs
    split at hs
    · exact absurd hs (by simp)
    · unfold init_thread at hs
      split at hs
      · exact absurd hs (by simp)
      · simp only [Except.ok.injEq] at hs
        rw [← hs]
        exact Or.inl ⟨rfl, fun t ht => Or.inl ht, fun t ht => List.mem_cons_of_mem _ ht⟩
  | assign_tid t =>
    simp only [step_instr, Except.ok.injEq] at hs
    rw [← hs]
    exact Or.inl (req_kept_of_eq _ _ rfl rfl rfl)
  | thread_unblock t => exact Or.inl (req_kept_thread_unblock k k1 t hs)
  | test_max_priority => exact Or.inl (req_kept_test_max_priority k k1 hs)
  | thread_yield => exact Or.inl (req_kept_thread_yield k k1 hs)
  | thread_block => exact Or.inl (req_kept_thread_block k k1 hs)
  | thread_set_priority p =>
    simp only [step_instr] at hs
    unfold thread_set_priority at hs
    cases hc : thread_current k with
    | error f =>
      rw [hc] at hs
      exact absurd hs (by simp [bind, Except.bind])
    | ok c =>
      rw [hc] at hs
      have c := req_kept_test_max_priority _ k1 hs
      exact Or.inl (req_kept_pre k _ k1 c rfl rfl rfl)
  | thread_sleep ticks =>
    obtain ⟨_, hcase⟩ := thread_sleep_eq k k1 ticks hs
    rcases hcase with ⟨_, e⟩ | ⟨_, hb⟩
    · rw [e]; exact Or.inl (req_kept_refl k)
    · have c := req_kept_thread_block _ k1 hb
      exact Or.inl (req_kept_pre k _ k1 c rfl rfl rfl)
  | thread_wakeup =>
    simp only [step_instr, Except.ok.injEq] at hs
    rw [← hs]
    exact Or.inl (req_kept_thread_wakeup k)
  | sema_init s v =>
    simp only [step_instr, Except.ok.injEq] at hs
    rw [← hs]
    exact Or.inl (req_kept_of_eq _ _ rfl rfl rfl)
  | sema_down_enter =>
    simp only [step_instr] at hs
    split at hs
    · exact absurd hs (by simp)
    · simp only [Except.ok.injEq] at hs
      rw [← hs]
      exact Or.inl (req_kept_refl k)
  | sema_down_loop s =>
    have hs1 : sema_down_loop k s rest = Except.ok k1 := hs
    by_cases hv : (get_sema k s).value = 0
    · have hb := sema_down_loop_zero k k1 s rest hv hs1
      have c := req_kept_thread_block _ k1 hb
      exact Or.inl (req_kept_pre k _ k1 c rfl rfl rfl)
    · rw [sema_down_loop_pos k s rest (by omega)] at hs1
      simp only [Except.ok.injEq] at hs1
      rw [← hs1]
      exact Or.inl (req_kept_of_eq _ _ rfl rfl rfl)
  | sema_try_down s =>
    simp only [step_instr, Except.ok.injEq] at hs
    rw [← hs]
    unfold sema_try_down
    split
    · exact Or.inl (req_kept_of_eq _ _ rfl rfl rfl)
    · exact Or.inl (req_kept_refl k)
  | sema_up s => exact Or.inl (req_kept_sema_up k k1 s hs)
  | lock_init l =>
    simp only [step_instr, Except.ok.injEq] at hs
    rw [← hs]
    exact Or.inl (req_kept_of_eq _ _ rfl rfl rfl)
  | lock_acquire_enter l =>
    obtain ⟨e, _⟩ := lock_acquire_enter_eq k k1 l hs
    rw [e]
    exact Or.inl (req_kept_refl k)
  | lock_acquire_leave l =>
    simp only [step_instr] at hs
    unfold lock_acquire_leave at hs
    cases hc : thread_current k with
    | error f =>
      rw [hc] at hs
      exact absurd hs (by simp [bind, Except.bind])
    | ok c =>
      rw [hc] at hs
      simp only [bind, Except.bind, Except.ok.injEq] at hs
      rw [← hs]
      exact Or.inl (req_kept_of_eq _ _ rfl rfl rfl)
  | lock_try_acquire l =>
    simp only [step_instr] at hs
    unfold lock_try_acquire at hs
    cases hb : lock_held_by_current_thread k l with
    | error f =>
      rw [hb] at hs
      exact absurd hs (by simp [bind, Except.bind, Except.map])
    | ok b =>
      rw [hb] at hs
      simp only [bind, Except.bind] at hs
      split at hs
      · exact absurd hs (by simp [Except.map])
      · have hp : req_kept k (sema_try_down k (sema_ref.of_lock l)).1 := by
          unfold sema_try_down
          split
          · exact req_kept_of_eq _ _ rfl rfl rfl
          · exact req_kept_refl k
        split at hs
        · cases hc : thread_current (sema_try_down k (sema_ref.of_lock l)).1 with
          | error f =>
            rw [hc] at hs
            exact absurd hs (by simp [Except.map])
          | ok c =>
            rw [hc] at hs
            simp only [Except.map, Except.ok.injEq] at hs
            rw [← hs]
            exact Or.inl (req_kept_trans k _ _ hp (req_kept_of_eq _ _ rfl rfl rfl))
        · simp only [Except.map, Except.ok.injEq] at hs
          rw [← hs]
          exact Or.inl hp
  | lock_release_enter l temp =>
    simp only [step_instr] at hs
    unfold lock_release_enter at hs
    cases hb : lock_held_by_current_thread k l with
    | error f =>
      rw [hb] at hs
      exact absurd hs (by simp [bind, Except.bind])
    | ok b =>
      rw [hb] at hs
      simp only [bind, Except.bind] at hs
      split at hs
      · exact absurd hs (by simp)
      · simp only [Except.ok.injEq] at hs
        rw [← hs]
        refine Or.inl (req_kept_trans k
          (if k.thread_mlfqs = false then donate_priority (remove_lock k l) temp else k) _ ?_
          (req_kept_of_eq _ _ rfl rfl rfl))
        split
        · have hrem : req_kept k (remove_lock k l) := by
            unfold remove_lock
            split
            · exact req_kept_refl k
            · exact req_kept_of_eq _ _ rfl rfl rfl
          refine req_kept_trans k _ _ hrem ?_
          unfold donate_priority
          rw [donate_priority_loop_fields]
          exact req_kept_of_eq _ _ rfl rfl rfl
        · exact req_kept_refl k
  | lock_clear_holder l =>
    simp only [step_instr, Except.ok.injEq] at hs
    rw [← hs]
    exact Or.inl (req_kept_of_eq _ _ rfl rfl rfl)
  | idle_enter =>
    simp only [step_instr] at hs
    cases hc : thread_current k with
    | error f =>
      rw [hc] at hs
      exact absurd hs (by simp [bind, Except.bind])
    | ok c =>
      rw [hc] at hs
      simp only [bind, Except.bind, Except.ok.injEq] at hs
      rw [← hs]
      exact Or.inl (req_kept_of_eq _ _ rfl rfl rfl)
  | idle_loop =>
    simp only [step_instr] at hs
    cases hc : thread_current k with
    | error f =>
      rw [hc] at hs
      exact absurd hs (by simp [bind, Except.bind])
    | ok c =>
      rw [hc] at hs
      have c := req_kept_thread_block _ k1 hs
      exact Or.inl (req_kept_pre k _ k1 c rfl rfl rfl)
  | thread_exit => exact Or.inr ⟨rfl, hs⟩
  | cond_init c =>
    simp only [step_instr, Except.ok.injEq] at hs
    rw [← hs]
    exact Or.inl (req_kept_of_eq _ _ rfl rfl rfl)
  | cond_wait_enter c l a =>
    obtain ⟨_, _, _, e⟩ := cond_wait_enter_eq k k1 c l a hs
    rw [e]
    exact Or.inl (req_kept_of_eq _ _ rfl rfl rfl)
  | cond_signal c l =>
    obtain ⟨_, _, _, hcase⟩ := cond_signal_eq k k1 c l hs
    rcases hcase with ⟨_, e⟩ | ⟨w, tl, hq, hu⟩
    · rw [e]; exact Or.inl (req_kept_refl k)
    · have c := req_kept_sema_up _ k1 _ hu
      exact Or.inl (req_kept_pre k _ k1 c rfl rfl rfl)
  | cond_broadcast c l =>
    have hs1 : cond_broadcast k c l rest = Except.ok k1 := hs
    unfold cond_broadcast at hs1
    cases hq : k.conds c with
    | nil =>
      rw [hq] at hs1
      simp only [Except.ok.injEq] at hs1
      rw [← hs1]
      exact Or.inl (req_kept_refl k)
    | cons w tl =>
      rw [hq] at hs1
      obtain ⟨_, _, _, hcase⟩ := cond_signal_eq _ k1 c l hs1
      rcases hcase with ⟨_, e⟩ | ⟨w1, tl1, hq1, hu⟩
      · rw [e]; exact Or.inl (req_kept_of_eq _ _ rfl rfl rfl)
      · have c := req_kept_sema_up _ k1 _ hu
        exact Or.inl (req_kept_pre k _ k1 c rfl rfl rfl)

/-- After `thread_exit` the initial thread is the same and is not queued for
destruction. -/
theorem thread_exit_queue (k k1 : Kernel) (h : thread_exit k = Except.ok k1) :
    k1.initial_thread = k.initial_thread ∧ k1.initial_thread ∉ k1.destruction_req := by
  obtain ⟨_, hd, _⟩ := thread_exit_eq k k1 h
  obtain ⟨_, hs⟩ := do_schedule_eq k k1 _ hd
  have c := req_kept_schedule _ k1 hs
  have e : k1.initial_thread = k.initial_thread := c.initial_thread
  refine ⟨e, ?_⟩
  intro hm
  rcases c.destruction_req _ hm with h1 | h1
  · exact absurd h1 (List.not_mem_nil _)
  · exact h1 e

/-- Every instruction keeps the initial thread out of the destruction queue. -/
theorem initial_not_queued_step_instr (k k1 : Kernel) (i : Instr) (rest : List Instr)
    (h : k.initial_thread ∉ k.destruction_req)
    (hs : step_instr k i rest = Except.ok k1) : k1.initial_thread ∉ k1.destruction_req := by
  rcases step_instr_req k k1 i rest hs with c | ⟨_, he⟩
  · intro hm
    rw [c.initial_thread] at hm
    rcases c.destruction_req _ hm with h1 | h1
    · exact h h1
    · exact h1 rfl
  · exact (thread_exit_queue k k1 he).2

theorem initial_not_queued_exec_event (k k1 : Kernel) (e : Event)
    (h : k.initial_thread ∉ k.destruction_req)
    (he : exec_event k e = Except.ok k1) : k1.initial_thread ∉ k1.destruction_req := by
  cases e with
  | call c =>
    have he1 : (match k.pending k.current with
      | [] =>
        match program c with
        | [] => Except.ok k
        | i :: rest => step_instr (set_pending k k.current rest) i rest
      | _ :: _ => Except.error Fault.rejected) = Except.ok k1 := he
    split at he1
    · split at he1
      · simp only [Except.ok.injEq] at he1
        rw [← he1]; exact h
      · refine initial_not_queued_step_instr _ k1 _ _ ?_ he1
        exact h
    · exact absurd he1 (by simp)
  | step =>
    have he1 : (match k.pending k.current with
      | [] => Except.error Fault.rejected
      | i :: rest => step_instr (set_pending k k.current rest) i rest) = Except.ok k1 := he
    split at he1
    · exact absurd he1 (by simp)
    · refine initial_not_queued_step_instr _ k1 _ _ ?_ he1
      exact h
  | intr_enter =>
    have he1 : (match k.pending k.current with
      | [] => if k.intr_context then Except.error Fault.rejected
              else Except.ok { k with intr_context := true }
      | _ :: _ => Except.error Fault.rejected) = Except.ok k1 := he
    split at he1
    · split at he1
      · exact absurd he1 (by simp)
      · simp only [Except.ok.injEq] at he1
        rw [← he1]; exact h
    · exact absurd he1 (by simp)
  | intr_leave =>
    have he1 : (match k.pending k.current with
      | [] => if k.intr_context then Except.ok { k with intr_context := false }
              else Except.error Fault.rejected
      | _ :: _ => Except.error Fault.rejected) = Except.ok k1 := he
    split at he1
    · split at he1
      · simp only [Except.ok.injEq] at he1
        rw [← he1]; exact h
      · exact absurd he1 (by simp)
    · exact absurd he1 (by simp)
  | timer =>
    have he1 : (if k.intr_context then Except.error Fault.rejected
      else if k.pending k.current = [] ∨
          (k.idle_thread = some k.current ∧ k.pending k.current = [Instr.idle_loop]) then
        timer_interrupt_event k
      else Except.error Fault.rejected) = Except.ok k1 := he
    split at he1
    · exact absurd he1 (by simp)
    · split at he1
      · have c := req_kept_timer_interrupt_event k k1 he1
        intro hm
        rw [c.initial_thread] at hm
        rcases c.destruction_req _ hm with h1 | h1
        · exact h h1
        · exact h1 rfl
      · exact absurd he1 (by simp)

/-- In every memory reached from `thread_init` the initial thread is not queued
for destruction. -/
theorem initial_not_queued_of_Reachable (k : Kernel) (h : Reachable k) :
    k.initial_thread ∉ k.destruction_req := by
  obtain ⟨mlfqs, view, temp, k0, es, h0, hl⟩ := h
  have a : k0.initial_thread ∉ k0.destruction_req := by
    have := (Inv_thread_init mlfqs view temp k0 h0).1
    obtain ⟨k3, k4, B0, h4, hk0⟩ := thread_init_eq mlfqs view temp k0 h0
    have B4 := Booting_exec_program _ _ k4 B0 (by
      intro i hi
      simp only [allocate_tid_program, lock_acquire_program, sema_down_program,
        lock_release_program, List.cons_append, List.nil_append, List.mem_cons,
        List.mem_singleton, List.not_mem_nil, or_false] at hi
      rcases hi with e | e | e | e | e | e | e | e | e <;> rw [e] <;> rfl) h4
    rw [hk0]
    show k4.initial_thread ∉ k4.destruction_req
    rw [B4.destruction_req]
    exact List.not_mem_nil _
  clear h0
  induction es generalizing k0 with
  | nil =>
    have e : k = k0 := hl
    rw [e]; exact a
  | cons e es ih =>
    obtain ⟨_, k2, he, hl2⟩ := hl
    exact ih k2 hl2 (initial_not_queued_exec_event k0 k2 e a he)

/-- C28. When `schedule` returns it has left the pages in use as they were, and
it has appended the thread it switched away from to `destruction_req` exactly
when that thread was dying and was not the initial thread.  `do_schedule`,
called by a running thread, frees exactly the pages queued on entry and
empties the queue before it schedules; in a memory reached from `thread_init`
the caller is not one of the queued threads.  No instruction but
`thread_exit`, and no timer interrupt, frees a page.  `thread_exit` of a
thread other than the initial one, in a reachable memory, returns with the
caller alone in the queue and its page still in use.  In every reachable
memory the initial thread is not queued.  After `exit_scenario` thread 1 is
queued with its page in use, and its page is freed by the `thread_exit` of
thread 2, created next. -/
theorem dying_thread_freed_later :
    (∀ k k1, schedule k = Except.ok k1 →
      k1.allocated = k.allocated ∧
      ((k1.current ≠ k.current ∧ (k.threads k.current).status = thread_status.THREAD_DYING ∧
          k.current ≠ k.initial_thread) →
        k1.destruction_req = k.destruction_req ++ [k.current]) ∧
      (¬ (k1.current ≠ k.current ∧ (k.threads k.current).status = thread_status.THREAD_DYING ∧
          k.current ≠ k.initial_thread) →
        k1.destruction_req = k.destruction_req)) ∧
    (∀ k k1 status, do_schedule k status = Except.ok k1 →
      (k.threads k.current).status = thread_status.THREAD_RUNNING ∧
      (∀ t, t ∈ k1.allocated ↔ (t ∈ k.allocated ∧ t ∉ k.destruction_req)) ∧
      (∀ t ∈ k1.destruction_req, t = k.current) ∧
      (Reachable k → k.current ∉ k.destruction_req)) ∧
    (∀ k k1 i rest, step_instr k i rest = Except.ok k1 → i ≠ Instr.thread_exit →
      ∀ t ∈ k.allocated, t ∈ k1.allocated) ∧
    (∀ k k1, timer_interrupt_event k = Except.ok k1 → ∀ t ∈ k.allocated, t ∈ k1.allocated) ∧
    (∀ k k1, Reachable k → thread_exit k = Except.ok k1 → k.current ≠ k.initial_thread →
      do_schedule k thread_status.THREAD_DYING = Except.ok k1 ∧ k1.current ≠ k.current ∧
      k1.destruction_req = [k.current] ∧ k.current ∈ k1.allocated ∧
      (k1.threads k.current).status = thread_status.THREAD_DYING) ∧
    (∀ k, Reachable k → k.initial_thread ∉ k.destruction_req) ∧
    (∃ k k1, Reachable k ∧ quiescent k ∧ k.current = 0 ∧ k.destruction_req = [1] ∧
      1 ∈ k.allocated ∧ (k.threads 1).status = thread_status.THREAD_DYING ∧
      exec_trace k (call_to_end (Call.thread_create (some 2) 40 0) ++
        [Event.call Call.thread_exit]) = Except.ok k1 ∧
      1 ∉ k1.allocated ∧ k1.destruction_req = [2] ∧ 2 ∈ k1.allocated ∧ k1.current = 0) := by
  have hdying : ∀ k, Reachable k →
      (k.threads k.current).status = thread_status.THREAD_RUNNING →
      k.current ∉ k.destruction_req := by
    intro k hr hrun hm
    have := ((Inv_of_Reachable k hr).1.dying_ok _ hm).1
    rw [hrun] at this
    exact absurd this (by decide)
  refine ⟨?_, ?_, ?_, ?_, ?_, initial_not_queued_of_Reachable, ?_⟩
  · intro k k1 h
    refine ⟨(same_context_schedule k k1 h).allocated, ?_, ?_⟩
    · intro hc
      rcases schedule_queue k k1 h with ⟨e, _⟩ | ⟨_, hn⟩
      · exact e
      · exact absurd hc hn
    · intro hc
      rcases schedule_queue k k1 h with ⟨_, h1, h2, h3⟩ | ⟨e, _⟩
      · exact absurd ⟨h1, h2, h3⟩ hc
      · exact e
  · intro k k1 status h
    obtain ⟨hrun, hs⟩ := do_schedule_eq k k1 status h
    refine ⟨hrun, ?_, ?_, fun hr => hdying k hr hrun⟩
    · intro t
      rw [(same_context_schedule _ k1 hs).allocated]
      show t ∈ List.filter (fun t => decide (t ∉ k.destruction_req)) k.allocated ↔ _
      simp [List.mem_filter]
    · intro t ht
      rcases schedule_queue _ k1 hs with ⟨e, _⟩ | ⟨e, _⟩
      · rw [e] at ht
        have ht1 : t ∈ ([] : List Nat) ++ [k.current] := ht
        simpa using ht1
      · rw [e] at ht
        exact absurd ht (List.not_mem_nil _)
  · intro k k1 i rest hs hi t ht
    rcases step_instr_req k k1 i rest hs with c | ⟨e, _⟩
    · exact c.allocated t ht
    · exact absurd e hi
  · intro k k1 h t ht
    exact (req_kept_timer_interrupt_event k k1 h).allocated t ht
  · intro k k1 hr h hne
    obtain ⟨_, hd, hc⟩ := thread_exit_eq k k1 h
    obtain ⟨hrun, hs⟩ := do_schedule_eq k k1 _ hd
    have hq := schedule_queue _ k1 hs
    have hst : ((set_thread { k with
        allocated := List.filter (fun t => decide (t ∉ k.destruction_req)) k.allocated,
        destruction_req := [] } k.current
      { k.threads k.current with status := thread_status.THREAD_DYING }).threads
        k.current).status = thread_status.THREAD_DYING := by
      simp [set_thread]
    refine ⟨hd, hc, ?_, ?_, ?_⟩
    · rcases hq with ⟨e, _⟩ | ⟨_, hn⟩
      · exact e
      · exact absurd ⟨hc, hst, hne⟩ hn
    · rw [(same_context_schedule _ k1 hs).allocated]
      show k.current ∈ List.filter (fun t => decide (t ∉ k.destruction_req)) k.allocated
      rw [List.mem_filter]
      exact ⟨(Inv_of_Reachable k hr).1.cur_alloc, by simpa using hdying k hr hrun⟩
    · obtain ⟨next, rest, _, _, _, hk1⟩ := schedule_eq _ k1 hs
      have hne2 : k.current ≠ next := by
        intro e
        apply hc
        rw [hk1]
        exact e.symm
      rw [hk1]
      dsimp only
      rw [Function.update_noteq hne2]
      exact hst
  · obtain ⟨k, hk, hp⟩ := exists_of_ends_with (outcome false zero_view 0 exit_scenario)
      (fun k => decide (quiescent k ∧ k.current = 0 ∧ k.destruction_req = [1] ∧
        1 ∈ k.allocated ∧ (k.threads 1).status = thread_status.THREAD_DYING) &&
        ends_with (exec_trace k (call_to_end (Call.thread_create (some 2) 40 0) ++
          [Event.call Call.thread_exit])) (fun k1 =>
            decide (1 ∉ k1.allocated ∧ k1.destruction_req = [2] ∧ 2 ∈ k1.allocated ∧
              k1.current = 0))) (by decide!)
    rw [Bool.and_eq_true] at hp
    obtain ⟨hp1, hp2⟩ := hp
    obtain ⟨q1, q2, q3, q4, q5⟩ := of_decide_eq_true hp1
    obtain ⟨k1, hk1, hp3⟩ := exists_of_ends_with _ _ hp2
    exact ⟨k, k1, reachable_of_outcome false zero_view 0 exit_scenario k (by decide!) hk,
      q1, q2, q3, q4, q5, hk1, of_decide_eq_true hp3⟩

theorem test_max_priority_quiet_ok (k : Kernel) (h1 : is_thread k k.current = true)
    (h2 : (k.threads k.current).status = thread_status.THREAD_RUNNING)
    (hq : ∀ u ∈ k.ready_list, (k.threads u).priority ≤ (k.threads k.current).priority) :
    test_max_priority k = Except.ok k := by
  unfold test_max_priority
  cases hr : k.ready_list with
  | nil => rfl
  | cons front rest =>
    simp only [bind, Except.bind]
    rw [thread_current_ok k h1 h2]
    have hle := hq front (by rw [hr]; simp)
    simp only
    rw [if_neg (by omega)]

theorem sema_up_wake_total (k : Kernel) (s : sema_ref)
    (hw : ∀ u ∈ (get_sema k s).waiters,
      is_thread k u = true ∧ (k.threads u).status = thread_status.THREAD_BLOCKED) :
    ∃ k2, sema_up_wake k s = Except.ok k2 := by
  cases hsort : list_sort (cmp_priority k) (get_sema k s).waiters with
  | nil =>
    unfold sema_up_wake
    simp only [hsort]
    exact ⟨_, rfl⟩
  | cons t rest =>
    have hm : t ∈ (get_sema k s).waiters :=
      (list_sort_perm (cmp_priority k) _).subset (by rw [hsort]; simp)
    exact ⟨_, sema_up_wake_cons k s t rest hsort (hw t hm).1 (hw t hm).2⟩

theorem sema_up_wake_is_thread (k k2 : Kernel) (s : sema_ref)
    (h : sema_up_wake k s = Except.ok k2) : ∀ u, is_thread k2 u = is_thread k u := by
  unfold sema_up_wake at h
  dsimp only at h
  cases hsort : list_sort (cmp_priority k) (get_sema k s).waiters with
  | nil =>
    rw [hsort] at h
    simp only [Except.ok.injEq] at h
    rw [← h]
    exact fun _ => rfl
  | cons t rest =>
    rw [hsort] at h
    dsimp only at h
    cases hu : thread_unblock (set_sema k s { get_sema k s with waiters := rest }) t with
    | error f =>
      rw [hu] at h
      exact absurd h (by simp [bind, Except.bind])
    | ok k3 =>
      rw [hu] at h
      simp only [bind, Except.bind, Except.ok.injEq] at h
      obtain ⟨_, _, hk3⟩ := thread_unblock_eq _ k3 t hu
      rw [← h, hk3]
      intro u
      show ((Function.update k.threads t _ u).magic == THREAD_MAGIC) = _
      rw [Function.update_apply]
      split
      · next e => rw [e]; rfl
      · rfl

/-- A call of `cond_signal` by the holder of the lock, on a queue with first
waiter `w`, returns when the threads that wait on the semaphore of `w` are
blocked threads; when no ready thread and none of them outranks the caller,
the caller is still running afterwards. -/
theorem cond_signal_quiet (k : Kernel) (c : Nat) (l : lock_id) (w : semaphore_elem)
    (tl : List semaphore_elem)
    (hi : k.intr_context = false) (hth : is_thread k k.current = true)
    (hrun : (k.threads k.current).status = thread_status.THREAD_RUNNING)
    (hh : (k.locks l).holder = some k.current) (hq : k.conds c = w :: tl)
    (hready : ∀ u ∈ k.ready_list, (k.threads u).priority ≤ (k.threads k.current).priority)
    (hwait : ∀ u ∈ (get_sema k (sema_ref.standalone w.semaphore)).waiters,
      is_thread k u = true ∧ (k.threads u).status = thread_status.THREAD_BLOCKED ∧
        (k.threads u).priority ≤ (k.threads k.current).priority) :
    ∃ k1, cond_signal k c l = Except.ok k1 ∧ k1.current = k.current ∧
      k1.conds = Function.update k.conds c tl ∧ k1.pending = k.pending ∧
      k1.intr_context = false ∧ (∀ l1, (k1.locks l1).holder = (k.locks l1).holder) ∧
      (∀ u, is_thread k1 u = is_thread k u) ∧
      (∀ u, (k1.threads u).priority = (k.threads u).priority) ∧
      (k1.threads k.current).status = thread_status.THREAD_RUNNING ∧
      (∀ u ∈ k1.ready_list, (k1.threads u).priority ≤ (k1.threads k1.current).priority) ∧
      (get_sema k1 (sema_ref.standalone w.semaphore)).value =
        ((get_sema k (sema_ref.standalone w.semaphore)).value + 1) % UINT_MOD ∧
      (∀ s, s ≠ sema_ref.standalone w.semaphore → get_sema k1 s = get_sema k s) := by
  obtain ⟨k2, hw2⟩ := sema_up_wake_total { k with conds := Function.update k.conds c tl }
    (sema_ref.standalone w.semaphore) (fun u hu => ⟨(hwait u hu).1, (hwait u hu).2.1⟩)
  obtain ⟨a1, a2, a3, a4⟩ := sema_up_wake_sched _ k2 _ hw2
  have a1' : k2.current = k.current := a1
  have a2' : ∀ u, (k2.threads u).priority = (k.threads u).priority := a2
  have a5 := sema_up_wake_is_thread _ k2 _ hw2
  have a5' : ∀ u, is_thread k2 u = is_thread k u := a5
  have a6 := same_context_sema_up_wake _ k2 _ hw2
  have hrun2 : (k2.threads k2.current).status = thread_status.THREAD_RUNNING := by
    rw [a1']; exact a4 k.current hrun
  have hq2 : ∀ u ∈ k2.ready_list, (k2.threads u).priority ≤ (k2.threads k2.current).priority := by
    intro u hu1
    rw [a2' u, a2' k2.current, a1']
    rcases a3 u hu1 with h1 | h1
    · exact hready u h1
    · exact (hwait u h1).2.2
  have ht := test_max_priority_quiet_ok k2 (by rw [a5', a1']; exact hth) hrun2 hq2
  have hs : cond_signal k c l = Except.ok k2 := by
    unfold cond_signal
    rw [if_neg (by rw [hi]; simp)]
    unfold lock_held_by_current_thread
    rw [thread_current_ok k hth hrun]
    simp only [bind, Except.bind]
    rw [if_neg (by simp [hh])]
    rw [hq]
    show sema_up _ _ = _
    unfold sema_up
    rw [hw2]
    exact ht
  have a7 := sema_up_wake_value _ k2 _ hw2
  have a8 : ∀ s, s ≠ sema_ref.standalone w.semaphore →
      get_sema k2 s = get_sema k s := by
    intro s hne
    have := sema_up_wake_other _ k2 _ s hne hw2
    exact this
  refine ⟨k2, hs, a1', a6.conds, a6.pending, ?_, a6.holder, a5', a2', ?_, hq2, a7, a8⟩
  · rw [a6.intr_context]; exact hi
  · rw [← a1']; exact hrun2

/-- The loop of `cond_broadcast`, from an event that executes one turn of it,
when nothing outranks the caller: after as many further steps as the queue has
waiters the loop has ended. -/
theorem cond_broadcast_run (c : Nat) (l : lock_id) (rest0 : List Instr) :
    ∀ (q : List semaphore_elem) (k : Kernel) (e : Event),
      k.conds c = q → Inv k → idle_shape k → admissible k e →
      exec_event k e = cond_broadcast (set_pending k k.current rest0) c l rest0 →
      k.intr_context = false → is_thread k k.current = true →
      (k.threads k.current).status = thread_status.THREAD_RUNNING →
      (k.locks l).holder = some k.current →
      (q.map (fun w => w.semaphore)).Nodup →
      (∀ u ∈ k.ready_list, (k.threads u).priority ≤ (k.threads k.current).priority) →
      (∀ w ∈ q, ∀ u ∈ (get_sema k (sema_ref.standalone w.semaphore)).waiters,
        is_thread k u = true ∧ (k.threads u).priority ≤ (k.threads k.current).priority) →
      ∃ k1, exec_trace k (e :: steps q.length) = Except.ok k1 ∧
        k1.pending k1.current = rest0 ∧ k1.current = k.current ∧ k1.conds c = [] ∧
        (∀ c1, c1 ≠ c → k1.conds c1 = k.conds c1) ∧
        (∀ w ∈ q, (get_sema k1 (sema_ref.standalone w.semaphore)).value =
          ((get_sema k (sema_ref.standalone w.semaphore)).value + 1) % UINT_MOD) ∧
        (∀ s, (∀ w ∈ q, s ≠ sema_ref.standalone w.semaphore) →
          get_sema k1 s = get_sema k s) := by
  intro q
  induction q with
  | nil =>
    intro k e hq _ _ _ he _ _ _ _ _ _ _
    have he1 : exec_event k e = Except.ok (set_pending k k.current rest0) := by
      rw [he]
      unfold cond_broadcast
      have : (set_pending k k.current rest0).conds c = [] := hq
      rw [this]
    refine ⟨set_pending k k.current rest0, ?_, ?_, rfl, hq, fun _ _ => rfl,
      fun w hw => absurd hw (List.not_mem_nil _), fun _ _ => rfl⟩
    · rw [exec_trace_cons, he1]
      rfl
    · show Function.update k.pending k.current rest0 k.current = rest0
      rw [Function.update_same]
  | cons w tl ih =>
    intro k e hq hI hsh ha he hi hth hrun hh hdist hready hwait
    rw [List.map_cons, List.nodup_cons] at hdist
    obtain ⟨k2, hs2, b1, b2, b3, b4, b5, b6, b7, b8, b9, b10, b11⟩ :=
      cond_signal_quiet
        (set_pending (set_pending k k.current rest0) k.current
          (Instr.cond_broadcast c l :: rest0)) c l w tl hi hth hrun hh hq hready
        (fun u hu => ⟨(hwait w (List.mem_cons_self _ _) u hu).1,
          (hI.wait_ok (sema_ref.standalone w.semaphore) u hu).1,
          (hwait w (List.mem_cons_self _ _) u hu).2⟩)
    have b1' : k2.current = k.current := b1
    have b5' : ∀ l1, (k2.locks l1).holder = (k.locks l1).holder := b5
    have b6' : ∀ u, is_thread k2 u = is_thread k u := b6
    have b7' : ∀ u, (k2.threads u).priority = (k.threads u).priority := b7
    have b8' : (k2.threads k.current).status = thread_status.THREAD_RUNNING := b8
    have b10' : (get_sema k2 (sema_ref.standalone w.semaphore)).value =
        ((get_sema k (sema_ref.standalone w.semaphore)).value + 1) % UINT_MOD := b10
    have b11' : ∀ s, s ≠ sema_ref.standalone w.semaphore → get_sema k2 s = get_sema k s := b11
    have he2 : exec_event k e = Except.ok k2 := by
      rw [he]
      unfold cond_broadcast
      have : (set_pending k k.current rest0).conds c = w :: tl := hq
      rw [this]
      exact hs2
    obtain ⟨hI2, hsh2⟩ := Inv_exec_event k k2 hI hsh e ha he2
    have hconds2 : ∀ c1, k2.conds c1 = if c1 = c then tl else k.conds c1 := by
      intro c1
      rw [b2]
      show Function.update k.conds c tl c1 = _
      rw [Function.update_apply]
    have hpend2 : k2.pending k2.current = Instr.cond_broadcast c l :: rest0 := by
      rw [b3, b1']
      show Function.update _ k.current _ k.current = _
      rw [Function.update_same]
    have hstep : exec_event k2 Event.step =
        cond_broadcast (set_pending k2 k2.current rest0) c l rest0 := by
      show (match k2.pending k2.current with
        | [] => Except.error Fault.rejected
        | i :: rest => step_instr (set_pending k2 k2.current rest) i rest) = _
      rw [hpend2]
      rfl
    have hne : ∀ w1 ∈ tl, sema_ref.standalone w1.semaphore ≠
        sema_ref.standalone w.semaphore := by
      intro w1 hw1 e1
      apply hdist.1
      have e2 : w1.semaphore = w.semaphore := by injection e1
      rw [← e2]
      exact List.mem_map_of_mem _ hw1
    obtain ⟨k1, c1, c2, c3, c4, c5, c6, c7⟩ := ih k2 Event.step
      (by rw [hconds2, if_pos rfl]) hI2 hsh2 trivial hstep b4
      (by rw [b6', b1']; exact hth) (by rw [b1']; exact b8')
      (by rw [b5', b1']; exact hh) hdist.2 b9
      (by
        intro w1 hw1 u hu
        rw [b11' _ (hne w1 hw1)] at hu
        rw [b6', b7', b7', b1']
        exact hwait w1 (List.mem_cons_of_mem _ hw1) u hu)
    refine ⟨k1, ?_, c2, c3.trans b1', c4, ?_, ?_, ?_⟩
    · rw [exec_trace_cons, he2]
      exact c1
    · intro c0 hc0
      rw [c5 c0 hc0, hconds2, if_neg hc0]
    · intro w1 hw1
      rcases List.mem_cons.mp hw1 with e1 | e1
      · rw [e1, c7 _ (fun w2 hw2 => (hne w2 hw2).symm)]
        exact b10'
      · rw [c6 w1 e1, b11' _ (hne w1 e1)]
    · intro s hs
      rw [c7 s (fun w2 hw2 => hs w2 (List.mem_cons_of_mem _ hw2)),
        b11' s (hs w (List.mem_cons_self _ _))]

/-- The loop of `cond_broadcast` when nothing outranks the caller.
`cond_broadcast` by the holder of the lock, between two calls, in a
memory reached from `thread_init`, with the waiters' semaphores at distinct
addresses and neither a ready thread nor a thread blocked on one of them
above the caller's priority: the call and one further step per waiter present
on entry run without a fault, after which the call has returned to the caller
(nothing of it is left to execute), the wait queue of the condition is
empty, the other conditions are as before, the semaphore of every waiter
present on entry is one higher and every other semaphore is as before.
Whoever runs next, a turn of the loop on an empty queue ends the loop and
changes nothing, and a turn on a queue with first waiter `w` removes `w`,
raises the semaphore of `w` by one and no other, and leaves the loop to be
resumed by the caller. -/
theorem cond_broadcast_terminates (k : Kernel) (c a : Nat) (hr : Reachable k)
    (hq : quiescent k) (hi : k.intr_context = false) (hth : is_thread k k.current = true)
    (hrun : (k.threads k.current).status = thread_status.THREAD_RUNNING)
    (hh : (k.locks (lock_id.addr a)).holder = some k.current)
    (hdist : ((k.conds c).map (fun w => w.semaphore)).Nodup)
    (hready : ∀ u ∈ k.ready_list, (k.threads u).priority ≤ (k.threads k.current).priority)
    (hwait : ∀ w ∈ k.conds c, ∀ u ∈ (get_sema k (sema_ref.standalone w.semaphore)).waiters,
      is_thread k u = true ∧ (k.threads u).priority ≤ (k.threads k.current).priority) :
    (∃ k1, exec_trace k (Event.call (Call.cond_broadcast c a) :: steps (k.conds c).length) =
        Except.ok k1 ∧
      quiescent k1 ∧ k1.current = k.current ∧ k1.conds c = [] ∧
      (∀ c1, c1 ≠ c → k1.conds c1 = k.conds c1) ∧
      (∀ w ∈ k.conds c, (get_sema k1 (sema_ref.standalone w.semaphore)).value =
        ((get_sema k (sema_ref.standalone w.semaphore)).value + 1) % UINT_MOD) ∧
      (∀ s, (∀ w ∈ k.conds c, s ≠ sema_ref.standalone w.semaphore) →
        get_sema k1 s = get_sema k s)) ∧
    (∀ (ka kb : Kernel) (rest : List Instr),
      cond_broadcast ka c (lock_id.addr a) rest = Except.ok kb →
      (ka.conds c = [] → kb = ka) ∧
      (∀ w tl, ka.conds c = w :: tl →
        kb.conds c = tl ∧
        (get_sema kb (sema_ref.standalone w.semaphore)).value =
          ((get_sema ka (sema_ref.standalone w.semaphore)).value + 1) % UINT_MOD ∧
        (∀ s, s ≠ sema_ref.standalone w.semaphore → get_sema kb s = get_sema ka s) ∧
        kb.pending ka.current = Instr.cond_broadcast c (lock_id.addr a) :: rest)) := by
  obtain ⟨hI, hsh⟩ := Inv_of_Reachable k hr
  refine ⟨?_, ?_⟩
  · have hq1 : k.pending k.current = [] := hq
    have he : exec_event k (Event.call (Call.cond_broadcast c a)) =
        cond_broadcast (set_pending k k.current []) c (lock_id.addr a) [] := by
      show (match k.pending k.current with
        | [] =>
          match program (Call.cond_broadcast c a) with
          | [] => Except.ok k
          | i :: rest => step_instr (set_pending k k.current rest) i rest
        | _ :: _ => Except.error Fault.rejected) = _
      rw [hq1]
      rfl
    exact cond_broadcast_run c (lock_id.addr a) [] (k.conds c) k _ rfl hI hsh trivial he hi hth
      hrun hh hdist hready hwait
  · intro ka kb rest hb
    unfold cond_broadcast at hb
    refine ⟨?_, ?_⟩
    · intro he
      rw [he] at hb
      simp only [Except.ok.injEq] at hb
      exact hb.symm
    · intro w tl hq2
      rw [hq2] at hb
      obtain ⟨_, _, _, hcase⟩ := cond_signal_eq _ kb c _ hb
      rcases hcase with ⟨e, _⟩ | ⟨w1, tl1, hq3, hu⟩
      · have e1 : ka.conds c = [] := e
        rw [hq2] at e1
        exact absurd e1 (by simp)
      · have hq4 : ka.conds c = w1 :: tl1 := hq3
        rw [hq2] at hq4
        simp only [List.cons.injEq] at hq4
        obtain ⟨e1, e2⟩ := hq4
        subst e1
        subst e2
        have ctx := same_context_sema_up _ kb _ hu
        obtain ⟨v1, v2⟩ := sema_up_semas _ kb _ hu
        refine ⟨?_, v1, v2, ?_⟩
        · rw [ctx.conds]
          show Function.update ka.conds c tl c = tl
          rw [Function.update_same]
        · rw [ctx.pending]
          show Function.update ka.pending ka.current _ ka.current = _
          rw [Function.update_same]

theorem cond_broadcast_terminates_witness :
    ∃ k k1, Reachable k ∧
      k.conds 3 = [{ semaphore := 8, priority := 41 }, { semaphore := 9, priority := 40 }] ∧
      (get_sema k (sema_ref.standalone 8)).value = 0 ∧
      (get_sema k (sema_ref.standalone 9)).value = 0 ∧
      exec_trace k (Event.call (Call.cond_broadcast 3 5) :: steps 2) = Except.ok k1 ∧
      quiescent k1 ∧ k1.current = k.current ∧ k1.conds 3 = [] ∧
      (get_sema k1 (sema_ref.standalone 8)).value = 1 ∧
      (get_sema k1 (sema_ref.standalone 9)).value = 1 := by
  obtain ⟨k, hk, hp⟩ := exists_of_ends_with
    (outcome false zero_view 0 cond_two_waiters_scenario)
    (fun k => decide (quiescent k ∧ k.intr_context = false ∧ is_thread k k.current = true ∧
      (k.threads k.current).status = thread_status.THREAD_RUNNING ∧
      (k.locks (lock_id.addr 5)).holder = some k.current ∧
      k.conds 3 = [{ semaphore := 8, priority := 41 }, { semaphore := 9, priority := 40 }] ∧
      k.ready_list = [] ∧
      (get_sema k (sema_ref.standalone 8)).waiters = [2] ∧
      (get_sema k (sema_ref.standalone 9)).waiters = [1] ∧
      is_thread k 1 = true ∧ is_thread k 2 = true ∧
      (k.threads 1).priority ≤ (k.threads k.current).priority ∧
      (k.threads 2).priority ≤ (k.threads k.current).priority ∧
      (get_sema k (sema_ref.standalone 8)).value = 0 ∧
      (get_sema k (sema_ref.standalone 9)).value = 0)) (by decide!)
  obtain ⟨q1, q2, q3, q4, q5, q6, q7, q8, q9, q10, q11, q12, q13, q14, q15⟩ :=
    of_decide_eq_true hp
  have hr := reachable_of_outcome false zero_view 0 cond_two_waiters_scenario k (by decide!) hk
  obtain ⟨⟨k1, t1, t2, t3, t4, _, t6, _⟩, _⟩ := cond_broadcast_terminates k 3 5 hr q1 q2 q3 q4 q5
    (by rw [q6]; decide) (by rw [q7]; simp)
    (by
      intro w hw u hu
      rw [q6] at hw
      simp only [List.mem_cons, List.mem_singleton, List.not_mem_nil, or_false] at hw
      rcases hw with e | e
      · rw [e] at hu
        rw [q8] at hu
        simp only [List.mem_singleton] at hu
        rw [hu]
        exact ⟨q11, q13⟩
      · rw [e] at hu
        rw [q9] at hu
        simp only [List.mem_singleton] at hu
        rw [hu]
        exact ⟨q10, q12⟩)
  rw [q6] at t1 t6
  refine ⟨k, k1, hr, q6, q14, q15, t1, t2, t3, t4, ?_, ?_⟩
  · have e := t6 { semaphore := 8, priority := 41 } (by simp)
    rw [q14] at e
    exact e
  · have e := t6 { semaphore := 9, priority := 40 } (by simp)
    rw [q15] at e
    exact e

/-- C27. `cond_broadcast` with waiters above the caller.  In the memory of
`cond_high_waiters_scenario`, `main` (priority 31) holds lock 5 and the wait
queue of condition 3 holds the waiters of thread 2 (priority 41) and thread 1
(priority 40).  `main` calls `cond_broadcast`: the first turn wakes thread 2,
which preempts `main`, returns from `cond_wait` as the holder of the lock
(the count of the lock was 2), releases the lock and exits.  `main` runs
again with the loop still to execute, the waiter of thread 1 still queued
and thread 1 still blocked, and its second turn fails the assertion
`lock_held_by_current_thread (lock)` of `cond_signal`. -/
theorem cond_broadcast_second_turn_faults :
    ∃ k k1 k2, Reachable k ∧ quiescent k ∧ k.current = 0 ∧
      (k.locks (lock_id.addr 5)).holder = some 0 ∧
      (k.locks (lock_id.addr 5)).semaphore.value = 2 ∧
      k.conds 3 = [{ semaphore := 8, priority := 41 }, { semaphore := 9, priority := 40 }] ∧
      (k.threads 0).priority = 31 ∧
      exec_trace k (Event.call (Call.cond_broadcast 3 5) :: steps 5) = Except.ok k1 ∧
      k1.current = 2 ∧ quiescent k1 ∧ (k1.locks (lock_id.addr 5)).holder = some 2 ∧
      exec_trace k broadcast_then_waiter_events = Except.ok k2 ∧
      k2.current = 0 ∧ k2.pending 0 = [Instr.cond_broadcast 3 (lock_id.addr 5)] ∧
      k2.conds 3 = [{ semaphore := 9, priority := 40 }] ∧
      (get_sema k2 (sema_ref.standalone 9)).value = 0 ∧
      (k2.threads 1).status = thread_status.THREAD_BLOCKED ∧
      (k2.locks (lock_id.addr 5)).holder = none ∧
      exec_event k2 Event.step = Except.error Fault.assert_lock_held := by
  obtain ⟨k, hk, hp⟩ := exists_of_ends_with
    (outcome false zero_view 0 cond_high_waiters_scenario)
    (fun k => decide (quiescent k ∧ k.current = 0 ∧
      (k.locks (lock_id.addr 5)).holder = some 0 ∧
      (k.locks (lock_id.addr 5)).semaphore.value = 2 ∧
      k.conds 3 = [{ semaphore := 8, priority := 41 }, { semaphore := 9, priority := 40 }] ∧
      (k.threads 0).priority = 31) &&
      (ends_with (exec_trace k (Event.call (Call.cond_broadcast 3 5) :: steps 5)) (fun k1 =>
        decide (k1.current = 2 ∧ quiescent k1 ∧
          (k1.locks (lock_id.addr 5)).holder = some 2)) &&
      ends_with (exec_trace k broadcast_then_waiter_events) (fun k2 =>
        decide (k2.current = 0 ∧ k2.pending 0 = [Instr.cond_broadcast 3 (lock_id.addr 5)] ∧
          k2.conds 3 = [{ semaphore := 9, priority := 40 }] ∧
          (get_sema k2 (sema_ref.standalone 9)).value = 0 ∧
          (k2.threads 1).status = thread_status.THREAD_BLOCKED ∧
          (k2.locks (lock_id.addr 5)).holder = none) &&
        faults_with (exec_event k2 Event.step) Fault.assert_lock_held))) (by decide!)
  rw [Bool.and_eq_true, Bool.and_eq_true] at hp
  obtain ⟨hp1, hp2, hp3⟩ := hp
  obtain ⟨q1, q2, q3, q4, q5, q6⟩ := of_decide_eq_true hp1
  obtain ⟨k1, hk1, hp4⟩ := exists_of_ends_with _ _ hp2
  obtain ⟨r1, r2, r3⟩ := of_decide_eq_true hp4
  obtain ⟨k2, hk2, hp5⟩ := exists_of_ends_with _ _ hp3
  rw [Bool.and_eq_true] at hp5
  obtain ⟨t1, t2, t3, t4, t5, t6⟩ := of_decide_eq_true hp5.1
  exact ⟨k, k1, k2,
    reachable_of_outcome false zero_view 0 cond_high_waiters_scenario k (by decide!) hk,
    q1, q2, q3, q4, q5, q6, hk1, r1, r2, r3, hk2, t1, t2, t3, t4, t5, t6,
    eq_error_of_faults_with _ _ hp5.2⟩

/-- After the first part of `sema_up` on a semaphore with a waiter `u`, the
ready list has a first thread, whose priority is not below that of `u`. -/
theorem sema_up_wake_front (k k2 : Kernel) (s : sema_ref) (u : Nat)
    (hu : u ∈ (get_sema k s).waiters) (h : sema_up_wake k s = Except.ok k2) :
    ∃ front tl, k2.ready_list = front :: tl ∧
      (k.threads u).priority ≤ (k.threads front).priority := by
  unfold sema_up_wake at h
  dsimp only at h
  cases hsort : list_sort (cmp_priority k) (get_sema k s).waiters with
  | nil =>
    have := (list_sort_perm (cmp_priority k) (get_sema k s).waiters).symm.subset hu
    rw [hsort] at this
    exact absurd this (List.not_mem_nil _)
  | cons t rest =>
    obtain ⟨_, hmax, _⟩ := list_sort_head_max (fun x => (k.threads x).priority)
      (cmp_priority k) (cmp_priority_key k) _ t rest hsort
    have hut : (k.threads u).priority ≤ (k.threads t).priority := hmax u hu
    rw [hsort] at h
    dsimp only at h
    cases hub : thread_unblock (set_sema k s { get_sema k s with waiters := rest }) t with
    | error f =>
      rw [hub] at h
      exact absurd h (by simp [bind, Except.bind])
    | ok k3 =>
      rw [hub] at h
      simp only [bind, Except.bind, Except.ok.injEq] at h
      obtain ⟨_, _, hk3⟩ := thread_unblock_eq _ k3 t hub
      have hr : k2.ready_list = list_insert_ordered (cmp_priority k) k.ready_list t := by
        rw [← h, hk3]
        rfl
      have hh := list_insert_ordered_head (cmp_priority k) k.ready_list t
      rw [← hr] at hh
      cases hl : k.ready_list with
      | nil =>
        rw [hl] at hh
        cases hr2 : k2.ready_list with
        | nil => rw [hr2] at hh; exact absurd hh (by simp)
        | cons front tl =>
          rw [hr2] at hh
          simp only [List.head?_cons, Option.some.injEq] at hh
          exact ⟨front, tl, rfl, by rw [hh]; exact hut⟩
      | cons a l1 =>
        rw [hl] at hh
        cases hr2 : k2.ready_list with
        | nil =>
          rw [hr2] at hh
          dsimp only at hh
          split at hh <;> exact absurd hh (by simp)
        | cons front tl =>
          rw [hr2] at hh
          dsimp only at hh
          refine ⟨front, tl, rfl, ?_⟩
          by_cases hc : cmp_priority k t a = true
          · rw [if_pos hc] at hh
            simp only [List.head?_cons, Option.some.injEq] at hh
            rw [hh]; exact hut
          · rw [if_neg hc] at hh
            simp only [List.head?_cons, Option.some.injEq] at hh
            rw [hh]
            rw [cmp_priority_key] at hc
            have : (k.threads t).priority ≤ (k.threads a).priority := by simpa using hc
            omega

/-- The preemption check with a first ready thread above the running thread:
that thread runs afterwards and the former running thread is ready. -/
theorem test_max_priority_loud (k k1 : Kernel) (front : Nat) (tl : List Nat)
    (hr : k.ready_list = front :: tl)
    (hp : (k.threads k.current).priority < (k.threads front).priority)
    (h : test_max_priority k = Except.ok k1) :
    k1.current = front ∧ k1.current ≠ k.current ∧
    (k1.threads k.current).status = thread_status.THREAD_READY := by
  have hne : front ≠ k.current := by
    intro e
    rw [e] at hp
    omega
  unfold test_max_priority at h
  rw [hr] at h
  simp only [bind, Except.bind] at h
  cases hc : thread_current k with
  | error f =>
    rw [hc] at h
    exact absurd h (by simp)
  | ok c =>
    obtain ⟨hcc, _, _⟩ := thread_current_eq k c hc
    rw [hc] at h
    simp only at h
    rw [hcc, if_pos (by omega)] at h
    obtain ⟨_, _, _, hs⟩ := thread_yield_eq k k1 h
    obtain ⟨next, rest, hcase, _, _, hk1⟩ := schedule_eq _ k1 hs
    have hnext : next = front := by
      rcases hcase with e | ⟨e, _, _⟩
      · by_cases hi : some k.current ≠ k.idle_thread
        · rw [if_pos hi] at e
          have e1 : list_insert_ordered (cmp_priority k) k.ready_list k.current =
              next :: rest := e
          have hh := list_insert_ordered_head (cmp_priority k) k.ready_list k.current
          rw [e1, hr] at hh
          dsimp only at hh
          rw [if_neg (by
            rw [cmp_priority_key]
            simp only [decide_eq_true_eq, not_lt]
            omega)] at hh
          simp only [List.head?_cons, Option.some.injEq] at hh
          exact hh
        · rw [if_neg hi] at e
          have e1 : k.ready_list = next :: rest := e
          rw [hr] at e1
          simp only [List.cons.injEq] at e1
          exact e1.1.symm
      · by_cases hi : some k.current ≠ k.idle_thread
        · rw [if_pos hi] at e
          have e1 : list_insert_ordered (cmp_priority k) k.ready_list k.current = [] := e
          have := (mem_list_insert_ordered (cmp_priority k) k.ready_list k.current
            k.current).mpr (Or.inl rfl)
          rw [e1] at this
          exact absurd this (List.not_mem_nil _)
        · rw [if_neg hi] at e
          have e1 : k.ready_list = [] := e
          rw [hr] at e1
          exact absurd e1 (by simp)
    subst hnext
    have hcur : k1.current = next := by rw [hk1]
    refine ⟨hcur, by rw [hcur]; exact hne, ?_⟩
    rw [hk1]
    dsimp only
    rw [Function.update_noteq (Ne.symm hne)]
    by_cases hi : some k.current ≠ k.idle_thread
    · rw [if_pos hi]
      simp [set_thread]
    · rw [if_neg hi]
      simp [set_thread]

/-- C19. `cond_signal` returns only when the caller holds the lock, and it
writes no lock: in the memory it leaves, which is the memory at its return
when the caller was not descheduled and the memory at the context switch
inside `sema_up` when it was, the holder of every lock is as before.  When no
thread in the ready list and no waiter of the semaphore that is raised has a
higher priority than the caller, the caller is not descheduled: when
`cond_signal` returns it is the running thread, has the same instructions
left to execute, and is the holder of the lock.  When a waiter of the
semaphore that is raised has a higher priority than the caller, the caller
is descheduled inside the call: another thread runs and the caller is
ready. -/
theorem cond_signal_keeps_lock (k k1 : Kernel) (c : Nat) (l : lock_id)
    (hs : cond_signal k c l = Except.ok k1) :
    (k.locks l).holder = some k.current ∧
    (∀ l1, (k1.locks l1).holder = (k.locks l1).holder) ∧
    ((∀ u ∈ k.ready_list, (k.threads u).priority ≤ (k.threads k.current).priority) →
     (∀ w rest, k.conds c = w :: rest →
        ∀ u ∈ (get_sema k (sema_ref.standalone w.semaphore)).waiters,
          (k.threads u).priority ≤ (k.threads k.current).priority) →
     k1.current = k.current ∧
       (k1.threads k1.current).status = thread_status.THREAD_RUNNING ∧
       k1.pending = k.pending ∧
       (k1.locks l).holder = some k1.current) ∧
    (∀ w rest u, k.conds c = w :: rest →
      u ∈ (get_sema k (sema_ref.standalone w.semaphore)).waiters →
      (k.threads k.current).priority < (k.threads u).priority →
      k1.current ≠ k.current ∧
        (k1.threads k.current).status = thread_status.THREAD_READY) := by
  obtain ⟨_, hheld, hrun, hcase⟩ := cond_signal_eq k k1 c l hs
  have hhold : ∀ l1, (k1.locks l1).holder = (k.locks l1).holder := by
    intro l1
    rcases hcase with ⟨_, e⟩ | ⟨w, rest, _, hu⟩
    · rw [e]
    · exact (same_context_sema_up _ k1 _ hu).holder l1
  have hpend : k1.pending = k.pending := by
    rcases hcase with ⟨_, e⟩ | ⟨w, rest, _, hu⟩
    · rw [e]
    · exact (same_context_sema_up _ k1 _ hu).pending
  refine ⟨hheld, hhold, ?_, ?_⟩
  · intro hq1 hq2
    have hcur : k1.current = k.current ∧
        (k1.threads k1.current).status = thread_status.THREAD_RUNNING := by
      rcases hcase with ⟨_, e⟩ | ⟨w, rest, hq, hu⟩
      · rw [e]
        exact ⟨rfl, hrun⟩
      · unfold sema_up at hu
        cases hw : sema_up_wake { k with conds := Function.update k.conds c rest }
            (sema_ref.standalone w.semaphore) with
        | error f =>
          rw [hw] at hu
          exact absurd hu (by simp [bind, Except.bind])
        | ok k2 =>
          rw [hw] at hu
          have ht : test_max_priority k2 = Except.ok k1 := hu
          obtain ⟨a1, a2, a3, a4⟩ := sema_up_wake_sched _ k2 _ hw
          have a1' : k2.current = k.current := a1
          have e := test_max_priority_quiet k2 k1 (by
            intro u hu1
            rw [a2 u, a2 k2.current, a1']
            rcases a3 u hu1 with h1 | h1
            · exact hq1 u h1
            · exact hq2 w rest hq u h1) ht
          rw [e, a1']
          exact ⟨rfl, a4 k.current hrun⟩
    exact ⟨hcur.1, hcur.2, hpend, by rw [hhold l, hheld, hcur.1]⟩
  · intro w rest u hq hu hp
    rcases hcase with ⟨e, _⟩ | ⟨w1, rest1, hq1, hup⟩
    · rw [hq] at e
      exact absurd e (by simp)
    · rw [hq] at hq1
      simp only [List.cons.injEq] at hq1
      obtain ⟨e1, e2⟩ := hq1
      subst e1
      subst e2
      unfold sema_up at hup
      cases hw : sema_up_wake { k with conds := Function.update k.conds c rest }
          (sema_ref.standalone w.semaphore) with
      | error f =>
        rw [hw] at hup
        exact absurd hup (by simp [bind, Except.bind])
      | ok k2 =>
        rw [hw] at hup
        have ht : test_max_priority k2 = Except.ok k1 := hup
        obtain ⟨a1, a2, _, _⟩ := sema_up_wake_sched _ k2 _ hw
        have a1' : k2.current = k.current := a1
        have a2' : ∀ x, (k2.threads x).priority = (k.threads x).priority := a2
        obtain ⟨front, tl, hr, hf⟩ := sema_up_wake_front
          { k with conds := Function.update k.conds c rest } k2 _ u hu hw
        have hf' : (k.threads u).priority ≤ (k.threads front).priority := hf
        obtain ⟨_, b2, b3⟩ := test_max_priority_loud k2 k1 front tl hr
          (by rw [a2', a2', a1']; omega) ht
        rw [a1'] at b2 b3
        exact ⟨b2, b3⟩

theorem cond_signal_keeps_lock_witness :
    ∃ k k1, cond_signal k 3 (lock_id.addr 5) = Except.ok k1 ∧
      (k.threads k.current).priority = 50 ∧ (k.threads 1).priority = 40 ∧
      (k.locks (lock_id.addr 5)).holder = some k.current ∧
      (k1.locks (lock_id.addr 5)).holder = some k1.current ∧
      k1.current = k.current ∧
      (k1.threads k1.current).status = thread_status.THREAD_RUNNING := by
  obtain ⟨k, _, hp⟩ := exists_of_ends_with (outcome false zero_view 0 cond_quiet_scenario)
    (fun k => decide (k.ready_list = [] ∧ (k.threads k.current).priority = 50 ∧
      (k.threads 1).priority = 40 ∧ k.conds 3 = [{ semaphore := 9, priority := 40 }] ∧
      (get_sema k (sema_ref.standalone 9)).waiters = [1]) &&
      ends_with (cond_signal k 3 (lock_id.addr 5)) (fun _ => true)) (by decide!)
  rw [Bool.and_eq_true] at hp
  obtain ⟨hp1, hp2⟩ := hp
  obtain ⟨q1, q2, q3, q4, q5⟩ := of_decide_eq_true hp1
  obtain ⟨k1, hk1, _⟩ := exists_of_ends_with _ _ hp2
  obtain ⟨t1, _, t4, _⟩ := cond_signal_keeps_lock k k1 3 (lock_id.addr 5) hk1
  obtain ⟨t5, t6, _, t8⟩ := t4 (by rw [q1]; simp) (by
    intro w rest hq u hu
    rw [q4] at hq
    simp only [List.cons.injEq] at hq
    rw [← hq.1] at hu
    rw [q5] at hu
    simp only [List.mem_singleton] at hu
    rw [hu, q3, q2]
    decide)
  exact ⟨k, k1, hk1, q2, q3, t1, t8, t5, t6⟩

/-- The caller's waiter is not in the wait queue between the release of the
lock and the `sema_down` of `cond_wait` when a signal comes first.  In the
memory of `early_signal_scenario`, `main` has released lock 5 in `cond_wait`
and has `sema_down` on the semaphore of its waiter next: the wait queue of
condition 3 is empty and the semaphore is at 1.  `sema_down` does not block
(`main` is still running after it), and `cond_wait` returns with `main` as
the holder. -/
theorem cond_wait_signalled_before_block :
    ∃ k k1 k2, Reachable k ∧ k.current = 0 ∧
      k.pending 0 = Instr.sema_down_enter :: Instr.sema_down_loop (sema_ref.standalone 9) ::
        lock_acquire_program (lock_id.addr 5) ∧
      (k.locks (lock_id.addr 5)).holder = none ∧
      k.conds 3 = [] ∧ (get_sema k (sema_ref.standalone 9)).value = 1 ∧
      exec_trace k (steps 2) = Except.ok k1 ∧
      k1.current = 0 ∧ (k1.threads 0).status = thread_status.THREAD_RUNNING ∧
      k1.pending 0 = lock_acquire_program (lock_id.addr 5) ∧
      (get_sema k1 (sema_ref.standalone 9)).value = 0 ∧
      exec_trace k (steps 6) = Except.ok k2 ∧
      k2.current = 0 ∧ quiescent k2 ∧ (k2.locks (lock_id.addr 5)).holder = some 0 := by
  obtain ⟨k, hk, hp⟩ := exists_of_ends_with
    (outcome false zero_view 0 early_signal_scenario)
    (fun k => decide (k.current = 0 ∧
      k.pending 0 = Instr.sema_down_enter :: Instr.sema_down_loop (sema_ref.standalone 9) ::
        lock_acquire_program (lock_id.addr 5) ∧
      (k.locks (lock_id.addr 5)).holder = none ∧
      k.conds 3 = [] ∧ (get_sema k (sema_ref.standalone 9)).value = 1) &&
      (ends_with (exec_trace k (steps 2)) (fun k1 =>
        decide (k1.current = 0 ∧ (k1.threads 0).status = thread_status.THREAD_RUNNING ∧
          k1.pending 0 = lock_acquire_program (lock_id.addr 5) ∧
          (get_sema k1 (sema_ref.standalone 9)).value = 0)) &&
      ends_with (exec_trace k (steps 6)) (fun k2 =>
        decide (k2.current = 0 ∧ quiescent k2 ∧
          (k2.locks (lock_id.addr 5)).holder = some 0)))) (by decide!)
  rw [Bool.and_eq_true, Bool.and_eq_true] at hp
  obtain ⟨hp1, hp2, hp3⟩ := hp
  obtain ⟨q1, q2, q3, q4, q5⟩ := of_decide_eq_true hp1
  obtain ⟨k1, hk1, hp4⟩ := exists_of_ends_with _ _ hp2
  obtain ⟨r1, r2, r3, r4⟩ := of_decide_eq_true hp4
  obtain ⟨k2, hk2, hp5⟩ := exists_of_ends_with _ _ hp3
  obtain ⟨t1, t2, t3⟩ := of_decide_eq_true hp5
  exact ⟨k, k1, k2,
    reachable_of_outcome false zero_view 0 early_signal_scenario k (by decide!) hk,
    q1, q2, q3, q4, q5, hk1, r1, r2, r3, r4, hk2, t1, t2, t3⟩

/-- An event leaves the wait queues of the conditions as they are unless it
executes an instruction of the running thread. -/
theorem exec_event_conds (k k1 : Kernel) (e : Event) (he : exec_event k e = Except.ok k1) :
    k1.conds = k.conds ∨
    ∃ i rest, executed k e = some i ∧
      step_instr (set_pending k k.current rest) i rest = Except.ok k1 := by
  cases e with
  | call c =>
    have he1 : (match k.pending k.current with
      | [] =>
        match program c with
        | [] => Except.ok k
        | i :: rest => step_instr (set_pending k k.current rest) i rest
      | _ :: _ => Except.error Fault.rejected) = Except.ok k1 := he
    have hx : executed k (Event.call c) = (match k.pending k.current with
      | [] => (program c).head?
      | _ :: _ => none) := rfl
    split at he1
    · next hp =>
      rw [hp] at hx
      dsimp only at hx
      split at he1
      · simp only [Except.ok.injEq] at he1
        rw [← he1]
        exact Or.inl rfl
      · next i rest hq =>
        rw [hq] at hx
        exact Or.inr ⟨i, rest, hx, he1⟩
    · exact absurd he1 (by simp)
  | step =>
    have he1 : (match k.pending k.current with
      | [] => Except.error Fault.rejected
      | i :: rest => step_instr (set_pending k k.current rest) i rest) = Except.ok k1 := he
    have hx : executed k Event.step = (k.pending k.current).head? := rfl
    split at he1
    · exact absurd he1 (by simp)
    · next i rest hp =>
      rw [hp] at hx
      exact Or.inr ⟨i, rest, hx, he1⟩
  | intr_enter =>
    have he1 : (match k.pending k.current with
      | [] => if k.intr_context then Except.error Fault.rejected
              else Except.ok { k with intr_context := true }
      | _ :: _ => Except.error Fault.rejected) = Except.ok k1 := he
    split at he1
    · split at he1
      · exact absurd he1 (by simp)
      · simp only [Except.ok.injEq] at he1
        rw [← he1]; exact Or.inl rfl
    · exact absurd he1 (by simp)
  | intr_leave =>
    have he1 : (match k.pending k.current with
      | [] => if k.intr_context then Except.ok { k with intr_context := false }
              else Except.error Fault.rejected
      | _ :: _ => Except.error Fault.rejected) = Except.ok k1 := he
    split at he1
    · split at he1
      · simp only [Except.ok.injEq] at he1
        rw [← he1]; exact Or.inl rfl
      · exact absurd he1 (by simp)
    · exact absurd he1 (by simp)
  | timer =>
    have he1 : (if k.intr_context then Except.error Fault.rejected
      else if k.pending k.current = [] ∨
          (k.idle_thread = some k.current ∧ k.pending k.current = [Instr.idle_loop]) then
        timer_interrupt_event k
      else Except.error Fault.rejected) = Except.ok k1 := he
    split at he1
    · exact absurd he1 (by simp)
    · split at he1
      · left
        unfold timer_interrupt_event at he1
        generalize hie : ({ k with intr_context := true, yield_on_return := false } : Kernel)
          = intr_entry at he1
        have hie2 : intr_entry.conds = k.conds := by rw [← hie]
        cases hc : timer_interrupt intr_entry with
        | error f =>
          rw [hc] at he1
          exact absurd he1 (by simp [bind, Except.bind])
        | ok k2 =>
          rw [hc] at he1
          simp only [bind, Except.bind] at he1
          have h2 : k2.conds = k.conds := by
            unfold timer_interrupt at hc
            cases hd : thread_tick { intr_entry with ticks := intr_entry.ticks + 1 } with
            | error f =>
              rw [hd] at hc
              exact absurd hc (by simp [bind, Except.bind])
            | ok k3 =>
              rw [hd] at hc
              have a := (thread_tick_eq _ k3 hd).2.2.2.2.2.2.2.2.2.2.2.2.2
              have b := (wakeup_loop_context _ k3 k2 hc).2.2.1
              exact (b.trans a).trans hie2
          split at he1
          · exact ((same_context_thread_yield _ k1 he1).conds).trans h2
          · simp only [Except.ok.injEq] at he1
            rw [← he1]
            exact h2
      · exact absurd he1 (by simp)

/-- A waiter in the wait queue of a condition stays there through every event,
whoever runs, unless the event is `cond_init` on that condition, or
`cond_signal` or a turn of `cond_broadcast` on it with the waiter first in the
queue: that raises the waiter's semaphore by one. -/
theorem waiter_stays_queued (k k1 : Kernel) (e : Event) (c : Nat) (w : semaphore_elem)
    (he : exec_event k e = Except.ok k1) (hw : w ∈ k.conds c) :
    w ∈ k1.conds c ∨ executed k e = some (Instr.cond_init c) ∨
    ∃ l1 tl, (executed k e = some (Instr.cond_signal c l1) ∨
        executed k e = some (Instr.cond_broadcast c l1)) ∧
      k.conds c = w :: tl ∧ k1.conds c = tl ∧
      (get_sema k1 (sema_ref.standalone w.semaphore)).value =
        ((get_sema k (sema_ref.standalone w.semaphore)).value + 1) % UINT_MOD := by
  rcases exec_event_conds k k1 e he with e1 | ⟨i, rest, hx, hs⟩
  · left
    rw [e1]
    exact hw
  · have hsig : ∀ (kp : Kernel) (l1 : lock_id), kp.conds = k.conds →
        (∀ s, get_sema kp s = get_sema k s) →
        cond_signal kp c l1 = Except.ok k1 →
        (executed k e = some (Instr.cond_signal c l1) ∨
          executed k e = some (Instr.cond_broadcast c l1)) →
        w ∈ k1.conds c ∨ executed k e = some (Instr.cond_init c) ∨
        ∃ l1 tl, (executed k e = some (Instr.cond_signal c l1) ∨
            executed k e = some (Instr.cond_broadcast c l1)) ∧
          k.conds c = w :: tl ∧ k1.conds c = tl ∧
          (get_sema k1 (sema_ref.standalone w.semaphore)).value =
            ((get_sema k (sema_ref.standalone w.semaphore)).value + 1) % UINT_MOD := by
      intro kp l1 hc hsem hcs hex
      obtain ⟨_, _, _, hcase⟩ := cond_signal_eq kp k1 c l1 hcs
      rcases hcase with ⟨_, e2⟩ | ⟨w0, tl, hq, hu⟩
      · left
        rw [e2, hc]
        exact hw
      · rw [hc] at hq
        have ctx := same_context_sema_up _ k1 _ hu
        have hk1c : k1.conds c = tl := by
          rw [ctx.conds]
          show Function.update kp.conds c tl c = tl
          rw [Function.update_same]
        rw [hq] at hw
        rcases List.mem_cons.mp hw with e3 | e3
        · right; right
          subst e3
          refine ⟨l1, tl, hex, hq, hk1c, ?_⟩
          have hv := (sema_up_semas _ k1 _ hu).1
          rw [hv]
          have := hsem (sema_ref.standalone w.semaphore)
          show ((get_sema kp (sema_ref.standalone w.semaphore)).value + 1) % UINT_MOD = _
          rw [this]
        · left
          rw [hk1c]
          exact e3
    cases i with
    | cond_signal c1 l1 =>
      by_cases hc1 : c1 = c
      · subst hc1
        exact hsig (set_pending k k.current rest) l1 rfl (fun _ => rfl) hs (Or.inl hx)
      · left
        rcases step_instr_conds _ k1 _ rest hs with e2 | ⟨c2, e2, _⟩ | ⟨c2, l2, a2, e2, _⟩ |
          ⟨c2, l2, w2, tl2, e2, _, e3⟩
        · rw [e2]; exact hw
        · exact absurd e2 (by simp)
        · exact absurd e2 (by simp)
        · have hc2 : c2 = c1 := by
            rcases e2 with e2 | e2
            · injection e2 with a _; exact a.symm
            · exact absurd e2 (by simp)
          rw [e3, hc2]
          show w ∈ Function.update k.conds c1 tl2 c
          rw [Function.update_noteq (Ne.symm hc1)]
          exact hw
    | cond_broadcast c1 l1 =>
      by_cases hc1 : c1 = c
      · subst hc1
        have hs1 : cond_broadcast (set_pending k k.current rest) c1 l1 rest = Except.ok k1 := hs
        unfold cond_broadcast at hs1
        obtain ⟨w0, tl0, hq⟩ := List.exists_cons_of_ne_nil (List.ne_nil_of_mem hw)
        have hq1 : (set_pending k k.current rest).conds c1 = w0 :: tl0 := hq
        rw [hq1] at hs1
        exact hsig (set_pending (set_pending k k.current rest)
          (set_pending k k.current rest).current (Instr.cond_broadcast c1 l1 :: rest)) l1
          rfl (fun _ => rfl) hs1 (Or.inr hx)
      · left
        rcases step_instr_conds _ k1 _ rest hs with e2 | ⟨c2, e2, _⟩ | ⟨c2, l2, a2, e2, _⟩ |
          ⟨c2, l2, w2, tl2, e2, _, e3⟩
        · rw [e2]; exact hw
        · exact absurd e2 (by simp)
        · exact absurd e2 (by simp)
        · have hc2 : c2 = c1 := by
            rcases e2 with e2 | e2
            · exact absurd e2 (by simp)
            · injection e2 with a _; exact a.symm
          rw [e3, hc2]
          show w ∈ Function.update k.conds c1 tl2 c
          rw [Function.update_noteq (Ne.symm hc1)]
          exact hw
    | cond_init c1 =>
      by_cases hc1 : c1 = c
      · subst hc1
        exact Or.inr (Or.inl hx)
      · left
        simp only [step_instr, Except.ok.injEq] at hs
        rw [← hs]
        show w ∈ Function.update k.conds c1 [] c
        rw [Function.update_noteq (Ne.symm hc1)]
        exact hw
    | cond_wait_enter c1 l1 a1 =>
      left
      obtain ⟨_, _, _, e2⟩ := cond_wait_enter_eq _ k1 c1 l1 a1 hs
      rw [e2]
      show w ∈ Function.update k.conds c1 _ c
      rw [Function.update_apply]
      split
      · next e3 =>
        rw [e3] at hw
        exact (mem_list_insert_ordered _ _ _ _).mpr (Or.inr hw)
      · exact hw
    | _ =>
      left
      rcases step_instr_conds _ k1 _ rest hs with e2 | ⟨c2, e2, _⟩ | ⟨c2, l2, a2, e2, _⟩ |
        ⟨c2, l2, w2, tl2, e2, _⟩
      · rw [e2]; exact hw
      · exact absurd e2 (by simp)
      · exact absurd e2 (by simp)
      · rcases e2 with e2 | e2 <;> exact absurd e2 (by simp)

/-- Along a run of events, whoever runs, a waiter in the wait queue of a
condition is still there at the end unless one event of the run was
`cond_init` on the condition, or `cond_signal` or a turn of `cond_broadcast`
on it with the waiter first in the queue. -/
theorem waiter_stays_queued_trace (c : Nat) (w : semaphore_elem) (es : List Event) :
    ∀ (k k1 : Kernel), exec_trace k es = Except.ok k1 → w ∈ k.conds c →
      w ∈ k1.conds c ∨
      ∃ es1 e es2 ka kb, es = es1 ++ e :: es2 ∧ exec_trace k es1 = Except.ok ka ∧
        exec_event ka e = Except.ok kb ∧ w ∈ ka.conds c ∧
        (executed ka e = some (Instr.cond_init c) ∨
          ∃ l1 tl, (executed ka e = some (Instr.cond_signal c l1) ∨
              executed ka e = some (Instr.cond_broadcast c l1)) ∧
            ka.conds c = w :: tl ∧ kb.conds c = tl ∧
            (get_sema kb (sema_ref.standalone w.semaphore)).value =
              ((get_sema ka (sema_ref.standalone w.semaphore)).value + 1) % UINT_MOD) := by
  induction es with
  | nil =>
    intro k k1 h hw
    have e : k1 = k := (Except.ok.inj h).symm
    rw [e]
    exact Or.inl hw
  | cons e es ih =>
    intro k k1 h hw
    rw [exec_trace_cons] at h
    cases he : exec_event k e with
    | error f =>
      rw [he] at h
      exact absurd h (by simp)
    | ok k2 =>
      rw [he] at h
      rcases waiter_stays_queued k k2 e c w he hw with h1 | h1
      · rcases ih k2 k1 h h1 with h2 | ⟨es1, e1, es2, ka, kb, g1, g2, g3, g4, g5⟩
        · exact Or.inl h2
        · refine Or.inr ⟨e :: es1, e1, es2, ka, kb, by rw [g1]; rfl, ?_, g3, g4, g5⟩
          rw [exec_trace_cons, he]
          exact g2
      · exact Or.inr ⟨[], e, es, k, k2, rfl, rfl, he, hw, h1⟩

/-- C20. The last instruction of `cond_wait` is the end of `lock_acquire`:
when a thread whose only instruction left is that one executes it, the call
returns (nothing is left to execute), the thread is still the running thread,
and the holder of the lock is that thread.  Entry of `cond_wait`, the first
instruction, puts the caller's waiter, with the caller's priority, into the
wait queue of the condition while the caller still holds the lock.  Along
every run of events from there, whoever runs, the waiter is still in the
queue unless one event was `cond_init` on the condition, or `cond_signal` or
a turn of `cond_broadcast` on it with the waiter first in the queue, which
raises the waiter's semaphore by one.  `sema_down` on a semaphore whose value
is positive does not block: the caller is still the running thread and the
value is one lower. -/
theorem cond_wait_reacquires (c : Nat) (l : lock_id) (a temp : Nat) :
    (cond_wait_program c l a temp = Instr.cond_wait_enter c l a ::
      (lock_release_program l temp ++
        [Instr.sema_down_enter, Instr.sema_down_loop (sema_ref.standalone a)] ++
        lock_acquire_program l) ∧
      (cond_wait_program c l a temp).getLast? = some (Instr.lock_acquire_leave l)) ∧
    (∀ k k1, k.pending k.current = [Instr.lock_acquire_leave l] →
      exec_event k Event.step = Except.ok k1 →
      k1.current = k.current ∧ (k1.locks l).holder = some k.current ∧
        k1.pending k1.current = []) ∧
    (∀ k0 k2, cond_wait_enter k0 c l a = Except.ok k2 →
      ({ semaphore := a, priority := (k0.threads k0.current).priority } : semaphore_elem) ∈
        k2.conds c ∧
      (k2.locks l).holder = some k0.current ∧ k2.current = k0.current) ∧
    (∀ (w : semaphore_elem) (es : List Event) (k k1 : Kernel),
      exec_trace k es = Except.ok k1 → w ∈ k.conds c →
      w ∈ k1.conds c ∨
      ∃ es1 e es2 ka kb, es = es1 ++ e :: es2 ∧ exec_trace k es1 = Except.ok ka ∧
        exec_event ka e = Except.ok kb ∧ w ∈ ka.conds c ∧
        (executed ka e = some (Instr.cond_init c) ∨
          ∃ l1 tl, (executed ka e = some (Instr.cond_signal c l1) ∨
              executed ka e = some (Instr.cond_broadcast c l1)) ∧
            ka.conds c = w :: tl ∧ kb.conds c = tl ∧
            (get_sema kb (sema_ref.standalone w.semaphore)).value =
              ((get_sema ka (sema_ref.standalone w.semaphore)).value + 1) % UINT_MOD)) ∧
    (∀ (k : Kernel) (rest : List Instr), 0 < (get_sema k (sema_ref.standalone a)).value →
      ∃ k1, sema_down_loop k (sema_ref.standalone a) rest = Except.ok k1 ∧
        k1.current = k.current ∧ k1.threads = k.threads ∧ k1.pending = k.pending ∧
        (get_sema k1 (sema_ref.standalone a)).value =
          ((get_sema k (sema_ref.standalone a)).value + UINT_MOD - 1) % UINT_MOD) := by
  refine ⟨⟨rfl, rfl⟩, ?_, ?_, ?_, ?_⟩
  · intro k k1 hp he
    have he1 : (match k.pending k.current with
      | [] => Except.error Fault.rejected
      | i :: rest => step_instr (set_pending k k.current rest) i rest) = Except.ok k1 := he
    rw [hp] at he1
    have he2 : lock_acquire_leave (set_pending k k.current []) l = Except.ok k1 := he1
    obtain ⟨a1, a2, a3, _⟩ := lock_acquire_leave_eq _ k1 l he2
    refine ⟨a1, a2, ?_⟩
    rw [a3, a1]
    simp [set_pending]
  · intro k0 k2 hw
    obtain ⟨_, hheld, _, e⟩ := cond_wait_enter_eq k0 k2 c l a hw
    refine ⟨?_, ?_, ?_⟩
    · rw [e]
      simp only [Function.update_same]
      exact (mem_list_insert_ordered _ _ _ _).mpr (Or.inl rfl)
    · rw [e]
      show ((sema_init k0 (sema_ref.standalone a) 0).locks l).holder = some k0.current
      exact hheld
    · rw [e]
      rfl
  · intro w es k k1 h hw
    exact waiter_stays_queued_trace c w es k k1 h hw
  · intro k rest hv
    refine ⟨_, sema_down_loop_pos k _ rest hv, rfl, rfl, rfl, ?_⟩
    rw [get_sema_set_sema, if_pos rfl]

theorem cond_wait_reacquires_witness :
    ∃ k k1 k0 k2, k.current = 1 ∧
      k.pending k.current = [Instr.lock_acquire_leave (lock_id.addr 5)] ∧
      exec_event k Event.step = Except.ok k1 ∧
      cond_wait_enter k0 3 (lock_id.addr 5) 9 = Except.ok k2 ∧
      k1.current = 1 ∧ (k1.locks (lock_id.addr 5)).holder = some 1 ∧
      k1.pending k1.current = [] ∧
      ({ semaphore := 9, priority := 40 } : semaphore_elem) ∈ k2.conds 3 := by
  obtain ⟨k, _, hp⟩ := exists_of_ends_with (outcome false zero_view 0 cond_return_scenario)
    (fun k => decide (k.current = 1 ∧
      k.pending k.current = [Instr.lock_acquire_leave (lock_id.addr 5)]) &&
      ends_with (exec_event k Event.step) (fun _ => true)) (by decide!)
  rw [Bool.and_eq_true] at hp
  obtain ⟨hp1, hp2⟩ := hp
  obtain ⟨q1, q2⟩ := of_decide_eq_true hp1
  obtain ⟨k1, hk1, _⟩ := exists_of_ends_with _ _ hp2
  obtain ⟨k0, _, hp0⟩ := exists_of_ends_with (outcome false zero_view 0 cond_setup_scenario)
    (fun k0 => decide ((k0.threads k0.current).priority = 40) &&
      ends_with (cond_wait_enter k0 3 (lock_id.addr 5) 9) (fun _ => true)) (by decide!)
  rw [Bool.and_eq_true] at hp0
  obtain ⟨hp3, hp4⟩ := hp0
  have q3 := of_decide_eq_true hp3
  obtain ⟨k2, hk2, _⟩ := exists_of_ends_with _ _ hp4
  obtain ⟨_, t0, t00, _⟩ := cond_wait_reacquires 3 (lock_id.addr 5) 9 0
  obtain ⟨t1, t2, t3⟩ := t0 k k1 q2 hk1
  obtain ⟨t4, _, _⟩ := t00 k0 k2 hk2
  rw [q3] at t4
  rw [q1] at t1 t2
  exact ⟨k, k1, k0, k2, q1, q2, hk1, hk2, t1, t2, t3, t4⟩

end Pintos
